import Mathlib

/-!
Research tree of Warzone 2100 (`src/research.cpp`).

A shallow embedding of the research dependency graph, its cycle detection, the
prerequisite reachability test, the category ranking done at load time and the
availability test, followed by theorems about them.

Topics are addressed by their position in `asResearch`; a `RESEARCH *` of the source
is the index of the element it points to.  A read outside a vector has no defined
result in the source: the embedding returns `none` there, and also when the fuel of a
loop that need not terminate is used up.
-/

namespace Research

/-! ## Data model -/

/-- A JSON value that is not a container, as far as the research results and the stats hold
them: null, a Boolean, a signed integer (`int64_t`), an unsigned integer (`uint64_t`) or a
string.  Floating-point numbers and objects do not occur as values here. -/
inductive JsonAtom where
  | null
  | bool (b : Bool)
  | int (i : Int)
  | uint (n : Nat)
  | str (s : String)
deriving DecidableEq, Repr

/-- A JSON value: an atom or an array of atoms. -/
inductive Json where
  | atom (a : JsonAtom)
  | array (items : List JsonAtom)
deriving DecidableEq, Repr

/-- A JSON object, as the list of its members. -/
abbrev JsonObject := List (String × Json)

instance : DecidableEq JsonObject := inferInstance

inductive COMPONENT_TYPE where
  | COMP_BODY
  | COMP_BRAIN
  | COMP_PROPULSION
  | COMP_REPAIRUNIT
  | COMP_ECM
  | COMP_SENSOR
  | COMP_CONSTRUCT
  | COMP_WEAPON
  | COMP_NUMCOMPONENTS
deriving DecidableEq, Repr

/-- Where a sensor, ECM or repair unit is mounted. -/
inductive LOC where
  | LOC_DEFAULT
  | LOC_TURRET
deriving DecidableEq, Repr

/-- The fields of `COMPONENT_STATS` that research.cpp reads.  `location` is the field that
`asSensorStats[index]`, `asECMStats[index]` or `asRepairStats[index]` holds for the component. -/
structure COMPONENT_STATS where
  compType : COMPONENT_TYPE
  index : Nat
  location : LOC := LOC.LOC_TURRET
deriving DecidableEq, Repr

/-- An entry of `componentReplacement`. -/
structure RES_COMP_REPLACEMENT where
  pOldComponent : COMPONENT_STATS
  pNewComponent : COMPONENT_STATS
deriving DecidableEq, Repr

/-- Per-player statistics about research upgrades: a counter per body class or impact class. -/
structure PlayerUpgradeCounts where
  numBodyClassArmourUpgrades : List (String × Nat) := []
  numBodyClassThermalUpgrades : List (String × Nat) := []
  numWeaponImpactClassUpgrades : List (String × Nat) := []
deriving DecidableEq, Repr

/-- A table of the components of one entity class: component name and its JSON object. -/
abbrev ComponentTable := List (String × JsonObject)

instance : DecidableEq ComponentTable := inferInstance

/-- The ledger `RawResearchUpgradeChangeValues`: component name, parameter, running sum. -/
abbrev RawResearchUpgradeChangeValues := List (String × List (String × Int))

instance : DecidableEq RawResearchUpgradeChangeValues := inferInstance

/-- The fields of `RESEARCH` that the graph store, the availability test and the completion of
a topic read or write. -/
structure RESEARCH where
  /-- Stable identifier, the key of the topic's group (`research.id = list[inc]`). -/
  id : String := ""
  /-- Value stored by `research.index = inc`. -/
  index : Nat := 0
  category : String := ""
  /-- Non-zero when the topic is a key topic. -/
  keyTopic : Nat := 0
  /-- Indices of the prerequisite topics. -/
  pPRList : List Nat := []
  /-- Indices of the structure types that have to exist. -/
  pStructList : List Nat := []
  categoryProgress : Nat := 0
  categoryMax : Nat := 0
  researchPoints : Nat := 0
  researchPower : Nat := 0
  /-- The effect records of the topic, each a JSON object. -/
  results : List JsonObject := []
  /-- Indices of the structure types that the topic unlocks. -/
  pStructureResults : List Nat := []
  /-- Indices of the structure types that the topic retires. -/
  pRedStructs : List Nat := []
  componentResults : List COMPONENT_STATS := []
  componentReplacement : List RES_COMP_REPLACEMENT := []
  pRedArtefacts : List COMPONENT_STATS := []
  /-- Value stored by `research.ref = STAT_RESEARCH + inc`. -/
  ref : Nat := 0
  /-- Bit flags of the game settings under which the topic is disabled. -/
  disabledWhen : Nat := 0
deriving DecidableEq, Repr

/-- The two member sets of `class CycleDetection`; an element is a topic index. -/
structure CycleDetection where
  visited : List Nat := []
  exploring : List Nat := []
deriving DecidableEq, Repr

/-- What one call of `explore` leaves behind: the updated sets and the optional path. -/
abbrev ExploreResult := Option (CycleDetection × Option (List Nat))

/-- Modelled from the spec: `PLAYER_RESEARCH` and its status predicates `IsResearch...` are
declared in research.h, which is not among the sources.  The record holds one observation per
predicate that research.cpp calls: the flags of the immediate view, the flags of the pending
(queued) view, and the `possible` and disabled marks. -/
structure PLAYER_RESEARCH where
  currentPoints : Nat := 0
  started : Bool := false
  startedPending : Bool := false
  cancelled : Bool := false
  cancelledPending : Bool := false
  completed : Bool := false
  possible : Bool := false
  disabled : Bool := false
deriving DecidableEq, Repr

def IsResearchStarted (x : PLAYER_RESEARCH) : Bool := x.started
def IsResearchStartedPending (x : PLAYER_RESEARCH) : Bool := x.startedPending
def IsResearchCancelled (x : PLAYER_RESEARCH) : Bool := x.cancelled
def IsResearchCancelledPending (x : PLAYER_RESEARCH) : Bool := x.cancelledPending
def IsResearchCompleted (x : PLAYER_RESEARCH) : Bool := x.completed
def IsResearchPossible (x : PLAYER_RESEARCH) : Bool := x.possible
def IsResearchDisabled (x : PLAYER_RESEARCH) : Bool := x.disabled

inductive ResearchUpgradeCalculationMode where
  | Compat
  | Improved
deriving DecidableEq, Repr

/-- Modelled from the spec: the stats object and the per-player upgrade overlays are built and
kept by `wzapi`, outside research.cpp.  The stats object maps an entity class to its components
and a component to its base parameters; the overlay of a player has, per entity class, the
components in order, each with the parameter values that `getPropertyValue` reads and
`setPropertyValue` overwrites.  The other fields are the globals of research.cpp that
`eventResearchedHandleUpgrades` uses. -/
structure UpgradeState where
  cachedStatsObject : List (String × ComponentTable) := []
  cachedPerPlayerUpgrades : List (List (String × ComponentTable)) := []
  cachedPerPlayerRawUpgradeChange : List RawResearchUpgradeChangeValues := []
  playerUpgradeCounts : List PlayerUpgradeCounts := []
  researchUpgradeCalcMode : Option ResearchUpgradeCalculationMode := none
deriving DecidableEq, Repr

inductive QUEUE_MODE where
  | ModeQueue
  | ModeImmediate
deriving DecidableEq, Repr

/-- Build state of a structure.  research.cpp tests for `SS_BEING_BUILT` only; `SS_BUILT` stands
for every other state. -/
inductive STRUCT_STATES where
  | SS_BEING_BUILT
  | SS_BUILT
deriving DecidableEq, Repr

/-- The values that research.cpp names of the availability state of a component or of a
structure type for a player (`apCompLists`, `apStructTypeLists`). -/
inductive COMPONENT_STATE where
  | AVAILABLE
  | UNAVAILABLE
  | FOUND
  | REDUNDANT
  | REDUNDANT_UNAVAILABLE
  | REDUNDANT_FOUND
deriving DecidableEq, Repr

/-- The fields of `DROID` that `switchComponent` reads and writes: `asBits`, indexed by the
component type, and the `nStat` of each weapon slot `asWeaps`. -/
structure DROID where
  asBits : List Nat := []
  asWeaps : List Nat := []
deriving DecidableEq, Repr

/-- A droid of a droid list, with what `replaceDroidComponent` asks of it: whether it is a
transporter, and the droids of its group `psGroup->psList` other than itself. -/
structure ListedDroid where
  droid : DROID
  isTransporter : Bool := false
  psGroup : List DROID := []
deriving DecidableEq, Repr

/-- The fields of `DROID_TEMPLATE` that `replaceComponent` reads and writes. -/
structure DROID_TEMPLATE where
  asParts : List Nat := []
  numWeaps : Nat := 0
  asWeaps : List Nat := []
deriving DecidableEq, Repr

/-- The structure types that research.cpp tells apart; `REF_DEFENSE` stands for every other
type. -/
inductive STRUCTURE_TYPE where
  | REF_FACTORY
  | REF_CYBORG_FACTORY
  | REF_VTOL_FACTORY
  | REF_RESEARCH
  | REF_DEFENSE
deriving DecidableEq, Repr

/-- A request that waits for its network message. -/
inductive PendingRequest where
  | hold
  | release
  | cancel
deriving DecidableEq, Repr

/-- The fields of `RESEARCH_FACILITY` that research.cpp reads or writes; a pointer to a topic
is the position of the topic in `asResearch`.  `statusPending` stands for what
`setStatusPendingHold`, `setStatusPendingRelease` and `setStatusPendingCancel` keep. -/
structure RESEARCH_FACILITY where
  psSubject : Option Nat := none
  psBestTopic : Option Nat := none
  timeStartHold : Nat := 0
  statusPending : Option PendingRequest := none
deriving DecidableEq, Repr

/-- The union `pFunctionality` of a structure: a research facility, a factory with its
production subject, or something else. -/
inductive FUNCTIONALITY where
  | researchFacility (r : RESEARCH_FACILITY)
  | factory (psSubject : Option DROID_TEMPLATE)
  | other
deriving DecidableEq, Repr

/-- The fields of `STRUCTURE` that research.cpp reads or writes; `asWeaps` holds the `nStat` of
each weapon mount. -/
structure STRUCTURE where
  status : STRUCT_STATES
  player : Nat := 0
  pStructureType : STRUCTURE_TYPE := STRUCTURE_TYPE.REF_RESEARCH
  pFunctionality : FUNCTIONALITY := FUNCTIONALITY.other
  numWeaps : Nat := 0
  asWeaps : List Nat := []
deriving DecidableEq, Repr

/-- What `loadResearch` reads from one child group of the configuration document.  Lookups in
other subsystems are given by their outcome. -/
structure ResearchGroup where
  /-- The group's name, `list[inc]`. -/
  key : String
  /-- Result of `ini.value("calculationMode", "compat")`, read for the `_config_` group only. -/
  calculationMode : String := "compat"
  category : String := ""
  keyTopic : Nat := 0
  /-- False when `statID` is given and `getBaseStatsFromName` finds nothing. -/
  statFound : Bool := true
  researchPoints : Nat := 0
  researchPower : Nat := 0
  /-- The trimmed entries of `requiredResearch`. -/
  requiredResearch : List String := []
  /-- For each entry of `requiredStructures`, what `getStructStatFromName` returns. -/
  requiredStructures : List Int := []
  /-- The array `results`. -/
  results : List JsonObject := []
  /-- For each entry of `resultComponents`, what `getCompStatsFromName` finds. -/
  resultComponents : List (Option COMPONENT_STATS) := []
  /-- For each entry of `replacedComponents`: nothing when it is not a pair `old:new`, otherwise
  what `getCompStatsFromName` finds for the old and for the new name. -/
  replacedComponents : List (Option (Option COMPONENT_STATS × Option COMPONENT_STATS)) := []
  /-- For each entry of `redComponents`, what `getCompStatsFromName` finds. -/
  redComponents : List (Option COMPONENT_STATS) := []
  /-- For each entry of `resultStructures`, what `getStructStatFromName` returns. -/
  resultStructures : List Int := []
  /-- For each entry of `redStructures`, what `getStructStatFromName` returns. -/
  redStructures : List Int := []
  /-- Result of `ini.value("disabledWhen", 0).toUInt()`. -/
  disabledWhen : Nat := 0
deriving DecidableEq, Repr

/-- The globals that `loadResearch` writes.  `STAT_RESEARCH` is a constant of a header that is
not among the sources. -/
structure ResearchStore where
  asResearch : List RESEARCH := []
  /-- One status vector per player, `MAX_PLAYERS` of them. -/
  asPlayerResList : List (List PLAYER_RESEARCH) := []
  researchUpgradeCalcMode : Option ResearchUpgradeCalculationMode := none
  STAT_RESEARCH : Nat := 0
deriving DecidableEq, Repr

/-- The globals and collaborators that `researchAvailable` reads.  `MAX_PLAYERS` is a constant of
a header that is not among the sources. -/
structure Game where
  MAX_PLAYERS : Nat
  bMultiPlayer : Bool
  asResearch : List RESEARCH
  asPlayerResList : List (List PLAYER_RESEARCH)
  /-- The facility of a player that researches a topic, if there is one. -/
  findResearchingFacilityByResearchIndex : Nat → Nat → Option STRUCTURE
  /-- Whether a structure of the given type exists for the player. -/
  checkSpecificStructExists : Nat → Nat → Bool

/-- The globals that the completion of a topic and the commands on a research facility read and
write.  The arrays with one entry per player are lists; `templates` is what
`enumerateTemplates` runs over for a player.  `MAX_PLAYERS` and `STAT_RESEARCH` are constants
of headers that are not among the sources.  Messages, sounds, power requests, network messages
and script triggers are outside this state. -/
structure World where
  MAX_PLAYERS : Nat
  STAT_RESEARCH : Nat := 0
  asResearch : List RESEARCH := []
  asPlayerResList : List (List PLAYER_RESEARCH) := []
  /-- State of a structure type, by player and structure type index. -/
  apStructTypeLists : List (List COMPONENT_STATE) := []
  /-- State of a component, by player, component type and component index. -/
  apCompLists : List (List (List COMPONENT_STATE)) := []
  aDefaultSensor : List Nat := []
  aDefaultECM : List Nat := []
  aDefaultRepair : List Nat := []
  bSelfRepair : List Bool := []
  apsDroidLists : List (List ListedDroid) := []
  missionDroidLists : List (List ListedDroid) := []
  apsLimboDroids : List (List ListedDroid) := []
  templates : List (List DROID_TEMPLATE) := []
  apsStructLists : List (List STRUCTURE) := []
  missionStructLists : List (List STRUCTURE) := []
  upgrades : UpgradeState := {}
deriving DecidableEq, Repr

/-! ## Cycle detection -/

/-- The loop `for (requirementIndex : ...) if (auto cycle = explore(&asResearch[requirementIndex]))`:
the first path found ends the loop, otherwise the sets are threaded through.  It serves the
loop over `research->pPRList` in `explore` and the loop over all topics in `detectCycle`. -/
def exploreEach (asResearch : List RESEARCH) (explore : CycleDetection → Nat → ExploreResult) :
    CycleDetection → List Nat → ExploreResult
  | d, [] => some (d, none)
  | d, requirementIndex :: rest =>
    match asResearch[requirementIndex]? with
    | none => none
    | some _ =>
      match explore d requirementIndex with
      | none => none
      | some (d1, some cycle) => some (d1, some cycle)
      | some (d1, none) => exploreEach asResearch explore d1 rest

/-- `CycleDetection::explore`.  The first argument bounds the depth of the recursion. -/
def explore (asResearch : List RESEARCH) : Nat → CycleDetection → Nat → ExploreResult
  | 0, _, _ => none
  | fuel + 1, d, research =>
    if research ∈ d.visited then some (d, none)
    else if research ∈ d.exploring then some (d, some [research])
    else
      match asResearch[research]? with
      | none => none
      | some r =>
        match exploreEach asResearch (explore asResearch fuel)
            { d with exploring := research :: d.exploring } r.pPRList with
        | none => none
        | some (d2, some cycle) => some (d2, some (research :: cycle))
        | some (d2, none) =>
          some ({ visited := research :: d2.visited,
                  exploring := d2.exploring.erase research }, none)

/-- `CycleDetection::detectCycle`: explores every topic in index order with fresh sets.
A descent never holds more topics than the store has, so `length + 1` levels are given. -/
def detectCycle (asResearch : List RESEARCH) : Option (Option (List Nat)) :=
  (exploreEach asResearch (explore asResearch (asResearch.length + 1)) {}
    (List.range asResearch.length)).map Prod.snd

/-! ## Prerequisite graph -/

/-- Edge of the prerequisite graph: topic `a` lists `b` in its `pPRList`. -/
def Requires (asResearch : List RESEARCH) (a b : Nat) : Prop :=
  ∃ r, asResearch[a]? = some r ∧ b ∈ r.pPRList

/-- Every prerequisite index addresses a topic of the store. -/
def InRange (asResearch : List RESEARCH) : Prop :=
  ∀ r ∈ asResearch, ∀ p ∈ r.pPRList, p < asResearch.length

/-- No topic reaches itself through one or more prerequisite edges. -/
def Acyclic (asResearch : List RESEARCH) : Prop :=
  ∀ a, ¬ Relation.TransGen (Requires asResearch) a a

instance (asResearch : List RESEARCH) : Decidable (InRange asResearch) := by
  unfold InRange; infer_instance

/-! ## Prerequisite reachability -/

/-- The loop `for (auto prereqIndex : pCurr->pPRList)` of `isResAPrereqForResB`: `true` when
`resAIndex` is met (the function returns), otherwise the prerequisites are pushed.  The head of
the list is the back of the deque. -/
def pushPrereqs (asResearch : List RESEARCH) (resAIndex : Nat) :
    List Nat → List Nat → Option (Bool × List Nat)
  | stack, [] => some (false, stack)
  | stack, prereqIndex :: rest =>
    if prereqIndex = resAIndex then some (true, stack)
    else
      match asResearch[prereqIndex]? with
      | none => none
      | some _ => pushPrereqs asResearch resAIndex (prereqIndex :: stack) rest

/-- The loop `while (!stack.empty())` of `isResAPrereqForResB`; the first argument bounds the
number of iterations. -/
def prereqLoop (asResearch : List RESEARCH) (resAIndex : Nat) : Nat → List Nat → Option Bool
  | _, [] => some false
  | 0, _ :: _ => none
  | fuel + 1, pCurr :: stack =>
    match asResearch[pCurr]? with
    | none => none
    | some r =>
      match pushPrereqs asResearch resAIndex stack r.pPRList with
      | none => none
      | some (true, _) => some true
      | some (false, stack1) => prereqLoop asResearch resAIndex fuel stack1

/-- `isResAPrereqForResB`, with a bound on the iterations of its loop. -/
def isResAPrereqForResB (asResearch : List RESEARCH) (fuel resAIndex resBIndex : Nat) :
    Option Bool :=
  if resAIndex = resBIndex then some false
  else
    match asResearch[resBIndex]? with
    | none => none
    | some _ => prereqLoop asResearch resAIndex fuel [resBIndex]

/-! ## Category ranking -/

/-- Inner loop of the insertion: `val` moves towards the front past every element `e` with
`comp val e`, and stops at the first one without.  The sorted part is given back to front. -/
def linearInsert (comp : Nat → Nat → Option Bool) (val : Nat) : List Nat → Option (List Nat)
  | [] => some [val]
  | e :: before =>
    match comp val e with
    | none => none
    | some true => (linearInsert comp val before).map (e :: ·)
    | some false => some (val :: e :: before)

/-- Outer loop of the insertion sort; `sortedRev` is the sorted part, back to front. -/
def insertionLoop (comp : Nat → Nat → Option Bool) : List Nat → List Nat → Option (List Nat)
  | sortedRev, [] => some sortedRev.reverse
  | sortedRev, val :: rest =>
    match linearInsert comp val sortedRev with
    | none => none
    | some sortedRev1 => insertionLoop comp sortedRev1 rest

/-- Modelled from the spec: `std::stable_sort` belongs to the C++ standard library and is not
part of research.cpp.  The spec asks for a stable sort by the comparator with ties broken by
input order; the model is the linear insertion sort, the usual choice of library implementations
for short ranges: each element in turn moves towards the front while the comparator puts it
before its predecessor.  The comparator may have no result, and then neither has the sort. -/
def stable_sort (comp : Nat → Nat → Option Bool) (members : List Nat) : Option (List Nat) :=
  insertionLoop comp [] members

/-- The statement `resCategories[cat].push_back(inc)`; `resCategories` is kept as an association
list in order of first appearance. -/
def resCategoriesPush (cat : String) (inc : Nat) :
    List (String × List Nat) → List (String × List Nat)
  | [] => [(cat, [inc])]
  | (c, members) :: rest =>
    if c = cat then (c, members ++ [inc]) :: rest
    else (c, members) :: resCategoriesPush cat inc rest

/-- The loop that fills `resCategories`, from topic index `inc` on. -/
def collectCategories : Nat → List RESEARCH → List (String × List Nat) → List (String × List Nat)
  | _, [], cats => cats
  | inc, r :: rest, cats =>
    if r.category = "" then collectCategories (inc + 1) rest cats
    else collectCategories (inc + 1) rest (resCategoriesPush r.category inc cats)

/-- The loop `for (const auto& inc : membersOfCategory)`: `prog` is a `uint16_t`. -/
def assignProgress (categorySize : Nat) : Nat → List Nat → List RESEARCH → Option (List RESEARCH)
  | _, [], asResearch => some asResearch
  | prog, inc :: rest, asResearch =>
    match asResearch[inc]? with
    | none => none
    | some r =>
      assignProgress categorySize ((prog + 1) % 65536) rest
        (asResearch.set inc { r with categoryProgress := prog, categoryMax := categorySize })

/-- The loop `for (auto& cat : resCategories)`: sort the members, then rank them. -/
def rankCategories (fuel : Nat) :
    List (String × List Nat) → List RESEARCH → Option (List RESEARCH)
  | [], asResearch => some asResearch
  | (_, membersOfCategory) :: rest, asResearch =>
    match stable_sort (fun idxA idxB => isResAPrereqForResB asResearch fuel idxA idxB)
        membersOfCategory with
    | none => none
    | some sorted =>
      match assignProgress sorted.length 1 sorted asResearch with
      | none => none
      | some asResearch1 => rankCategories fuel rest asResearch1

/-- The block "populate research category info" of `loadResearch`. -/
def populateCategories (fuel : Nat) (asResearch : List RESEARCH) : Option (List RESEARCH) :=
  rankCategories fuel (collectCategories 0 asResearch []) asResearch

/-! ## Loading -/

def UWORD_MAX : Nat := 65535

def RESEARCH_JSON_CONFIG_DICT_KEY : String := "_config_"

def resCalcModeStringToValue (calcModeStr : String) : Option ResearchUpgradeCalculationMode :=
  if calcModeStr = "compat" then some .Compat
  else if calcModeStr = "improved" then some .Improved
  else none

/-- `checkResearchName`: the loop over `asResearch[inc]` for `inc` from `from` below `numStats`. -/
def checkResearchNameFrom (asResearch : List RESEARCH) (id : String) : Nat → Nat → Option Bool
  | _, 0 => some true
  | inc, todo + 1 =>
    match asResearch[inc]? with
    | none => none
    | some r => if r.id = id then some false else checkResearchNameFrom asResearch id (inc + 1) todo

/-- `checkResearchName`: false when one of the first `numStats` topics has the same id. -/
def checkResearchName (asResearch : List RESEARCH) (id : String) (numStats : Nat) : Option Bool :=
  checkResearchNameFrom asResearch id 0 numStats

/-- `getResearch`: the first topic with the given id. -/
def getResearch (asResearch : List RESEARCH) (pName : String) : Option RESEARCH :=
  asResearch.find? (fun r => r.id = pName)

/-- The loop "set replaced components": an entry is kept when it is a pair whose two names are
both found. -/
def replacedPairs :
    List (Option (Option COMPONENT_STATS × Option COMPONENT_STATS)) → List RES_COMP_REPLACEMENT
  | [] => []
  | some (some oldComp, some newComp) :: rest =>
    { pOldComponent := oldComp, pNewComponent := newComp } :: replacedPairs rest
  | _ :: rest => replacedPairs rest

/-- The structure indices that a lookup loop pushes: the results that are not negative. -/
def foundStructures (lookups : List Int) : List Nat :=
  (lookups.filter (0 ≤ ·)).map Int.toNat

/-- First loop of `loadResearch`, from group `inc` on.  `preResearch` collects, per group, the
names of the required topics.  The Boolean is false when the function returns false.  Fields
that no function of this development reads (names, icons, models, messages, the tech code)
are left out. -/
def loadResearchGroups : Nat → List ResearchGroup → ResearchStore → List (List String) →
    Option (Bool × ResearchStore × List (List String))
  | _, [], s, preResearch => some (true, s, preResearch)
  | inc, g :: rest, s, preResearch =>
    if g.key = RESEARCH_JSON_CONFIG_DICT_KEY then
      match resCalcModeStringToValue g.calculationMode with
      | none => some (false, s, preResearch)
      | some calcModeParsed =>
        let s1 := if s.researchUpgradeCalcMode.isNone
          then { s with researchUpgradeCalcMode := some calcModeParsed } else s
        loadResearchGroups (inc + 1) rest s1 (preResearch ++ [[]])
    else
      let s1 := { s with asPlayerResList := s.asPlayerResList.map (· ++ [({} : PLAYER_RESEARCH)]) }
      match checkResearchName s1.asResearch g.key inc with
      | none => none
      | some false => some (false, s1, preResearch)
      | some true =>
        if !g.statFound then some (false, s1, preResearch)
        else if g.researchPoints > UWORD_MAX then some (false, s1, preResearch)
        else if g.researchPower > UWORD_MAX then some (false, s1, preResearch)
        else
          let research : RESEARCH :=
            { id := g.key, index := inc, category := g.category,
              ref := (s.STAT_RESEARCH + inc) % 4294967296,
              disabledWhen := g.disabledWhen % 256,
              keyTopic := if g.keyTopic ≤ 1 then g.keyTopic else 0,
              results := g.results,
              researchPoints := g.researchPoints,
              researchPower := g.researchPower,
              componentResults := g.resultComponents.reduceOption,
              componentReplacement := replacedPairs g.replacedComponents,
              pRedArtefacts := g.redComponents.reduceOption,
              pStructureResults := foundStructures g.resultStructures,
              pStructList := foundStructures g.requiredStructures,
              pRedStructs := foundStructures g.redStructures }
          loadResearchGroups (inc + 1) rest { s1 with asResearch := s1.asResearch ++ [research] }
            (preResearch ++ [g.requiredResearch])

/-- Inner loop of the second pass: the names in `preRes` that `getResearch` finds are pushed,
by their `index` field, onto the prerequisite list of topic `inc`. -/
def pushRequired (inc : Nat) : List String → List RESEARCH → Option (List RESEARCH)
  | [], asResearch => some asResearch
  | resID :: rest, asResearch =>
    match getResearch asResearch resID with
    | none => pushRequired inc rest asResearch
    | some preResItem =>
      match asResearch[inc]? with
      | none => none
      | some r =>
        pushRequired inc rest
          (asResearch.set inc { r with pPRList := r.pPRList ++ [preResItem.index] })

/-- Second loop of `loadResearch`: "Load and check research pre-requisites", for the `todo`
topics from `inc` on. -/
def loadPrerequisites (preResearch : List (List String)) :
    Nat → Nat → List RESEARCH → Option (List RESEARCH)
  | _, 0, asResearch => some asResearch
  | inc, todo + 1, asResearch =>
    match preResearch[inc]? with
    | none => none
    | some preRes =>
      match pushRequired inc preRes asResearch with
      | none => none
      | some asResearch1 => loadPrerequisites preResearch (inc + 1) todo asResearch1

/-- The topic store as `loadResearch` has it when it calls `detectCycle`: groups read and
prerequisite names resolved.  The Boolean is false when the function has returned false. -/
def loadResearchTopics (ini : List ResearchGroup) (s : ResearchStore) :
    Option (Bool × ResearchStore) :=
  match loadResearchGroups 0 ini s [] with
  | none => none
  | some (false, s1, _) => some (false, s1)
  | some (true, s1, preResearch) =>
    match loadPrerequisites preResearch 0 s1.asResearch.length s1.asResearch with
    | none => none
    | some asResearch => some (true, { s1 with asResearch := asResearch })

/-- `loadResearch`: the Boolean is its return value, the store is what it leaves in the globals.
`fuel` bounds the loop of each call of `isResAPrereqForResB`. -/
def loadResearch (fuel : Nat) (ini : List ResearchGroup) (s : ResearchStore) :
    Option (Bool × ResearchStore) :=
  match loadResearchTopics ini s with
  | none => none
  | some (false, s1) => some (false, s1)
  | some (true, s2) =>
    match detectCycle s2.asResearch with
    | none => none
    | some (some _) => some (false, s2)
    | some none =>
      match populateCategories fuel s2.asResearch with
      | none => none
      | some asResearch =>
        some (true, { s2 with
          asResearch := asResearch
          researchUpgradeCalcMode :=
            some (s2.researchUpgradeCalcMode.getD ResearchUpgradeCalculationMode.Compat) })

/-! ## Availability -/

/-- The entry `asPlayerResList[playerID][inc]`. -/
def playerResearch (asPlayerResList : List (List PLAYER_RESEARCH)) (playerID inc : Nat) :
    Option PLAYER_RESEARCH :=
  (asPlayerResList[playerID]?).bind (·[inc]?)

/-- The choice of `IsResearchCancelledFunc` by the queue mode. -/
def IsResearchCancelledFunc : QUEUE_MODE → PLAYER_RESEARCH → Bool
  | .ModeImmediate => IsResearchCancelled
  | .ModeQueue => IsResearchCancelledPending

/-- The choice of `IsResearchStartedFunc` by the queue mode. -/
def IsResearchStartedFunc : QUEUE_MODE → PLAYER_RESEARCH → Bool
  | .ModeImmediate => IsResearchStarted
  | .ModeQueue => IsResearchStartedPending

/-- The loop "check for pre-requisites": `bPRFound` after the loop. -/
def checkPrerequisites (asPlayerResList : List (List PLAYER_RESEARCH)) (playerID : Nat) :
    List Nat → Option Bool
  | [] => some true
  | pr :: rest =>
    match playerResearch asPlayerResList playerID pr with
    | none => none
    | some x =>
      if IsResearchCompleted x then checkPrerequisites asPlayerResList playerID rest
      else some false

/-- The loop "check for structure effects": `bStructFound` after the loop. -/
def checkStructures (checkSpecificStructExists : Nat → Nat → Bool) (playerID : Nat) :
    List Nat → Bool
  | [] => true
  | st :: rest =>
    if checkSpecificStructExists st playerID
    then checkStructures checkSpecificStructExists playerID rest
    else false

/-- `researchAvailable`.  The index `inc`, an `int` in the source, is only used to index the
vectors, so it is a natural number here. -/
def researchAvailable (g : Game) (inc playerID : Nat) (mode : QUEUE_MODE) : Option Bool :=
  if playerID ≥ g.MAX_PLAYERS then some false
  else
    match playerResearch g.asPlayerResList playerID inc with
    | none => none
    | some x =>
      if IsResearchCancelledFunc mode x then some true
      else if IsResearchDisabled x then some false
      else if IsResearchPossible x && !IsResearchCompleted x && !IsResearchStartedFunc mode x
      then some true
      else
        let keyTopic : Option Bool :=
          if g.bMultiPlayer then some false else (g.asResearch[inc]?).map (·.keyTopic ≠ 0)
        match keyTopic with
        | none => none
        | some true => some false
        | some false =>
          let researchStarted : Bool :=
            IsResearchStartedFunc mode x &&
              !(match g.findResearchingFacilityByResearchIndex playerID inc with
                | some psBuilding => psBuilding.status == STRUCT_STATES.SS_BEING_BUILT
                | none => false)
          if !IsResearchCompleted x && !researchStarted then
            match g.asResearch[inc]? with
            | none => none
            | some r =>
              if r.pPRList.isEmpty then some false
              else
                match checkPrerequisites g.asPlayerResList playerID r.pPRList with
                | none => none
                | some false => some false
                | some true =>
                  some (checkStructures g.checkSpecificStructExists playerID r.pStructList)
          else some false

/-! ## Research list -/

/-- The loop of `fillResearchList` for the `todo` topics from `inc` on.  An entry of the list is
a `uint16_t`.  A topic that is not the forced one is listed by `researchAvailable` in
`ModeQueue`, which is not called for the forced topic. -/
def fillResearchListFrom (g : Game) (playerID : Nat) (topic : Option Nat) (limit : Nat) :
    Nat → Nat → List Nat → Option (List Nat)
  | _, 0, list => some list
  | inc, todo + 1, list =>
    match (if topic = some inc then some true
      else researchAvailable g inc playerID QUEUE_MODE.ModeQueue) with
    | none => none
    | some true =>
      if (list ++ [inc % 65536]).length = limit then some (list ++ [inc % 65536])
      else fillResearchListFrom g playerID topic limit (inc + 1) todo (list ++ [inc % 65536])
    | some false => fillResearchListFrom g playerID topic limit (inc + 1) todo list

/-- `fillResearchList`; `topic` and `limit` are `UWORD` values. -/
def fillResearchList (g : Game) (playerID : Nat) (topic : Option Nat) (limit : Nat) :
    Option (List Nat) :=
  fillResearchListFrom g playerID topic limit 0 g.asResearch.length []

/-! ## Upgrade arithmetic -/

/-- The `int64_t` that a computation with exact result `x` yields, by two's complement.  Signed
overflow has no defined result in the source; the theorems keep the exact results in range,
where `wrap64` changes nothing. -/
def wrap64 (x : Int) : Int :=
  (x + 2 ^ 63) % 2 ^ 64 - 2 ^ 63

/-- The values of `int64_t`. -/
def InInt64 (x : Int) : Prop :=
  -(2 ^ 63) ≤ x ∧ x < 2 ^ 63

instance (x : Int) : Decidable (InInt64 x) := by
  unfold InInt64; infer_instance

/-- `iDivCeil`; `/` and `%` of the source truncate. -/
def iDivCeil (dividend divisor : Int) : Int :=
  if divisor = 0 then 0
  else
    let hasPosQuotient : Bool := decide (dividend ≥ 0) == decide (divisor ≥ 0)
    wrap64 (wrap64 (dividend.tdiv divisor) +
      (if (decide (dividend.tmod divisor ≠ 0) && hasPosQuotient) = true then 1 else 0))

/-- `iDivFloor`; `/` and `%` of the source truncate. -/
def iDivFloor (dividend divisor : Int) : Int :=
  if divisor = 0 then 0
  else
    let hasNegQuotient : Bool := decide (dividend ≥ 0) != decide (divisor ≥ 0)
    wrap64 (wrap64 (dividend.tdiv divisor) -
      (if (decide (dividend.tmod divisor ≠ 0) && hasNegQuotient) = true then 1 else 0))

/-- `json::is_string` on an atom. -/
def JsonAtom.is_string : JsonAtom → Bool
  | JsonAtom.str _ => true
  | _ => false

/-- `json::is_number_integer`: true for signed and for unsigned integers. -/
def JsonAtom.is_number_integer : JsonAtom → Bool
  | JsonAtom.int _ => true
  | JsonAtom.uint _ => true
  | _ => false

/-- `json::is_number_unsigned`. -/
def JsonAtom.is_number_unsigned : JsonAtom → Bool
  | JsonAtom.uint _ => true
  | _ => false

/-- `json::get<int64_t>` on a number; an unsigned value is converted. -/
def JsonAtom.get_int64 : JsonAtom → Int
  | JsonAtom.int i => i
  | JsonAtom.uint n => wrap64 n
  | _ => 0

/-- The rounded change of an upgrade by `value` percent of `scaledChange / value`: the floor
for a negative percentage, the ceiling otherwise. -/
def roundedChange (value scaledChange : Int) : Int :=
  if value < 0 then iDivFloor scaledChange 100 else iDivCeil scaledChange 100

/-- What the `switch (upgradeCalcMode)` of `eventResearchedHandleUpgrades` computes. -/
structure ScalarUpgrade where
  newUpgradesValue : Int
  newUpgradesChange : Int
  /-- The ledger entry `cumulativeUpgradeScaledChange` after the upgrade. -/
  cumulativeUpgradeScaledChange : Int
deriving DecidableEq, Repr

/-- The block from `int64_t scaledChange = (statsOriginalValue * value)` to the end of the
`switch`, for a stat with base value `statsOriginalValue`, the overlay value
`currentUpgradesValue` and the ledger entry `cumulative`. -/
def scalarUpgrade (upgradeCalcMode : ResearchUpgradeCalculationMode)
    (statsOriginalValue value currentUpgradesValue cumulative : Int) : ScalarUpgrade :=
  let scaledChange := wrap64 (statsOriginalValue * value)
  match upgradeCalcMode with
  | ResearchUpgradeCalculationMode.Compat =>
    let newUpgradesChange := roundedChange value scaledChange
    { newUpgradesValue := wrap64 (currentUpgradesValue + newUpgradesChange)
      newUpgradesChange := newUpgradesChange
      cumulativeUpgradeScaledChange := cumulative }
  | ResearchUpgradeCalculationMode.Improved =>
    let cumulativeUpgradeScaledChange := wrap64 (cumulative + scaledChange)
    let newUpgradesValue := wrap64 (statsOriginalValue +
      (if cumulativeUpgradeScaledChange < 0 then iDivFloor cumulativeUpgradeScaledChange 100
        else iDivCeil cumulativeUpgradeScaledChange 100))
    { newUpgradesValue := newUpgradesValue
      newUpgradesChange := wrap64 (newUpgradesValue - currentUpgradesValue)
      cumulativeUpgradeScaledChange := cumulativeUpgradeScaledChange }

/-- The value handed to `setPropertyValue`, or stored in `dst[x]`: an overlay that was an
unsigned integer stays one, with anything below 0 raised to 0. -/
def upgradedJson (currentUpgradesValue_json : JsonAtom) (newUpgradesValue : Int) : JsonAtom :=
  if currentUpgradesValue_json.is_number_unsigned
  then JsonAtom.uint (max newUpgradesValue 0).toNat
  else JsonAtom.int newUpgradesValue

/-- The body of the loop over the elements of an array-valued parameter: the new `dst[x]`. -/
def upgradeArrayElement (value : Int) (statsOriginalValueX currentUpgradesValue_json : JsonAtom) :
    JsonAtom :=
  if !statsOriginalValueX.is_number_integer then currentUpgradesValue_json
  else if !currentUpgradesValue_json.is_number_integer then currentUpgradesValue_json
  else
    let currentUpgradesValue := currentUpgradesValue_json.get_int64
    let scaledChange := wrap64 (statsOriginalValueX.get_int64 * value)
    let newUpgradesChange := roundedChange value scaledChange
    upgradedJson currentUpgradesValue_json (wrap64 (currentUpgradesValue + newUpgradesChange))

/-- The loop `for (size_t x = 0; x < dst.size(); x++)` over two arrays of the same size. -/
def upgradeArray (value : Int) : List JsonAtom → List JsonAtom → List JsonAtom
  | statsOriginalValueX :: stats, currentUpgradesValue_json :: dst =>
    upgradeArrayElement value statsOriginalValueX currentUpgradesValue_json ::
      upgradeArray value stats dst
  | _, dst => dst

/-! ## Upgrade engine -/

/-- `find` on a JSON object or on a map: the value of the first member with the key. -/
def jfind {α : Type} (key : String) : List (String × α) → Option α
  | [] => none
  | (k, v) :: rest => if k = key then some v else jfind key rest

/-- Assignment to `map[key]`, or `setPropertyValue`: the member with the key is overwritten,
a missing one is added. -/
def jset {α : Type} (key : String) (val : α) : List (String × α) → List (String × α)
  | [] => [(key, val)]
  | (k, v) :: rest => if k = key then (k, val) :: rest else (k, v) :: jset key val rest

def Json.is_string : Json → Bool
  | Json.atom a => a.is_string
  | Json.array _ => false

def Json.is_number_integer : Json → Bool
  | Json.atom a => a.is_number_integer
  | Json.array _ => false

/-- `json::get<std::string>` on a string. -/
def Json.get_string : Json → String
  | Json.atom (JsonAtom.str s) => s
  | _ => ""

/-- `json::get<int64_t>` on a number. -/
def Json.get_int64 : Json → Int
  | Json.atom a => a.get_int64
  | Json.array _ => 0

/-- `operator==` of two JSON atoms: a signed and an unsigned integer are equal when their
values are. -/
def JsonAtom.equal : JsonAtom → JsonAtom → Bool
  | JsonAtom.int i, JsonAtom.uint n => decide (i = (n : Int))
  | JsonAtom.uint n, JsonAtom.int i => decide ((n : Int) = i)
  | a, b => decide (a = b)

def jsonArrayEqual : List JsonAtom → List JsonAtom → Bool
  | [], [] => true
  | a :: l, b :: m => a.equal b && jsonArrayEqual l m
  | _, _ => false

/-- `operator==` of two JSON values. -/
def Json.equal : Json → Json → Bool
  | Json.atom a, Json.atom b => a.equal b
  | Json.array l, Json.array m => jsonArrayEqual l m
  | _, _ => false

/-- `getResearchUpgradeCalcMode`. -/
def getResearchUpgradeCalcMode (u : UpgradeState) : ResearchUpgradeCalculationMode :=
  u.researchUpgradeCalcMode.getD ResearchUpgradeCalculationMode.Compat

/-- Modelled from the spec: `getPropertyValue` of `wzapi` reads the overlay value of a
parameter; a parameter that the overlay does not have reads as null. -/
def getPropertyValue (upgrades : JsonObject) (parameter : String) : Json :=
  (jfind parameter upgrades).getD (Json.atom JsonAtom.null)

/-- Modelled from the spec: `setPropertyValue` of `wzapi` overwrites the overlay value of a
parameter. -/
def setPropertyValue (upgrades : JsonObject) (parameter : String) (value : Json) : JsonObject :=
  jset parameter value upgrades

/-- The statement `counts[key]++` on a map of `uint32_t`. -/
def countUp (key : String) (counts : List (String × Nat)) : List (String × Nat) :=
  jset key (((jfind key counts).getD 0 + 1) % 2 ^ 32) counts

/-- The classification after a scalar update: a weapon counts for its impact class, a body
with parameter "Armour" or "Thermal" for its body class.  `get<std::string>` on a member that
is not a string has no result. -/
def countScalarUpgrade (ctype parameter : String) (statsEntityObj : JsonObject)
    (tempStats : PlayerUpgradeCounts) : Option PlayerUpgradeCounts :=
  if ctype = "Weapon" then
    match jfind "ImpactClass" statsEntityObj with
    | none => some tempStats
    | some (Json.atom (JsonAtom.str impactClass)) =>
      some { tempStats with
        numWeaponImpactClassUpgrades := countUp impactClass tempStats.numWeaponImpactClassUpgrades }
    | some _ => none
  else if ctype = "Body" ∧ parameter = "Armour" then
    match jfind "BodyClass" statsEntityObj with
    | none => some tempStats
    | some (Json.atom (JsonAtom.str bodyClass)) =>
      some { tempStats with
        numBodyClassArmourUpgrades := countUp bodyClass tempStats.numBodyClassArmourUpgrades }
    | some _ => none
  else if ctype = "Body" ∧ parameter = "Thermal" then
    match jfind "BodyClass" statsEntityObj with
    | none => some tempStats
    | some (Json.atom (JsonAtom.str bodyClass)) =>
      some { tempStats with
        numBodyClassThermalUpgrades := countUp bodyClass tempStats.numBodyClassThermalUpgrades }
    | some _ => none
  else some tempStats

/-- The ledger entry `playerRawUpgradeChangeTotals[cname][parameter]`, 0 when it is new. -/
def ledgerEntry (totals : RawResearchUpgradeChangeValues) (cname parameter : String) : Int :=
  ((jfind cname totals).bind (jfind parameter)).getD 0

/-- Assignment to `playerRawUpgradeChangeTotals[cname][parameter]`. -/
def setLedgerEntry (totals : RawResearchUpgradeChangeValues) (cname parameter : String)
    (x : Int) : RawResearchUpgradeChangeValues :=
  jset cname (jset parameter x ((jfind cname totals).getD [])) totals

/-- The part of the component loop from `if (pStatsParameterValue->is_array())` on: the update
of one parameter of one component, whose base value is `pStatsParameterValue`.  The result is
the overlay of the component, the ledger and the counters; a `continue` leaves them as they
are. -/
def upgradeParameter (upgradeCalcMode : ResearchUpgradeCalculationMode)
    (ctype parameter cname : String) (value : Int) (statsEntityObj : JsonObject)
    (pStatsParameterValue : Json) (upgrades : JsonObject)
    (totals : RawResearchUpgradeChangeValues) (tempStats : PlayerUpgradeCounts) :
    Option (JsonObject × RawResearchUpgradeChangeValues × PlayerUpgradeCounts) :=
  match pStatsParameterValue with
  | Json.array statsArray =>
    match getPropertyValue upgrades parameter with
    | Json.array dst =>
      if dst.length ≠ statsArray.length then some (upgrades, totals, tempStats)
      else
        some (setPropertyValue upgrades parameter (Json.array (upgradeArray value statsArray dst)),
          totals, tempStats)
    | Json.atom _ => some (upgrades, totals, tempStats)
  | Json.atom stat =>
    if stat.is_number_integer then
      let statsOriginalValue := stat.get_int64
      if statsOriginalValue ≤ 0 then some (upgrades, totals, tempStats)
      else
        match getPropertyValue upgrades parameter with
        | Json.array _ => some (upgrades, totals, tempStats)
        | Json.atom currentUpgradesValue_json =>
          if !currentUpgradesValue_json.is_number_integer then some (upgrades, totals, tempStats)
          else
            let r := scalarUpgrade upgradeCalcMode statsOriginalValue value
              currentUpgradesValue_json.get_int64 (ledgerEntry totals cname parameter)
            let totals1 :=
              match upgradeCalcMode with
              | ResearchUpgradeCalculationMode.Compat => totals
              | ResearchUpgradeCalculationMode.Improved =>
                setLedgerEntry totals cname parameter r.cumulativeUpgradeScaledChange
            let upgrades1 := setPropertyValue upgrades parameter
              (Json.atom (upgradedJson currentUpgradesValue_json r.newUpgradesValue))
            match countScalarUpgrade ctype parameter statsEntityObj tempStats with
            | none => none
            | some tempStats1 => some (upgrades1, totals1, tempStats1)
    else some (upgrades, totals, tempStats)

/-- The body of the loop `for (auto cname : *pPlayerEntityClass)` for one component. -/
def upgradeComponent (upgradeCalcMode : ResearchUpgradeCalculationMode)
    (cachedStatsObject : List (String × ComponentTable)) (ctype parameter : String) (value : Int)
    (filter : Option (String × Json)) (cname : String) (upgrades : JsonObject)
    (totals : RawResearchUpgradeChangeValues) (tempStats : PlayerUpgradeCounts) :
    Option (JsonObject × RawResearchUpgradeChangeValues × PlayerUpgradeCounts) :=
  match jfind ctype cachedStatsObject with
  | none => some (upgrades, totals, tempStats)
  | some statsEntityClassObj =>
    match jfind cname statsEntityClassObj with
    | none => some (upgrades, totals, tempStats)
    | some statsEntityObj =>
      let filtered : Bool :=
        match filter with
        | none => false
        | some (filterparam, filtervalue) =>
          match jfind filterparam statsEntityObj with
          | none => true
          | some pStatsFilterParameterValue => !pStatsFilterParameterValue.equal filtervalue
      if filtered then some (upgrades, totals, tempStats)
      else
        match jfind parameter statsEntityObj with
        | none => some (upgrades, totals, tempStats)
        | some pStatsParameterValue =>
          upgradeParameter upgradeCalcMode ctype parameter cname value statsEntityObj
            pStatsParameterValue upgrades totals tempStats

/-- The loop `for (auto cname : *pPlayerEntityClass)` over the components of one class. -/
def upgradeComponents (upgradeCalcMode : ResearchUpgradeCalculationMode)
    (cachedStatsObject : List (String × ComponentTable)) (ctype parameter : String) (value : Int)
    (filter : Option (String × Json)) :
    ComponentTable → RawResearchUpgradeChangeValues → PlayerUpgradeCounts →
      Option (ComponentTable × RawResearchUpgradeChangeValues × PlayerUpgradeCounts)
  | [], totals, tempStats => some ([], totals, tempStats)
  | (cname, upgrades) :: rest, totals, tempStats =>
    match upgradeComponent upgradeCalcMode cachedStatsObject ctype parameter value filter cname
        upgrades totals tempStats with
    | none => none
    | some (upgrades1, totals1, tempStats1) =>
      match upgradeComponents upgradeCalcMode cachedStatsObject ctype parameter value filter rest
          totals1 tempStats1 with
      | none => none
      | some (rest1, totals2, tempStats2) => some ((cname, upgrades1) :: rest1, totals2, tempStats2)

/-- What the loop over the results of a topic changes: the overlays of the player, the ledger
of the player and the counters of this call. -/
structure UpgradeLoop where
  entityClasses : List (String × ComponentTable)
  totals : RawResearchUpgradeChangeValues
  tempStats : PlayerUpgradeCounts := {}
deriving DecidableEq, Repr

/-- The macro `RS_GET_REQUIRED_RESULT_PROPERTY`: the member, when it is there and has the
type asked for. -/
def requiredProperty (v : JsonObject) (name : String) (typecheck : Json → Bool) : Option Json :=
  match jfind name v with
  | none => none
  | some resultVar => if typecheck resultVar then some resultVar else none

/-- The optional filter of a result record: no result when `filterParameter` is not a string
or comes without `filterValue`. -/
def resultFilter (v : JsonObject) : Option (Option (String × Json)) :=
  match jfind "filterParameter" v with
  | none => some none
  | some it_filterparam =>
    if !it_filterparam.is_string then none
    else
      match jfind "filterValue" v with
      | none => none
      | some it_filtervalue => some (some (it_filterparam.get_string, it_filtervalue))

/-- The body of the loop "iterate over all research results" for the record `v`. -/
def upgradeResult (upgradeCalcMode : ResearchUpgradeCalculationMode)
    (cachedStatsObject : List (String × ComponentTable)) (v : JsonObject) (s : UpgradeLoop) :
    Option UpgradeLoop :=
  match requiredProperty v "class" Json.is_string with
  | none => some s
  | some it_ctype =>
    match requiredProperty v "parameter" Json.is_string with
    | none => some s
    | some it_parameter =>
      match requiredProperty v "value" Json.is_number_integer with
      | none => some s
      | some it_value =>
        match resultFilter v with
        | none => some s
        | some filter =>
          match jfind it_ctype.get_string s.entityClasses with
          | none => some s
          | some pPlayerEntityClass =>
            match upgradeComponents upgradeCalcMode cachedStatsObject it_ctype.get_string
                it_parameter.get_string it_value.get_int64 filter pPlayerEntityClass s.totals
                s.tempStats with
            | none => none
            | some (components, totals, tempStats) =>
              some { entityClasses := jset it_ctype.get_string components s.entityClasses
                     totals := totals
                     tempStats := tempStats }

/-- The loop "iterate over all research results". -/
def upgradeResults (upgradeCalcMode : ResearchUpgradeCalculationMode)
    (cachedStatsObject : List (String × ComponentTable)) :
    List JsonObject → UpgradeLoop → Option UpgradeLoop
  | [], s => some s
  | v :: rest, s =>
    match upgradeResult upgradeCalcMode cachedStatsObject v s with
    | none => none
    | some s1 => upgradeResults upgradeCalcMode cachedStatsObject rest s1

/-- One of the loops "accumulate stats": every class counted in this call moves the player's
counter by one. -/
def accumulateStats : List (String × Nat) → List (String × Nat) → List (String × Nat)
  | [], counts => counts
  | (cls, n) :: rest, counts =>
    if n > 0 then accumulateStats rest (countUp cls counts) else accumulateStats rest counts

/-- `eventResearchedHandleUpgrades`, as a function of the upgrade state. -/
def eventResearchedHandleUpgrades (psResearch : RESEARCH) (player : Nat) (u : UpgradeState) :
    Option UpgradeState :=
  match u.cachedPerPlayerUpgrades[player]? with
  | none => some u
  | some entityClasses =>
    match u.cachedPerPlayerRawUpgradeChange[player]? with
    | none => none
    | some playerRawUpgradeChangeTotals =>
      match upgradeResults (getResearchUpgradeCalcMode u) u.cachedStatsObject psResearch.results
          { entityClasses := entityClasses, totals := playerRawUpgradeChangeTotals } with
      | none => none
      | some s =>
        let u1 := { u with
          cachedPerPlayerUpgrades := u.cachedPerPlayerUpgrades.set player s.entityClasses
          cachedPerPlayerRawUpgradeChange :=
            u.cachedPerPlayerRawUpgradeChange.set player s.totals }
        match u.playerUpgradeCounts[player]? with
        | none =>
          if (s.tempStats.numBodyClassArmourUpgrades ++ s.tempStats.numBodyClassThermalUpgrades
              ++ s.tempStats.numWeaponImpactClassUpgrades).any (fun e => decide (e.2 > 0))
          then none else some u1
        | some counts =>
          some { u1 with
            playerUpgradeCounts := u.playerUpgradeCounts.set player
              { numBodyClassArmourUpgrades :=
                  accumulateStats s.tempStats.numBodyClassArmourUpgrades
                    counts.numBodyClassArmourUpgrades
                numBodyClassThermalUpgrades :=
                  accumulateStats s.tempStats.numBodyClassThermalUpgrades
                    counts.numBodyClassThermalUpgrades
                numWeaponImpactClassUpgrades :=
                  accumulateStats s.tempStats.numWeaponImpactClassUpgrades
                    counts.numWeaponImpactClassUpgrades } }

/-! ## Completion of a topic -/

/-- The switch of `makeComponentRedundant`; a state without a case is left as it is. -/
def makeComponentRedundant : COMPONENT_STATE → COMPONENT_STATE
  | COMPONENT_STATE.AVAILABLE => COMPONENT_STATE.REDUNDANT
  | COMPONENT_STATE.UNAVAILABLE => COMPONENT_STATE.REDUNDANT_UNAVAILABLE
  | COMPONENT_STATE.FOUND => COMPONENT_STATE.REDUNDANT_FOUND
  | state => state

/-- The switch of `makeComponentAvailable`; a state without a case is left as it is. -/
def makeComponentAvailable : COMPONENT_STATE → COMPONENT_STATE
  | COMPONENT_STATE.UNAVAILABLE => COMPONENT_STATE.AVAILABLE
  | COMPONENT_STATE.FOUND => COMPONENT_STATE.AVAILABLE
  | COMPONENT_STATE.REDUNDANT_UNAVAILABLE => COMPONENT_STATE.REDUNDANT
  | COMPONENT_STATE.REDUNDANT_FOUND => COMPONENT_STATE.REDUNDANT
  | state => state

/-- Modelled from the spec: `MakeResearchCompleted` is declared in research.h, which is not
among the sources.  The status becomes Completed: the started and cancelled flags of both views
are cleared and the completed flag is set; the points, the `possible` mark and the disabled mark
stay. -/
def MakeResearchCompleted (x : PLAYER_RESEARCH) : PLAYER_RESEARCH :=
  { x with started := false, startedPending := false, cancelled := false,
           cancelledPending := false, completed := true }

/-- A write through a reference to `l[i]`: nothing when the element does not exist or the write
itself is undefined. -/
def modifyAt {α : Type} (g : α → Option α) (i : Nat) (l : List α) : Option (List α) :=
  match l[i]? with
  | none => none
  | some x =>
    match g x with
    | none => none
    | some y => some (l.set i y)

/-- A loop `for (auto &a : l)` whose body may be undefined. -/
def forEachM {α β : Type} (body : α → β → Option β) : List α → β → Option β
  | [], b => some b
  | a :: rest, b =>
    match body a b with
    | none => none
    | some b1 => forEachM body rest b1

/-- A loop that rewrites every element of a list. -/
def mapEach {α : Type} (body : α → Option α) : List α → Option (List α)
  | [] => some []
  | a :: rest =>
    match body a with
    | none => none
    | some b =>
      match mapEach body rest with
      | none => none
      | some bs => some (b :: bs)

/-- The value of a component type as an array index. -/
def COMPONENT_TYPE.index : COMPONENT_TYPE → Nat
  | COMPONENT_TYPE.COMP_BODY => 0
  | COMPONENT_TYPE.COMP_BRAIN => 1
  | COMPONENT_TYPE.COMP_PROPULSION => 2
  | COMPONENT_TYPE.COMP_REPAIRUNIT => 3
  | COMPONENT_TYPE.COMP_ECM => 4
  | COMPONENT_TYPE.COMP_SENSOR => 5
  | COMPONENT_TYPE.COMP_CONSTRUCT => 6
  | COMPONENT_TYPE.COMP_WEAPON => 7
  | COMPONENT_TYPE.COMP_NUMCOMPONENTS => 8

/-- `switchComponent`: nothing when a slot does not exist, and for the `default:` case, which
aborts. -/
def switchComponent (psDroid : DROID) (oldType : COMPONENT_TYPE) (oldCompInc newCompInc : Nat) :
    Option DROID :=
  match oldType with
  | COMPONENT_TYPE.COMP_WEAPON =>
    match psDroid.asWeaps[0]? with
    | none => none
    | some nStat =>
      if nStat > 0 then
        if nStat = oldCompInc then some { psDroid with asWeaps := psDroid.asWeaps.set 0 newCompInc }
        else some psDroid
      else some psDroid
  | COMPONENT_TYPE.COMP_NUMCOMPONENTS => none
  | _ =>
    match psDroid.asBits[oldType.index]? with
    | none => none
    | some bits =>
      if bits = oldCompInc then
        some { psDroid with asBits := psDroid.asBits.set oldType.index (newCompInc % 256) }
      else some psDroid

/-- `replaceTransDroidComponents`, on the droids of the group other than the transporter. -/
def replaceTransDroidComponents (psGroup : List DROID) (oldType : COMPONENT_TYPE)
    (oldCompInc newCompInc : Nat) : Option (List DROID) :=
  mapEach (fun psCurr => switchComponent psCurr oldType oldCompInc newCompInc) psGroup

/-- `replaceDroidComponent`. -/
def replaceDroidComponent (pList : List ListedDroid) (oldType : COMPONENT_TYPE)
    (oldCompInc newCompInc : Nat) : Option (List ListedDroid) :=
  mapEach (fun psDroid =>
    match switchComponent psDroid.droid oldType oldCompInc newCompInc with
    | none => none
    | some d =>
      if psDroid.isTransporter then
        match replaceTransDroidComponents psDroid.psGroup oldType oldCompInc newCompInc with
        | none => none
        | some grp => some { psDroid with droid := d, psGroup := grp }
      else some { psDroid with droid := d }) pList

/-- The loop over the weapon slots `inc < numWeaps` of a template or of a structure; `live`
says whether a slot is looked at only when its value is positive. -/
def replaceWeaps (live : Bool) (oldCompInc newCompInc numWeaps : Nat) (asWeaps : List Nat) :
    Option (List Nat) :=
  forEachM (fun inc ws =>
    match ws[inc]? with
    | none => none
    | some nStat =>
      if (!live || decide (nStat > 0)) && decide (nStat = oldCompInc) then
        some (ws.set inc newCompInc)
      else some ws) (List.range numWeaps) asWeaps

/-- The lambda `replaceComponentInTemplate` of `replaceComponent`. -/
def replaceComponentInTemplate (oldType : COMPONENT_TYPE) (oldCompInc newCompInc : Nat)
    (psTemplates : DROID_TEMPLATE) : Option DROID_TEMPLATE :=
  match oldType with
  | COMPONENT_TYPE.COMP_WEAPON =>
    match replaceWeaps false oldCompInc newCompInc psTemplates.numWeaps psTemplates.asWeaps with
    | none => none
    | some ws => some { psTemplates with asWeaps := ws }
  | COMPONENT_TYPE.COMP_NUMCOMPONENTS => some psTemplates
  | _ =>
    match psTemplates.asParts[oldType.index]? with
    | none => none
    | some part =>
      if part = oldCompInc then
        some { psTemplates with asParts := psTemplates.asParts.set oldType.index newCompInc }
      else some psTemplates

/-- The loop of `replaceComponent` over the build queues: the production subject of every
factory.  Nothing when a factory does not hold the factory member of the union. -/
def replaceFactorySubjects (oldType : COMPONENT_TYPE) (oldCompInc newCompInc : Nat)
    (pList : List STRUCTURE) : Option (List STRUCTURE) :=
  mapEach (fun psCBuilding =>
    if psCBuilding.pStructureType = STRUCTURE_TYPE.REF_FACTORY ∨
        psCBuilding.pStructureType = STRUCTURE_TYPE.REF_CYBORG_FACTORY ∨
        psCBuilding.pStructureType = STRUCTURE_TYPE.REF_VTOL_FACTORY then
      match psCBuilding.pFunctionality with
      | FUNCTIONALITY.factory none => some psCBuilding
      | FUNCTIONALITY.factory (some psSubject) =>
        match replaceComponentInTemplate oldType oldCompInc newCompInc psSubject with
        | none => none
        | some t => some { psCBuilding with pFunctionality := FUNCTIONALITY.factory (some t) }
      | _ => none
    else some psCBuilding) pList

/-- `replaceStructureComponent`. -/
def replaceStructureComponent (pList : List STRUCTURE) (oldType : COMPONENT_TYPE)
    (oldCompInc newCompInc : Nat) : Option (List STRUCTURE) :=
  if ¬ (oldType = COMPONENT_TYPE.COMP_ECM ∨ oldType = COMPONENT_TYPE.COMP_SENSOR ∨
      oldType = COMPONENT_TYPE.COMP_WEAPON) then some pList
  else
    mapEach (fun psStructure =>
      match oldType with
      | COMPONENT_TYPE.COMP_WEAPON =>
        match replaceWeaps true oldCompInc newCompInc psStructure.numWeaps
            psStructure.asWeaps with
        | none => none
        | some ws => some { psStructure with asWeaps := ws }
      | _ => some psStructure) pList

/-- `replaceComponent`. -/
def replaceComponent (pNewComponent pOldComponent : COMPONENT_STATS) (player : Nat) (w : World) :
    Option World :=
  if ¬ player < w.MAX_PLAYERS then some w
  else
    let oldType := pOldComponent.compType
    let oldCompInc := pOldComponent.index
    let newType := pNewComponent.compType
    let newCompInc := pNewComponent.index
    if oldType ≠ newType then some w
    else
      match modifyAt (fun l => replaceDroidComponent l oldType oldCompInc newCompInc) player
          w.apsDroidLists,
        modifyAt (fun l => replaceDroidComponent l oldType oldCompInc newCompInc) player
          w.missionDroidLists,
        modifyAt (fun l => replaceDroidComponent l oldType oldCompInc newCompInc) player
          w.apsLimboDroids,
        modifyAt (mapEach (replaceComponentInTemplate oldType oldCompInc newCompInc)) player
          w.templates,
        modifyAt (fun l =>
          match replaceFactorySubjects oldType oldCompInc newCompInc l with
          | none => none
          | some l1 => replaceStructureComponent l1 oldType oldCompInc newCompInc) player
          w.apsStructLists,
        modifyAt (fun l => replaceStructureComponent l oldType oldCompInc newCompInc) player
          w.missionStructLists with
      | some droids, some missionDroids, some limboDroids, some templates, some structs,
          some missionStructs =>
        some { w with
          apsDroidLists := droids, missionDroidLists := missionDroids,
          apsLimboDroids := limboDroids, templates := templates, apsStructLists := structs,
          missionStructLists := missionStructs }
      | _, _, _, _, _, _ => none

/-- A call `f(apStructTypeLists[player][inc])`. -/
def updateStructType (f : COMPONENT_STATE → COMPONENT_STATE) (player inc : Nat) (w : World) :
    Option World :=
  match modifyAt (modifyAt (fun state => some (f state)) inc) player w.apStructTypeLists with
  | none => none
  | some lists => some { w with apStructTypeLists := lists }

/-- A call `f(apCompLists[player][comp->compType][comp->index])`. -/
def updateComp (f : COMPONENT_STATE → COMPONENT_STATE) (player : Nat) (comp : COMPONENT_STATS)
    (w : World) : Option World :=
  match modifyAt (modifyAt (modifyAt (fun state => some (f state)) comp.index)
      comp.compType.index) player w.apCompLists with
  | none => none
  | some lists => some { w with apCompLists := lists }

/-- `enableSelfRepair`. -/
def enableSelfRepair (player : Nat) (w : World) : Option World :=
  if ¬ player < w.MAX_PLAYERS then some w
  else
    match modifyAt (fun _ => some true) player w.bSelfRepair with
    | none => none
    | some flags => some { w with bSelfRepair := flags }

/-- `selfRepairEnabled`. -/
def selfRepairEnabled (player : Nat) (w : World) : Option Bool :=
  if ¬ player < w.MAX_PLAYERS then some false
  else w.bSelfRepair[player]?

/-- The statement `MakeResearchCompleted(&asPlayerResList[player][researchIndex])`. -/
def completeStatus (researchIndex player : Nat) (w : World) : Option World :=
  match modifyAt (modifyAt (fun x => some (MakeResearchCompleted x)) researchIndex) player
      w.asPlayerResList with
  | none => none
  | some lists => some { w with asPlayerResList := lists }

/-- The loop of `researchResult` over `pStructureResults`; the loop variable is an
`unsigned short`. -/
def structureResults (pResearch : RESEARCH) (player : Nat) (w : World) : Option World :=
  forEachM (fun pStructureResult =>
    updateStructType makeComponentAvailable player (pStructureResult % 65536))
    pResearch.pStructureResults w

/-- The loop of `researchResult` over `pRedStructs`; the loop variable is an `unsigned short`. -/
def redStructs (pResearch : RESEARCH) (player : Nat) (w : World) : Option World :=
  forEachM (fun pRedStruct => updateStructType makeComponentRedundant player (pRedStruct % 65536))
    pResearch.pRedStructs w

/-- The loop of `researchResult` over `componentReplacement`. -/
def componentReplacements (pResearch : RESEARCH) (player : Nat) (w : World) : Option World :=
  forEachM (fun ri w0 =>
    match replaceComponent ri.pNewComponent ri.pOldComponent player w0 with
    | none => none
    | some w1 => updateComp makeComponentRedundant player ri.pOldComponent w1)
    pResearch.componentReplacement w

/-- The body of the loop of `researchResult` over `componentResults`. -/
def componentResult (player : Nat) (pComp : COMPONENT_STATS) (w : World) : Option World :=
  let type := pComp.compType
  let compInc := pComp.index
  match updateComp makeComponentAvailable player pComp w with
  | none => none
  | some w1 =>
    if type = COMPONENT_TYPE.COMP_SENSOR ∧ pComp.location = LOC.LOC_DEFAULT then
      match modifyAt (fun _ => some compInc) player w1.aDefaultSensor with
      | none => none
      | some l => some { w1 with aDefaultSensor := l }
    else if type = COMPONENT_TYPE.COMP_ECM ∧ pComp.location = LOC.LOC_DEFAULT then
      match modifyAt (fun _ => some compInc) player w1.aDefaultECM with
      | none => none
      | some l => some { w1 with aDefaultECM := l }
    else if type = COMPONENT_TYPE.COMP_REPAIRUNIT ∧
        pComp.location = LOC.LOC_DEFAULT then
      match modifyAt (fun _ => some compInc) player w1.aDefaultRepair with
      | none => none
      | some l => enableSelfRepair player { w1 with aDefaultRepair := l }
    else some w1

/-- The loop of `researchResult` over `componentResults`. -/
def componentResults (pResearch : RESEARCH) (player : Nat) (w : World) : Option World :=
  forEachM (componentResult player) pResearch.componentResults w

/-- The loop of `researchResult` over `pRedArtefacts`. -/
def redArtefacts (pResearch : RESEARCH) (player : Nat) (w : World) : Option World :=
  forEachM (updateComp makeComponentRedundant player) pResearch.pRedArtefacts w

/-- The statement `psResearchFacility->pFunctionality->researchFacility.psSubject = nullptr`.
The facility is given by its owner and its place in the owner's structure list; nothing when
there is no such structure or it does not hold the research member of the union. -/
def clearSubject (psResearchFacility : Option (Nat × Nat)) (w : World) : Option World :=
  match psResearchFacility with
  | none => some w
  | some (owner, place) =>
    match modifyAt (modifyAt (fun psStruct =>
        match psStruct.pFunctionality with
        | FUNCTIONALITY.researchFacility r =>
          some { psStruct with
            pFunctionality := FUNCTIONALITY.researchFacility { r with psSubject := none } }
        | _ => none) place) owner w.apsStructLists with
    | none => none
    | some lists => some { w with apsStructLists := lists }

/-- The call `eventResearchedHandleUpgrades(pResearch, psResearchFacility, player)` of
`researchResult`. -/
def handleUpgrades (pResearch : RESEARCH) (player : Nat) (w : World) : Option World :=
  match eventResearchedHandleUpgrades pResearch player w.upgrades with
  | none => none
  | some u => some { w with upgrades := u }

/-- `researchResult`, as a function of the world.  `bDisplay` selects sounds and messages, which
are outside the state, and `bTrigger` is not read. -/
def researchResult (researchIndex player : Nat) (psResearchFacility : Option (Nat × Nat))
    (w : World) : Option World :=
  if ¬ researchIndex < w.asResearch.length then some w
  else if ¬ player < w.MAX_PLAYERS then some w
  else
    match w.asResearch[researchIndex]? with
    | none => none
    | some pResearch =>
      (((((((completeStatus researchIndex player w).bind
        (structureResults pResearch player)).bind
        (redStructs pResearch player)).bind
        (componentReplacements pResearch player)).bind
        (componentResults pResearch player)).bind
        (redArtefacts pResearch player)).bind
        (clearSubject psResearchFacility)).bind
        (handleUpgrades pResearch player)

/-! ## Status changes and commands on a research facility -/

/-- Modelled from the spec: `MakeResearchPossible` is declared in research.h, which is not among
the sources.  It sets the `possible` mark. -/
def MakeResearchPossible (x : PLAYER_RESEARCH) : PLAYER_RESEARCH :=
  { x with possible := true }

/-- Modelled from the spec: `MakeResearchCancelled` is declared in research.h, which is not
among the sources.  The status becomes Cancelled in both views. -/
def MakeResearchCancelled (x : PLAYER_RESEARCH) : PLAYER_RESEARCH :=
  { x with started := false, startedPending := false, cancelled := true,
           cancelledPending := true, completed := false }

/-- Modelled from the spec: `MakeResearchCancelledPending` is declared in research.h, which is
not among the sources.  The queued view becomes Cancelled; the immediate view stays. -/
def MakeResearchCancelledPending (x : PLAYER_RESEARCH) : PLAYER_RESEARCH :=
  { x with startedPending := false, cancelledPending := true }

/-- Modelled from the spec: `ResetResearchStatus` is declared in research.h, which is not among
the sources.  The status becomes NotStarted in both views; the points, the `possible` mark and
the disabled mark stay. -/
def ResetResearchStatus (x : PLAYER_RESEARCH) : PLAYER_RESEARCH :=
  { x with started := false, startedPending := false, cancelled := false,
           cancelledPending := false, completed := false }

/-- Modelled from the spec: `DisableResearch` is declared in research.h, which is not among the
sources.  It sets the disabled mark. -/
def DisableResearch (x : PLAYER_RESEARCH) : PLAYER_RESEARCH :=
  { x with disabled := true }

/-- Modelled from the spec: `setStatusPendingHold` is declared in a header that is not among
the sources.  It keeps the request. -/
def setStatusPendingHold (psResFac : RESEARCH_FACILITY) : RESEARCH_FACILITY :=
  { psResFac with statusPending := some PendingRequest.hold }

/-- Modelled from the spec: `setStatusPendingRelease` is declared in a header that is not among
the sources.  It keeps the request. -/
def setStatusPendingRelease (psResFac : RESEARCH_FACILITY) : RESEARCH_FACILITY :=
  { psResFac with statusPending := some PendingRequest.release }

/-- Modelled from the spec: `setStatusPendingCancel` is declared in a header that is not among
the sources.  It keeps the request. -/
def setStatusPendingCancel (psResFac : RESEARCH_FACILITY) : RESEARCH_FACILITY :=
  { psResFac with statusPending := some PendingRequest.cancel }

/-- The structure that a pointer `psBuilding` addresses: the pointer is given by the player
whose list holds the structure and the place in that list. -/
def getStructure (w : World) (psBuilding : Nat × Nat) : Option STRUCTURE :=
  (w.apsStructLists[psBuilding.1]?).bind (fun l => l[psBuilding.2]?)

/-- A write to the research facility data of the structure that `psBuilding` addresses. -/
def setFacility (psBuilding : Nat × Nat) (psResFac : RESEARCH_FACILITY) (w : World) :
    Option World :=
  match modifyAt (modifyAt (fun psStruct =>
      some { psStruct with pFunctionality := FUNCTIONALITY.researchFacility psResFac })
      psBuilding.2) psBuilding.1 w.apsStructLists with
  | none => none
  | some lists => some { w with apsStructLists := lists }

/-- `holdResearch`; `gameTime` is the game clock at the call. -/
def holdResearch (psBuilding : Nat × Nat) (mode : QUEUE_MODE) (gameTime : Nat) (w : World) :
    Option World :=
  match getStructure w psBuilding with
  | none => none
  | some psStruct =>
    if psStruct.pStructureType ≠ STRUCTURE_TYPE.REF_RESEARCH then some w
    else
      match psStruct.pFunctionality with
      | FUNCTIONALITY.researchFacility psResFac =>
        if mode = QUEUE_MODE.ModeQueue then
          setFacility psBuilding (setStatusPendingHold psResFac) w
        else if psResFac.psSubject.isSome then
          setFacility psBuilding { psResFac with timeStartHold := gameTime } w
        else some w
      | _ => none

/-- `releaseResearch`. -/
def releaseResearch (psBuilding : Nat × Nat) (mode : QUEUE_MODE) (w : World) : Option World :=
  match getStructure w psBuilding with
  | none => none
  | some psStruct =>
    if psStruct.pStructureType ≠ STRUCTURE_TYPE.REF_RESEARCH then some w
    else
      match psStruct.pFunctionality with
      | FUNCTIONALITY.researchFacility psResFac =>
        if mode = QUEUE_MODE.ModeQueue then
          setFacility psBuilding (setStatusPendingRelease psResFac) w
        else if psResFac.psSubject.isSome ∧ psResFac.timeStartHold ≠ 0 then
          setFacility psBuilding { psResFac with timeStartHold := 0 } w
        else some w
      | _ => none

/-- A write through `pPlayerRes = &asPlayerResList[player][topicInc]`. -/
def setStatus (f : PLAYER_RESEARCH → PLAYER_RESEARCH) (player topicInc : Nat) (w : World) :
    Option World :=
  match modifyAt (modifyAt (fun x => some (f x)) topicInc) player w.asPlayerResList with
  | none => none
  | some lists => some { w with asPlayerResList := lists }

/-- `cancelResearch`.  The topic index is the `index` field of the subject. -/
def cancelResearch (psBuilding : Nat × Nat) (mode : QUEUE_MODE) (w : World) : Option World :=
  match getStructure w psBuilding with
  | none => none
  | some psStruct =>
    if psStruct.pStructureType ≠ STRUCTURE_TYPE.REF_RESEARCH then some w
    else
      match psStruct.pFunctionality with
      | FUNCTIONALITY.researchFacility psResFac =>
        match psResFac.psSubject with
        | none => some w
        | some psSubject =>
          match w.asResearch[psSubject]? with
          | none => none
          | some subject =>
            let topicInc := subject.index
            if ¬ topicInc ≤ w.asResearch.length then some w
            else
              match playerResearch w.asPlayerResList psStruct.player topicInc with
              | none => none
              | some pPlayerRes =>
                if mode = QUEUE_MODE.ModeQueue then
                  (setStatus MakeResearchCancelledPending psStruct.player topicInc w).bind
                    (setFacility psBuilding (setStatusPendingCancel psResFac))
                else
                  (setStatus
                    (if pPlayerRes.currentPoints = 0 then ResetResearchStatus
                      else MakeResearchCancelled) psStruct.player topicInc w).bind
                    (setFacility psBuilding { psResFac with psSubject := none })
      | _ => none

/-- `CancelAllResearch`: the loop runs over the places of the player's structure list. -/
def CancelAllResearch (pl : Nat) (w : World) : Option World :=
  if pl ≥ w.MAX_PLAYERS then some w
  else
    match w.apsStructLists[pl]? with
    | none => none
    | some structs =>
      forEachM (fun place w0 =>
        match getStructure w0 (pl, place) with
        | none => none
        | some psCurr =>
          if psCurr.pStructureType = STRUCTURE_TYPE.REF_RESEARCH then
            match psCurr.pFunctionality with
            | FUNCTIONALITY.researchFacility psResFac =>
              if psResFac.psSubject.isSome then cancelResearch (pl, place) QUEUE_MODE.ModeQueue w0
              else some w0
            | _ => none
          else some w0) (List.range structs.length) w

/-- `enableResearch`; the Boolean is the value returned.  A null pointer is `none`. -/
def enableResearch (psResearch : Option RESEARCH) (player : Nat) (w : World) :
    Option (Bool × World) :=
  match psResearch with
  | none => some (false, w)
  | some research =>
    if ¬ player < w.MAX_PLAYERS then some (false, w)
    else
      let inc := research.index
      if inc > w.asResearch.length then some (false, w)
      else
        match setStatus MakeResearchPossible player inc w with
        | none => none
        | some w1 => some (true, w1)

/-- The loop of `researchReward` over the structures of the losing player; the state is
`(researchPoints, rewardID)`. -/
def rewardScan (w : World) (rewardPlayer : Nat) :
    List STRUCTURE → Nat × Nat → Option (Nat × Nat)
  | [], best => some best
  | psStruct :: rest, (researchPoints, rewardID) =>
    if psStruct.pStructureType = STRUCTURE_TYPE.REF_RESEARCH then
      match psStruct.pFunctionality with
      | FUNCTIONALITY.researchFacility psFacility =>
        match psFacility.psBestTopic with
        | none => rewardScan w rewardPlayer rest (researchPoints, rewardID)
        | some psBestTopic =>
          match w.asResearch[psBestTopic]? with
          | none => none
          | some best =>
            let topicIndex := (best.ref + 4294967296 - w.STAT_RESEARCH % 4294967296) % 4294967296
            if topicIndex = 0 then rewardScan w rewardPlayer rest (researchPoints, rewardID)
            else
              match playerResearch w.asPlayerResList rewardPlayer topicIndex with
              | none => none
              | some x =>
                if IsResearchCompleted x then
                  rewardScan w rewardPlayer rest (researchPoints, rewardID)
                else
                  match w.asResearch[topicIndex]? with
                  | none => none
                  | some topic =>
                    if researchPoints < topic.researchPoints then
                      rewardScan w rewardPlayer rest (topic.researchPoints, topicIndex)
                    else rewardScan w rewardPlayer rest (researchPoints, rewardID)
      | _ => none
    else rewardScan w rewardPlayer rest (researchPoints, rewardID)

/-- `researchReward`. -/
def researchReward (losingPlayer rewardPlayer : Nat) (w : World) : Option World :=
  match w.apsStructLists[losingPlayer]? with
  | none => none
  | some structs =>
    match rewardScan w rewardPlayer structs (0, 0) with
    | none => none
    | some (_, rewardID) =>
      if rewardID ≠ 0 then researchResult rewardID rewardPlayer none w else some w

/-- `ResearchRelease`. -/
def ResearchRelease (w : World) : World :=
  { w with
    asResearch := []
    asPlayerResList := w.asPlayerResList.map (fun _ => [])
    upgrades :=
      { cachedStatsObject := []
        cachedPerPlayerUpgrades := []
        cachedPerPlayerRawUpgradeChange :=
          w.upgrades.cachedPerPlayerRawUpgradeChange.map (fun _ => [])
        playerUpgradeCounts := List.replicate w.MAX_PLAYERS {}
        researchUpgradeCalcMode := none } }

/-- `researchInitVars`, on the globals of the world; the four arrays have `MAX_PLAYERS`
entries. -/
def researchInitVars (w : World) : World :=
  { w with
    asResearch := []
    upgrades :=
      { w.upgrades with
        cachedStatsObject := []
        cachedPerPlayerUpgrades := []
        playerUpgradeCounts := List.replicate w.MAX_PLAYERS {}
        researchUpgradeCalcMode := none }
    bSelfRepair := List.replicate w.MAX_PLAYERS false
    aDefaultSensor := List.replicate w.MAX_PLAYERS 0
    aDefaultECM := List.replicate w.MAX_PLAYERS 0
    aDefaultRepair := List.replicate w.MAX_PLAYERS 0 }

/-! ## Recursive disable -/

/-- The loop `for (player < MAX_PLAYERS) DisableResearch(&asPlayerResList[player][index])`. -/
def disableForPlayers (MAX_PLAYERS index : Nat) (asPlayerResList : List (List PLAYER_RESEARCH)) :
    Option (List (List PLAYER_RESEARCH)) :=
  forEachM (fun player table =>
    modifyAt (modifyAt (fun x => some (DisableResearch x)) index) player table)
    (List.range MAX_PLAYERS) asPlayerResList

/-- `RecursivelyDisableResearchByID`, as a function of the status table; `fuel` bounds the depth
of the recursion, and there is no result when it is used up. -/
def RecursivelyDisableResearchByID (asResearch : List RESEARCH) (MAX_PLAYERS : Nat) :
    Nat → Nat → List (List PLAYER_RESEARCH) → Option (List (List PLAYER_RESEARCH))
  | 0, _, _ => none
  | fuel + 1, index, asPlayerResList =>
    match playerResearch asPlayerResList 0 index with
    | none => none
    | some x =>
      if IsResearchDisabled x then some asPlayerResList
      else
        match disableForPlayers MAX_PLAYERS index asPlayerResList with
        | none => none
        | some table1 =>
          forEachM (fun inc table2 =>
            match asResearch[inc]? with
            | none => none
            | some research =>
              forEachM (fun prereq table3 =>
                if prereq = index then
                  RecursivelyDisableResearchByID asResearch MAX_PLAYERS fuel inc table3
                else some table3) research.pPRList table2)
            (List.range asResearch.length) table1

/-- `RecursivelyDisableResearchByFlags`, as a function of the status table; every call of
`RecursivelyDisableResearchByID` gets the depth `fuel`. -/
def RecursivelyDisableResearchByFlags (asResearch : List RESEARCH) (MAX_PLAYERS fuel flags : Nat)
    (asPlayerResList : List (List PLAYER_RESEARCH)) : Option (List (List PLAYER_RESEARCH)) :=
  forEachM (fun inc table =>
    match asResearch[inc]? with
    | none => none
    | some research =>
      if research.disabledWhen &&& flags ≠ 0 then
        RecursivelyDisableResearchByID asResearch MAX_PLAYERS fuel inc table
      else some table) (List.range asResearch.length) asPlayerResList

/-! ## Research operations -/

/-- A call of one of the operations of research.cpp that change the state. -/
inductive ResearchOp where
  | researchResult (researchIndex player : Nat) (psResearchFacility : Option (Nat × Nat))
  | enableResearch (psResearch : Option RESEARCH) (player : Nat)
  | cancelResearch (psBuilding : Nat × Nat) (mode : QUEUE_MODE)
  | holdResearch (psBuilding : Nat × Nat) (mode : QUEUE_MODE) (gameTime : Nat)
  | releaseResearch (psBuilding : Nat × Nat) (mode : QUEUE_MODE)
  | CancelAllResearch (pl : Nat)
  | RecursivelyDisableResearchByID (fuel index : Nat)
  | RecursivelyDisableResearchByFlags (fuel flags : Nat)
  | researchReward (losingPlayer rewardPlayer : Nat)
  | ResearchRelease

/-- The state after an operation. -/
def runOp : ResearchOp → World → Option World
  | ResearchOp.researchResult researchIndex player psResearchFacility, w =>
    researchResult researchIndex player psResearchFacility w
  | ResearchOp.enableResearch psResearch player, w =>
    (enableResearch psResearch player w).map Prod.snd
  | ResearchOp.cancelResearch psBuilding mode, w => cancelResearch psBuilding mode w
  | ResearchOp.holdResearch psBuilding mode gameTime, w => holdResearch psBuilding mode gameTime w
  | ResearchOp.releaseResearch psBuilding mode, w => releaseResearch psBuilding mode w
  | ResearchOp.CancelAllResearch pl, w => CancelAllResearch pl w
  | ResearchOp.RecursivelyDisableResearchByID fuel index, w =>
    (RecursivelyDisableResearchByID w.asResearch w.MAX_PLAYERS fuel index w.asPlayerResList).map
      (fun table => { w with asPlayerResList := table })
  | ResearchOp.RecursivelyDisableResearchByFlags fuel flags, w =>
    (RecursivelyDisableResearchByFlags w.asResearch w.MAX_PLAYERS fuel flags
      w.asPlayerResList).map (fun table => { w with asPlayerResList := table })
  | ResearchOp.researchReward losingPlayer rewardPlayer, w =>
    researchReward losingPlayer rewardPlayer w
  | ResearchOp.ResearchRelease, w => some (ResearchRelease w)

/-- The state after a sequence of operations. -/
def runOps (ops : List ResearchOp) (w : World) : Option World :=
  forEachM runOp ops w

/-! ## Example stores -/

/-- A topic with the given prerequisite list and category. -/
def mkTopic (reqs : List Nat) (cat : String) : RESEARCH :=
  { pPRList := reqs, category := cat }

/-- A requires B, B requires C, C requires A. -/
def ringIni : List ResearchGroup :=
  [{ key := "A", requiredResearch := ["B"] }, { key := "B", requiredResearch := ["C"] },
   { key := "C", requiredResearch := ["A"] }]

/-- The topic store that `loadResearch` has built from `ringIni` when it checks for cycles. -/
def ringStore : List RESEARCH :=
  [{ id := "A", index := 0, ref := 0, pPRList := [1] }, { id := "B", index := 1, ref := 1, pPRList := [2] },
   { id := "C", index := 2, ref := 2, pPRList := [0] }]

/-- Topic 0 requires topic 1; topics 1 and 2 require each other. -/
def lassoStore : List RESEARCH :=
  [mkTopic [1] "", mkTopic [2] "", mkTopic [1] ""]

/-- Topic 0 requires topic 1, which requires topic 2. -/
def chainStore : List RESEARCH :=
  [mkTopic [1] "", mkTopic [2] "", mkTopic [] ""]

/-- Category X with A, B requiring A, C requiring B; D has no category. -/
def chainIni : List ResearchGroup :=
  [{ key := "A", category := "X" }, { key := "B", category := "X", requiredResearch := ["A"] },
   { key := "C", category := "X", requiredResearch := ["B"] }, { key := "D" }]

/-- The globals after `loadResearch` on `chainIni` from an empty store. -/
def chainLoaded : ResearchStore :=
  { asResearch :=
      [{ id := "A", index := 0, ref := 0, category := "X", categoryProgress := 1, categoryMax := 3 },
       { id := "B", index := 1, ref := 1, category := "X", pPRList := [0], categoryProgress := 2,
         categoryMax := 3 },
       { id := "C", index := 2, ref := 2, category := "X", pPRList := [1], categoryProgress := 3,
         categoryMax := 3 },
       { id := "D", index := 3, ref := 3 }]
    researchUpgradeCalcMode := some ResearchUpgradeCalculationMode.Compat }

/-- Category X with four topics; B, the second, requires D, the fourth. -/
def lateIni : List ResearchGroup :=
  [{ key := "A", category := "X" }, { key := "B", category := "X", requiredResearch := ["D"] },
   { key := "C", category := "X" }, { key := "D", category := "X" }]

/-- The globals after `loadResearch` on `lateIni` from an empty store. -/
def lateLoaded : ResearchStore :=
  { asResearch :=
      [{ id := "A", index := 0, ref := 0, category := "X", categoryProgress := 1, categoryMax := 4 },
       { id := "B", index := 1, ref := 1, category := "X", pPRList := [3], categoryProgress := 2,
         categoryMax := 4 },
       { id := "C", index := 2, ref := 2, category := "X", categoryProgress := 3, categoryMax := 4 },
       { id := "D", index := 3, ref := 3, category := "X", categoryProgress := 4, categoryMax := 4 }]
    researchUpgradeCalcMode := some ResearchUpgradeCalculationMode.Compat }

/-- A two-player multiplayer game with two topics, the first requiring the second, whose
status records for player 0 are `x0` and `x1`.  All structures exist, no facility is at work. -/
def twoTopicGame (x0 x1 : PLAYER_RESEARCH) : Game :=
  { MAX_PLAYERS := 2
    bMultiPlayer := true
    asResearch := [mkTopic [1] "", mkTopic [] ""]
    asPlayerResList := [[x0, x1], [{}, {}]]
    findResearchingFacilityByResearchIndex := fun _ _ => none
    checkSpecificStructExists := fun _ _ => true }

/-- A single-player game with one key topic that has no prerequisites and requires a structure
that the player does not have; `x` is the status record of player 0. -/
def keyTopicGame (x : PLAYER_RESEARCH) : Game :=
  { MAX_PLAYERS := 1
    bMultiPlayer := false
    asResearch := [{ keyTopic := 1, pStructList := [5] }]
    asPlayerResList := [[x]]
    findResearchingFacilityByResearchIndex := fun _ _ => none
    checkSpecificStructExists := fun _ _ => false }

/-- The overlay of a component whose parameter "p" holds the signed integer `c`. -/
def overlayOf (c : Int) : JsonObject :=
  [("p", Json.atom (JsonAtom.int c))]

/-- A topic with one result record: 10 percent on parameter "p" of every "Building". -/
def upgradeTopic : RESEARCH :=
  { id := "R-Struc-Materials01"
    results := [[("class", Json.atom (JsonAtom.str "Building")),
                 ("parameter", Json.atom (JsonAtom.str "p")),
                 ("value", Json.atom (JsonAtom.int 10))]] }

/-- One player with status `x` of the topic `upgradeTopic`, and one building "A0Wall" with base
value 100 of "p" and the overlay value `c`, in Compat mode. -/
def upgradeWorld (c : Int) (x : PLAYER_RESEARCH) : World :=
  { MAX_PLAYERS := 1
    asResearch := [upgradeTopic]
    asPlayerResList := [[x]]
    upgrades :=
      { cachedStatsObject := [("Building", [("A0Wall", overlayOf 100)])]
        cachedPerPlayerUpgrades := [[("Building", [("A0Wall", overlayOf c)])]]
        cachedPerPlayerRawUpgradeChange := [[]]
        playerUpgradeCounts := [{}]
        researchUpgradeCalcMode := some ResearchUpgradeCalculationMode.Compat } }

/-- A topic that unlocks structure type 0 and weapon 0, and also retires structure type 0 and
replaces weapon 0 by weapon 1. -/
def unlockAndRetireTopic : RESEARCH :=
  { id := "R-Wpn-MG1Mk1"
    pStructureResults := [0]
    pRedStructs := [0]
    componentResults := [{ compType := COMPONENT_TYPE.COMP_WEAPON, index := 0 }]
    componentReplacement :=
      [{ pOldComponent := { compType := COMPONENT_TYPE.COMP_WEAPON, index := 0 }
         pNewComponent := { compType := COMPONENT_TYPE.COMP_WEAPON, index := 1 } }] }

/-- A topic that unlocks structure type 0 and weapon 0. -/
def unlockTopic : RESEARCH :=
  { id := "R-Wpn-MG1Mk1"
    pStructureResults := [0]
    componentResults := [{ compType := COMPONENT_TYPE.COMP_WEAPON, index := 0 }] }

/-- One player without droids, templates or structures, one topic, one structure type in state
`structState` and two weapons, the first in state `weaponState`. -/
def unlockWorld (topic : RESEARCH) (x : PLAYER_RESEARCH) (structState weaponState : COMPONENT_STATE) :
    World :=
  { MAX_PLAYERS := 1
    asResearch := [topic]
    asPlayerResList := [[x]]
    apStructTypeLists := [[structState]]
    apCompLists := [[[], [], [], [], [], [], [], [weaponState, COMPONENT_STATE.UNAVAILABLE]]]
    aDefaultSensor := [0]
    aDefaultECM := [0]
    aDefaultRepair := [0]
    bSelfRepair := [false]
    apsDroidLists := [[]]
    missionDroidLists := [[]]
    apsLimboDroids := [[]]
    templates := [[]]
    apsStructLists := [[]]
    missionStructLists := [[]] }

/-- A topic that retires structure type 0 and replaces weapon 0 by weapon 1. -/
def retireTopic : RESEARCH :=
  { id := "R-Wpn-MG1Mk1"
    pRedStructs := [0]
    componentReplacement :=
      [{ pOldComponent := { compType := COMPONENT_TYPE.COMP_WEAPON, index := 0 }
         pNewComponent := { compType := COMPONENT_TYPE.COMP_WEAPON, index := 1 } }] }

/-- A topic that replaces weapon 2 by weapon 3. -/
def replaceWeaponTopic : RESEARCH :=
  { id := "R-Wpn-MG2Mk1"
    componentReplacement :=
      [{ pOldComponent := { compType := COMPONENT_TYPE.COMP_WEAPON, index := 2 }
         pNewComponent := { compType := COMPONENT_TYPE.COMP_WEAPON, index := 3 } }] }

/-- A topic whose replacement pair names weapon 2 as the old and body 1 as the new component. -/
def mismatchedTopic : RESEARCH :=
  { id := "R-Wpn-MG2Mk1"
    componentReplacement :=
      [{ pOldComponent := { compType := COMPONENT_TYPE.COMP_WEAPON, index := 2 }
         pNewComponent := { compType := COMPONENT_TYPE.COMP_BODY, index := 1 } }] }

/-- A droid with the given weapons and component 0 in every other slot. -/
def armedDroid (asWeaps : List Nat) : ListedDroid :=
  { droid := { asBits := [0, 0, 0, 0, 0, 0, 0], asWeaps := asWeaps } }

/-- One player with one topic in status `x`, two bodies, four weapons of which weapon 2 is in
state `oldState`, the droids `droids` and one template with the weapons `templateWeaps`. -/
def droidWorld (topic : RESEARCH) (x : PLAYER_RESEARCH) (oldState : COMPONENT_STATE)
    (droids : List ListedDroid) (templateWeaps : List Nat) : World :=
  { MAX_PLAYERS := 1
    asResearch := [topic]
    asPlayerResList := [[x]]
    apStructTypeLists := [[]]
    apCompLists :=
      [[[COMPONENT_STATE.AVAILABLE, COMPONENT_STATE.AVAILABLE], [], [], [], [], [], [],
        [COMPONENT_STATE.AVAILABLE, COMPONENT_STATE.AVAILABLE, oldState,
         COMPONENT_STATE.AVAILABLE]]]
    aDefaultSensor := [0]
    aDefaultECM := [0]
    aDefaultRepair := [0]
    bSelfRepair := [false]
    apsDroidLists := [droids]
    missionDroidLists := [[]]
    apsLimboDroids := [[]]
    templates :=
      [[{ asParts := [0, 0, 0, 0, 0, 0, 0], numWeaps := templateWeaps.length,
          asWeaps := templateWeaps }]]
    apsStructLists := [[]]
    missionStructLists := [[]] }

/-- A topic whose result is the default-location repair unit 0. -/
def repairTopic : RESEARCH :=
  { id := "R-Sys-Autorepair-General"
    componentResults :=
      [{ compType := COMPONENT_TYPE.COMP_REPAIRUNIT, index := 0, location := LOC.LOC_DEFAULT }] }

/-- Two players, the topic `repairTopic` in status `x` for player 0, one repair unit in state
`repairState` for player 0, and the self-repair flags `flags`. -/
def repairWorld (x : PLAYER_RESEARCH) (repairState : COMPONENT_STATE) (flags : List Bool) :
    World :=
  { MAX_PLAYERS := 2
    asResearch := [repairTopic]
    asPlayerResList := [[x], [{}]]
    apStructTypeLists := [[], []]
    apCompLists := [[[], [], [], [repairState], [], [], [], []], [[], [], [], [], [], [], [], []]]
    aDefaultSensor := [0, 0]
    aDefaultECM := [0, 0]
    aDefaultRepair := [0, 0]
    bSelfRepair := flags
    apsDroidLists := [[], []]
    missionDroidLists := [[], []]
    apsLimboDroids := [[], []]
    templates := [[], []]
    apsStructLists := [[], []]
    missionStructLists := [[], []] }

/-- One player with one topic in status `x` and one research facility `psResFac`. -/
def facilityWorld (x : PLAYER_RESEARCH) (psResFac : RESEARCH_FACILITY) : World :=
  { MAX_PLAYERS := 1
    asResearch := [{ id := "R-Vehicle-Prop-Wheels", index := 0 }]
    asPlayerResList := [[x]]
    apsStructLists :=
      [[{ status := STRUCT_STATES.SS_BUILT, player := 0
          pStructureType := STRUCTURE_TYPE.REF_RESEARCH
          pFunctionality := FUNCTIONALITY.researchFacility psResFac }]] }

/-- Topic 0 is disabled under flag 1, topic 1 requires topic 0, topic 2 stands alone. -/
def flagStore : List RESEARCH :=
  [{ id := "A", index := 0, disabledWhen := 1 }, { id := "B", index := 1, pPRList := [0] },
   { id := "C", index := 2 }]

/-- The status table of two players and three topics with the statuses `a`, `b`, `c` for both
players. -/
def uniformTable (a b c : PLAYER_RESEARCH) : List (List PLAYER_RESEARCH) :=
  [[a, b, c], [a, b, c]]

/-- One topic, whose only required topic "Z" is no topic of the file. -/
def danglingIni : List ResearchGroup :=
  [{ key := "A", requiredResearch := ["Z"] }]

/-- Topic A, topic B requiring A and an unknown name, and the `_config_` group last. -/
def configLastIni : List ResearchGroup :=
  [{ key := "A" }, { key := "B", requiredResearch := ["A", "Z"] },
   { key := "_config_", calculationMode := "improved" }]

/-- The globals after `loadResearch` on `configLastIni` from an empty store of two players. -/
def configLastLoaded : ResearchStore :=
  { asResearch := [{ id := "A", index := 0, ref := 0 },
                   { id := "B", index := 1, ref := 1, pPRList := [0] }]
    asPlayerResList := [[{}, {}], [{}, {}]]
    researchUpgradeCalcMode := some ResearchUpgradeCalculationMode.Improved }

/-- The `_config_` group first, then topic A. -/
def configFirstIni : List ResearchGroup :=
  [{ key := "_config_" }, { key := "A" }]

/-- Two players and four topics of research-point cost 10, 0, 5 and 5; player 0 has the
statuses `row`, player 1 owns one research facility for each entry of `bests`, with that entry as
its best topic. -/
def rewardWorld (row : List PLAYER_RESEARCH) (bests : List (Option Nat)) : World :=
  { MAX_PLAYERS := 2
    asResearch := [{ id := "A", index := 0, ref := 0, researchPoints := 10 },
                   { id := "B", index := 1, ref := 1, researchPoints := 0 },
                   { id := "C", index := 2, ref := 2, researchPoints := 5 },
                   { id := "D", index := 3, ref := 3, researchPoints := 5 }]
    asPlayerResList := [row, [{}, {}, {}, {}]]
    apStructTypeLists := [[], []]
    apCompLists := [[[], [], [], [], [], [], [], []], [[], [], [], [], [], [], [], []]]
    aDefaultSensor := [0, 0]
    aDefaultECM := [0, 0]
    aDefaultRepair := [0, 0]
    bSelfRepair := [false, false]
    apsDroidLists := [[], []]
    missionDroidLists := [[], []]
    apsLimboDroids := [[], []]
    templates := [[], []]
    apsStructLists := [[], bests.map (fun b =>
      { status := STRUCT_STATES.SS_BUILT, player := 1
        pStructureType := STRUCTURE_TYPE.REF_RESEARCH
        pFunctionality := FUNCTIONALITY.researchFacility { psBestTopic := b } })]
    missionStructLists := [[], []] }

/-- Base stats of three weapons, two of impact class "KINETIC" and one of impact class "HEAT",
and of one body of body class "Tanks"; overlays of two players; the counters of player 0 hold 3
for "KINETIC". -/
def weaponUpgrades (damage1 damage2 damage3 armour : Int) (ranks : List JsonAtom)
    (counts : PlayerUpgradeCounts) : UpgradeState :=
  { cachedStatsObject :=
      [("Weapon",
        [("MG1", [("Damage", Json.atom (JsonAtom.int 10)),
                  ("ImpactClass", Json.atom (JsonAtom.str "KINETIC")),
                  ("Ranks", Json.array [JsonAtom.int 1, JsonAtom.int 2])]),
         ("MG2", [("Damage", Json.atom (JsonAtom.int 20)),
                  ("ImpactClass", Json.atom (JsonAtom.str "KINETIC"))]),
         ("Flamer", [("Damage", Json.atom (JsonAtom.int 12)),
                     ("ImpactClass", Json.atom (JsonAtom.str "HEAT"))])]),
       ("Body",
        [("Viper", [("Armour", Json.atom (JsonAtom.int 10)),
                    ("Thermal", Json.atom (JsonAtom.int 4)),
                    ("BodyClass", Json.atom (JsonAtom.str "Tanks"))])])]
    cachedPerPlayerUpgrades :=
      [[("Weapon",
          [("MG1", [("Damage", Json.atom (JsonAtom.int damage1)), ("Ranks", Json.array ranks)]),
           ("MG2", [("Damage", Json.atom (JsonAtom.int damage2))]),
           ("Flamer", [("Damage", Json.atom (JsonAtom.int damage3))])]),
        ("Body",
          [("Viper", [("Armour", Json.atom (JsonAtom.int armour)),
                      ("Thermal", Json.atom (JsonAtom.int 4))])])],
       [("Weapon", [("MG1", [("Damage", Json.atom (JsonAtom.int 10))])])]]
    cachedPerPlayerRawUpgradeChange := [[], []]
    playerUpgradeCounts := [counts, { numWeaponImpactClassUpgrades := [("KINETIC", 7)] }]
    researchUpgradeCalcMode := some ResearchUpgradeCalculationMode.Compat }

/-- A topic with four result records: 25 percent on "Damage" of the weapons of impact class
"KINETIC", 10 percent on "Damage" of every weapon, 50 percent on the array "Ranks" of the weapons,
and 5 percent on "Armour" of every body. -/
def weaponTopic : RESEARCH :=
  { id := "R-Wpn-MG-Damage01"
    results :=
      [[("class", Json.atom (JsonAtom.str "Weapon")),
        ("parameter", Json.atom (JsonAtom.str "Damage")),
        ("value", Json.atom (JsonAtom.int 25)),
        ("filterParameter", Json.atom (JsonAtom.str "ImpactClass")),
        ("filterValue", Json.atom (JsonAtom.str "KINETIC"))],
       [("class", Json.atom (JsonAtom.str "Weapon")),
        ("parameter", Json.atom (JsonAtom.str "Damage")),
        ("value", Json.atom (JsonAtom.int 10))],
       [("class", Json.atom (JsonAtom.str "Weapon")),
        ("parameter", Json.atom (JsonAtom.str "Ranks")),
        ("value", Json.atom (JsonAtom.int 50))],
       [("class", Json.atom (JsonAtom.str "Body")),
        ("parameter", Json.atom (JsonAtom.str "Armour")),
        ("value", Json.atom (JsonAtom.int 5))]] }

/-- Every finished topic is well founded in the relation "is a prerequisite of". -/
def Settled (asResearch : List RESEARCH) (d : CycleDetection) : Prop :=
  ∀ v ∈ d.visited, Acc (Function.swap (Requires asResearch)) v

/-- What `explore` promises when it finds no path from `x`. -/
def NoneOK (asResearch : List RESEARCH) (d : CycleDetection) (x : Nat) (d' : CycleDetection) :
    Prop :=
  d'.exploring = d.exploring ∧ x ∈ d'.visited ∧ d.visited ⊆ d'.visited ∧
    (Settled asResearch d → Settled asResearch d')

/-- What `explore` promises about a path found from `x`: it starts at `x`, follows prerequisite
edges, and ends at a topic that was in progress or lies earlier on the path. -/
def PathOK (asResearch : List RESEARCH) (E : List Nat) (x : Nat) (path : List Nat) : Prop :=
  ∃ init c, path = init ++ [c] ∧ (c ∈ E ∨ c ∈ init) ∧
    List.Chain' (Requires asResearch) path ∧ path.head? = some x

def ExploreSpec (asResearch : List RESEARCH) (f : CycleDetection → Nat → ExploreResult) : Prop :=
  (∀ d x d', f d x = some (d', none) → NoneOK asResearch d x d') ∧
  (∀ d x d' path, f d x = some (d', some path) → PathOK asResearch d.exploring x path)

/-- Topic `a` is reached from `v` by one or more prerequisite edges. -/
def Reaches (asResearch : List RESEARCH) (v a : Nat) : Prop :=
  Relation.TransGen (Requires asResearch) v a

/-- How `prereqLoop` works off a segment `l` on top of its stack: when some topic of `l` reaches
`a` the answer is `true` for every fuel from `N` on, otherwise exactly `N` iterations remove the
segment. -/
def SegProp (asResearch : List RESEARCH) (a : Nat) (l : List Nat) : Prop :=
  ∃ N, ((∃ x ∈ l, Reaches asResearch x a) → ∀ stack fuel, N ≤ fuel →
          prereqLoop asResearch a fuel (l ++ stack) = some true) ∧
       ((∀ x ∈ l, ¬ Reaches asResearch x a) → ∀ stack fuel,
          prereqLoop asResearch a (fuel + N) (l ++ stack) = prereqLoop asResearch a fuel stack)

/-- Topic `i` exists and has category `cat`. -/
def inCategory (asResearch : List RESEARCH) (cat : String) (i : Nat) : Bool :=
  decide ((asResearch[i]?).map (·.category) = some cat)

/-- The indices of the topics of category `cat`, in ascending order. -/
def membersOf (asResearch : List RESEARCH) (cat : String) : List Nat :=
  (List.range asResearch.length).filter (inCategory asResearch cat)

/-- The rank of topic `i`, when there is such a topic. -/
def rankOf (asResearch : List RESEARCH) (i : Nat) : Option Nat :=
  (asResearch[i]?).map (·.categoryProgress)

/-- The category size recorded for topic `i`, when there is such a topic. -/
def maxOf (asResearch : List RESEARCH) (i : Nat) : Option Nat :=
  (asResearch[i]?).map (·.categoryMax)

/-- A topic with its two rank fields blanked: what the category pass leaves alone. -/
def clearRank (r : RESEARCH) : RESEARCH :=
  { r with categoryProgress := 0, categoryMax := 0 }

/-- State of `resCategories` after the topics below `k` have been filed: one entry per
non-empty category met, holding exactly the indices below `k` of that category. -/
def CatInv (asResearch : List RESEARCH) (k : Nat) (cats : List (String × List Nat)) : Prop :=
  (cats.map Prod.fst).Nodup ∧
  (∀ e ∈ cats, e.1 ≠ "" ∧ e.2 = (List.range k).filter (inCategory asResearch e.1)) ∧
  (∀ i < k, ∀ r, asResearch[i]? = some r → r.category ≠ "" → r.category ∈ cats.map Prod.fst)

/-- Topic `i` is the forced topic or is available to the player in `ModeQueue`. -/
def isListed (g : Game) (playerID : Nat) (topic : Option Nat) (i : Nat) : Bool :=
  decide (topic = some i) || (researchAvailable g i playerID QUEUE_MODE.ModeQueue == some true)

/-- The ascending list of the topic indices that are forced or available. -/
def listedTopics (g : Game) (playerID : Nat) (topic : Option Nat) : List Nat :=
  (List.range g.asResearch.length).filter (isListed g playerID topic)

/-- `researchAvailable` in `ModeQueue` has a result for every topic but the forced one. -/
def AvailabilityDefined (g : Game) (playerID : Nat) (topic : Option Nat) : Prop :=
  ∀ i, i < g.asResearch.length → topic ≠ some i →
    ∃ b, researchAvailable g i playerID QUEUE_MODE.ModeQueue = some b

/-- The ceiling of the exact ratio `s / 100`. -/
def specCeil (s : Int) : Int :=
  ⌈(s : ℚ) / 100⌉

/-- The floor of the exact ratio `s / 100`. -/
def specFloor (s : Int) : Int :=
  ⌊(s : ℚ) / 100⌋

/-- The delta of the spec for base `b` and percentage `v`: `ceil(b*v/100)` when `v >= 0`,
`floor(b*v/100)` when `v < 0`. -/
def specDelta (b v : Int) : Int :=
  if 0 ≤ v then specCeil (b * v) else specFloor (b * v)

/-- The rounding `R` of the spec: `ceil(s/100)` for `s >= 0`, `floor(s/100)` for `s < 0`. -/
def specRound (s : Int) : Int :=
  if 0 ≤ s then specCeil s else specFloor s

/-- A value far from the bounds of `int64_t`: sums of two of them still fit. -/
def Small (x : Int) : Prop :=
  -(2 ^ 62) ≤ x ∧ x ≤ 2 ^ 62

instance (x : Int) : Decidable (Small x) := by
  unfold Small; infer_instance

/-- A malformed result record, in the words of the spec: "class", "parameter" or "value" is
missing or has the wrong JSON type, the entity class is unknown to the player's overlays, or a
"filterParameter" is given that is not a string or comes without "filterValue". -/
def malformedResult (entityClasses : List (String × ComponentTable)) (v : JsonObject) : Bool :=
  (match jfind "class" v with
    | none => true
    | some c => !c.is_string || (jfind c.get_string entityClasses).isNone) ||
  (match jfind "parameter" v with
    | none => true
    | some p => !p.is_string) ||
  (match jfind "value" v with
    | none => true
    | some x => !x.is_number_integer) ||
  (match jfind "filterParameter" v with
    | none => false
    | some fp => !fp.is_string || (jfind "filterValue" v).isNone)

/-- The overlays of a player, none for a player without overlays. -/
def entityClassesOf (u : UpgradeState) (player : Nat) : List (String × ComponentTable) :=
  (u.cachedPerPlayerUpgrades[player]?).getD []

/-- The value that a player's overlay holds for a parameter of a component. -/
def overlayValue (w : World) (player : Nat) (ctype cname parameter : String) : Option Json :=
  (((w.upgrades.cachedPerPlayerUpgrades[player]?).bind (jfind ctype)).bind (jfind cname)).map
    (fun upgrades => getPropertyValue upgrades parameter)

/-- The state of a structure type for a player. -/
def structTypeState (w : World) (player inc : Nat) : Option COMPONENT_STATE :=
  (w.apStructTypeLists[player]?).bind (fun l => l[inc]?)

/-- The state of a component for a player. -/
def compState (w : World) (player : Nat) (type : COMPONENT_TYPE) (inc : Nat) :
    Option COMPONENT_STATE :=
  ((w.apCompLists[player]?).bind (fun l => l[type.index]?)).bind (fun l => l[inc]?)

/-- What an operation for player `p` may do to the self-repair flags: it leaves the flag of a
player as it is or, for `p` only, sets it. -/
def SelfRepairStep (p : Nat) (w w1 : World) : Prop :=
  w1.MAX_PLAYERS = w.MAX_PLAYERS ∧
  ∀ q, w1.bSelfRepair[q]? = w.bSelfRepair[q]? ∨ (q = p ∧ w1.bSelfRepair[q]? = some true)

/-- The operation leaves the self-repair flags and the number of players as they are. -/
def SameSelfRepair (w w1 : World) : Prop :=
  w1.MAX_PLAYERS = w.MAX_PLAYERS ∧ w1.bSelfRepair = w.bSelfRepair

/-- What the immediate view shows of a status: the started, cancelled and completed flags and
the `possible` and disabled marks. -/
def immediateView (x : PLAYER_RESEARCH) : Bool × Bool × Bool × Bool × Bool :=
  (IsResearchStarted x, IsResearchCancelled x, IsResearchCompleted x, IsResearchPossible x,
    IsResearchDisabled x)

/-- Whether the topic `t` is Disabled for the player; false when there is no status entry. -/
def disabledFor (table : List (List PLAYER_RESEARCH)) (player t : Nat) : Bool :=
  match playerResearch table player t with
  | some x => IsResearchDisabled x
  | none => false

/-- The status table has an entry exactly for the players below `MAX_PLAYERS` and the topics
below `n`. -/
def TableShape (n MAX_PLAYERS : Nat) (table : List (List PLAYER_RESEARCH)) : Prop :=
  ∀ p t, (playerResearch table p t).isSome = true ↔ (p < MAX_PLAYERS ∧ t < n)

/-- The number of the topics below `n` that are not Disabled for player 0. -/
def undisabled (n : Nat) (table : List (List PLAYER_RESEARCH)) : Nat :=
  (List.range n).countP (fun t => !disabledFor table 0 t)

/-- Every topic Disabled for player 0 in `T` is Disabled for player 0 in `S`. -/
def DisabledMono (T S : List (List PLAYER_RESEARCH)) : Prop :=
  ∀ t, disabledFor T 0 t = true → disabledFor S 0 t = true

/-- The table `S` is the table `T` with `DisableResearch` applied, for every player, to the
topics that are Disabled for player 0 in `S` and were not in `T`. -/
def TableRel (T S : List (List PLAYER_RESEARCH)) : Prop :=
  ∀ p t, playerResearch S p t =
    if disabledFor S 0 t && !disabledFor T 0 t then (playerResearch T p t).map DisableResearch
    else playerResearch T p t

/-- What a call of `RecursivelyDisableResearchByID` for `index` makes of the table `T`: the
topics newly Disabled are `index` and topics that depend on it, and each of them has all its
dependents Disabled. -/
def DisableGood (asResearch : List RESEARCH) (T S : List (List PLAYER_RESEARCH)) (index : Nat) :
    Prop :=
  DisabledMono T S ∧ disabledFor S 0 index = true ∧ TableRel T S ∧
  (∀ t, disabledFor S 0 t = true →
    disabledFor T 0 t = true ∨ t = index ∨ Reaches asResearch t index) ∧
  (∀ t s, disabledFor S 0 t = true → disabledFor T 0 t = false → Requires asResearch s t →
    disabledFor S 0 s = true)

/-- What holds of the table `S` inside the loops of a call of `RecursivelyDisableResearchByID`
for `index` that started from `T`. -/
def DisableInv (asResearch : List RESEARCH) (MAX_PLAYERS : Nat) (T : List (List PLAYER_RESEARCH))
    (index : Nat) (S : List (List PLAYER_RESEARCH)) : Prop :=
  TableShape asResearch.length MAX_PLAYERS S ∧
  undisabled asResearch.length S < undisabled asResearch.length T ∧
  DisabledMono T S ∧ disabledFor S 0 index = true ∧ TableRel T S ∧
  (∀ t, disabledFor S 0 t = true →
    disabledFor T 0 t = true ∨ t = index ∨ Reaches asResearch t index) ∧
  (∀ t s, disabledFor S 0 t = true → disabledFor T 0 t = false → t ≠ index →
    Requires asResearch s t → disabledFor S 0 s = true)

/-- The topic's `disabledWhen` shares a bit with `flags`. -/
def Flagged (asResearch : List RESEARCH) (flags f : Nat) : Prop :=
  ∃ r, asResearch[f]? = some r ∧ r.disabledWhen &&& flags ≠ 0

/-- The topic is flagged itself or depends, through one or more prerequisite edges, on a
flagged topic. -/
def DependsOnFlagged (asResearch : List RESEARCH) (flags t : Nat) : Prop :=
  ∃ f, Flagged asResearch flags f ∧ (t = f ∨ Reaches asResearch t f)

/-- The retired states of a component or structure type. -/
def isRedundant : COMPONENT_STATE → Bool
  | COMPONENT_STATE.REDUNDANT => true
  | COMPONENT_STATE.REDUNDANT_UNAVAILABLE => true
  | COMPONENT_STATE.REDUNDANT_FOUND => true
  | _ => false

/-- One application of `makeComponentAvailable` or of `makeComponentRedundant`. -/
inductive StateChange where
  | available
  | redundant
  deriving DecidableEq, Repr

/-- The function a change applies. -/
def applyChange : StateChange → COMPONENT_STATE → COMPONENT_STATE
  | StateChange.available => makeComponentAvailable
  | StateChange.redundant => makeComponentRedundant

/-- The changes of a list, applied from the first to the last. -/
def applyChanges (changes : List StateChange) (state : COMPONENT_STATE) : COMPONENT_STATE :=
  changes.foldl (fun s c => applyChange c s) state

/-- A cell of a state table goes from `a` to `b` by applications of the two functions. -/
def CellStep (a b : Option COMPONENT_STATE) : Prop :=
  ∃ changes, b = a.map (applyChanges changes)

/-- Every cell of the structure-type table and of the component table moves by applications of
`makeComponentAvailable` and `makeComponentRedundant` only. -/
def StateStep (w w1 : World) : Prop :=
  (∀ q s, CellStep (structTypeState w q s) (structTypeState w1 q s)) ∧
  (∀ q type s, CellStep (compState w q type s) (compState w1 q type s))

/-- Disabled status is the same for every player: a topic is Disabled for a player below
`MAX_PLAYERS` exactly when it is Disabled for player 0. -/
def UniformDisabled (MAX_PLAYERS : Nat) (table : List (List PLAYER_RESEARCH)) : Prop :=
  ∀ p t, p < MAX_PLAYERS → disabledFor table p t = disabledFor table 0 t

/-- The identifiers that a prerequisite name can resolve to once the groups of `ini` have been
read into the store `s`: those of the topics already stored and the names of the topic groups. -/
def resolvedNames (ini : List ResearchGroup) (s : ResearchStore) : List String :=
  s.asResearch.map (fun r => r.id) ++
    (ini.filter (fun g => g.key ≠ RESEARCH_JSON_CONFIG_DICT_KEY)).map (fun g => g.key)

/-- The group with the required names restricted to those that `known` accepts. -/
def keepKnown (known : String → Bool) (g : ResearchGroup) : ResearchGroup :=
  { g with requiredResearch := g.requiredResearch.filter known }

/-- The input with every required name removed that matches no topic. -/
def dropUnresolved (ini : List ResearchGroup) (s : ResearchStore) : List ResearchGroup :=
  ini.map (keepKnown (fun name => decide (name ∈ resolvedNames ini s)))

/-- What holds in the first loop of `loadResearch`, started on an empty store, when the groups
`done` have been read: the store has a topic for each of them, each with its place as index, no
prerequisites yet, and the names of its group collected at the same place. -/
def LoadInv (done : List ResearchGroup) (s : ResearchStore) (preResearch : List (List String)) :
    Prop :=
  preResearch.length = done.length ∧ s.asResearch.length ≤ done.length ∧
  (∀ row ∈ s.asPlayerResList, row.length = s.asResearch.length) ∧
  ∀ (i : Nat) (r : RESEARCH), s.asResearch[i]? = some r →
    r.index = i ∧ r.pPRList = [] ∧
    ∃ g : ResearchGroup, done[i]? = some g ∧ g.key = r.id ∧
      g.key ≠ RESEARCH_JSON_CONFIG_DICT_KEY ∧ preResearch[i]? = some g.requiredResearch

/-- The research-point cost of a topic, 0 when there is no such topic. -/
def topicCost (w : World) (t : Nat) : Nat :=
  ((w.asResearch[t]?).map (fun r => r.researchPoints)).getD 0

/-- The topic that a structure of the losing player puts forward for the reward: the structure
is a research facility that records a best topic, the index of that topic, taken from its `ref`,
is not 0, and the reward player has not completed it. -/
def rewardCandidate (w : World) (rewardPlayer : Nat) (psStruct : STRUCTURE) : Option Nat :=
  if psStruct.pStructureType = STRUCTURE_TYPE.REF_RESEARCH then
    match psStruct.pFunctionality with
    | FUNCTIONALITY.researchFacility psFacility =>
      match psFacility.psBestTopic with
      | none => none
      | some psBestTopic =>
        match w.asResearch[psBestTopic]? with
        | none => none
        | some best =>
          if (best.ref + 4294967296 - w.STAT_RESEARCH % 4294967296) % 4294967296 = 0 then none
          else
            match playerResearch w.asPlayerResList rewardPlayer
                ((best.ref + 4294967296 - w.STAT_RESEARCH % 4294967296) % 4294967296) with
            | none => none
            | some x =>
              if IsResearchCompleted x then none
              else some ((best.ref + 4294967296 - w.STAT_RESEARCH % 4294967296) % 4294967296)
    | _ => none
  else none

/-- The better of the best topic so far, given with its cost, and a candidate: the candidate
when it costs more. -/
def rewardStep (w : World) (best : Nat × Nat) (c : Nat) : Nat × Nat :=
  if best.1 < topicCost w c then (topicCost w c, c) else best

/-- The topic `t` is the first of the candidates of greatest cost. -/
def IsFirstBest (cost : Nat → Nat) (cands : List Nat) (t : Nat) : Prop :=
  ∃ k, cands[k]? = some t ∧ (∀ c ∈ cands, cost c ≤ cost t) ∧
    ∀ (j c : Nat), j < k → cands[j]? = some c → cost c < cost t

/-- The three kinds of upgrade counters of a player. -/
inductive CounterKind where
  | weapon
  | armour
  | thermal
  deriving DecidableEq, Repr

/-- The counter map of a kind: per impact class for weapons, per body class for armour and for
thermal armour. -/
def countsOf : CounterKind → PlayerUpgradeCounts → List (String × Nat)
  | CounterKind.weapon, t => t.numWeaponImpactClassUpgrades
  | CounterKind.armour, t => t.numBodyClassArmourUpgrades
  | CounterKind.thermal, t => t.numBodyClassThermalUpgrades

/-- The value of the counter of a class, 0 when the map has no entry for it. -/
def counterValue (counts : List (String × Nat)) (cls : String) : Nat :=
  (jfind cls counts).getD 0

/-- The overlay holds an integer for the parameter. -/
def intOverlay (upgrades : JsonObject) (parameter : String) : Bool :=
  match getPropertyValue upgrades parameter with
  | Json.atom a => a.is_number_integer
  | Json.array _ => false

/-- The counter that a scalar update of a component counts for: the impact class of a weapon,
and the body class of a body whose parameter "Armour" or "Thermal" is updated. -/
def updateClass (ctype parameter : String) (statsEntityObj : JsonObject) :
    Option (CounterKind × String) :=
  if ctype = "Weapon" then
    match jfind "ImpactClass" statsEntityObj with
    | some (Json.atom (JsonAtom.str impactClass)) => some (CounterKind.weapon, impactClass)
    | _ => none
  else if ctype = "Body" ∧ parameter = "Armour" then
    match jfind "BodyClass" statsEntityObj with
    | some (Json.atom (JsonAtom.str bodyClass)) => some (CounterKind.armour, bodyClass)
    | _ => none
  else if ctype = "Body" ∧ parameter = "Thermal" then
    match jfind "BodyClass" statsEntityObj with
    | some (Json.atom (JsonAtom.str bodyClass)) => some (CounterKind.thermal, bodyClass)
    | _ => none
  else none

/-- What the update of a parameter with base value `pStatsParameterValue` counts for: a scalar
integer update is applied when the base value is a positive integer and the overlay holds an
integer; an array-valued parameter counts for nothing. -/
def countedParameter (ctype parameter : String) (statsEntityObj : JsonObject)
    (pStatsParameterValue : Json) (upgrades : JsonObject) : Option (CounterKind × String) :=
  match pStatsParameterValue with
  | Json.atom stat =>
    if stat.is_number_integer && decide (0 < stat.get_int64) && intOverlay upgrades parameter
    then updateClass ctype parameter statsEntityObj
    else none
  | Json.array _ => none

/-- What a result record with the given class, parameter and filter counts for at one component
of the player's overlays: nothing when the component has no base stats, does not pass the filter
or has no base value for the parameter. -/
def countedComponent (cachedStatsObject : List (String × ComponentTable))
    (ctype parameter : String) (filter : Option (String × Json))
    (component : String × JsonObject) : Option (CounterKind × String) :=
  match jfind ctype cachedStatsObject with
  | none => none
  | some statsEntityClassObj =>
    match jfind component.1 statsEntityClassObj with
    | none => none
    | some statsEntityObj =>
      let filtered : Bool :=
        match filter with
        | none => false
        | some (filterparam, filtervalue) =>
          match jfind filterparam statsEntityObj with
          | none => true
          | some pStatsFilterParameterValue => !pStatsFilterParameterValue.equal filtervalue
      if filtered then none
      else
        match jfind parameter statsEntityObj with
        | none => none
        | some pStatsParameterValue =>
          countedParameter ctype parameter statsEntityObj pStatsParameterValue component.2

/-- The scalar integer updates that one result record applies, each given by the counter it
counts for, in the order of the components; a malformed record applies none. -/
def countedResult (cachedStatsObject entityClasses : List (String × ComponentTable))
    (v : JsonObject) : List (CounterKind × String) :=
  match requiredProperty v "class" Json.is_string with
  | none => []
  | some it_ctype =>
    match requiredProperty v "parameter" Json.is_string with
    | none => []
    | some it_parameter =>
      match requiredProperty v "value" Json.is_number_integer with
      | none => []
      | some _ =>
        match resultFilter v with
        | none => []
        | some filter =>
          ((jfind it_ctype.get_string entityClasses).getD []).filterMap
            (countedComponent cachedStatsObject it_ctype.get_string it_parameter.get_string
              filter)

/-- The scalar integer updates that the result records of a topic apply to the counted
components of a player whose overlays are `entityClasses`. -/
def countedUpdates (cachedStatsObject entityClasses : List (String × ComponentTable)) :
    List JsonObject → List (CounterKind × String)
  | [] => []
  | v :: rest =>
    countedResult cachedStatsObject entityClasses v ++
      countedUpdates cachedStatsObject entityClasses rest

/-- The counters after one more update has been counted. -/
def bump (t : PlayerUpgradeCounts) (kc : CounterKind × String) : PlayerUpgradeCounts :=
  match kc.1 with
  | CounterKind.weapon =>
    { t with numWeaponImpactClassUpgrades := countUp kc.2 t.numWeaponImpactClassUpgrades }
  | CounterKind.armour =>
    { t with numBodyClassArmourUpgrades := countUp kc.2 t.numBodyClassArmourUpgrades }
  | CounterKind.thermal =>
    { t with numBodyClassThermalUpgrades := countUp kc.2 t.numBodyClassThermalUpgrades }

/-- For each component of a table, its name and the parameters for which its overlay holds an
integer. -/
def tableShape (components : ComponentTable) : List (String × (String → Bool)) :=
  components.map (fun e => (e.1, intOverlay e.2))

/-- For each entity class of the overlays, its name and the shape of its table. -/
def classesShape (entityClasses : List (String × ComponentTable)) :
    List (String × List (String × (String → Bool))) :=
  entityClasses.map (fun e => (e.1, tableShape e.2))

/-- Every "ImpactClass" and "BodyClass" member of the base stats is a string. -/
def classesAreStrings (cachedStatsObject : List (String × ComponentTable)) : Bool :=
  cachedStatsObject.all (fun statsEntityClassObj =>
    statsEntityClassObj.2.all (fun statsEntityObj =>
      (match jfind "ImpactClass" statsEntityObj.2 with
        | none => true
        | some impactClass => impactClass.is_string) &&
      (match jfind "BodyClass" statsEntityObj.2 with
        | none => true
        | some bodyClass => bodyClass.is_string)))

end Research

namespace Research

/-! ## Cycle detection: correctness -/

theorem exploreEach_none {asResearch : List RESEARCH} {f : CycleDetection → Nat → ExploreResult}
    (hf : ExploreSpec asResearch f) :
    ∀ (l : List Nat) (d d' : CycleDetection), exploreEach asResearch f d l = some (d', none) →
      d'.exploring = d.exploring ∧ (∀ x ∈ l, x ∈ d'.visited) ∧ d.visited ⊆ d'.visited ∧
        (Settled asResearch d → Settled asResearch d') := by
  intro l
  induction l with
  | nil =>
    intro d d' h
    simp only [exploreEach, Option.some.injEq, Prod.mk.injEq, and_true] at h
    subst h
    exact ⟨rfl, by simp, fun _ hx => hx, id⟩
  | cons x l ih =>
    intro d d' h
    unfold exploreEach at h
    cases hx : asResearch[x]? with
    | none => simp [hx] at h
    | some r =>
      simp only [hx] at h
      cases hfx : f d x with
      | none => simp [hfx] at h
      | some res =>
        obtain ⟨d1, o⟩ := res
        cases o with
        | some cycle => simp [hfx] at h
        | none =>
          simp only [hfx] at h
          obtain ⟨e1, v1, s1, p1⟩ := hf.1 d x d1 hfx
          obtain ⟨e2, v2, s2, p2⟩ := ih d1 d' h
          refine ⟨e2.trans e1, ?_, fun _ hy => s2 (s1 hy), fun hd => p2 (p1 hd)⟩
          intro y hy
          rcases List.mem_cons.1 hy with rfl | hy
          · exact s2 v1
          · exact v2 y hy

theorem exploreEach_some {asResearch : List RESEARCH} {f : CycleDetection → Nat → ExploreResult}
    (hf : ExploreSpec asResearch f) :
    ∀ (l : List Nat) (d d' : CycleDetection) (path : List Nat),
      exploreEach asResearch f d l = some (d', some path) →
      ∃ x ∈ l, PathOK asResearch d.exploring x path := by
  intro l
  induction l with
  | nil =>
    intro d d' path h
    simp [exploreEach] at h
  | cons x l ih =>
    intro d d' path h
    unfold exploreEach at h
    cases hx : asResearch[x]? with
    | none => simp [hx] at h
    | some r =>
      simp only [hx] at h
      cases hfx : f d x with
      | none => simp [hfx] at h
      | some res =>
        obtain ⟨d1, o⟩ := res
        cases o with
        | some cycle =>
          simp only [hfx, Option.some.injEq, Prod.mk.injEq] at h
          obtain ⟨-, hc⟩ := h
          subst hc
          exact ⟨x, List.mem_cons_self _ _, hf.2 d x d1 _ hfx⟩
        | none =>
          simp only [hfx] at h
          obtain ⟨e1, -, -, -⟩ := hf.1 d x d1 hfx
          obtain ⟨y, hy, hp⟩ := ih d1 d' path h
          rw [e1] at hp
          exact ⟨y, List.mem_cons_of_mem _ hy, hp⟩

theorem explore_spec (asResearch : List RESEARCH) :
    ∀ fuel, ExploreSpec asResearch (explore asResearch fuel) := by
  intro fuel
  induction fuel with
  | zero => exact ⟨fun d x d' h => by simp [explore] at h, fun d x d' p h => by simp [explore] at h⟩
  | succ fuel ih =>
    constructor
    · intro d x d' h
      unfold explore at h
      split_ifs at h with hv he
      · simp only [Option.some.injEq, Prod.mk.injEq, and_true] at h
        subst h
        exact ⟨rfl, hv, fun _ hy => hy, id⟩
      · simp at h
      · cases hx : asResearch[x]? with
        | none => simp [hx] at h
        | some r =>
          simp only [hx] at h
          cases hl : exploreEach asResearch (explore asResearch fuel)
              { d with exploring := x :: d.exploring } r.pPRList with
          | none => simp [hl] at h
          | some res =>
            obtain ⟨d2, o⟩ := res
            cases o with
            | some cycle => simp [hl] at h
            | none =>
              simp only [hl, Option.some.injEq, Prod.mk.injEq, and_true] at h
              subst h
              obtain ⟨e2, v2, s2, p2⟩ := exploreEach_none ih _ _ _ hl
              refine ⟨?_, List.mem_cons_self _ _, fun _ hy => List.mem_cons_of_mem _ (s2 hy), ?_⟩
              · simp [e2]
              · intro hd v hvm
                have hd2 : Settled asResearch d2 := p2 hd
                rcases List.mem_cons.1 hvm with rfl | hvm
                · refine Acc.intro _ (fun b hb => ?_)
                  obtain ⟨r', hr', hb'⟩ := hb
                  rw [hx] at hr'
                  cases hr'
                  exact hd2 b (v2 b hb')
                · exact hd2 v hvm
    · intro d x d' path h
      unfold explore at h
      split_ifs at h with hv he
      · simp at h
      · simp only [Option.some.injEq, Prod.mk.injEq] at h
        obtain ⟨-, hp⟩ := h
        subst hp
        exact ⟨[], x, rfl, Or.inl he, by simp, rfl⟩
      · cases hx : asResearch[x]? with
        | none => simp [hx] at h
        | some r =>
          simp only [hx] at h
          cases hl : exploreEach asResearch (explore asResearch fuel)
              { d with exploring := x :: d.exploring } r.pPRList with
          | none => simp [hl] at h
          | some res =>
            obtain ⟨d2, o⟩ := res
            cases o with
            | none => simp [hl] at h
            | some cycle =>
              simp only [hl, Option.some.injEq, Prod.mk.injEq] at h
              obtain ⟨-, hp⟩ := h
              subst hp
              obtain ⟨y, hy, init, c, hpath, hc, hchain, hhead⟩ := exploreEach_some ih _ _ _ _ hl
              refine ⟨x :: init, c, by simp [hpath], ?_, ?_, rfl⟩
              · rcases hc with hc | hc
                · rcases List.mem_cons.1 hc with rfl | hc
                  · exact Or.inr (List.mem_cons_self _ _)
                  · exact Or.inl hc
                · exact Or.inr (List.mem_cons_of_mem _ hc)
              · refine List.Chain'.cons' hchain ?_
                intro z hz
                rw [hhead] at hz
                cases hz
                exact ⟨r, hx, hy⟩

theorem exploreEach_total {asResearch : List RESEARCH}
    {f : CycleDetection → Nat → ExploreResult} (hf : ExploreSpec asResearch f) (E : List Nat)
    (ht : ∀ d x, d.exploring = E → x < asResearch.length → ∃ res, f d x = some res) :
    ∀ (l : List Nat) (d : CycleDetection), (∀ x ∈ l, x < asResearch.length) → d.exploring = E →
      ∃ res, exploreEach asResearch f d l = some res := by
  intro l
  induction l with
  | nil => intro d _ _; exact ⟨_, rfl⟩
  | cons x l ih =>
    intro d hl hd
    have hxl : x < asResearch.length := hl x (List.mem_cons_self _ _)
    unfold exploreEach
    rw [List.getElem?_eq_getElem hxl]
    obtain ⟨res, hres⟩ := ht d x hd hxl
    obtain ⟨d1, o⟩ := res
    cases o with
    | some cycle => simp [hres]
    | none =>
      simp only [hres]
      obtain ⟨e1, -, -, -⟩ := hf.1 d x d1 hres
      exact ih d1 (fun y hy => hl y (List.mem_cons_of_mem _ hy)) (e1.trans hd)

theorem length_le_of_nodup_of_lt {l : List Nat} {n : Nat} (hn : l.Nodup) (hl : ∀ e ∈ l, e < n) :
    l.length ≤ n := by
  have hsub : l ⊆ List.range n := fun e he => List.mem_range.2 (hl e he)
  simpa using (List.subperm_of_subset hn hsub).length_le

theorem explore_total {asResearch : List RESEARCH} (hr : InRange asResearch) :
    ∀ (fuel : Nat) (d : CycleDetection) (x : Nat), x < asResearch.length → d.exploring.Nodup →
      (∀ e ∈ d.exploring, e < asResearch.length) →
      asResearch.length + 1 ≤ fuel + d.exploring.length →
      ∃ res, explore asResearch fuel d x = some res := by
  intro fuel
  induction fuel with
  | zero =>
    intro d x _ hn hl hlen
    have := length_le_of_nodup_of_lt hn hl
    omega
  | succ fuel ih =>
    intro d x hx hn hl hlen
    unfold explore
    split_ifs with hv he
    · exact ⟨_, rfl⟩
    · exact ⟨_, rfl⟩
    · rw [List.getElem?_eq_getElem hx]
      simp only
      have hmem : asResearch[x] ∈ asResearch := List.getElem_mem _
      obtain ⟨res, hres⟩ := exploreEach_total (explore_spec asResearch fuel) (x :: d.exploring)
        (fun d1 y hd1 hy => ih d1 y hy (by rw [hd1]; exact List.nodup_cons.2 ⟨he, hn⟩)
          (by
            rw [hd1]
            intro e hmem'
            rcases List.mem_cons.1 hmem' with rfl | hmem'
            · exact hx
            · exact hl e hmem')
          (by rw [hd1]; simp only [List.length_cons]; omega))
        asResearch[x].pPRList { d with exploring := x :: d.exploring }
        (fun y hy => hr _ hmem y hy) rfl
      obtain ⟨d2, o⟩ := res
      cases o with
      | some cycle => simp [hres]
      | none => simp [hres]

theorem detectCycle_total {asResearch : List RESEARCH} (hr : InRange asResearch) :
    ∃ res, detectCycle asResearch = some res := by
  obtain ⟨res, hres⟩ := exploreEach_total (explore_spec asResearch (asResearch.length + 1)) []
    (fun d x hd hx => explore_total hr _ d x hx (by rw [hd]; exact List.nodup_nil)
      (by rw [hd]; intro e he; cases he) (by rw [hd]; simp))
    (List.range asResearch.length) {} (fun x hx => List.mem_range.1 hx) rfl
  exact ⟨res.2, by simp [detectCycle, hres]⟩

/-- A chain of edges from `a` through `l` to `b` joins `a` to `b`. -/
theorem transGen_of_chain {R : Nat → Nat → Prop} :
    ∀ (l : List Nat) (a b : Nat), List.Chain R a (l ++ [b]) → Relation.TransGen R a b := by
  intro l
  induction l with
  | nil =>
    intro a b h
    simp only [List.nil_append, List.chain_cons] at h
    exact Relation.TransGen.single h.1
  | cons x l ih =>
    intro a b h
    simp only [List.cons_append, List.chain_cons] at h
    exact Relation.TransGen.head h.1 (ih x b h.2)

/-- The shape of the path that `detectCycle` returns: a descent along prerequisite edges whose
last topic occurs earlier on it. -/
theorem detectCycle_path {asResearch : List RESEARCH} {path : List Nat}
    (h : detectCycle asResearch = some (some path)) :
    ∃ pre c mid, path = pre ++ c :: mid ++ [c] ∧ List.Chain' (Requires asResearch) path := by
  unfold detectCycle at h
  cases hl : exploreEach asResearch (explore asResearch (asResearch.length + 1)) {}
      (List.range asResearch.length) with
  | none => simp [hl] at h
  | some res =>
    obtain ⟨d', o⟩ := res
    simp only [hl, Option.map_some', Option.some.injEq] at h
    subst h
    obtain ⟨x, -, init, c, hp, hc, hchain, -⟩ := exploreEach_some (explore_spec asResearch _) _ _ _ _ hl
    rcases hc with hc | hc
    · cases hc
    · obtain ⟨pre, mid, rfl⟩ := List.append_of_mem hc
      exact ⟨pre, c, mid, by simp [hp], hchain⟩

/-- A loop over topics that ends with a path: the topics before some `x` were all searched
without a path, and the search started at `x` returned the path. -/
theorem exploreEach_some_split {asResearch : List RESEARCH}
    {f : CycleDetection → Nat → ExploreResult} :
    ∀ (l : List Nat) (d d' : CycleDetection) (path : List Nat),
      exploreEach asResearch f d l = some (d', some path) →
      ∃ l1 x l2 d1, l = l1 ++ x :: l2 ∧ exploreEach asResearch f d l1 = some (d1, none) ∧
        f d1 x = some (d', some path) := by
  intro l
  induction l with
  | nil =>
    intro d d' path h
    simp [exploreEach] at h
  | cons x l ih =>
    intro d d' path h
    have h0 := h
    unfold exploreEach at h
    cases hx : asResearch[x]? with
    | none => simp [hx] at h
    | some r =>
      simp only [hx] at h
      cases hfx : f d x with
      | none => simp [hfx] at h
      | some res =>
        obtain ⟨d1, o⟩ := res
        cases o with
        | some cycle =>
          simp only [hfx, Option.some.injEq, Prod.mk.injEq] at h
          obtain ⟨hd, hc⟩ := h
          subst hd hc
          exact ⟨[], x, l, d, rfl, rfl, hfx⟩
        | none =>
          simp only [hfx] at h
          obtain ⟨l1, y, l2, d2, hl, h1, h2⟩ := ih d1 d' path h
          refine ⟨x :: l1, y, l2, d2, by rw [hl]; rfl, ?_, h2⟩
          unfold exploreEach
          simp only [hx, hfx]
          exact h1

theorem range_split {n x : Nat} {l1 l2 : List Nat} (h : List.range n = l1 ++ x :: l2) :
    l1 = List.range x ∧ x < n := by
  have hlen : l1.length < n := by
    have := congrArg List.length h
    simp at this
    omega
  have hx : (List.range n)[l1.length]? = some x := by
    rw [h, List.getElem?_append_right (Nat.le_refl _)]; simp
  rw [List.getElem?_range hlen] at hx
  have hx : l1.length = x := Option.some.inj hx
  have ht : (List.range n).take l1.length = l1 := by
    rw [h]; simp
  rw [List.take_range, Nat.min_eq_left (Nat.le_of_lt hlen), hx] at ht
  rw [← hx]
  exact ⟨by rw [hx]; exact ht.symm, hlen⟩

theorem acc_no_loop {α : Type} {r : α → α → Prop} {a : α} (h : Acc r a) :
    ¬ Relation.TransGen r a a := by
  have h2 := h.transGen
  clear h
  induction h2 with
  | intro x _ ih => exact fun hxx => ih x hxx hxx

/-- A topic that is well founded in "is a prerequisite of" leads into no cycle. -/
theorem no_cycle_of_acc {asResearch : List RESEARCH} {y z : Nat}
    (hy : Acc (Function.swap (Requires asResearch)) y)
    (hyz : Relation.ReflTransGen (Requires asResearch) y z) : ¬ Reaches asResearch z z := by
  have hz : Acc (Function.swap (Requires asResearch)) z := by
    induction hyz with
    | refl => exact hy
    | tail _ hbc ih => exact ih.inv hbc
  intro hc
  exact acc_no_loop hz (Relation.transGen_swap.2 hc)

/-- The search that returns the path of `detectCycle`: the topics before some `x` were searched
without a path, leaving nothing in progress and only well-founded topics finished, and the
search started at `x` returned the path. -/
theorem detectCycle_start {asResearch : List RESEARCH} {path : List Nat}
    (h : detectCycle asResearch = some (some path)) :
    ∃ x d d', x < asResearch.length ∧
      exploreEach asResearch (explore asResearch (asResearch.length + 1)) {} (List.range x)
        = some (d, none) ∧
      explore asResearch (asResearch.length + 1) d x = some (d', some path) ∧
      d.exploring = [] ∧ ∀ y, y < x → Acc (Function.swap (Requires asResearch)) y := by
  unfold detectCycle at h
  cases hl : exploreEach asResearch (explore asResearch (asResearch.length + 1)) {}
      (List.range asResearch.length) with
  | none => simp [hl] at h
  | some res =>
    obtain ⟨d', o⟩ := res
    simp only [hl, Option.map_some', Option.some.injEq] at h
    subst h
    obtain ⟨l1, x, l2, d1, hsplit, h1, h2⟩ := exploreEach_some_split _ _ _ _ hl
    obtain ⟨hl1, hx⟩ := range_split hsplit
    subst hl1
    obtain ⟨he, hall, -, hset⟩ := exploreEach_none (explore_spec asResearch _) _ _ _ h1
    exact ⟨x, d1, d', hx, h1, h2, he, fun y hy =>
      hset (fun v hv => by cases hv) y (hall y (List.mem_range.2 hy))⟩

theorem cyclic_of_detectCycle_path {asResearch : List RESEARCH} {path : List Nat}
    (h : detectCycle asResearch = some (some path)) : ¬ Acyclic asResearch := by
  obtain ⟨pre, c, mid, hp, hchain⟩ := detectCycle_path h
  intro hac
  refine hac c (transGen_of_chain mid c c ?_)
  rw [hp, List.append_assoc] at hchain
  have := hchain.right_of_append
  simpa [List.Chain'] using this

theorem acc_of_detectCycle_none {asResearch : List RESEARCH}
    (h : detectCycle asResearch = some none) (a : Nat) :
    Acc (Function.swap (Requires asResearch)) a := by
  unfold detectCycle at h
  cases hl : exploreEach asResearch (explore asResearch (asResearch.length + 1)) {}
      (List.range asResearch.length) with
  | none => simp [hl] at h
  | some res =>
    obtain ⟨d', o⟩ := res
    simp only [hl, Option.map_some', Option.some.injEq] at h
    subst h
    obtain ⟨-, hall, -, hset⟩ := exploreEach_none (explore_spec asResearch _) _ _ _ hl
    by_cases ha : a < asResearch.length
    · exact hset (fun v hv => by cases hv) a (hall a (List.mem_range.2 ha))
    · refine Acc.intro _ (fun b hb => ?_)
      obtain ⟨r, hr, -⟩ := hb
      have := List.getElem?_eq_none (Nat.le_of_not_lt ha)
      rw [this] at hr
      cases hr

theorem acyclic_of_acc {asResearch : List RESEARCH}
    (h : ∀ a, Acc (Function.swap (Requires asResearch)) a) : Acyclic asResearch := by
  intro a hcyc
  have hwf : WellFounded (Function.swap (Requires asResearch)) := ⟨h⟩
  have hcyc' : Relation.TransGen (Function.swap (Requires asResearch)) a a :=
    Relation.transGen_swap.2 hcyc
  exact (WellFounded.transGen hwf).asymmetric a a hcyc' hcyc'

theorem detectCycle_none_iff {asResearch : List RESEARCH} (hr : InRange asResearch) :
    detectCycle asResearch = some none ↔ Acyclic asResearch := by
  constructor
  · exact fun h => acyclic_of_acc (acc_of_detectCycle_none h)
  · intro hac
    obtain ⟨res, hres⟩ := detectCycle_total hr
    cases res with
    | none => exact hres
    | some path => exact absurd hac (cyclic_of_detectCycle_path hres)

/-! ## Prerequisite reachability: correctness -/

theorem pushPrereqs_not_mem {asResearch : List RESEARCH} {a : Nat} :
    ∀ (l stack : List Nat), a ∉ l → (∀ x ∈ l, x < asResearch.length) →
      pushPrereqs asResearch a stack l = some (false, l.reverse ++ stack) := by
  intro l
  induction l with
  | nil => intro stack _ _; simp [pushPrereqs]
  | cons x l ih =>
    intro stack ha hl
    have hx : x < asResearch.length := hl x (List.mem_cons_self _ _)
    have hxa : x ≠ a := fun h => ha (h ▸ List.mem_cons_self _ _)
    unfold pushPrereqs
    rw [if_neg hxa, List.getElem?_eq_getElem hx]
    simp only
    rw [ih (x :: stack) (fun h => ha (List.mem_cons_of_mem _ h))
      (fun y hy => hl y (List.mem_cons_of_mem _ hy))]
    simp

theorem pushPrereqs_mem {asResearch : List RESEARCH} {a : Nat} :
    ∀ (l stack : List Nat), a ∈ l → (∀ x ∈ l, x < asResearch.length) →
      ∃ st, pushPrereqs asResearch a stack l = some (true, st) := by
  intro l
  induction l with
  | nil => intro stack ha; cases ha
  | cons x l ih =>
    intro stack ha hl
    unfold pushPrereqs
    by_cases hxa : x = a
    · exact ⟨stack, by rw [if_pos hxa]⟩
    · have hx : x < asResearch.length := hl x (List.mem_cons_self _ _)
      rw [if_neg hxa, List.getElem?_eq_getElem hx]
      simp only
      rcases List.mem_cons.1 ha with h | h
      · exact absurd h.symm hxa
      · exact ih (x :: stack) h (fun y hy => hl y (List.mem_cons_of_mem _ hy))

theorem segProp_nil (asResearch : List RESEARCH) (a : Nat) : SegProp asResearch a [] :=
  ⟨0, (fun h => by obtain ⟨x, hx, -⟩ := h; cases hx), (fun _ stack fuel => by simp)⟩

theorem segProp_cons {asResearch : List RESEARCH} {a x : Nat} {l : List Nat}
    (hx : SegProp asResearch a [x]) (hl : SegProp asResearch a l) :
    SegProp asResearch a (x :: l) := by
  obtain ⟨Nx, hx1, hx2⟩ := hx
  obtain ⟨Nl, hl1, hl2⟩ := hl
  refine ⟨Nl + Nx, ?_, ?_⟩
  · rintro ⟨y, hy, hreach⟩ stack fuel hfuel
    by_cases hrx : Reaches asResearch x a
    · have := hx1 ⟨x, List.mem_singleton_self x, hrx⟩ (l ++ stack) fuel (by omega)
      simpa using this
    · have hnone : ∀ z ∈ [x], ¬ Reaches asResearch z a := by
        intro z hz
        rw [List.mem_singleton.1 hz]
        exact hrx
      have hstep := hx2 hnone (l ++ stack) (fuel - Nx)
      rw [Nat.sub_add_cancel (by omega)] at hstep
      have hy' : y ∈ l := by
        rcases List.mem_cons.1 hy with rfl | h
        · exact absurd hreach hrx
        · exact h
      have := hl1 ⟨y, hy', hreach⟩ stack (fuel - Nx) (by omega)
      simpa [this] using hstep
  · intro hnone stack fuel
    have hnx : ∀ z ∈ [x], ¬ Reaches asResearch z a := by
      intro z hz
      rw [List.mem_singleton.1 hz]
      exact hnone x (List.mem_cons_self _ _)
    have h1 := hx2 hnx (l ++ stack) (fuel + Nl)
    have h2 := hl2 (fun z hz => hnone z (List.mem_cons_of_mem _ hz)) stack fuel
    rw [← Nat.add_assoc]
    simpa [h2] using h1

theorem segProp_of_forall {asResearch : List RESEARCH} {a : Nat} :
    ∀ l : List Nat, (∀ x ∈ l, SegProp asResearch a [x]) → SegProp asResearch a l := by
  intro l
  induction l with
  | nil => intro _; exact segProp_nil asResearch a
  | cons x l ih =>
    intro h
    exact segProp_cons (h x (List.mem_cons_self _ _))
      (ih (fun y hy => h y (List.mem_cons_of_mem _ hy)))

theorem reaches_iff {asResearch : List RESEARCH} {v a : Nat} {r : RESEARCH}
    (hv : asResearch[v]? = some r) :
    Reaches asResearch v a ↔ a ∈ r.pPRList ∨ ∃ w ∈ r.pPRList, Reaches asResearch w a := by
  constructor
  · intro h
    rcases Relation.TransGen.head'_iff.1 h with ⟨w, ⟨r', hr', hw⟩, hrest⟩
    rw [hv] at hr'
    cases hr'
    rcases Relation.reflTransGen_iff_eq_or_transGen.1 hrest with heq | htg
    · exact Or.inl (heq ▸ hw)
    · exact Or.inr ⟨w, hw, htg⟩
  · rintro (h | ⟨w, hw, hreach⟩)
    · exact Relation.TransGen.single ⟨r, hv, h⟩
    · exact Relation.TransGen.head ⟨r, hv, hw⟩ hreach

theorem segProp_node {asResearch : List RESEARCH} (hr : InRange asResearch) (a : Nat) (v : Nat)
    (hacc : Acc (Function.swap (Requires asResearch)) v) :
    v < asResearch.length → SegProp asResearch a [v] := by
  induction hacc with
  | intro v _ ih =>
    intro hv
    have hget : asResearch[v]? = some asResearch[v] := List.getElem?_eq_getElem hv
    have hin : ∀ w ∈ asResearch[v].pPRList, w < asResearch.length :=
      fun w hw => hr _ (List.getElem_mem _) w hw
    by_cases ha : a ∈ asResearch[v].pPRList
    · refine ⟨1, ?_, ?_⟩
      · intro _ stack fuel hfuel
        obtain ⟨fuel', rfl⟩ : ∃ k, fuel = k + 1 := ⟨fuel - 1, by omega⟩
        obtain ⟨st, hst⟩ := pushPrereqs_mem asResearch[v].pPRList stack ha hin
        simp [prereqLoop, hget, hst]
      · intro hnone
        exact absurd ((reaches_iff hget).2 (Or.inl ha)) (hnone v (List.mem_singleton_self v))
    · have hseg : SegProp asResearch a asResearch[v].pPRList.reverse :=
        segProp_of_forall _ (fun w hw =>
          ih w ⟨_, hget, List.mem_reverse.1 hw⟩ (hin w (List.mem_reverse.1 hw)))
      obtain ⟨N, h1, h2⟩ := hseg
      have hpush := fun stack => pushPrereqs_not_mem asResearch[v].pPRList stack ha hin
      refine ⟨N + 1, ?_, ?_⟩
      · rintro ⟨x, hx, hreach⟩ stack fuel hfuel
        rw [List.mem_singleton.1 hx] at hreach
        obtain ⟨fuel', rfl⟩ : ∃ k, fuel = k + 1 := ⟨fuel - 1, by omega⟩
        rcases (reaches_iff hget).1 hreach with h | ⟨w, hw, hwr⟩
        · exact absurd h ha
        · have := h1 ⟨w, List.mem_reverse.2 hw, hwr⟩ stack fuel' (by omega)
          simp [prereqLoop, hget, hpush, this]
      · intro hnone stack fuel
        have hnr : ¬ Reaches asResearch v a := hnone v (List.mem_singleton_self v)
        have := h2 (fun w hw hwr =>
          hnr ((reaches_iff hget).2 (Or.inr ⟨w, List.mem_reverse.1 hw, hwr⟩))) stack fuel
        rw [← Nat.add_assoc]
        simp [prereqLoop, hget, hpush, this]

/-- On an acyclic store with prerequisites in range the loop of `isResAPrereqForResB` ends for
every fuel from some bound on, and its answer is reachability. -/
theorem isResAPrereqForResB_spec {asResearch : List RESEARCH} (hr : InRange asResearch)
    (hac : Acyclic asResearch) (a b : Nat) (hb : b < asResearch.length) :
    ∃ N, ∀ fuel, N ≤ fuel → ∃ res, isResAPrereqForResB asResearch fuel a b = some res ∧
      (res = true ↔ Reaches asResearch b a) := by
  have hacc := acc_of_detectCycle_none ((detectCycle_none_iff hr).2 hac)
  obtain ⟨N, h1, h2⟩ := segProp_node hr a b (hacc b) hb
  refine ⟨N, fun fuel hfuel => ?_⟩
  unfold isResAPrereqForResB
  by_cases hab : a = b
  · subst hab
    exact ⟨false, by simp, by simpa using hac a⟩
  · rw [if_neg hab, List.getElem?_eq_getElem hb]
    simp only
    by_cases hreach : Reaches asResearch b a
    · have := h1 ⟨b, List.mem_singleton_self b, hreach⟩ [] fuel hfuel
      exact ⟨true, by simpa using this, by simpa using hreach⟩
    · have hnone : ∀ z ∈ [b], ¬ Reaches asResearch z a := by
        intro z hz
        rw [List.mem_singleton.1 hz]
        exact hreach
      have := h2 hnone [] (fuel - N)
      rw [Nat.sub_add_cancel hfuel] at this
      exact ⟨false, by simpa [prereqLoop] using this, by simpa using hreach⟩

/-! ## Category ranking: correctness -/

theorem linearInsert_perm {comp : Nat → Nat → Option Bool} {val : Nat} :
    ∀ (l out : List Nat), linearInsert comp val l = some out → out.Perm (val :: l) := by
  intro l
  induction l with
  | nil =>
    intro out h
    simp only [linearInsert, Option.some.injEq] at h
    subst h
    exact List.Perm.refl _
  | cons e before ih =>
    intro out h
    unfold linearInsert at h
    cases hc : comp val e with
    | none => simp [hc] at h
    | some b =>
      cases b with
      | false =>
        simp only [hc, Option.some.injEq] at h
        subst h
        exact List.Perm.refl _
      | true =>
        simp only [hc, Option.map_eq_some'] at h
        obtain ⟨out', hout', rfl⟩ := h
        exact ((ih out' hout').cons e).trans (List.Perm.swap val e before)

theorem insertionLoop_perm {comp : Nat → Nat → Option Bool} :
    ∀ (l sortedRev out : List Nat), insertionLoop comp sortedRev l = some out →
      out.Perm (sortedRev ++ l) := by
  intro l
  induction l with
  | nil =>
    intro sortedRev out h
    simp only [insertionLoop, Option.some.injEq] at h
    subst h
    simp
  | cons val rest ih =>
    intro sortedRev out h
    unfold insertionLoop at h
    cases hl : linearInsert comp val sortedRev with
    | none => simp [hl] at h
    | some sortedRev1 =>
      simp only [hl] at h
      refine (ih sortedRev1 out h).trans ?_
      refine ((linearInsert_perm _ _ hl).append_right rest).trans ?_
      simpa using (@List.perm_middle _ val sortedRev rest).symm

theorem stable_sort_perm {comp : Nat → Nat → Option Bool} {members sorted : List Nat}
    (h : stable_sort comp members = some sorted) : sorted.Perm members := by
  exact insertionLoop_perm members [] sorted h

theorem assignProgress_spec (categorySize : Nat) :
    ∀ (l : List Nat) (prog : Nat) (rs rs' : List RESEARCH),
      assignProgress categorySize prog l rs = some rs' → l.Nodup →
      rs'.map clearRank = rs.map clearRank ∧
      (∀ i, i ∉ l → rs'[i]? = rs[i]?) ∧
      (∀ i ∈ l, maxOf rs' i = some categorySize) ∧
      (prog + l.length ≤ 65536 →
        l.map (rankOf rs') = (List.range' prog l.length).map some) := by
  intro l
  induction l with
  | nil =>
    intro prog rs rs' h _
    simp only [assignProgress, Option.some.injEq] at h
    subst h
    simp
  | cons i rest ih =>
    intro prog rs rs' h hnd
    unfold assignProgress at h
    cases hi : rs[i]? with
    | none => simp [hi] at h
    | some r =>
      simp only [hi] at h
      obtain ⟨hnot, hnd'⟩ := List.nodup_cons.1 hnd
      obtain ⟨h1, h2, h3, h4⟩ := ih _ _ _ h hnd'
      have hlt : i < rs.length := by
        by_contra hge
        rw [List.getElem?_eq_none (Nat.le_of_not_lt hge)] at hi
        cases hi
      have hri : rs'[i]? =
          some { r with categoryProgress := prog, categoryMax := categorySize } := by
        rw [h2 i hnot]
        simp [List.getElem?_set, hlt]
      refine ⟨?_, ?_, ?_, ?_⟩
      · rw [h1]
        apply List.ext_getElem?
        intro k
        by_cases hk : i = k
        · subst hk
          have hr : rs[i] = r := by simpa [List.getElem?_eq_getElem hlt] using hi
          simp [List.getElem?_set, hlt, hr, clearRank]
        · simp [List.getElem?_set, hk]
      · intro k hk
        rw [List.mem_cons, not_or] at hk
        rw [h2 k hk.2]
        simp [List.getElem?_set, Ne.symm hk.1]
      · intro k hk
        rcases List.mem_cons.1 hk with rfl | hk
        · simp [maxOf, hri]
        · exact h3 k hk
      · intro hle
        simp only [List.length_cons] at hle
        have hhead : rankOf rs' i = some prog := by simp [rankOf, hri]
        rcases Nat.eq_zero_or_pos rest.length with h0 | hpos
        · have : rest = [] := List.length_eq_zero.1 h0
          subst this
          simp [hhead]
        · have hmod : (prog + 1) % 65536 = prog + 1 := Nat.mod_eq_of_lt (by omega)
          rw [hmod] at h4
          simp only [List.map_cons, List.length_cons, List.range'_succ, hhead]
          rw [h4 (by omega)]

theorem resCategoriesPush_keys (cat : String) (inc : Nat) :
    ∀ cats : List (String × List Nat),
      (resCategoriesPush cat inc cats).map Prod.fst =
        if cat ∈ cats.map Prod.fst then cats.map Prod.fst else cats.map Prod.fst ++ [cat] := by
  intro cats
  induction cats with
  | nil => simp [resCategoriesPush]
  | cons e rest ih =>
    obtain ⟨c, m⟩ := e
    unfold resCategoriesPush
    by_cases hc : c = cat
    · simp [hc]
    · have hc' : ¬ cat = c := fun h => hc h.symm
      simp only [if_neg hc, List.map_cons, ih, List.mem_cons, hc', false_or]
      split_ifs <;> simp

theorem resCategoriesPush_mem (cat : String) (inc : Nat) :
    ∀ cats : List (String × List Nat), (cats.map Prod.fst).Nodup →
      ∀ e ∈ resCategoriesPush cat inc cats,
        (e.1 ≠ cat ∧ e ∈ cats) ∨
        (e.1 = cat ∧ ((∃ m, (cat, m) ∈ cats ∧ e.2 = m ++ [inc]) ∨
          (cat ∉ cats.map Prod.fst ∧ e.2 = [inc]))) := by
  intro cats
  induction cats with
  | nil =>
    intro _ e he
    simp only [resCategoriesPush, List.mem_singleton] at he
    subst he
    exact Or.inr ⟨rfl, Or.inr ⟨by simp, rfl⟩⟩
  | cons e0 rest ih =>
    obtain ⟨c, m⟩ := e0
    intro hnd e he
    simp only [List.map_cons, List.nodup_cons] at hnd
    unfold resCategoriesPush at he
    by_cases hc : c = cat
    · subst hc
      simp only [if_true, List.mem_cons] at he
      rcases he with rfl | he
      · exact Or.inr ⟨rfl, Or.inl ⟨m, List.mem_cons_self _ _, rfl⟩⟩
      · refine Or.inl ⟨?_, List.mem_cons_of_mem _ he⟩
        intro h
        exact hnd.1 (h ▸ List.mem_map_of_mem Prod.fst he)
    · simp only [if_neg hc, List.mem_cons] at he
      rcases he with rfl | he
      · exact Or.inl ⟨hc, List.mem_cons_self _ _⟩
      · rcases ih hnd.2 e he with ⟨h1, h2⟩ | ⟨h1, ⟨m', hm', h2⟩ | ⟨h2, h3⟩⟩
        · exact Or.inl ⟨h1, List.mem_cons_of_mem _ h2⟩
        · exact Or.inr ⟨h1, Or.inl ⟨m', List.mem_cons_of_mem _ hm', h2⟩⟩
        · refine Or.inr ⟨h1, Or.inr ⟨?_, h3⟩⟩
          simp only [List.map_cons, List.mem_cons, not_or]
          exact ⟨fun h => hc h.symm, h2⟩

theorem filter_range_succ (p : Nat → Bool) (k : Nat) :
    (List.range (k + 1)).filter p = (List.range k).filter p ++ (if p k then [k] else []) := by
  rw [List.range_succ, List.filter_append]
  by_cases h : p k <;> simp [h]

theorem inCategory_at {asResearch : List RESEARCH} {k : Nat} {r : RESEARCH}
    (hk : asResearch[k]? = some r) (cat : String) :
    inCategory asResearch cat k = decide (r.category = cat) := by
  simp [inCategory, hk]

theorem inCategory_beyond {asResearch : List RESEARCH} {k : Nat} (hk : asResearch.length ≤ k)
    (cat : String) : inCategory asResearch cat k = false := by
  simp [inCategory, List.getElem?_eq_none hk]

theorem catInv_step_empty {asResearch : List RESEARCH} {k : Nat} {cats : List (String × List Nat)}
    {r : RESEARCH} (hk : asResearch[k]? = some r) (hr : r.category = "")
    (h : CatInv asResearch k cats) : CatInv asResearch (k + 1) cats := by
  obtain ⟨h1, h2, h3⟩ := h
  refine ⟨h1, ?_, ?_⟩
  · intro e he
    obtain ⟨hne, hm⟩ := h2 e he
    refine ⟨hne, ?_⟩
    have hfalse : inCategory asResearch e.1 k = false := by
      rw [inCategory_at hk, hr]
      exact decide_eq_false (fun h => hne h.symm)
    rw [filter_range_succ, ← hm, hfalse]
    simp
  · intro i hi r' hr' hne
    rcases Nat.lt_succ_iff_lt_or_eq.1 hi with hlt | rfl
    · exact h3 i hlt r' hr' hne
    · rw [hk] at hr'
      cases hr'
      exact absurd hr hne

theorem catInv_step_push {asResearch : List RESEARCH} {k : Nat} {cats : List (String × List Nat)}
    {r : RESEARCH} (hk : asResearch[k]? = some r) (hr : r.category ≠ "")
    (h : CatInv asResearch k cats) :
    CatInv asResearch (k + 1) (resCategoriesPush r.category k cats) := by
  obtain ⟨h1, h2, h3⟩ := h
  refine ⟨?_, ?_, ?_⟩
  · rw [resCategoriesPush_keys]
    split_ifs with hmem
    · exact h1
    · exact List.Nodup.append h1 (List.nodup_singleton _)
        (by simpa [List.disjoint_singleton] using hmem)
  · intro e he
    rw [filter_range_succ]
    rcases resCategoriesPush_mem _ _ cats h1 e he with ⟨hne, hin⟩ | ⟨heq, hcase⟩
    · obtain ⟨hne', hm⟩ := h2 e hin
      refine ⟨hne', ?_⟩
      have hfalse : inCategory asResearch e.1 k = false := by
        rw [inCategory_at hk]
        exact decide_eq_false (fun h => hne h.symm)
      rw [← hm, hfalse]
      simp
    · refine ⟨heq ▸ hr, ?_⟩
      have htrue : inCategory asResearch e.1 k = true := by
        rw [inCategory_at hk]
        exact decide_eq_true heq.symm
      rw [htrue, if_pos rfl]
      rcases hcase with ⟨m, hm, he2⟩ | ⟨hnot, he2⟩
      · obtain ⟨-, hm'⟩ := h2 _ hm
        simp only at hm'
        rw [he2, hm', heq]
      · have hnil : (List.range k).filter (inCategory asResearch e.1) = [] := by
          rw [List.filter_eq_nil_iff]
          intro i hi hdec
          have hi' := List.mem_range.1 hi
          have hlt : i < asResearch.length := by
            by_contra hge
            rw [inCategory_beyond (Nat.le_of_not_lt hge)] at hdec
            cases hdec
          rw [inCategory_at (List.getElem?_eq_getElem hlt), decide_eq_true_eq] at hdec
          rw [heq] at hdec
          exact hnot (hdec ▸ h3 i hi' _ (List.getElem?_eq_getElem hlt) (hdec ▸ hr))
        rw [hnil, he2]
        rfl
  · intro i hi r' hr' hne
    rw [resCategoriesPush_keys]
    rcases Nat.lt_succ_iff_lt_or_eq.1 hi with hlt | rfl
    · have := h3 i hlt r' hr' hne
      split_ifs
      · exact this
      · exact List.mem_append_left _ this
    · rw [hk] at hr'
      cases hr'
      split_ifs with hmem
      · exact hmem
      · simp

theorem filter_range_beyond (asResearch : List RESEARCH) (cat : String) :
    ∀ d, (List.range (asResearch.length + d)).filter (inCategory asResearch cat) =
      membersOf asResearch cat := by
  intro d
  induction d with
  | zero => rfl
  | succ d ihd =>
    rw [← Nat.add_assoc, filter_range_succ, ihd, inCategory_beyond (by omega)]
    simp

theorem collectCategories_spec (asResearch : List RESEARCH) :
    ∀ (rest : List RESEARCH) (k : Nat) (cats : List (String × List Nat)),
      asResearch.drop k = rest → CatInv asResearch k cats →
      CatInv asResearch asResearch.length (collectCategories k rest cats) := by
  intro rest
  induction rest with
  | nil =>
    intro k cats hdrop h
    have hk : asResearch.length ≤ k := List.drop_eq_nil_iff.1 hdrop
    obtain ⟨h1, h2, h3⟩ := h
    refine ⟨h1, ?_, fun i hi => h3 i (by omega)⟩
    intro e he
    obtain ⟨hne, hm⟩ := h2 e he
    refine ⟨hne, ?_⟩
    obtain ⟨d, rfl⟩ : ∃ d, k = asResearch.length + d := ⟨k - asResearch.length, by omega⟩
    rw [hm, filter_range_beyond]
    rfl
  | cons r rest ih =>
    intro k cats hdrop h
    have hk : asResearch[k]? = some r := by
      have := congrArg (fun l => l[0]?) hdrop
      simpa using this
    have hdrop' : asResearch.drop (k + 1) = rest := by
      have := congrArg List.tail hdrop
      simpa using this
    unfold collectCategories
    split_ifs with hr
    · exact ih (k + 1) cats hdrop' (catInv_step_empty hk hr h)
    · exact ih (k + 1) _ hdrop' (catInv_step_push hk hr h)

theorem rankCategories_spec (fuel : Nat) :
    ∀ (cats : List (String × List Nat)) (rs rs' : List RESEARCH),
      rankCategories fuel cats rs = some rs' →
      List.Pairwise (fun e1 e2 => List.Disjoint e1.2 e2.2) cats → (∀ e ∈ cats, e.2.Nodup) →
      rs'.map clearRank = rs.map clearRank ∧
      (∀ i, (∀ e ∈ cats, i ∉ e.2) → rs'[i]? = rs[i]?) ∧
      (∀ e ∈ cats, (∀ i ∈ e.2, maxOf rs' i = some e.2.length) ∧
        (e.2.length < 65536 →
          (e.2.map (rankOf rs')).Perm ((List.range' 1 e.2.length).map some))) := by
  intro cats
  induction cats with
  | nil =>
    intro rs rs' h _ _
    simp only [rankCategories, Option.some.injEq] at h
    subst h
    simp
  | cons e0 rest ih =>
    obtain ⟨c, m⟩ := e0
    intro rs rs' h hpw hnd
    unfold rankCategories at h
    cases hs : stable_sort (fun idxA idxB => isResAPrereqForResB rs fuel idxA idxB) m with
    | none => simp [hs] at h
    | some sorted =>
      simp only [hs] at h
      cases ha : assignProgress sorted.length 1 sorted rs with
      | none => simp [ha] at h
      | some rs1 =>
        simp only [ha] at h
        have hperm : sorted.Perm m := stable_sort_perm hs
        have hlen : sorted.length = m.length := hperm.length_eq
        have hmnd : m.Nodup := hnd _ (List.mem_cons_self _ _)
        obtain ⟨a1, a2, a3, a4⟩ := assignProgress_spec _ _ _ _ _ ha (hperm.nodup_iff.2 hmnd)
        rw [List.pairwise_cons] at hpw
        obtain ⟨b1, b2, b3⟩ := ih rs1 rs' h hpw.2 (fun e he => hnd e (List.mem_cons_of_mem _ he))
        have hkeep : ∀ i ∈ m, rs'[i]? = rs1[i]? := fun i hi =>
          b2 i (fun e he hie => hpw.1 e he hi hie)
        refine ⟨b1.trans a1, ?_, ?_⟩
        · intro i hi
          rw [b2 i (fun e he => hi e (List.mem_cons_of_mem _ he))]
          exact a2 i (fun his => hi _ (List.mem_cons_self _ _) (hperm.mem_iff.1 his))
        · intro e he
          rcases List.mem_cons.1 he with rfl | he
          · refine ⟨?_, ?_⟩
            · intro i hi
              have := a3 i (hperm.mem_iff.2 hi)
              simp only [maxOf, hkeep i hi]
              simpa [maxOf, hlen] using this
            · intro hsmall
              have hmap : m.map (rankOf rs') = m.map (rankOf rs1) :=
                List.map_congr_left (fun i hi => by simp only [rankOf, hkeep i hi])
              have hsmall' : m.length < 65536 := hsmall
              have h4 := a4 (by omega)
              rw [hmap]
              simp only at hlen ⊢
              rw [← hlen, ← h4]
              exact (hperm.map _).symm
          · exact b3 e he

theorem category_of_clearRank_eq {rs rs' : List RESEARCH}
    (h : rs'.map clearRank = rs.map clearRank) (i : Nat) :
    (rs'[i]?).map (·.category) = (rs[i]?).map (·.category) := by
  have := congrArg (fun l => (l[i]?).map (·.category)) h
  simpa [List.getElem?_map, Option.map_map, Function.comp_def, clearRank] using this

theorem membersOf_of_clearRank_eq {rs rs' : List RESEARCH}
    (h : rs'.map clearRank = rs.map clearRank) (cat : String) :
    membersOf rs' cat = membersOf rs cat := by
  have hlen : rs'.length = rs.length := by simpa using congrArg List.length h
  have hfun : inCategory rs' cat = inCategory rs cat := by
    funext i
    simp only [inCategory, category_of_clearRank_eq h i]
  simp only [membersOf, hlen, hfun]

theorem mem_membersOf {rs : List RESEARCH} {cat : String} {i : Nat} :
    i ∈ membersOf rs cat ↔ ∃ r, rs[i]? = some r ∧ r.category = cat := by
  simp only [membersOf, List.mem_filter, List.mem_range, inCategory, decide_eq_true_eq,
    Option.map_eq_some']
  constructor
  · exact fun h => h.2
  · rintro ⟨r, hr, hc⟩
    refine ⟨?_, r, hr, hc⟩
    by_contra hge
    rw [List.getElem?_eq_none (Nat.le_of_not_lt hge)] at hr
    cases hr

theorem populateCategories_spec {fuel : Nat} {rs rs' : List RESEARCH}
    (h : populateCategories fuel rs = some rs') :
    rs'.map clearRank = rs.map clearRank ∧
    (∀ (i : Nat) (r : RESEARCH), rs[i]? = some r → r.category = "" → rs'[i]? = some r) ∧
    (∀ cat, cat ≠ "" →
      (∀ i ∈ membersOf rs cat, maxOf rs' i = some (membersOf rs cat).length) ∧
      ((membersOf rs cat).length < 65536 →
        ((membersOf rs cat).map (rankOf rs')).Perm
          ((List.range' 1 (membersOf rs cat).length).map some))) := by
  unfold populateCategories at h
  have hinv : CatInv rs rs.length (collectCategories 0 rs []) :=
    collectCategories_spec rs rs 0 [] rfl
      ⟨List.nodup_nil, (fun e he => by cases he), (fun i hi => by omega)⟩
  obtain ⟨k1, k2, k3⟩ := hinv
  have hmem : ∀ e ∈ collectCategories 0 rs [], e.2 = membersOf rs e.1 := fun e he => (k2 e he).2
  have hpw : List.Pairwise (fun e1 e2 : String × List Nat => List.Disjoint e1.2 e2.2)
      (collectCategories 0 rs []) := by
    have hkeys : List.Pairwise (fun e1 e2 : String × List Nat => e1.1 ≠ e2.1)
        (collectCategories 0 rs []) := (List.pairwise_map).1 k1
    refine List.Pairwise.imp_of_mem ?_ hkeys
    intro e1 e2 he1 he2 hne i hi1 hi2
    rw [hmem e1 he1] at hi1
    rw [hmem e2 he2] at hi2
    obtain ⟨r1, hr1, hc1⟩ := mem_membersOf.1 hi1
    obtain ⟨r2, hr2, hc2⟩ := mem_membersOf.1 hi2
    rw [hr1] at hr2
    cases hr2
    exact hne (hc1.symm.trans hc2)
  have hnd : ∀ e ∈ collectCategories 0 rs [], e.2.Nodup := by
    intro e he
    rw [hmem e he]
    exact (List.nodup_range _).filter _
  obtain ⟨b1, b2, b3⟩ := rankCategories_spec fuel _ _ _ h hpw hnd
  refine ⟨b1, ?_, ?_⟩
  · intro i r hr hcat
    rw [b2 i, hr]
    intro e he hie
    rw [hmem e he] at hie
    obtain ⟨r', hr', hc'⟩ := mem_membersOf.1 hie
    rw [hr] at hr'
    cases hr'
    exact (k2 e he).1 (hc'.symm.trans hcat)
  · intro cat hcat
    rcases List.eq_nil_or_concat (membersOf rs cat) with hnil | ⟨init, last, hcons⟩
    · simp [hnil]
    · have hlast : last ∈ membersOf rs cat := by rw [hcons]; simp
      obtain ⟨r, hr, hc⟩ := mem_membersOf.1 hlast
      have hlt : last < rs.length := by
        by_contra hge
        rw [List.getElem?_eq_none (Nat.le_of_not_lt hge)] at hr
        cases hr
      have hkey := k3 last hlt r hr (hc ▸ hcat)
      obtain ⟨e, he, hfst⟩ := List.mem_map.1 hkey
      have := b3 e he
      rw [hmem e he, hfst, hc] at this
      exact this

theorem loadResearch_true {fuel : Nat} {ini : List ResearchGroup} {s s' : ResearchStore}
    (h : loadResearch fuel ini s = some (true, s')) :
    ∃ s2, loadResearchTopics ini s = some (true, s2) ∧ detectCycle s2.asResearch = some none ∧
      populateCategories fuel s2.asResearch = some s'.asResearch := by
  unfold loadResearch at h
  cases ht : loadResearchTopics ini s with
  | none => simp [ht] at h
  | some res =>
    obtain ⟨b, s2⟩ := res
    cases b with
    | false => simp [ht] at h
    | true =>
      simp only [ht] at h
      cases hd : detectCycle s2.asResearch with
      | none => simp [hd] at h
      | some o =>
        cases o with
        | some path => simp [hd] at h
        | none =>
          simp only [hd] at h
          cases hp : populateCategories fuel s2.asResearch with
          | none => simp [hp] at h
          | some rs' =>
            simp only [hp, Option.some.injEq, Prod.mk.injEq, true_and] at h
            subst h
            exact ⟨s2, rfl, hd, hp⟩

/-! ## Availability: the loops -/

theorem checkPrerequisites_false {table : List (List PLAYER_RESEARCH)} {playerID : Nat} :
    ∀ (l : List Nat), (∀ p ∈ l, ∃ y, playerResearch table playerID p = some y) →
      (∃ p ∈ l, ∃ y, playerResearch table playerID p = some y ∧ IsResearchCompleted y = false) →
      checkPrerequisites table playerID l = some false := by
  intro l
  induction l with
  | nil => rintro _ ⟨p, hp, -⟩; cases hp
  | cons q rest ih =>
    intro hin hex
    obtain ⟨y, hy⟩ := hin q (List.mem_cons_self _ _)
    unfold checkPrerequisites
    simp only [hy]
    cases hc : IsResearchCompleted y with
    | false => simp
    | true =>
      simp only [if_true]
      refine ih (fun p hp => hin p (List.mem_cons_of_mem _ hp)) ?_
      obtain ⟨p, hp, z, hz, hzc⟩ := hex
      rcases List.mem_cons.1 hp with rfl | hp
      · rw [hy] at hz
        cases hz
        rw [hc] at hzc
        cases hzc
      · exact ⟨p, hp, z, hz, hzc⟩

theorem checkPrerequisites_true {table : List (List PLAYER_RESEARCH)} {playerID : Nat} :
    ∀ (l : List Nat),
      (∀ p ∈ l, ∃ y, playerResearch table playerID p = some y ∧ IsResearchCompleted y = true) →
      checkPrerequisites table playerID l = some true := by
  intro l
  induction l with
  | nil => intro _; rfl
  | cons q rest ih =>
    intro h
    obtain ⟨y, hy, hc⟩ := h q (List.mem_cons_self _ _)
    unfold checkPrerequisites
    simp only [hy, hc, if_true]
    exact ih (fun p hp => h p (List.mem_cons_of_mem _ hp))

theorem checkPrerequisites_congr {table table' : List (List PLAYER_RESEARCH)} {playerID : Nat} :
    ∀ (l : List Nat),
      (∀ p ∈ l, playerResearch table' playerID p = playerResearch table playerID p) →
      checkPrerequisites table' playerID l = checkPrerequisites table playerID l := by
  intro l
  induction l with
  | nil => intro _; rfl
  | cons q rest ih =>
    intro h
    unfold checkPrerequisites
    rw [h q (List.mem_cons_self _ _), ih (fun p hp => h p (List.mem_cons_of_mem _ hp))]

theorem checkStructures_eq_true {check : Nat → Nat → Bool} {playerID : Nat} :
    ∀ (l : List Nat), checkStructures check playerID l = true ↔ ∀ st ∈ l, check st playerID = true := by
  intro l
  induction l with
  | nil => simp [checkStructures]
  | cons st rest ih =>
    unfold checkStructures
    cases hc : check st playerID with
    | false => simp [hc]
    | true => simp [hc, ih]

/-- The part of `researchAvailable` that is reached by a topic that is not cancelled, not
disabled, not flagged possible, not completed and not started, and is no key topic of a
single-player game: the prerequisite and structure checks. -/
theorem researchAvailable_checks {g : Game} {inc playerID : Nat} {mode : QUEUE_MODE}
    {x : PLAYER_RESEARCH} {r : RESEARCH} (hp : playerID < g.MAX_PLAYERS)
    (hx : playerResearch g.asPlayerResList playerID inc = some x)
    (hr : g.asResearch[inc]? = some r)
    (hcan : IsResearchCancelledFunc mode x = false) (hdis : IsResearchDisabled x = false)
    (hpos : IsResearchPossible x = false) (hcom : IsResearchCompleted x = false)
    (hsta : IsResearchStartedFunc mode x = false)
    (hkey : ¬ (g.bMultiPlayer = false ∧ r.keyTopic ≠ 0)) :
    researchAvailable g inc playerID mode =
      if r.pPRList.isEmpty then some false
      else
        match checkPrerequisites g.asPlayerResList playerID r.pPRList with
        | none => none
        | some false => some false
        | some true => some (checkStructures g.checkSpecificStructExists playerID r.pStructList) := by
  unfold researchAvailable
  rw [if_neg (by omega)]
  simp only [hx, hcan, hdis, hpos, hcom, hsta, hr]
  cases hb : g.bMultiPlayer with
  | true => simp
  | false =>
    have hk : r.keyTopic = 0 := by
      by_contra h
      exact hkey ⟨hb, h⟩
    simp [hk]

/-! ## The claims -/

theorem chain_cycle_members {R : Nat → Nat → Prop} {c : Nat} {mid : List Nat}
    (h : List.Chain R c (mid ++ [c])) : ∀ v ∈ c :: mid, Relation.TransGen R v v := by
  intro v hv
  rcases List.mem_cons.1 hv with rfl | hv
  · exact transGen_of_chain mid v v h
  · obtain ⟨m1, m2, rfl⟩ := List.append_of_mem hv
    have h' : List.Chain R c (m1 ++ v :: (m2 ++ [c])) := by simpa using h
    obtain ⟨hcv, hvc⟩ := List.chain_split.1 h'
    exact (transGen_of_chain m2 v c hvc).trans (transGen_of_chain m1 c v hcv)

/-- C1: on a topic store whose prerequisite indices are all in range, `detectCycle` has a result
and returns no path if and only if the prerequisite graph is acyclic; so `loadResearch` returns
false on every input whose resolved topic store has a cycle. -/
theorem C1_detectCycle_none_iff_acyclic (asResearch : List RESEARCH) (hr : InRange asResearch) :
    (∃ res, detectCycle asResearch = some res) ∧
    (detectCycle asResearch = some none ↔ Acyclic asResearch) ∧
    (∀ (fuel : Nat) (ini : List ResearchGroup) (s s2 : ResearchStore),
      loadResearchTopics ini s = some (true, s2) → s2.asResearch = asResearch →
      ¬ Acyclic asResearch → loadResearch fuel ini s = some (false, s2)) := by
  refine ⟨detectCycle_total hr, detectCycle_none_iff hr, ?_⟩
  intro fuel ini s s2 hload hstore hcyc
  subst hstore
  obtain ⟨res, hres⟩ := detectCycle_total hr
  cases res with
  | none => exact absurd ((detectCycle_none_iff hr).1 hres) hcyc
  | some path => simp [loadResearch, hload, hres]

/-- C1 at the ring A requires B, B requires C, C requires A: the store is cyclic and loading
fails. -/
theorem C1_detectCycle_ring_witness :
    InRange ringStore ∧ ¬ Acyclic ringStore ∧
      (loadResearch 0 ringIni {}).map Prod.fst = some false := by
  have h := C1_detectCycle_none_iff_acyclic ringStore (by decide)
  have hcyc : ¬ Acyclic ringStore := fun hac => absurd (h.2.1.2 hac) (by decide)
  refine ⟨by decide, hcyc, ?_⟩
  rw [h.2.2 0 ringIni {} { asResearch := ringStore } (by decide) rfl hcyc]
  rfl

/-- C2, as stated, fails: on the store where topic 0 requires topic 1 and topics 1 and 2 require
each other, the returned path starts at topic 0, which is not its last element and lies on no
cycle. -/
theorem C2_detectCycle_path_counterexample :
    detectCycle lassoStore = some (some [0, 1, 2, 1]) ∧
      ([0, 1, 2, 1] : List Nat).head? ≠ ([0, 1, 2, 1] : List Nat).getLast? ∧
      ¬ Reaches lassoStore 0 0 := by
  refine ⟨by decide, by decide, ?_⟩
  intro h
  obtain ⟨w, -, r, hr, h0⟩ := Relation.TransGen.tail'_iff.1 h
  rcases w with _ | _ | _ | w
  · simp only [lassoStore, mkTopic, List.getElem?_cons_zero, Option.some.injEq] at hr
    subst hr
    simp at h0
  · simp only [lassoStore, mkTopic, List.getElem?_cons_succ, List.getElem?_cons_zero,
      Option.some.injEq] at hr
    subst hr
    simp at h0
  · simp only [lassoStore, mkTopic, List.getElem?_cons_succ, List.getElem?_cons_zero,
      Option.some.injEq] at hr
    subst hr
    simp at h0
  · simp [lassoStore] at hr

/-- C2, amended: a path returned by `detectCycle` is the one returned by the top-level search
started at a topic `x`, after the searches started at the topics before `x` had all ended
without a path; none of those earlier topics leads into a cycle.  The path begins with `x` and
follows prerequisite edges; its last topic is the in-progress topic that the back-edge points
to, that topic occurs earlier on the path, and the topics from that occurrence on lie on a
cycle. -/
theorem C2_detectCycle_path_shape (asResearch : List RESEARCH) (path : List Nat)
    (h : detectCycle asResearch = some (some path)) :
    ∃ x d d' pre c mid, x < asResearch.length ∧
      exploreEach asResearch (explore asResearch (asResearch.length + 1)) {} (List.range x)
        = some (d, none) ∧
      explore asResearch (asResearch.length + 1) d x = some (d', some path) ∧
      (∀ y, y < x → ∀ z, Relation.ReflTransGen (Requires asResearch) y z →
        ¬ Reaches asResearch z z) ∧
      path.head? = some x ∧
      path = pre ++ c :: mid ++ [c] ∧ List.Chain' (Requires asResearch) path ∧
      ∀ v ∈ c :: mid, Reaches asResearch v v := by
  obtain ⟨x, d, d', hx, h1, h2, he, hacc⟩ := detectCycle_start h
  obtain ⟨init, c, hp, hc, hchain, hhead⟩ := (explore_spec asResearch _).2 d x d' path h2
  rw [he] at hc
  rcases hc with hc | hc
  · cases hc
  · obtain ⟨pre, mid, rfl⟩ := List.append_of_mem hc
    have hp2 : path = pre ++ c :: mid ++ [c] := by simp [hp]
    refine ⟨x, d, d', pre, c, mid, hx, h1, h2, fun y hy z hyz => no_cycle_of_acc (hacc y hy) hyz,
      hhead, hp2, hchain, ?_⟩
    rw [hp2, List.append_assoc] at hchain
    have hcyc : List.Chain (Requires asResearch) c (mid ++ [c]) := by
      simpa [List.Chain'] using hchain.right_of_append
    exact chain_cycle_members hcyc

/-- C2, amended, at the store where topic 0 leads into the ring of topics 1 and 2: the returned
path is the one of the search started at topic 0. -/
theorem C2_detectCycle_path_shape_witness :
    detectCycle lassoStore = some (some [0, 1, 2, 1]) ∧
      ∃ x d d' pre c mid, x < lassoStore.length ∧
        exploreEach lassoStore (explore lassoStore (lassoStore.length + 1)) {} (List.range x)
          = some (d, none) ∧
        explore lassoStore (lassoStore.length + 1) d x = some (d', some [0, 1, 2, 1]) ∧
        (∀ y, y < x → ∀ z, Relation.ReflTransGen (Requires lassoStore) y z →
          ¬ Reaches lassoStore z z) ∧
        ([0, 1, 2, 1] : List Nat).head? = some x ∧
        [0, 1, 2, 1] = pre ++ c :: mid ++ [c] ∧
        List.Chain' (Requires lassoStore) [0, 1, 2, 1] ∧ ∀ v ∈ c :: mid, Reaches lassoStore v v :=
  ⟨by decide, C2_detectCycle_path_shape lassoStore [0, 1, 2, 1] (by decide)⟩

/-- C3: on an acyclic topic store (prerequisite indices in range) and for topic indices `a` and
`b`, `isResAPrereqForResB a b` ends once its loop is given enough iterations, and it returns true
if and only if `a` is reached from `b` by one or more prerequisite edges; for `a = b` it returns
false. -/
theorem C3_isResAPrereqForResB_iff_reaches (asResearch : List RESEARCH)
    (hr : InRange asResearch) (hac : Acyclic asResearch) (a b : Nat)
    (hb : b < asResearch.length) :
    (∃ N, ∀ fuel, N ≤ fuel → ∃ res, isResAPrereqForResB asResearch fuel a b = some res ∧
      (res = true ↔ Reaches asResearch b a)) ∧
    (∀ fuel, isResAPrereqForResB asResearch fuel a a = some false) :=
  ⟨isResAPrereqForResB_spec hr hac a b hb, fun fuel => by simp [isResAPrereqForResB]⟩

/-- C3 at the chain 0 requires 1 requires 2, asked whether 2 is a prerequisite of 0. -/
theorem C3_isResAPrereqForResB_chain_witness :
    InRange chainStore ∧ Acyclic chainStore ∧
      ((∃ N, ∀ fuel, N ≤ fuel → ∃ res, isResAPrereqForResB chainStore fuel 2 0 = some res ∧
        (res = true ↔ Reaches chainStore 0 2)) ∧
      (∀ fuel, isResAPrereqForResB chainStore fuel 2 2 = some false)) :=
  ⟨by decide, (detectCycle_none_iff (by decide)).1 (by decide),
    C3_isResAPrereqForResB_iff_reaches chainStore (by decide)
      ((detectCycle_none_iff (by decide)).1 (by decide)) 2 0 (by decide)⟩

/-- C4 fails on the code: with four topics of one category of which the second requires the
fourth, loading succeeds and ranks the prerequisite (rank 4) after its dependent (rank 2). -/
theorem C4_loadResearch_ranks_prerequisite_late :
    loadResearch 5 lateIni {} = some (true, lateLoaded) ∧
      Reaches lateLoaded.asResearch 1 3 ∧
      membersOf lateLoaded.asResearch "X" = [0, 1, 2, 3] ∧
      rankOf lateLoaded.asResearch 3 = some 4 ∧ rankOf lateLoaded.asResearch 1 = some 2 :=
  ⟨by decide, Relation.TransGen.single ⟨_, rfl, by decide⟩, by decide, by decide, by decide⟩

/-- C5: after a successful `loadResearch`, each non-empty category with fewer than 65536 members
has its size in `categoryMax` of every member and the ranks 1 to that size, each once, in the
members' `categoryProgress`; a topic with an empty category is left as it was stored. -/
theorem C5_loadResearch_category_ranks (fuel : Nat) (ini : List ResearchGroup)
    (s s' : ResearchStore) (h : loadResearch fuel ini s = some (true, s')) :
    (∀ cat, cat ≠ "" → (membersOf s'.asResearch cat).length < 65536 →
      (∀ i ∈ membersOf s'.asResearch cat,
        maxOf s'.asResearch i = some (membersOf s'.asResearch cat).length) ∧
      ((membersOf s'.asResearch cat).map (rankOf s'.asResearch)).Perm
        ((List.range' 1 (membersOf s'.asResearch cat).length).map some)) ∧
    (∃ s2, loadResearchTopics ini s = some (true, s2) ∧
      ∀ (i : Nat) (r : RESEARCH), s2.asResearch[i]? = some r → r.category = "" →
        s'.asResearch[i]? = some r) := by
  obtain ⟨s2, hload, -, hpop⟩ := loadResearch_true h
  obtain ⟨h1, h2, h3⟩ := populateCategories_spec hpop
  refine ⟨?_, s2, hload, h2⟩
  intro cat hcat hsmall
  rw [membersOf_of_clearRank_eq h1] at hsmall ⊢
  exact ⟨(h3 cat hcat).1, (h3 cat hcat).2 hsmall⟩

/-- C5 at category X with A, B requiring A and C requiring B: ranks 1, 2, 3 and size 3. -/
theorem C5_loadResearch_category_ranks_witness :
    loadResearch 5 chainIni {} = some (true, chainLoaded) ∧
    ((∀ cat, cat ≠ "" → (membersOf chainLoaded.asResearch cat).length < 65536 →
      (∀ i ∈ membersOf chainLoaded.asResearch cat,
        maxOf chainLoaded.asResearch i = some (membersOf chainLoaded.asResearch cat).length) ∧
      ((membersOf chainLoaded.asResearch cat).map (rankOf chainLoaded.asResearch)).Perm
        ((List.range' 1 (membersOf chainLoaded.asResearch cat).length).map some)) ∧
    (∃ s2, loadResearchTopics chainIni {} = some (true, s2) ∧
      ∀ (i : Nat) (r : RESEARCH), s2.asResearch[i]? = some r → r.category = "" →
        chainLoaded.asResearch[i]? = some r)) :=
  ⟨by decide, C5_loadResearch_category_ranks 5 chainIni {} chainLoaded (by decide)⟩

/-- C6, as stated, fails: a topic whose only prerequisite is not completed is available in both
queue modes when it is cancelled, and also when it is flagged possible. -/
theorem C6_researchAvailable_prerequisite_counterexample :
    (twoTopicGame { cancelled := true, cancelledPending := true } {}).asResearch[0]?
        = some (mkTopic [1] "") ∧
      playerResearch (twoTopicGame { cancelled := true, cancelledPending := true } {}).asPlayerResList
        0 1 = some {} ∧
      IsResearchCompleted ({} : PLAYER_RESEARCH) = false ∧
      researchAvailable (twoTopicGame { cancelled := true, cancelledPending := true } {}) 0 0
        QUEUE_MODE.ModeQueue = some true ∧
      researchAvailable (twoTopicGame { cancelled := true, cancelledPending := true } {}) 0 0
        QUEUE_MODE.ModeImmediate = some true ∧
      researchAvailable (twoTopicGame { possible := true } {}) 0 0 QUEUE_MODE.ModeQueue
        = some true := by
  decide

/-- C6, amended: when some prerequisite of a topic is not completed for the player, and the topic
is neither cancelled in the selected mode nor flagged possible while neither completed nor
started in the selected mode, `researchAvailable` returns false. -/
theorem C6_researchAvailable_prerequisite_missing (g : Game) (inc playerID : Nat)
    (mode : QUEUE_MODE) (x : PLAYER_RESEARCH) (r : RESEARCH)
    (hx : playerResearch g.asPlayerResList playerID inc = some x)
    (hr : g.asResearch[inc]? = some r)
    (hin : ∀ p ∈ r.pPRList, ∃ y, playerResearch g.asPlayerResList playerID p = some y)
    (hmiss : ∃ p ∈ r.pPRList, ∃ y, playerResearch g.asPlayerResList playerID p = some y ∧
      IsResearchCompleted y = false)
    (hcan : IsResearchCancelledFunc mode x = false)
    (hpos : (IsResearchPossible x && !IsResearchCompleted x && !IsResearchStartedFunc mode x)
      = false) :
    researchAvailable g inc playerID mode = some false := by
  have hne : r.pPRList.isEmpty = false := by
    obtain ⟨p, hp, -⟩ := hmiss
    cases hl : r.pPRList with
    | nil => rw [hl] at hp; cases hp
    | cons a l => rfl
  unfold researchAvailable
  by_cases hpl : playerID ≥ g.MAX_PLAYERS
  · rw [if_pos hpl]
  · rw [if_neg hpl]
    simp only [hx, hcan, hpos, hr, hne, checkPrerequisites_false _ hin hmiss]
    by_cases hk : r.keyTopic = 0 <;> cases IsResearchDisabled x <;> cases g.bMultiPlayer <;>
      cases IsResearchCompleted x <;> cases IsResearchStartedFunc mode x <;> simp [hk]

/-- C6, amended, at a topic that is in no special state and whose prerequisite is open. -/
theorem C6_researchAvailable_prerequisite_missing_witness :
    researchAvailable (twoTopicGame {} {}) 0 0 QUEUE_MODE.ModeQueue = some false :=
  C6_researchAvailable_prerequisite_missing (twoTopicGame {} {}) 0 0 QUEUE_MODE.ModeQueue {}
    (mkTopic [1] "") (by decide) (by decide)
    (by intro p hp; rw [List.mem_singleton.1 hp]; exact ⟨{}, by decide⟩)
    ⟨1, by decide, {}, by decide, by decide⟩ (by decide) (by decide)

/-- C7: for a player below `MAX_PLAYERS` and a topic that is not cancelled and not started in the
selected mode, not disabled, not flagged possible, not completed, and no key topic of a
single-player game, `researchAvailable` returns true if and only if the prerequisite list is not
empty, every direct prerequisite is completed for the player and every required structure
exists; status records other than those of the topic and its direct prerequisites do not
influence the result. -/
theorem C7_researchAvailable_direct_prerequisites (g : Game) (inc playerID : Nat)
    (mode : QUEUE_MODE) (x : PLAYER_RESEARCH) (r : RESEARCH) (hp : playerID < g.MAX_PLAYERS)
    (hx : playerResearch g.asPlayerResList playerID inc = some x)
    (hr : g.asResearch[inc]? = some r)
    (hin : ∀ p ∈ r.pPRList, ∃ y, playerResearch g.asPlayerResList playerID p = some y)
    (hcan : IsResearchCancelledFunc mode x = false) (hdis : IsResearchDisabled x = false)
    (hpos : IsResearchPossible x = false) (hcom : IsResearchCompleted x = false)
    (hsta : IsResearchStartedFunc mode x = false)
    (hkey : ¬ (g.bMultiPlayer = false ∧ r.keyTopic ≠ 0)) :
    (∃ res, researchAvailable g inc playerID mode = some res ∧
      (res = true ↔ r.pPRList ≠ [] ∧
        (∀ p ∈ r.pPRList, ∃ y, playerResearch g.asPlayerResList playerID p = some y ∧
          IsResearchCompleted y = true) ∧
        ∀ st ∈ r.pStructList, g.checkSpecificStructExists st playerID = true)) ∧
    (∀ table' : List (List PLAYER_RESEARCH),
      (∀ i, i = inc ∨ i ∈ r.pPRList →
        playerResearch table' playerID i = playerResearch g.asPlayerResList playerID i) →
      researchAvailable { g with asPlayerResList := table' } inc playerID mode =
        researchAvailable g inc playerID mode) := by
  constructor
  · rw [researchAvailable_checks hp hx hr hcan hdis hpos hcom hsta hkey]
    cases hl : r.pPRList with
    | nil => exact ⟨false, by simp, by simp⟩
    | cons q rest =>
      rw [← hl]
      have hne : r.pPRList.isEmpty = false := by rw [hl]; rfl
      have hne' : r.pPRList ≠ [] := by rw [hl]; exact List.cons_ne_nil _ _
      simp only [hne, Bool.false_eq_true, if_false]
      by_cases hall : ∀ p ∈ r.pPRList, ∃ y,
          playerResearch g.asPlayerResList playerID p = some y ∧ IsResearchCompleted y = true
      · rw [checkPrerequisites_true _ hall]
        exact ⟨_, rfl, by rw [checkStructures_eq_true]; exact ⟨fun h => ⟨hne', hall, h⟩, fun h => h.2.2⟩⟩
      · have hmiss : ∃ p ∈ r.pPRList, ∃ y,
            playerResearch g.asPlayerResList playerID p = some y ∧
              IsResearchCompleted y = false := by
          by_contra hno
          apply hall
          intro p hpm
          obtain ⟨y, hy⟩ := hin p hpm
          refine ⟨y, hy, ?_⟩
          cases hc : IsResearchCompleted y with
          | true => rfl
          | false => exact absurd ⟨p, hpm, y, hy, hc⟩ hno
        rw [checkPrerequisites_false _ hin hmiss]
        exact ⟨false, rfl, by simpa using fun _ h => absurd h hall⟩
  · intro table' hsame
    rw [researchAvailable_checks hp hx hr hcan hdis hpos hcom hsta hkey]
    rw [researchAvailable_checks (g := { g with asPlayerResList := table' }) hp
      (by rw [← hx]; exact hsame inc (Or.inl rfl)) hr hcan hdis hpos hcom hsta hkey]
    simp only
    rw [checkPrerequisites_congr r.pPRList (fun p hpm => hsame p (Or.inr hpm))]

/-- C7 at a topic in no special state whose only prerequisite is completed. -/
theorem C7_researchAvailable_direct_prerequisites_witness :
    researchAvailable (twoTopicGame {} { completed := true }) 0 0 QUEUE_MODE.ModeQueue
      = some true := by
  obtain ⟨⟨res, hres, hiff⟩, -⟩ := C7_researchAvailable_direct_prerequisites
    (twoTopicGame {} { completed := true }) 0 0 QUEUE_MODE.ModeQueue {} (mkTopic [1] "")
    (by decide) (by decide) (by decide)
    (by intro p hp; rw [List.mem_singleton.1 hp]; exact ⟨{ completed := true }, by decide⟩)
    (by decide) (by decide) (by decide) (by decide) (by decide) (by decide)
  rw [hres, hiff.2 ⟨by decide, by
    intro p hp
    rw [List.mem_singleton.1 hp]
    exact ⟨{ completed := true }, by decide, by decide⟩, by
    intro st hst
    cases hst⟩]

/-- C8: for a player below `MAX_PLAYERS`, a topic that is cancelled in the selected mode (the
pending flag in `ModeQueue`, the cancelled flag in `ModeImmediate`) is available, whatever else
holds of it. -/
theorem C8_researchAvailable_cancelled (g : Game) (inc playerID : Nat) (mode : QUEUE_MODE)
    (x : PLAYER_RESEARCH) (hp : playerID < g.MAX_PLAYERS)
    (hx : playerResearch g.asPlayerResList playerID inc = some x)
    (hc : (mode = QUEUE_MODE.ModeQueue ∧ IsResearchCancelledPending x = true) ∨
      (mode = QUEUE_MODE.ModeImmediate ∧ IsResearchCancelled x = true)) :
    researchAvailable g inc playerID mode = some true := by
  have hcan : IsResearchCancelledFunc mode x = true := by
    rcases hc with ⟨rfl, h⟩ | ⟨rfl, h⟩ <;> exact h
  unfold researchAvailable
  rw [if_neg (by omega)]
  simp only [hx, hcan, if_true]

/-- C8 at a disabled, completed key topic of a single-player game that is cancelled. -/
theorem C8_researchAvailable_cancelled_witness :
    researchAvailable
      (keyTopicGame { cancelledPending := true, disabled := true, completed := true }) 0 0
      QUEUE_MODE.ModeQueue = some true :=
  C8_researchAvailable_cancelled _ 0 0 QUEUE_MODE.ModeQueue
    { cancelledPending := true, disabled := true, completed := true } (by decide) (by decide)
    (Or.inl ⟨rfl, by decide⟩)

/-- C9, as stated, fails: a disabled topic that is also cancelled is available, in both queue
modes. -/
theorem C9_researchAvailable_disabled_counterexample :
    IsResearchDisabled { cancelled := true, cancelledPending := true, disabled := true } = true ∧
      researchAvailable
        (twoTopicGame { cancelled := true, cancelledPending := true, disabled := true } {}) 0 0
        QUEUE_MODE.ModeQueue = some true ∧
      researchAvailable
        (twoTopicGame { cancelled := true, cancelledPending := true, disabled := true } {}) 0 0
        QUEUE_MODE.ModeImmediate = some true := by
  decide

/-- C9, amended: a topic that is disabled for the player and not cancelled in the selected mode
is not available. -/
theorem C9_researchAvailable_disabled (g : Game) (inc playerID : Nat) (mode : QUEUE_MODE)
    (x : PLAYER_RESEARCH) (hx : playerResearch g.asPlayerResList playerID inc = some x)
    (hd : IsResearchDisabled x = true) (hcan : IsResearchCancelledFunc mode x = false) :
    researchAvailable g inc playerID mode = some false := by
  unfold researchAvailable
  by_cases hpl : playerID ≥ g.MAX_PLAYERS
  · rw [if_pos hpl]
  · rw [if_neg hpl]
    simp [hx, hd, hcan]

/-- C9, amended, at a disabled topic that is flagged possible and has its prerequisite
completed. -/
theorem C9_researchAvailable_disabled_witness :
    researchAvailable (twoTopicGame { disabled := true, possible := true } { completed := true })
      0 0 QUEUE_MODE.ModeImmediate = some false :=
  C9_researchAvailable_disabled _ 0 0 QUEUE_MODE.ModeImmediate
    { disabled := true, possible := true } (by decide) (by decide) (by decide)

/-- C10: for a player below `MAX_PLAYERS`, a topic that is flagged possible, not disabled, not
completed and not started in the selected mode is available, whatever its prerequisites, its
required structures and its key-topic flag are. -/
theorem C10_researchAvailable_possible (g : Game) (inc playerID : Nat) (mode : QUEUE_MODE)
    (x : PLAYER_RESEARCH) (hp : playerID < g.MAX_PLAYERS)
    (hx : playerResearch g.asPlayerResList playerID inc = some x)
    (hpos : IsResearchPossible x = true) (hdis : IsResearchDisabled x = false)
    (hcom : IsResearchCompleted x = false) (hsta : IsResearchStartedFunc mode x = false) :
    researchAvailable g inc playerID mode = some true := by
  unfold researchAvailable
  rw [if_neg (by omega)]
  cases hcan : IsResearchCancelledFunc mode x <;> simp [hx, hpos, hdis, hcom, hsta, hcan]

/-- C10 at a key topic of a single-player game without prerequisites whose required structure
is missing. -/
theorem C10_researchAvailable_possible_witness :
    researchAvailable (keyTopicGame { possible := true }) 0 0 QUEUE_MODE.ModeQueue = some true :=
  C10_researchAvailable_possible _ 0 0 QUEUE_MODE.ModeQueue { possible := true } (by decide)
    (by decide) (by decide) (by decide) (by decide) (by decide)

/-! ## Research list: correctness -/

/-- With a limit of at least one the loop appends the listed topics until the list is full. -/
theorem fillResearchListFrom_eq {g : Game} {playerID : Nat} {topic : Option Nat} {limit : Nat} :
    ∀ (todo inc : Nat) (list : List Nat),
      (∀ i, inc ≤ i → i < inc + todo → topic ≠ some i →
        ∃ b, researchAvailable g i playerID QUEUE_MODE.ModeQueue = some b) →
      list.length < limit →
      fillResearchListFrom g playerID topic limit inc todo list =
        some (list ++ (((List.range' inc todo).filter (isListed g playerID topic)).take
          (limit - list.length)).map (· % 65536)) := by
  intro todo
  induction todo with
  | zero => intro inc list _ _; simp [fillResearchListFrom]
  | succ todo ih =>
    intro inc list hdef hlen
    have hdef' : ∀ i, inc + 1 ≤ i → i < inc + 1 + todo → topic ≠ some i →
        ∃ b, researchAvailable g i playerID QUEUE_MODE.ModeQueue = some b :=
      fun i h1 h2 h3 => hdef i (by omega) (by omega) h3
    have hcond : (if topic = some inc then some true
        else researchAvailable g inc playerID QUEUE_MODE.ModeQueue) =
        some (isListed g playerID topic inc) := by
      by_cases ht : topic = some inc
      · simp [isListed, ht]
      · obtain ⟨b, hb⟩ := hdef inc (Nat.le_refl _) (by omega) ht
        cases b <;> simp [isListed, ht, hb]
    unfold fillResearchListFrom
    rw [hcond, List.range'_succ, List.filter_cons]
    cases hl : isListed g playerID topic inc with
    | false =>
      simp only [Bool.false_eq_true, if_false]
      exact ih (inc + 1) list hdef' hlen
    | true =>
      simp only [if_true]
      by_cases hfull : (list ++ [inc % 65536]).length = limit
      · rw [if_pos hfull]
        have : limit - list.length = 1 := by simp at hfull; omega
        simp [this]
      · rw [if_neg hfull, ih (inc + 1) _ hdef' (by simp at hfull ⊢; omega)]
        have : limit - list.length = (limit - (list ++ [inc % 65536]).length) + 1 := by
          simp at hfull ⊢; omega
        rw [this]
        simp

theorem fillResearchList_eq {g : Game} {playerID : Nat} {topic : Option Nat} {limit : Nat}
    (hdef : AvailabilityDefined g playerID topic) (hlimit : 1 ≤ limit) :
    fillResearchList g playerID topic limit =
      some (((listedTopics g playerID topic).take limit).map (· % 65536)) := by
  unfold fillResearchList
  rw [fillResearchListFrom_eq g.asResearch.length 0 []
    (fun i _ h2 h3 => hdef i (by omega) h3) (by simpa using hlimit)]
  simp [listedTopics, List.range_eq_range']

theorem listedTopics_lt {g : Game} {playerID : Nat} {topic : Option Nat} {i : Nat}
    (h : i ∈ listedTopics g playerID topic) : i < g.asResearch.length :=
  List.mem_range.1 (List.mem_filter.1 h).1

theorem listedTopics_sorted (g : Game) (playerID : Nat) (topic : Option Nat) :
    List.Pairwise (· < ·) (listedTopics g playerID topic) :=
  List.Pairwise.sublist (List.filter_sublist _) (List.pairwise_lt_range _)

theorem mem_take_listed {p : Nat → Bool} {t n limit : Nat} (ht : t < n)
    (hp : p t = true) (hroom : ((List.range t).filter p).length < limit) :
    t ∈ ((List.range n).filter p).take limit := by
  obtain ⟨m, rfl⟩ : ∃ m, n = t + (m + 1) := ⟨n - t - 1, by omega⟩
  have hsplit : List.range (t + (m + 1)) = List.range t ++ t :: List.range' (t + 1) m := by
    rw [List.range_eq_range', List.range_eq_range', ← List.range'_succ, Nat.add_comm t (m + 1)]
    have := List.range'_append_1 0 t (m + 1)
    simpa using this.symm
  rw [hsplit, List.filter_append, List.filter_cons, if_pos hp, List.take_append_eq_append_take]
  obtain ⟨k, hk⟩ : ∃ k, limit - ((List.range t).filter p).length = k + 1 :=
    ⟨limit - ((List.range t).filter p).length - 1, by omega⟩
  rw [hk, List.take_succ_cons]
  exact List.mem_append_right _ (List.mem_cons_self _ _)

/-- C11 fails on the code: with a limit of 0 the test `list.size() == limit` after the
`push_back` never holds, and the list holds every available topic, here two. -/
theorem C11_fillResearchList_limit_zero :
    fillResearchList (twoTopicGame { possible := true } { possible := true }) 0 none 0
      = some [0, 1] ∧ ¬ ([0, 1] : List Nat).length ≤ 0 := by
  decide

/-- C12, as stated, fails: with a limit of 1 and topic 0 available the list is full before the
forced topic 1 is reached. -/
theorem C12_fillResearchList_forced_counterexample :
    (1 : Nat) < (twoTopicGame { possible := true } {}).asResearch.length ∧
      fillResearchList (twoTopicGame { possible := true } {}) 0 (some 1) 1 = some [0] ∧
      (1 : Nat) ∉ ([0] : List Nat) := by
  decide

/-- C12, amended: when the forced topic is a valid topic index and fewer than `limit` of the
topics below it are available, the list returned by `fillResearchList` contains the forced
topic, whether or not `researchAvailable` holds for it. -/
theorem C12_fillResearchList_forced (g : Game) (playerID t limit : Nat)
    (hdef : AvailabilityDefined g playerID (some t)) (ht : t < g.asResearch.length)
    (ht16 : t < 65536)
    (hroom : ((List.range t).filter (isListed g playerID (some t))).length < limit) :
    ∃ list, fillResearchList g playerID (some t) limit = some list ∧ t ∈ list := by
  refine ⟨_, fillResearchList_eq hdef (by omega), ?_⟩
  rw [List.mem_map]
  exact ⟨t, mem_take_listed ht (by simp [isListed]) hroom, Nat.mod_eq_of_lt ht16⟩

/-- C12, amended, at a forced topic that is not available, with room for two entries. -/
theorem C12_fillResearchList_forced_witness :
    researchAvailable (twoTopicGame { possible := true } {}) 1 0 QUEUE_MODE.ModeQueue
        = some false ∧
      ∃ list, fillResearchList (twoTopicGame { possible := true } {}) 0 (some 1) 2 = some list ∧
        1 ∈ list :=
  ⟨by decide, C12_fillResearchList_forced (twoTopicGame { possible := true } {}) 0 1 2
    (by
      intro i hi _
      have hi' : i < 2 := hi
      interval_cases i
      · exact ⟨true, by decide⟩
      · exact ⟨false, by decide⟩)
    (by decide) (by decide) (by decide)⟩

/-- C13: with a limit of at least 1 and fewer than 65536 topics, `fillResearchList` returns the
first `limit` elements of the ascending list of the topic indices that are the forced topic or
available in `ModeQueue`; the result is strictly increasing and holds no other index. -/
theorem C13_fillResearchList_take (g : Game) (playerID : Nat) (topic : Option Nat)
    (limit : Nat) (hdef : AvailabilityDefined g playerID topic) (hlimit : 1 ≤ limit)
    (hn : g.asResearch.length < 65536) :
    fillResearchList g playerID topic limit =
        some ((listedTopics g playerID topic).take limit) ∧
      List.Pairwise (· < ·) ((listedTopics g playerID topic).take limit) ∧
      ∀ i ∈ (listedTopics g playerID topic).take limit,
        i < g.asResearch.length ∧
          (topic = some i ∨
            researchAvailable g i playerID QUEUE_MODE.ModeQueue = some true) := by
  have hmem : ∀ i ∈ (listedTopics g playerID topic).take limit,
      i ∈ listedTopics g playerID topic := fun i hi => List.mem_of_mem_take hi
  refine ⟨?_, List.Pairwise.sublist (List.take_sublist _ _) (listedTopics_sorted _ _ _), ?_⟩
  · rw [fillResearchList_eq hdef hlimit]
    congr 1
    conv_rhs => rw [← List.map_id ((listedTopics g playerID topic).take limit)]
    apply List.map_congr_left
    intro i hi
    exact Nat.mod_eq_of_lt (by have := listedTopics_lt (hmem i hi); omega)
  · intro i hi
    refine ⟨listedTopics_lt (hmem i hi), ?_⟩
    have := (List.mem_filter.1 (hmem i hi)).2
    simpa [isListed] using this

/-- C13 at two available topics, the second of them forced, and a limit of 1. -/
theorem C13_fillResearchList_take_witness :
    fillResearchList (twoTopicGame { possible := true } { possible := true }) 0 (some 1) 1
      = some [0] := by
  have h := (C13_fillResearchList_take
    (twoTopicGame { possible := true } { possible := true }) 0 (some 1) 1
    (by
      intro i hi _
      have hi' : i < 2 := hi
      interval_cases i
      · exact ⟨true, by decide⟩
      · exact ⟨true, by decide⟩)
    (by decide) (by decide)).1
  rw [h]
  decide

/-! ## Upgrade arithmetic: correctness -/

theorem wrap64_eq {x : Int} (h : InInt64 x) : wrap64 x = x := by
  unfold wrap64
  unfold InInt64 at h
  omega

theorem tdiv_tmod_100 (x : Int) :
    100 * x.tdiv 100 + x.tmod 100 = x ∧
      (0 ≤ x → 0 ≤ x.tmod 100 ∧ x.tmod 100 < 100) ∧
      (x < 0 → -100 < x.tmod 100 ∧ x.tmod 100 ≤ 0) := by
  refine ⟨Int.tdiv_add_tmod x 100, ?_, ?_⟩
  · intro hx
    exact ⟨Int.tmod_nonneg _ hx, Int.tmod_lt_of_pos _ (by norm_num)⟩
  · intro hx
    have h1 : (-x).tmod 100 = -(x.tmod 100) := by
      rw [Int.tmod_def, Int.tmod_def, Int.neg_tdiv]
      ring
    have h2 : 0 ≤ (-x).tmod 100 := Int.tmod_nonneg _ (by omega)
    have h3 : (-x).tmod 100 < 100 := Int.tmod_lt_of_pos _ (by norm_num)
    omega

/-- `iDivFloor` by 100 is the floor of the quotient. -/
theorem iDivFloor_100 {x : Int} (hx : InInt64 x) : iDivFloor x 100 = x / 100 := by
  obtain ⟨h1, h2, h3⟩ := tdiv_tmod_100 x
  unfold InInt64 at hx
  have hq : InInt64 (x.tdiv 100) := by unfold InInt64; constructor <;> omega
  unfold iDivFloor
  rw [if_neg (by norm_num), wrap64_eq hq]
  dsimp only
  by_cases hneg : x < 0
  · have := h3 hneg
    by_cases hr : x.tmod 100 = 0
    · simp only [hr, ne_eq, not_true_eq_false, decide_False, Bool.false_and, Bool.false_eq_true,
        if_false, sub_zero]
      rw [wrap64_eq hq]
      omega
    · have hb : (decide (x.tmod 100 ≠ 0) && (decide (x ≥ 0) != decide ((100 : Int) ≥ 0))) = true := by
        simp [hr, hneg]
      rw [if_pos hb, wrap64_eq (by unfold InInt64; constructor <;> omega)]
      omega
  · have := h2 (by omega)
    have hb : (decide (x.tmod 100 ≠ 0) && (decide (x ≥ 0) != decide ((100 : Int) ≥ 0))) = false := by
      have : 0 ≤ x := by omega
      simp [this]
    rw [hb]
    simp only [Bool.false_eq_true, if_false, sub_zero]
    rw [wrap64_eq hq]
    omega

/-- `iDivCeil` by 100 is the ceiling of the quotient. -/
theorem iDivCeil_100 {x : Int} (hx : InInt64 x) : iDivCeil x 100 = -((-x) / 100) := by
  obtain ⟨h1, h2, h3⟩ := tdiv_tmod_100 x
  unfold InInt64 at hx
  have hq : InInt64 (x.tdiv 100) := by unfold InInt64; constructor <;> omega
  unfold iDivCeil
  rw [if_neg (by norm_num), wrap64_eq hq]
  dsimp only
  by_cases hneg : x < 0
  · have := h3 hneg
    have hb : (decide (x.tmod 100 ≠ 0) && (decide (x ≥ 0) == decide ((100 : Int) ≥ 0))) = false := by
      simp [hneg]
    rw [hb]
    simp only [Bool.false_eq_true, if_false, add_zero]
    rw [wrap64_eq hq]
    omega
  · have := h2 (by omega)
    have hx0 : 0 ≤ x := by omega
    by_cases hr : x.tmod 100 = 0
    · simp only [hr, ne_eq, not_true_eq_false, decide_False, Bool.false_and, Bool.false_eq_true,
        if_false, add_zero]
      rw [wrap64_eq hq]
      omega
    · have hb : (decide (x.tmod 100 ≠ 0) && (decide (x ≥ 0) == decide ((100 : Int) ≥ 0))) = true := by
        simp [hr, hx0]
      rw [if_pos hb, wrap64_eq (by unfold InInt64; constructor <;> omega)]
      omega

theorem specFloor_eq (s : Int) : specFloor s = s / 100 := by
  have := Rat.floor_intCast_div_natCast s 100
  simpa [specFloor] using this

theorem specCeil_eq (s : Int) : specCeil s = -((-s) / 100) := by
  have h := Rat.floor_intCast_div_natCast (-s) 100
  have h2 : (s : ℚ) / 100 = -(((-s : Int) : ℚ) / ((100 : ℕ) : ℚ)) := by
    push_cast
    ring
  unfold specCeil
  rw [h2, Int.ceil_neg, h]
  simp

theorem roundedChange_eq {value s : Int} (hs : InInt64 s) :
    roundedChange value s = if value < 0 then specFloor s else specCeil s := by
  unfold roundedChange
  rw [iDivFloor_100 hs, iDivCeil_100 hs, specFloor_eq, specCeil_eq]

theorem jfind_jset_same {α : Type} (key : String) (val : α) :
    ∀ l : List (String × α), jfind key (jset key val l) = some val := by
  intro l
  induction l with
  | nil => simp [jset, jfind]
  | cons e rest ih =>
    obtain ⟨k, v⟩ := e
    unfold jset
    by_cases hk : k = key
    · simp [hk, jfind]
    · simp [hk, jfind, ih]

theorem jfind_jset_other {α : Type} {key key' : String} (val : α) (h : key' ≠ key) :
    ∀ l : List (String × α), jfind key' (jset key val l) = jfind key' l := by
  intro l
  induction l with
  | nil => simp [jset, jfind, Ne.symm h]
  | cons e rest ih =>
    obtain ⟨k, v⟩ := e
    unfold jset
    by_cases hk : k = key
    · have : ¬ k = key' := fun h' => h (h'.symm.trans hk)
      simp [hk, jfind, this, Ne.symm h]
    · rw [if_neg hk]
      by_cases hk' : k = key' <;> simp [hk', jfind, ih]

theorem getPropertyValue_setPropertyValue (upgrades : JsonObject) (parameter : String)
    (value : Json) : getPropertyValue (setPropertyValue upgrades parameter value) parameter = value := by
  simp [getPropertyValue, setPropertyValue, jfind_jset_same]

/-- The scalar branch of `upgradeParameter`, for a positive integer base value and an integer
overlay value, when the classification has a result. -/
theorem upgradeParameter_scalar {mode : ResearchUpgradeCalculationMode}
    {ctype parameter cname : String} {value : Int} {statsEntityObj : JsonObject}
    {stat cur : JsonAtom} {upgrades : JsonObject} {totals : RawResearchUpgradeChangeValues}
    {tempStats tempStats1 : PlayerUpgradeCounts}
    (hs : stat.is_number_integer = true) (hb : 0 < stat.get_int64)
    (hover : getPropertyValue upgrades parameter = Json.atom cur)
    (hcur : cur.is_number_integer = true)
    (hcount : countScalarUpgrade ctype parameter statsEntityObj tempStats = some tempStats1) :
    upgradeParameter mode ctype parameter cname value statsEntityObj (Json.atom stat) upgrades
        totals tempStats =
      some (setPropertyValue upgrades parameter (Json.atom (upgradedJson cur
          (scalarUpgrade mode stat.get_int64 value cur.get_int64
            (ledgerEntry totals cname parameter)).newUpgradesValue)),
        (match mode with
          | ResearchUpgradeCalculationMode.Compat => totals
          | ResearchUpgradeCalculationMode.Improved =>
            setLedgerEntry totals cname parameter
              (scalarUpgrade mode stat.get_int64 value cur.get_int64
                (ledgerEntry totals cname parameter)).cumulativeUpgradeScaledChange),
        tempStats1) := by
  unfold upgradeParameter
  simp only [hs, if_true, hover, hcur, hcount, Bool.not_true, Bool.false_eq_true, if_false]
  rw [if_neg (by omega)]

theorem specDelta_eq (b v : Int) :
    specDelta b v = if 0 ≤ v then -((-(b * v)) / 100) else (b * v) / 100 := by
  unfold specDelta
  rw [specCeil_eq, specFloor_eq]

theorem specRound_eq (s : Int) : specRound s = if 0 ≤ s then -((-s) / 100) else s / 100 := by
  unfold specRound
  rw [specCeil_eq, specFloor_eq]

theorem specDelta_neg (b v : Int) : specDelta b (-v) = -specDelta b v := by
  rw [specDelta_eq, specDelta_eq]
  have h : b * -v = -(b * v) := by ring
  rw [h]
  by_cases hv : v = 0
  · subst hv
    simp
  · split_ifs <;> omega

/-- The rounded change of an upgrade of base `b` by `v` percent is the delta of the spec. -/
theorem roundedChange_specDelta {b v : Int} (hbv : InInt64 (b * v)) :
    roundedChange v (wrap64 (b * v)) = specDelta b v := by
  rw [wrap64_eq hbv, roundedChange_eq hbv]
  unfold specDelta
  split_ifs <;> first | rfl | omega

theorem scalarUpgrade_compat {b v c cum : Int} (hbv : InInt64 (b * v))
    (hc : InInt64 (c + specDelta b v)) :
    scalarUpgrade ResearchUpgradeCalculationMode.Compat b v c cum =
      { newUpgradesValue := c + specDelta b v
        newUpgradesChange := specDelta b v
        cumulativeUpgradeScaledChange := cum } := by
  simp only [scalarUpgrade, roundedChange_specDelta hbv, wrap64_eq hc]

/-- C14: in Compat mode an upgrade by `v` percent of a scalar integer stat with base `b > 0`
sets a signed overlay `c` to `c + d`, where `d` is `ceil(b*v/100)` for `v >= 0` and
`floor(b*v/100)` for `v < 0`; the delta for `-v` is the negation of the delta for `v`. -/
theorem C14_compat_scalar_upgrade (ctype parameter cname : String) (statsEntityObj : JsonObject)
    (stat : JsonAtom) (upgrades : JsonObject) (totals : RawResearchUpgradeChangeValues)
    (tempStats tempStats1 : PlayerUpgradeCounts) (b v c : Int)
    (hs : stat.is_number_integer = true) (hbase : stat.get_int64 = b) (hb : 0 < b)
    (hover : getPropertyValue upgrades parameter = Json.atom (JsonAtom.int c))
    (hcount : countScalarUpgrade ctype parameter statsEntityObj tempStats = some tempStats1)
    (hbv : -(2 ^ 63) < b * v ∧ b * v < 2 ^ 63) (hc : InInt64 (c + specDelta b v)) :
    (∃ upgrades1,
      upgradeParameter ResearchUpgradeCalculationMode.Compat ctype parameter cname v
          statsEntityObj (Json.atom stat) upgrades totals tempStats
        = some (upgrades1, totals, tempStats1) ∧
      getPropertyValue upgrades1 parameter = Json.atom (JsonAtom.int (c + specDelta b v))) ∧
    specDelta b (-v) = -specDelta b v ∧
    (∀ cum, (scalarUpgrade ResearchUpgradeCalculationMode.Compat b (-v) c cum).newUpgradesChange
      = -(scalarUpgrade ResearchUpgradeCalculationMode.Compat b v c cum).newUpgradesChange) := by
  have hbv1 : InInt64 (b * v) := ⟨by omega, hbv.2⟩
  have hbv2 : InInt64 (b * -v) := by
    have : b * -v = -(b * v) := by ring
    rw [this]
    exact ⟨by omega, by omega⟩
  refine ⟨?_, specDelta_neg b v, ?_⟩
  · refine ⟨setPropertyValue upgrades parameter (Json.atom (JsonAtom.int (c + specDelta b v))),
      ?_, getPropertyValue_setPropertyValue _ _ _⟩
    rw [upgradeParameter_scalar hs (by omega) hover rfl hcount, hbase]
    simp only [JsonAtom.get_int64, scalarUpgrade_compat hbv1 hc]
    rfl
  · intro cum
    simp only [scalarUpgrade, roundedChange_specDelta hbv1, roundedChange_specDelta hbv2,
      specDelta_neg]

/-- C14 at base 10 and overlay 10: 33 percent gives 14 and the delta 4, -33 percent the
delta -4. -/
theorem C14_compat_scalar_upgrade_witness :
    ((∃ upgrades1,
      upgradeParameter ResearchUpgradeCalculationMode.Compat "Building" "p" "A0Wall" 33 []
          (Json.atom (JsonAtom.int 10)) (overlayOf 10) [] {}
        = some (upgrades1, [], {}) ∧
      getPropertyValue upgrades1 "p" = Json.atom (JsonAtom.int (10 + specDelta 10 33))) ∧
    specDelta 10 (-33) = -specDelta 10 33 ∧
    (∀ cum, (scalarUpgrade ResearchUpgradeCalculationMode.Compat 10 (-33) 10 cum).newUpgradesChange
      = -(scalarUpgrade ResearchUpgradeCalculationMode.Compat 10 33 10 cum).newUpgradesChange)) ∧
    specDelta 10 33 = 4 ∧ specDelta 10 (-33) = -4 :=
  ⟨C14_compat_scalar_upgrade "Building" "p" "A0Wall" [] (JsonAtom.int 10) (overlayOf 10) [] {} {}
      10 33 10 rfl rfl (by decide) (by decide) (by decide) (by decide)
      (by rw [specDelta_eq]; decide),
    (by rw [specDelta_eq]; decide), (by rw [specDelta_eq]; decide)⟩

theorem scalarUpgrade_improved {b v c L : Int} (hbv : InInt64 (b * v))
    (hL : InInt64 (L + b * v)) (hnew : InInt64 (b + specRound (L + b * v))) :
    scalarUpgrade ResearchUpgradeCalculationMode.Improved b v c L =
      { newUpgradesValue := b + specRound (L + b * v)
        newUpgradesChange := wrap64 (b + specRound (L + b * v) - c)
        cumulativeUpgradeScaledChange := L + b * v } := by
  have hround : (if L + b * v < 0 then iDivFloor (L + b * v) 100 else iDivCeil (L + b * v) 100)
      = specRound (L + b * v) := by
    rw [iDivFloor_100 hL, iDivCeil_100 hL, specRound_eq]
    split_ifs <;> first | rfl | omega
  simp only [scalarUpgrade, wrap64_eq hbv, wrap64_eq hL, hround, wrap64_eq hnew]

theorem inInt64_of_small {x : Int} (h : Small x) : InInt64 x := by
  unfold Small at h
  unfold InInt64
  omega

theorem inInt64_add_specRound {b s : Int} (hb : Small b) (hs : Small s) :
    InInt64 (b + specRound s) := by
  unfold Small at hb hs
  unfold InInt64
  rw [specRound_eq]
  split_ifs <;> omega

theorem inInt64_add_specDelta {b v c : Int} (hc : Small c) (hbv : Small (b * v)) :
    InInt64 (c + specDelta b v) := by
  unfold Small at hc hbv
  unfold InInt64
  rw [specDelta_eq]
  split_ifs <;> omega

set_option maxRecDepth 10000 in
/-- C16, as stated, fails in Improved mode: on a stat with base 1 the first upgrade by 1
percent moves the overlay from 1 to 2 and the ledger to 1; the second upgrade by 1 percent
leaves the overlay at 2. -/
theorem C16_improved_upgrade_counterexample :
    upgradeParameter ResearchUpgradeCalculationMode.Improved "Building" "p" "A0Wall" 1 []
        (Json.atom (JsonAtom.int 1)) (overlayOf 1) [] {}
      = some (overlayOf 2, [("A0Wall", [("p", 1)])], {}) ∧
    upgradeParameter ResearchUpgradeCalculationMode.Improved "Building" "p" "A0Wall" 1 []
        (Json.atom (JsonAtom.int 1)) (overlayOf 2) [("A0Wall", [("p", 1)])] {}
      = some (overlayOf 2, [("A0Wall", [("p", 2)])], {}) := by
  decide

/-- C16, amended: in Compat mode an upgrade of a scalar integer stat with base `b > 0` and a
signed overlay by a non-zero percentage `v` moves the overlay, up when `v > 0` and down when
`v < 0`; in Improved mode the same holds for the upgrade of a fresh stat (ledger entry 0,
overlay equal to the base), and an upgrade of a stat whose overlay is what the ledger left never
moves the overlay against the sign of `v`. -/
theorem C16_upgrade_moves_overlay (ctype parameter cname : String) (statsEntityObj : JsonObject)
    (stat : JsonAtom) (upgrades : JsonObject) (totals : RawResearchUpgradeChangeValues)
    (tempStats tempStats1 : PlayerUpgradeCounts) (b v c : Int)
    (hs : stat.is_number_integer = true) (hbase : stat.get_int64 = b) (hb : 0 < b)
    (hover : getPropertyValue upgrades parameter = Json.atom (JsonAtom.int c))
    (hcount : countScalarUpgrade ctype parameter statsEntityObj tempStats = some tempStats1)
    (hv : v ≠ 0) (hsb : Small b) (hsc : Small c) (hbv : Small (b * v)) :
    (∃ upgrades1 c1,
      upgradeParameter ResearchUpgradeCalculationMode.Compat ctype parameter cname v
          statsEntityObj (Json.atom stat) upgrades totals tempStats
        = some (upgrades1, totals, tempStats1) ∧
      getPropertyValue upgrades1 parameter = Json.atom (JsonAtom.int c1) ∧
      c1 ≠ c ∧ (0 < v → c < c1) ∧ (v < 0 → c1 < c)) ∧
    (ledgerEntry totals cname parameter = 0 → c = b →
      ∃ upgrades1 totals1 c1,
        upgradeParameter ResearchUpgradeCalculationMode.Improved ctype parameter cname v
            statsEntityObj (Json.atom stat) upgrades totals tempStats
          = some (upgrades1, totals1, tempStats1) ∧
        getPropertyValue upgrades1 parameter = Json.atom (JsonAtom.int c1) ∧
        c1 ≠ c ∧ (0 < v → c < c1) ∧ (v < 0 → c1 < c)) ∧
    (Small (ledgerEntry totals cname parameter + b * v) →
      c = b + specRound (ledgerEntry totals cname parameter) →
      ∃ upgrades1 totals1 c1,
        upgradeParameter ResearchUpgradeCalculationMode.Improved ctype parameter cname v
            statsEntityObj (Json.atom stat) upgrades totals tempStats
          = some (upgrades1, totals1, tempStats1) ∧
        getPropertyValue upgrades1 parameter = Json.atom (JsonAtom.int c1) ∧
        (0 < v → c ≤ c1) ∧ (v < 0 → c1 ≤ c)) := by
  have hpos : 0 < v → 0 < b * v := fun h => Int.mul_pos hb h
  have hneg : v < 0 → b * v < 0 := fun h => Int.mul_neg_of_pos_of_neg hb h
  have hne : ∀ c1 : Int, (0 < v → c < c1) → (v < 0 → c1 < c) → c1 ≠ c := by
    intro c1 h1 h2
    rcases lt_or_gt_of_ne hv with h | h
    · have := h2 h
      omega
    · have := h1 h
      omega
  have hstep : ∀ L, Small (L + b * v) →
      upgradeParameter ResearchUpgradeCalculationMode.Improved ctype parameter cname v
          statsEntityObj (Json.atom stat) upgrades totals tempStats
        = some (setPropertyValue upgrades parameter
            (Json.atom (JsonAtom.int (b + specRound (ledgerEntry totals cname parameter + b * v)))),
          setLedgerEntry totals cname parameter (ledgerEntry totals cname parameter + b * v),
          tempStats1) ∨ L ≠ ledgerEntry totals cname parameter := by
    intro L hL
    by_cases hLe : L = ledgerEntry totals cname parameter
    · left
      subst hLe
      rw [upgradeParameter_scalar hs (by omega) hover rfl hcount, hbase]
      simp only [JsonAtom.get_int64,
        scalarUpgrade_improved (inInt64_of_small hbv) (inInt64_of_small hL)
          (inInt64_add_specRound hsb hL)]
      rfl
    · exact Or.inr hLe
  refine ⟨?_, ?_, ?_⟩
  · have h1 : 0 < v → c < c + specDelta b v := by
      intro h
      have := hpos h
      rw [specDelta_eq, if_pos (by omega)]
      omega
    have h2 : v < 0 → c + specDelta b v < c := by
      intro h
      have := hneg h
      rw [specDelta_eq, if_neg (by omega)]
      omega
    refine ⟨setPropertyValue upgrades parameter (Json.atom (JsonAtom.int (c + specDelta b v))),
      c + specDelta b v, ?_, getPropertyValue_setPropertyValue _ _ _, hne _ h1 h2, h1, h2⟩
    rw [upgradeParameter_scalar hs (by omega) hover rfl hcount, hbase]
    simp only [JsonAtom.get_int64,
      scalarUpgrade_compat (inInt64_of_small hbv) (inInt64_add_specDelta hsc hbv)]
    rfl
  · intro hzero hcb
    have hL : Small (ledgerEntry totals cname parameter + b * v) := by rw [hzero]; simpa using hbv
    have h1 : 0 < v → c < b + specRound (ledgerEntry totals cname parameter + b * v) := by
      intro hvp
      have := hpos hvp
      rw [hzero, specRound_eq, hcb]
      split_ifs <;> omega
    have h2 : v < 0 → b + specRound (ledgerEntry totals cname parameter + b * v) < c := by
      intro hvn
      have := hneg hvn
      rw [hzero, specRound_eq, hcb]
      split_ifs <;> omega
    rcases hstep _ hL with h | h
    · exact ⟨_, _, _, h, getPropertyValue_setPropertyValue _ _ _, hne _ h1 h2, h1, h2⟩
    · exact absurd rfl h
  · intro hL hcb
    rcases hstep _ hL with h | h
    · refine ⟨_, _, _, h, getPropertyValue_setPropertyValue _ _ _, ?_, ?_⟩
      · intro hvp
        have := hpos hvp
        rw [hcb, specRound_eq, specRound_eq]
        split_ifs <;> omega
      · intro hvn
        have := hneg hvn
        rw [hcb, specRound_eq, specRound_eq]
        split_ifs <;> omega
    · exact absurd rfl h

/-- C16, amended, at base 1 and overlay 1 with an upgrade by 1 percent. -/
theorem C16_upgrade_moves_overlay_witness :
    ∃ upgrades1 c1,
      upgradeParameter ResearchUpgradeCalculationMode.Compat "Building" "p" "A0Wall" 1 []
          (Json.atom (JsonAtom.int 1)) (overlayOf 1) [] {}
        = some (upgrades1, [], {}) ∧
      getPropertyValue upgrades1 "p" = Json.atom (JsonAtom.int c1) ∧
      c1 ≠ 1 ∧ ((0 : Int) < 1 → 1 < c1) ∧ ((1 : Int) < 0 → c1 < 1) :=
  (C16_upgrade_moves_overlay "Building" "p" "A0Wall" [] (JsonAtom.int 1) (overlayOf 1) [] {} {}
    1 1 1 rfl rfl (by decide) (by decide) (by decide) (by decide) (by decide) (by decide)
    (by decide)).1

theorem upgradeArray_length (value : Int) :
    ∀ (stats dst : List JsonAtom), (upgradeArray value stats dst).length = dst.length := by
  intro stats
  induction stats with
  | nil => intro dst; cases dst <;> simp [upgradeArray]
  | cons sb stats ih =>
    intro dst
    cases dst with
    | nil => simp [upgradeArray]
    | cons cur dst => simp [upgradeArray, ih]

theorem upgradeArray_getElem (value : Int) :
    ∀ (stats dst : List JsonAtom) (x : Nat) (sb cur : JsonAtom),
      stats[x]? = some sb → dst[x]? = some cur →
      (upgradeArray value stats dst)[x]? = some (upgradeArrayElement value sb cur) := by
  intro stats
  induction stats with
  | nil => intro dst x sb cur h; simp at h
  | cons s0 stats ih =>
    intro dst x sb cur hs hd
    cases dst with
    | nil => simp at hd
    | cons c0 dst =>
      cases x with
      | zero =>
        simp only [List.getElem?_cons_zero, Option.some.injEq] at hs hd
        subst hs
        subst hd
        simp [upgradeArray]
      | succ x =>
        simp only [List.getElem?_cons_succ] at hs hd
        simpa [upgradeArray] using ih dst x sb cur hs hd

theorem upgradeArrayElement_integer {value : Int} {sb cur : JsonAtom}
    (hsb : sb.is_number_integer = true) (hcur : cur.is_number_integer = true)
    (hbv : InInt64 (sb.get_int64 * value))
    (hsum : InInt64 (cur.get_int64 + specDelta sb.get_int64 value)) :
    upgradeArrayElement value sb cur =
      upgradedJson cur (cur.get_int64 + specDelta sb.get_int64 value) := by
  simp only [upgradeArrayElement, hsb, hcur, Bool.not_true, Bool.false_eq_true, if_false,
    roundedChange_specDelta hbv, wrap64_eq hsum]

/-- C17: the upgrade of an array-valued parameter whose overlay array has the length of the base
array keeps the length and sets each integer element to `current[x] + d_x`, with `d_x` the
ceiling of `base[x]*v/100` for `v >= 0` and the floor for `v < 0`, in either calculation mode and
for any sign of `base[x]`; an unsigned element does not go below 0; when the lengths differ the
overlay stays as it is. -/
theorem C17_array_upgrade (mode : ResearchUpgradeCalculationMode)
    (ctype parameter cname : String) (statsEntityObj : JsonObject) (base dst : List JsonAtom)
    (upgrades : JsonObject) (totals : RawResearchUpgradeChangeValues)
    (tempStats : PlayerUpgradeCounts) (v : Int)
    (hover : getPropertyValue upgrades parameter = Json.array dst) :
    (dst.length = base.length →
      upgradeParameter mode ctype parameter cname v statsEntityObj (Json.array base) upgrades
          totals tempStats
        = some (setPropertyValue upgrades parameter (Json.array (upgradeArray v base dst)),
            totals, tempStats) ∧
      (upgradeArray v base dst).length = dst.length ∧
      ∀ (x : Nat) (sb cur : JsonAtom), base[x]? = some sb → dst[x]? = some cur →
        sb.is_number_integer = true → cur.is_number_integer = true →
        InInt64 (sb.get_int64 * v) → InInt64 (cur.get_int64 + specDelta sb.get_int64 v) →
        (upgradeArray v base dst)[x]? =
            some (if cur.is_number_unsigned = true
              then JsonAtom.uint (max (cur.get_int64 + specDelta sb.get_int64 v) 0).toNat
              else JsonAtom.int (cur.get_int64 + specDelta sb.get_int64 v)) ∧
          (cur.is_number_unsigned = true → cur.get_int64 + specDelta sb.get_int64 v < 0 →
            (upgradeArray v base dst)[x]? = some (JsonAtom.uint 0))) ∧
    (dst.length ≠ base.length →
      upgradeParameter mode ctype parameter cname v statsEntityObj (Json.array base) upgrades
          totals tempStats
        = some (upgrades, totals, tempStats)) := by
  constructor
  · intro hlen
    refine ⟨?_, upgradeArray_length v base dst, ?_⟩
    · simp [upgradeParameter, hover, hlen]
    · intro x sb cur hsb hcur hsi hci hbv hsum
      have hx := upgradeArray_getElem v base dst x sb cur hsb hcur
      rw [upgradeArrayElement_integer hsi hci hbv hsum] at hx
      refine ⟨by rw [hx]; rfl, ?_⟩
      intro hu hnegative
      rw [hx]
      simp only [upgradedJson, hu, if_true]
      congr 2
      omega
  · intro hlen
    simp [upgradeParameter, hover, hlen]

/-- C17 at a base array with a negative and a positive element, a signed and an unsigned
overlay element, and an upgrade by -50 percent. -/
theorem C17_array_upgrade_witness :
    upgradeParameter ResearchUpgradeCalculationMode.Improved "Brain" "p" "CommandBrain01" (-50) []
        (Json.array [JsonAtom.int (-3), JsonAtom.int 3])
        [("p", Json.array [JsonAtom.int 1, JsonAtom.uint 0])] [] {}
      = some (setPropertyValue [("p", Json.array [JsonAtom.int 1, JsonAtom.uint 0])] "p"
          (Json.array (upgradeArray (-50) [JsonAtom.int (-3), JsonAtom.int 3]
            [JsonAtom.int 1, JsonAtom.uint 0])), [], {}) ∧
    upgradeArray (-50) [JsonAtom.int (-3), JsonAtom.int 3] [JsonAtom.int 1, JsonAtom.uint 0]
      = [JsonAtom.int 2, JsonAtom.uint 0] :=
  ⟨((C17_array_upgrade ResearchUpgradeCalculationMode.Improved "Brain" "p" "CommandBrain01" []
      [JsonAtom.int (-3), JsonAtom.int 3] [JsonAtom.int 1, JsonAtom.uint 0]
      [("p", Json.array [JsonAtom.int 1, JsonAtom.uint 0])] [] {} (-50) rfl).1 rfl).1,
    by decide⟩

theorem jfind_isNone_iff {α : Type} (key : String) :
    ∀ l : List (String × α), (jfind key l).isNone = true ↔ key ∉ l.map Prod.fst := by
  intro l
  induction l with
  | nil => simp [jfind]
  | cons e rest ih =>
    obtain ⟨k, v⟩ := e
    unfold jfind
    by_cases hk : k = key
    · simp [hk]
    · have : ¬ key = k := fun h => hk h.symm
      simp [hk, this, ih]

theorem jset_keys {α : Type} (key : String) (val : α) :
    ∀ l : List (String × α), key ∈ l.map Prod.fst →
      (jset key val l).map Prod.fst = l.map Prod.fst := by
  intro l
  induction l with
  | nil => intro h; simp at h
  | cons e rest ih =>
    obtain ⟨k, v⟩ := e
    intro h
    unfold jset
    by_cases hk : k = key
    · simp [hk]
    · have hne : ¬ key = k := fun h' => hk h'.symm
      have hrest : key ∈ rest.map Prod.fst := by simpa [hne] using h
      simp [hk, ih hrest]

theorem malformedResult_congr {l l' : List (String × ComponentTable)}
    (h : l'.map Prod.fst = l.map Prod.fst) (v : JsonObject) :
    malformedResult l' v = malformedResult l v := by
  have hnone : ∀ key, (jfind key l').isNone = (jfind key l).isNone := by
    intro key
    rw [Bool.eq_iff_iff, jfind_isNone_iff, jfind_isNone_iff, h]
  simp only [malformedResult, hnone]

/-- A record leaves the entity classes of the overlays as they are. -/
theorem upgradeResult_keys {mode : ResearchUpgradeCalculationMode}
    {stats : List (String × ComponentTable)} {v : JsonObject} {s s1 : UpgradeLoop}
    (h : upgradeResult mode stats v s = some s1) :
    s1.entityClasses.map Prod.fst = s.entityClasses.map Prod.fst := by
  unfold upgradeResult at h
  split at h
  · cases h; rfl
  · split at h
    · cases h; rfl
    · split at h
      · cases h; rfl
      · split at h
        · cases h; rfl
        · split at h
          · cases h; rfl
          · rename_i hfind
            split at h
            · cases h
            · cases h
              apply jset_keys
              by_contra hmem
              have := (jfind_isNone_iff _ _).2 hmem
              rw [hfind] at this
              cases this

/-- A malformed record changes nothing. -/
theorem upgradeResult_malformed {mode : ResearchUpgradeCalculationMode}
    {stats : List (String × ComponentTable)} {v : JsonObject} {s : UpgradeLoop}
    (h : malformedResult s.entityClasses v = true) : upgradeResult mode stats v s = some s := by
  unfold upgradeResult requiredProperty resultFilter
  unfold malformedResult at h
  cases hc : jfind "class" v with
  | none => rfl
  | some c =>
    cases hcs : c.is_string with
    | false => simp [hcs]
    | true =>
      cases hp : jfind "parameter" v with
      | none => simp [hcs]
      | some p =>
        cases hps : p.is_string with
        | false => simp [hcs, hps]
        | true =>
          cases hx : jfind "value" v with
          | none => simp [hcs, hps]
          | some x =>
            cases hxs : x.is_number_integer with
            | false => simp [hcs, hps, hxs]
            | true =>
              cases hf : jfind "filterParameter" v with
              | none =>
                simp only [hc, hcs, hp, hps, hx, hxs, hf, Bool.not_true, Bool.false_or,
                  Bool.or_false] at h
                cases hcl : jfind c.get_string s.entityClasses with
                | none => simp [hcs, hps, hxs, hcl]
                | some t => simp [hcl] at h
              | some fp =>
                cases hfs : fp.is_string with
                | false => simp [hcs, hps, hxs, hfs]
                | true =>
                  cases hfv : jfind "filterValue" v with
                  | none => simp [hcs, hps, hxs, hfs]
                  | some fv =>
                    simp only [hc, hcs, hp, hps, hx, hxs, hf, hfs, hfv, Bool.not_true,
                      Bool.false_or, Bool.or_false, Option.isNone_some] at h
                    cases hcl : jfind c.get_string s.entityClasses with
                    | none => simp [hcs, hps, hxs, hfs, hcl]
                    | some t => simp [hcl] at h

theorem upgradeResults_filter (mode : ResearchUpgradeCalculationMode)
    (stats : List (String × ComponentTable)) :
    ∀ (results : List JsonObject) (s : UpgradeLoop),
      upgradeResults mode stats results s =
        upgradeResults mode stats
          (results.filter (fun v => !malformedResult s.entityClasses v)) s := by
  intro results
  induction results with
  | nil => intro s; rfl
  | cons v rest ih =>
    intro s
    rw [List.filter_cons]
    cases hm : malformedResult s.entityClasses v with
    | true =>
      simp only [Bool.not_true, Bool.false_eq_true, if_false]
      rw [← ih s]
      simp only [upgradeResults, upgradeResult_malformed hm]
    | false =>
      simp only [Bool.not_false, if_true]
      unfold upgradeResults
      cases hr : upgradeResult mode stats v s with
      | none => rfl
      | some s1 =>
        simp only
        rw [ih s1]
        have hfun : (fun w => !malformedResult s1.entityClasses w) =
            (fun w => !malformedResult s.entityClasses w) := by
          funext w
          rw [malformedResult_congr (upgradeResult_keys hr)]
        rw [hfun]

/-- C18: `eventResearchedHandleUpgrades` gives for a topic the result, with the same overlays,
ledger and counters, that it gives for the topic with every malformed result record removed. -/
theorem C18_malformed_records_skipped (psResearch : RESEARCH) (player : Nat) (u : UpgradeState) :
    eventResearchedHandleUpgrades psResearch player u =
      eventResearchedHandleUpgrades
        { psResearch with
          results := psResearch.results.filter
            (fun v => !malformedResult (entityClassesOf u player) v) }
        player u := by
  unfold eventResearchedHandleUpgrades entityClassesOf
  cases hcl : u.cachedPerPlayerUpgrades[player]? with
  | none => rfl
  | some entityClasses =>
    cases hl : u.cachedPerPlayerRawUpgradeChange[player]? with
    | none => rfl
    | some totals =>
      simp only [Option.getD_some]
      rw [upgradeResults_filter]

/-! ## Completion of a topic: what each step writes -/

theorem modifyAt_getElem {α : Type} {g : α → Option α} {i : Nat} {l l1 : List α}
    (h : modifyAt g i l = some l1) (k : Nat) :
    l1[k]? = if k = i then (l[i]?).bind g else l[k]? := by
  unfold modifyAt at h
  cases hx : l[i]? with
  | none => simp [hx] at h
  | some x =>
    cases hy : g x with
    | none => simp [hx, hy] at h
    | some y =>
      simp only [hx, hy, Option.some.injEq] at h
      subst h
      have hi : i < l.length := by
        rcases Nat.lt_or_ge i l.length with hlt | hge
        · exact hlt
        · rw [List.getElem?_eq_none hge] at hx
          cases hx
      by_cases hk : k = i
      · subst hk
        simp [hy, hi]
      · have hik : ¬ i = k := fun e => hk e.symm
        simp [hk, List.getElem?_set, hik]

theorem forEachM_rel {α β : Type} {body : α → β → Option β} (R : β → β → Prop)
    (hrefl : ∀ b, R b b) (htrans : ∀ a b c, R a b → R b c → R a c)
    (hstep : ∀ a b b1, body a b = some b1 → R b b1) :
    ∀ (l : List α) (b b1 : β), forEachM body l b = some b1 → R b b1 := by
  intro l
  induction l with
  | nil =>
    intro b b1 h
    simp only [forEachM, Option.some.injEq] at h
    subst h
    exact hrefl b
  | cons a rest ih =>
    intro b b1 h
    unfold forEachM at h
    cases hb : body a b with
    | none => simp [hb] at h
    | some b2 =>
      simp only [hb] at h
      exact htrans _ _ _ (hstep a b b2 hb) (ih b2 b1 h)

theorem updateStructType_writes {f : COMPONENT_STATE → COMPONENT_STATE} {player inc : Nat}
    {w w1 : World} (h : updateStructType f player inc w = some w1) :
    ∃ lists, w1 = { w with apStructTypeLists := lists } := by
  unfold updateStructType at h
  split at h
  · cases h
  · cases h
    exact ⟨_, rfl⟩

theorem updateComp_writes {f : COMPONENT_STATE → COMPONENT_STATE} {player : Nat}
    {comp : COMPONENT_STATS} {w w1 : World} (h : updateComp f player comp w = some w1) :
    ∃ lists, w1 = { w with apCompLists := lists } := by
  unfold updateComp at h
  split at h
  · cases h
  · cases h
    exact ⟨_, rfl⟩

theorem modifyAt_some {α : Type} {g : α → Option α} {i : Nat} {l l1 : List α}
    (h : modifyAt g i l = some l1) :
    ∃ x y, l[i]? = some x ∧ g x = some y ∧ l1[i]? = some y := by
  have hk := modifyAt_getElem h i
  simp only [if_true] at hk
  unfold modifyAt at h
  cases hx : l[i]? with
  | none => simp [hx] at h
  | some x =>
    cases hy : g x with
    | none => simp [hx, hy] at h
    | some y =>
      refine ⟨x, y, rfl, hy, ?_⟩
      rw [hk, hx, Option.some_bind, hy]

theorem completeStatus_writes {researchIndex player : Nat} {w w1 : World}
    (h : completeStatus researchIndex player w = some w1) :
    ∃ lists, w1 = { w with asPlayerResList := lists } ∧
      (playerResearch lists player researchIndex).map IsResearchCompleted = some true := by
  unfold completeStatus at h
  cases hm : modifyAt (modifyAt (fun x => some (MakeResearchCompleted x)) researchIndex) player
      w.asPlayerResList with
  | none => simp [hm] at h
  | some lists =>
    simp only [hm, Option.some.injEq] at h
    subst h
    refine ⟨lists, rfl, ?_⟩
    obtain ⟨row, row1, -, hrow1, hget⟩ := modifyAt_some hm
    obtain ⟨x, y, -, hy, hget1⟩ := modifyAt_some hrow1
    simp only [Option.some.injEq] at hy
    subst hy
    unfold playerResearch
    rw [hget, Option.some_bind, hget1]
    rfl

/-- The fields that the loops over the structure types leave alone. -/
theorem structureResults_writes {pResearch : RESEARCH} {player : Nat} {w w1 : World}
    (h : structureResults pResearch player w = some w1) :
    ∃ lists, w1 = { w with apStructTypeLists := lists } :=
  forEachM_rel (fun w w1 => ∃ lists, w1 = { w with apStructTypeLists := lists })
    (fun w => ⟨w.apStructTypeLists, rfl⟩)
    (fun _ _ _ ⟨_, h1⟩ ⟨l2, h2⟩ => ⟨l2, by rw [h2, h1]⟩)
    (fun _ _ _ hs => updateStructType_writes hs) _ _ _ h

theorem redStructs_writes {pResearch : RESEARCH} {player : Nat} {w w1 : World}
    (h : redStructs pResearch player w = some w1) :
    ∃ lists, w1 = { w with apStructTypeLists := lists } :=
  forEachM_rel (fun w w1 => ∃ lists, w1 = { w with apStructTypeLists := lists })
    (fun w => ⟨w.apStructTypeLists, rfl⟩)
    (fun _ _ _ ⟨_, h1⟩ ⟨l2, h2⟩ => ⟨l2, by rw [h2, h1]⟩)
    (fun _ _ _ hs => updateStructType_writes hs) _ _ _ h

theorem redArtefacts_writes {pResearch : RESEARCH} {player : Nat} {w w1 : World}
    (h : redArtefacts pResearch player w = some w1) :
    ∃ lists, w1 = { w with apCompLists := lists } :=
  forEachM_rel (fun w w1 => ∃ lists, w1 = { w with apCompLists := lists })
    (fun w => ⟨w.apCompLists, rfl⟩)
    (fun _ _ _ ⟨_, h1⟩ ⟨l2, h2⟩ => ⟨l2, by rw [h2, h1]⟩)
    (fun _ _ _ hs => updateComp_writes hs) _ _ _ h

theorem replaceComponent_writes {pNewComponent pOldComponent : COMPONENT_STATS} {player : Nat}
    {w w1 : World} (h : replaceComponent pNewComponent pOldComponent player w = some w1) :
    ∃ droids missionDroids limboDroids templates structs missionStructs,
      w1 = { w with
        apsDroidLists := droids, missionDroidLists := missionDroids,
        apsLimboDroids := limboDroids, templates := templates, apsStructLists := structs,
        missionStructLists := missionStructs } := by
  unfold replaceComponent at h
  split at h
  · cases h
    exact ⟨_, _, _, _, _, _, rfl⟩
  · dsimp only at h
    split at h
    · cases h
      exact ⟨_, _, _, _, _, _, rfl⟩
    · split at h
      · cases h
        exact ⟨_, _, _, _, _, _, rfl⟩
      · cases h

theorem componentReplacements_writes {pResearch : RESEARCH} {player : Nat} {w w1 : World}
    (h : componentReplacements pResearch player w = some w1) :
    ∃ comps droids missionDroids limboDroids templates structs missionStructs,
      w1 = { w with
        apCompLists := comps,
        apsDroidLists := droids, missionDroidLists := missionDroids,
        apsLimboDroids := limboDroids, templates := templates, apsStructLists := structs,
        missionStructLists := missionStructs } := by
  refine forEachM_rel (fun w w1 =>
      ∃ comps droids missionDroids limboDroids templates structs missionStructs,
        w1 = { w with
          apCompLists := comps,
          apsDroidLists := droids, missionDroidLists := missionDroids,
          apsLimboDroids := limboDroids, templates := templates, apsStructLists := structs,
          missionStructLists := missionStructs })
    (fun w => ⟨_, _, _, _, _, _, _, rfl⟩) ?_ ?_ _ _ _ h
  · rintro _ _ _ ⟨_, _, _, _, _, _, _, h1⟩ ⟨_, _, _, _, _, _, _, h2⟩
    exact ⟨_, _, _, _, _, _, _, by rw [h2, h1]⟩
  · intro ri w0 w2 hs
    cases hr : replaceComponent ri.pNewComponent ri.pOldComponent player w0 with
    | none => simp [hr] at hs
    | some w3 =>
      simp only [hr] at hs
      obtain ⟨_, _, _, _, _, _, h3⟩ := replaceComponent_writes hr
      obtain ⟨_, h4⟩ := updateComp_writes hs
      exact ⟨_, _, _, _, _, _, _, by rw [h4, h3]⟩

theorem enableSelfRepair_writes {player : Nat} {w w1 : World}
    (h : enableSelfRepair player w = some w1) : ∃ flags, w1 = { w with bSelfRepair := flags } := by
  unfold enableSelfRepair at h
  split at h
  · cases h
    exact ⟨_, rfl⟩
  · split at h
    · cases h
    · cases h
      exact ⟨_, rfl⟩

theorem componentResult_writes {player : Nat} {pComp : COMPONENT_STATS} {w w1 : World}
    (h : componentResult player pComp w = some w1) :
    ∃ comps sensor ecm repair flags,
      w1 = { w with
        apCompLists := comps, aDefaultSensor := sensor, aDefaultECM := ecm,
        aDefaultRepair := repair, bSelfRepair := flags } := by
  unfold componentResult at h
  dsimp only at h
  cases hu : updateComp makeComponentAvailable player pComp w with
  | none => simp [hu] at h
  | some w2 =>
    simp only [hu] at h
    obtain ⟨comps, rfl⟩ := updateComp_writes hu
    split at h
    · split at h
      · cases h
      · cases h
        exact ⟨_, _, _, _, _, rfl⟩
    · split at h
      · split at h
        · cases h
        · cases h
          exact ⟨_, _, _, _, _, rfl⟩
      · split at h
        · split at h
          · cases h
          · obtain ⟨flags, rfl⟩ := enableSelfRepair_writes h
            exact ⟨_, _, _, _, _, rfl⟩
        · cases h
          exact ⟨_, _, _, _, _, rfl⟩

theorem componentResults_writes {pResearch : RESEARCH} {player : Nat} {w w1 : World}
    (h : componentResults pResearch player w = some w1) :
    ∃ comps sensor ecm repair flags,
      w1 = { w with
        apCompLists := comps, aDefaultSensor := sensor, aDefaultECM := ecm,
        aDefaultRepair := repair, bSelfRepair := flags } := by
  refine forEachM_rel (fun w w1 =>
      ∃ comps sensor ecm repair flags,
        w1 = { w with
          apCompLists := comps, aDefaultSensor := sensor, aDefaultECM := ecm,
          aDefaultRepair := repair, bSelfRepair := flags })
    (fun w => ⟨_, _, _, _, _, rfl⟩) ?_ ?_ _ _ _ h
  · rintro _ _ _ ⟨_, _, _, _, _, h1⟩ ⟨_, _, _, _, _, h2⟩
    exact ⟨_, _, _, _, _, by rw [h2, h1]⟩
  · intro a w0 w2 hs
    exact componentResult_writes hs

theorem clearSubject_writes {psResearchFacility : Option (Nat × Nat)} {w w1 : World}
    (h : clearSubject psResearchFacility w = some w1) :
    ∃ structs, w1 = { w with apsStructLists := structs } := by
  unfold clearSubject at h
  split at h
  · cases h
    exact ⟨_, rfl⟩
  · split at h
    · cases h
    · cases h
      exact ⟨_, rfl⟩

theorem handleUpgrades_writes {pResearch : RESEARCH} {player : Nat} {w w1 : World}
    (h : handleUpgrades pResearch player w = some w1) :
    ∃ u, eventResearchedHandleUpgrades pResearch player w.upgrades = some u ∧
      w1 = { w with upgrades := u } := by
  unfold handleUpgrades at h
  split at h
  · cases h
  · rename_i u hu
    cases h
    exact ⟨u, hu, rfl⟩

/-- The steps of a call of `researchResult` that passes its two tests. -/
theorem researchResult_steps {researchIndex player : Nat}
    {psResearchFacility : Option (Nat × Nat)} {w w8 : World}
    (ht : researchIndex < w.asResearch.length) (hp : player < w.MAX_PLAYERS)
    (h : researchResult researchIndex player psResearchFacility w = some w8) :
    ∃ pResearch w1 w2 w3 w4 w5 w6 w7,
      w.asResearch[researchIndex]? = some pResearch ∧
      completeStatus researchIndex player w = some w1 ∧
      structureResults pResearch player w1 = some w2 ∧
      redStructs pResearch player w2 = some w3 ∧
      componentReplacements pResearch player w3 = some w4 ∧
      componentResults pResearch player w4 = some w5 ∧
      redArtefacts pResearch player w5 = some w6 ∧
      clearSubject psResearchFacility w6 = some w7 ∧
      handleUpgrades pResearch player w7 = some w8 := by
  unfold researchResult at h
  rw [if_neg (not_not.2 ht), if_neg (not_not.2 hp)] at h
  cases hr : w.asResearch[researchIndex]? with
  | none => simp [hr] at h
  | some pResearch =>
    simp only [hr, Option.bind_eq_some] at h
    obtain ⟨w7, ⟨w6, ⟨w5, ⟨w4, ⟨w3, ⟨w2, ⟨w1, h1, h2⟩, h3⟩, h4⟩, h5⟩, h6⟩, h7⟩, h8⟩ := h
    exact ⟨pResearch, w1, w2, w3, w4, w5, w6, w7, rfl, h1, h2, h3, h4, h5, h6, h7, h8⟩

/-! ## Completion of a topic: the upgrades -/

/-- A call of `researchResult` that passes its two tests marks the topic completed and hands
the upgrade state it finds to `eventResearchedHandleUpgrades`; the topics stay. -/
theorem researchResult_upgrades {researchIndex player : Nat}
    {psResearchFacility : Option (Nat × Nat)} {w w8 : World}
    (ht : researchIndex < w.asResearch.length) (hp : player < w.MAX_PLAYERS)
    (h : researchResult researchIndex player psResearchFacility w = some w8) :
    ∃ pResearch, w.asResearch[researchIndex]? = some pResearch ∧
      w8.asResearch = w.asResearch ∧ w8.MAX_PLAYERS = w.MAX_PLAYERS ∧
      (playerResearch w8.asPlayerResList player researchIndex).map IsResearchCompleted
        = some true ∧
      eventResearchedHandleUpgrades pResearch player w.upgrades = some w8.upgrades := by
  obtain ⟨pResearch, w1, w2, w3, w4, w5, w6, w7, hr, h1, h2, h3, h4, h5, h6, h7, h8⟩ :=
    researchResult_steps ht hp h
  obtain ⟨_, rfl, hc⟩ := completeStatus_writes h1
  obtain ⟨_, rfl⟩ := structureResults_writes h2
  obtain ⟨_, rfl⟩ := redStructs_writes h3
  obtain ⟨_, _, _, _, _, _, _, rfl⟩ := componentReplacements_writes h4
  obtain ⟨_, _, _, _, _, rfl⟩ := componentResults_writes h5
  obtain ⟨_, rfl⟩ := redArtefacts_writes h6
  obtain ⟨_, rfl⟩ := clearSubject_writes h7
  obtain ⟨u, hu, rfl⟩ := handleUpgrades_writes h8
  exact ⟨pResearch, hr, rfl, rfl, hc, hu⟩

set_option maxRecDepth 10000 in
/-- C19, as stated, fails: with a topic that adds 10 percent to a stat of base 100, the first
call of `researchResult` leaves the topic completed and the overlay at 110, and the second call,
made on that state, moves the overlay to 120. -/
theorem C19_researchResult_twice_counterexample :
    researchResult 0 0 none (upgradeWorld 100 {}) = some (upgradeWorld 110 { completed := true }) ∧
    researchResult 0 0 none (upgradeWorld 110 { completed := true })
      = some (upgradeWorld 120 { completed := true }) ∧
    overlayValue (upgradeWorld 110 { completed := true }) 0 "Building" "A0Wall" "p"
      = some (Json.atom (JsonAtom.int 110)) ∧
    overlayValue (upgradeWorld 120 { completed := true }) 0 "Building" "A0Wall" "p"
      = some (Json.atom (JsonAtom.int 120)) := by
  decide

/-- C19, amended: `researchResult` does not look at the status.  When it is called twice for
the same valid topic and player, the first call leaves the status Completed, and the second
call applies the stat upgrades of the topic again, to the upgrade state that the first call
left. -/
theorem C19_researchResult_upgrades_again (researchIndex player : Nat)
    (psFacility1 psFacility2 : Option (Nat × Nat)) (w w1 w2 : World)
    (ht : researchIndex < w.asResearch.length) (hp : player < w.MAX_PLAYERS)
    (h1 : researchResult researchIndex player psFacility1 w = some w1)
    (h2 : researchResult researchIndex player psFacility2 w1 = some w2) :
    ∃ pResearch, w.asResearch[researchIndex]? = some pResearch ∧
      (playerResearch w1.asPlayerResList player researchIndex).map IsResearchCompleted
        = some true ∧
      eventResearchedHandleUpgrades pResearch player w.upgrades = some w1.upgrades ∧
      eventResearchedHandleUpgrades pResearch player w1.upgrades = some w2.upgrades := by
  obtain ⟨pResearch, hr, hres, hmax, hc, hu⟩ := researchResult_upgrades ht hp h1
  obtain ⟨pResearch2, hr2, -, -, -, hu2⟩ :=
    researchResult_upgrades (hres ▸ ht) (hmax ▸ hp) h2
  rw [hres, hr] at hr2
  cases hr2
  exact ⟨pResearch, hr, hc, hu, hu2⟩

set_option maxRecDepth 10000 in
/-- C19, amended, at the topic that adds 10 percent to a stat of base 100: the two calls give
the overlays 110 and 120. -/
theorem C19_researchResult_upgrades_again_witness :
    0 < (upgradeWorld 100 {}).asResearch.length ∧ 0 < (upgradeWorld 100 {}).MAX_PLAYERS ∧
    ∃ pResearch, (upgradeWorld 100 {}).asResearch[0]? = some pResearch ∧
      (playerResearch (upgradeWorld 110 { completed := true }).asPlayerResList 0 0).map
          IsResearchCompleted = some true ∧
      eventResearchedHandleUpgrades pResearch 0 (upgradeWorld 100 {}).upgrades
        = some (upgradeWorld 110 { completed := true }).upgrades ∧
      eventResearchedHandleUpgrades pResearch 0 (upgradeWorld 110 { completed := true }).upgrades
        = some (upgradeWorld 120 { completed := true }).upgrades :=
  ⟨by decide, by decide,
    C19_researchResult_upgrades_again 0 0 none none (upgradeWorld 100 {})
      (upgradeWorld 110 { completed := true }) (upgradeWorld 120 { completed := true })
      (by decide) (by decide) (by decide) (by decide)⟩

/-! ## Completion of a topic: the component states -/

theorem modifyAt2_hit {α : Type} {g : α → Option α} {i p : Nat} {ll ll1 : List (List α)}
    (h : modifyAt (modifyAt g i) p ll = some ll1) :
    ∃ x y, (ll[p]?).bind (fun l => l[i]?) = some x ∧ g x = some y ∧
      (ll1[p]?).bind (fun l => l[i]?) = some y := by
  obtain ⟨row, row1, hrow, hrow1, hget⟩ := modifyAt_some h
  obtain ⟨x, y, hx, hy, hget1⟩ := modifyAt_some hrow1
  exact ⟨x, y, by rw [hrow, Option.some_bind, hx], hy, by rw [hget, Option.some_bind, hget1]⟩

theorem modifyAt2_other {α : Type} {g : α → Option α} {i p : Nat} {ll ll1 : List (List α)}
    (h : modifyAt (modifyAt g i) p ll = some ll1) (p1 s : Nat) (hne : ¬ (p1 = p ∧ s = i)) :
    (ll1[p1]?).bind (fun l => l[s]?) = (ll[p1]?).bind (fun l => l[s]?) := by
  by_cases hp : p1 = p
  · subst hp
    have hs : ¬ s = i := fun e => hne ⟨rfl, e⟩
    obtain ⟨row, row1, hrow, hrow1, hget⟩ := modifyAt_some h
    rw [hget, hrow, Option.some_bind, Option.some_bind, modifyAt_getElem hrow1 s, if_neg hs]
  · rw [modifyAt_getElem h p1, if_neg hp]

theorem modifyAt3_hit {α : Type} {g : α → Option α} {i t p : Nat}
    {lll lll1 : List (List (List α))}
    (h : modifyAt (modifyAt (modifyAt g i) t) p lll = some lll1) :
    ∃ x y, ((lll[p]?).bind (fun l => l[t]?)).bind (fun l => l[i]?) = some x ∧ g x = some y ∧
      ((lll1[p]?).bind (fun l => l[t]?)).bind (fun l => l[i]?) = some y := by
  obtain ⟨tab, tab1, htab, htab1, hget⟩ := modifyAt_some h
  obtain ⟨x, y, hx, hy, hget1⟩ := modifyAt2_hit htab1
  exact ⟨x, y, by rw [htab, Option.some_bind, hx], hy, by rw [hget, Option.some_bind, hget1]⟩

theorem modifyAt3_other {α : Type} {g : α → Option α} {i t p : Nat}
    {lll lll1 : List (List (List α))}
    (h : modifyAt (modifyAt (modifyAt g i) t) p lll = some lll1) (p1 t1 s : Nat)
    (hne : ¬ (p1 = p ∧ t1 = t ∧ s = i)) :
    ((lll1[p1]?).bind (fun l => l[t1]?)).bind (fun l => l[s]?) =
      ((lll[p1]?).bind (fun l => l[t1]?)).bind (fun l => l[s]?) := by
  by_cases hp : p1 = p
  · subst hp
    have hs : ¬ (t1 = t ∧ s = i) := fun e => hne ⟨rfl, e⟩
    obtain ⟨tab, tab1, htab, htab1, hget⟩ := modifyAt_some h
    rw [hget, htab, Option.some_bind, Option.some_bind, modifyAt2_other htab1 t1 s hs]
  · rw [modifyAt_getElem h p1, if_neg hp]

theorem COMPONENT_TYPE.index_inj {a b : COMPONENT_TYPE} (h : a.index = b.index) : a = b := by
  cases a <;> cases b <;> first | rfl | (exact absurd h (by decide))

theorem updateStructType_hit {f : COMPONENT_STATE → COMPONENT_STATE} {player inc : Nat}
    {w w1 : World} (h : updateStructType f player inc w = some w1) :
    ∃ state, structTypeState w player inc = some state ∧
      structTypeState w1 player inc = some (f state) := by
  unfold updateStructType at h
  split at h
  · cases h
  · rename_i lists hm
    cases h
    obtain ⟨x, y, hx, hy, hget⟩ := modifyAt2_hit hm
    cases hy
    exact ⟨x, hx, hget⟩

theorem updateStructType_other {f : COMPONENT_STATE → COMPONENT_STATE} {player inc : Nat}
    {w w1 : World} (h : updateStructType f player inc w = some w1) (p1 s : Nat)
    (hne : ¬ (p1 = player ∧ s = inc)) : structTypeState w1 p1 s = structTypeState w p1 s := by
  unfold updateStructType at h
  split at h
  · cases h
  · rename_i lists hm
    cases h
    exact modifyAt2_other hm p1 s hne

theorem updateComp_hit {f : COMPONENT_STATE → COMPONENT_STATE} {player : Nat}
    {comp : COMPONENT_STATS} {w w1 : World} (h : updateComp f player comp w = some w1) :
    ∃ state, compState w player comp.compType comp.index = some state ∧
      compState w1 player comp.compType comp.index = some (f state) := by
  unfold updateComp at h
  split at h
  · cases h
  · rename_i lists hm
    cases h
    obtain ⟨x, y, hx, hy, hget⟩ := modifyAt3_hit hm
    cases hy
    exact ⟨x, hx, hget⟩

theorem updateComp_other {f : COMPONENT_STATE → COMPONENT_STATE} {player : Nat}
    {comp : COMPONENT_STATS} {w w1 : World} (h : updateComp f player comp w = some w1)
    (p1 : Nat) (type : COMPONENT_TYPE) (s : Nat)
    (hne : ¬ (p1 = player ∧ type = comp.compType ∧ s = comp.index)) :
    compState w1 p1 type s = compState w p1 type s := by
  unfold updateComp at h
  split at h
  · cases h
  · rename_i lists hm
    cases h
    exact modifyAt3_other hm p1 type.index s
      (fun e => hne ⟨e.1, COMPONENT_TYPE.index_inj e.2.1, e.2.2⟩)

/-- A loop whose body applies an idempotent map `f` to a cell when the element hits the cell,
and leaves the cell alone otherwise, applies `f` to the cell if some element hits it. -/
theorem forEachM_cell {α β S : Type} {body : α → β → Option β} (cell : β → Option S)
    (f : S → S) (hf : ∀ x, f (f x) = f x) (hit : α → Prop)
    (hstep : ∀ a b b1, body a b = some b1 →
      (hit a → ∃ st, cell b = some st ∧ cell b1 = some (f st)) ∧
      (¬ hit a → cell b1 = cell b)) :
    ∀ (l : List α) (b b1 : β), forEachM body l b = some b1 →
      ((∃ a ∈ l, hit a) → ∃ st, cell b = some st ∧ cell b1 = some (f st)) ∧
      ((∀ a ∈ l, ¬ hit a) → cell b1 = cell b) := by
  intro l
  induction l with
  | nil =>
    intro b b1 h
    simp only [forEachM, Option.some.injEq] at h
    subst h
    exact ⟨fun ⟨a, ha, _⟩ => absurd ha (List.not_mem_nil a), fun _ => rfl⟩
  | cons a rest ih =>
    intro b b1 h
    unfold forEachM at h
    cases hb : body a b with
    | none => simp [hb] at h
    | some b2 =>
      simp only [hb] at h
      obtain ⟨ihhit, ihno⟩ := ih b2 b1 h
      obtain ⟨shit, sno⟩ := hstep a b b2 hb
      constructor
      · rintro ⟨x, hx, hxhit⟩
        by_cases ha : hit a
        · obtain ⟨st, hst, hst2⟩ := shit ha
          by_cases hrest : ∃ y ∈ rest, hit y
          · obtain ⟨st1, hst1, hst3⟩ := ihhit hrest
            rw [hst2] at hst1
            cases hst1
            exact ⟨st, hst, by rw [hst3, hf]⟩
          · have hnone : ∀ y ∈ rest, ¬ hit y := fun y hy hy1 => hrest ⟨y, hy, hy1⟩
            exact ⟨st, hst, by rw [ihno hnone, hst2]⟩
        · have hxr : x ∈ rest := by
            rcases List.mem_cons.1 hx with e | e
            · subst e
              exact absurd hxhit ha
            · exact e
          obtain ⟨st1, hst1, hst3⟩ := ihhit ⟨x, hxr, hxhit⟩
          rw [sno ha] at hst1
          exact ⟨st1, hst1, hst3⟩
      · intro hnone
        rw [ihno (fun y hy => hnone y (List.mem_cons_of_mem a hy)),
          sno (hnone a (List.mem_cons_self a rest))]

theorem makeComponentAvailable_idem (state : COMPONENT_STATE) :
    makeComponentAvailable (makeComponentAvailable state) = makeComponentAvailable state := by
  cases state <;> rfl

theorem makeComponentRedundant_idem (state : COMPONENT_STATE) :
    makeComponentRedundant (makeComponentRedundant state) = makeComponentRedundant state := by
  cases state <;> rfl

theorem compState_congr {w w1 : World} (h : w1.apCompLists = w.apCompLists) (player : Nat)
    (type : COMPONENT_TYPE) (s : Nat) : compState w1 player type s = compState w player type s := by
  unfold compState
  rw [h]

theorem structTypeState_congr {w w1 : World} (h : w1.apStructTypeLists = w.apStructTypeLists)
    (player s : Nat) : structTypeState w1 player s = structTypeState w player s := by
  unfold structTypeState
  rw [h]

theorem structureResults_state {pResearch : RESEARCH} {player : Nat} {w w1 : World}
    (h : structureResults pResearch player w = some w1) (s : Nat) :
    ((∃ a ∈ pResearch.pStructureResults, a % 65536 = s) →
      ∃ st, structTypeState w player s = some st ∧
        structTypeState w1 player s = some (makeComponentAvailable st)) ∧
    ((∀ a ∈ pResearch.pStructureResults, ¬ a % 65536 = s) →
      structTypeState w1 player s = structTypeState w player s) :=
  forEachM_cell (fun w => structTypeState w player s) makeComponentAvailable
    makeComponentAvailable_idem (fun a => a % 65536 = s)
    (fun _ _ _ hs =>
      ⟨fun ha => ha ▸ updateStructType_hit hs,
        fun ha => updateStructType_other hs player s (fun e => ha e.2.symm)⟩) _ _ _ h

theorem redStructs_state {pResearch : RESEARCH} {player : Nat} {w w1 : World}
    (h : redStructs pResearch player w = some w1) (s : Nat) :
    ((∃ a ∈ pResearch.pRedStructs, a % 65536 = s) →
      ∃ st, structTypeState w player s = some st ∧
        structTypeState w1 player s = some (makeComponentRedundant st)) ∧
    ((∀ a ∈ pResearch.pRedStructs, ¬ a % 65536 = s) →
      structTypeState w1 player s = structTypeState w player s) :=
  forEachM_cell (fun w => structTypeState w player s) makeComponentRedundant
    makeComponentRedundant_idem (fun a => a % 65536 = s)
    (fun _ _ _ hs =>
      ⟨fun ha => ha ▸ updateStructType_hit hs,
        fun ha => updateStructType_other hs player s (fun e => ha e.2.symm)⟩) _ _ _ h

theorem componentReplacements_state {pResearch : RESEARCH} {player : Nat} {w w1 : World}
    (h : componentReplacements pResearch player w = some w1) (type : COMPONENT_TYPE) (s : Nat) :
    ((∃ ri ∈ pResearch.componentReplacement,
        ri.pOldComponent.compType = type ∧ ri.pOldComponent.index = s) →
      ∃ st, compState w player type s = some st ∧
        compState w1 player type s = some (makeComponentRedundant st)) ∧
    ((∀ ri ∈ pResearch.componentReplacement,
        ¬ (ri.pOldComponent.compType = type ∧ ri.pOldComponent.index = s)) →
      compState w1 player type s = compState w player type s) := by
  refine forEachM_cell (fun w => compState w player type s) makeComponentRedundant
    makeComponentRedundant_idem
    (fun ri => ri.pOldComponent.compType = type ∧ ri.pOldComponent.index = s) ?_ _ _ _ h
  intro ri w0 w2 hs
  cases hr : replaceComponent ri.pNewComponent ri.pOldComponent player w0 with
  | none => simp [hr] at hs
  | some w3 =>
    simp only [hr] at hs
    obtain ⟨_, _, _, _, _, _, hw⟩ := replaceComponent_writes hr
    have heq : w3.apCompLists = w0.apCompLists := by rw [hw]
    dsimp only
    rw [← compState_congr heq player type s]
    constructor
    · rintro ⟨rfl, rfl⟩
      exact updateComp_hit hs
    · intro hne
      exact updateComp_other hs player type s (fun e => hne ⟨e.2.1.symm, e.2.2.symm⟩)

theorem componentResult_hit {player : Nat} {pComp : COMPONENT_STATS} {w w1 : World}
    (h : componentResult player pComp w = some w1) :
    ∃ w2, updateComp makeComponentAvailable player pComp w = some w2 ∧
      w1.apCompLists = w2.apCompLists := by
  unfold componentResult at h
  dsimp only at h
  cases hu : updateComp makeComponentAvailable player pComp w with
  | none => simp [hu] at h
  | some w2 =>
    simp only [hu] at h
    refine ⟨w2, rfl, ?_⟩
    split at h
    · split at h
      · cases h
      · cases h
        rfl
    · split at h
      · split at h
        · cases h
        · cases h
          rfl
      · split at h
        · split at h
          · cases h
          · obtain ⟨flags, rfl⟩ := enableSelfRepair_writes h
            rfl
        · cases h
          rfl

theorem componentResults_state {pResearch : RESEARCH} {player : Nat} {w w1 : World}
    (h : componentResults pResearch player w = some w1) (type : COMPONENT_TYPE) (s : Nat) :
    ((∃ comp ∈ pResearch.componentResults, comp.compType = type ∧ comp.index = s) →
      ∃ st, compState w player type s = some st ∧
        compState w1 player type s = some (makeComponentAvailable st)) ∧
    ((∀ comp ∈ pResearch.componentResults, ¬ (comp.compType = type ∧ comp.index = s)) →
      compState w1 player type s = compState w player type s) := by
  refine forEachM_cell (fun w => compState w player type s) makeComponentAvailable
    makeComponentAvailable_idem (fun comp => comp.compType = type ∧ comp.index = s) ?_ _ _ _ h
  intro comp w0 w2 hs
  obtain ⟨w3, hu, heq⟩ := componentResult_hit hs
  dsimp only
  rw [compState_congr heq player type s]
  constructor
  · rintro ⟨rfl, rfl⟩
    exact updateComp_hit hu
  · intro hne
    exact updateComp_other hu player type s (fun e => hne ⟨e.2.1.symm, e.2.2.symm⟩)

theorem redArtefacts_state {pResearch : RESEARCH} {player : Nat} {w w1 : World}
    (h : redArtefacts pResearch player w = some w1) (type : COMPONENT_TYPE) (s : Nat) :
    ((∃ comp ∈ pResearch.pRedArtefacts, comp.compType = type ∧ comp.index = s) →
      ∃ st, compState w player type s = some st ∧
        compState w1 player type s = some (makeComponentRedundant st)) ∧
    ((∀ comp ∈ pResearch.pRedArtefacts, ¬ (comp.compType = type ∧ comp.index = s)) →
      compState w1 player type s = compState w player type s) := by
  refine forEachM_cell (fun w => compState w player type s) makeComponentRedundant
    makeComponentRedundant_idem (fun comp => comp.compType = type ∧ comp.index = s) ?_ _ _ _ h
  intro comp w0 w2 hs
  constructor
  · rintro ⟨rfl, rfl⟩
    exact updateComp_hit hs
  · intro hne
    exact updateComp_other hs player type s (fun e => hne ⟨e.2.1.symm, e.2.2.symm⟩)

set_option maxRecDepth 10000 in
/-- C20, as stated, fails for a topic that unlocks and retires the same structure type, or
unlocks a component that it also replaces: from the state Unavailable, whose image under
`makeComponentAvailable` is Available, `researchResult` leaves the structure type and the
component Redundant. -/
theorem C20_unlock_and_retire_counterexample :
    researchResult 0 0 none
        (unlockWorld unlockAndRetireTopic {} COMPONENT_STATE.UNAVAILABLE
          COMPONENT_STATE.UNAVAILABLE)
      = some (unlockWorld unlockAndRetireTopic { completed := true } COMPONENT_STATE.REDUNDANT
          COMPONENT_STATE.REDUNDANT) ∧
    structTypeState
        (unlockWorld unlockAndRetireTopic { completed := true } COMPONENT_STATE.REDUNDANT
          COMPONENT_STATE.REDUNDANT) 0 0 = some COMPONENT_STATE.REDUNDANT ∧
    compState
        (unlockWorld unlockAndRetireTopic { completed := true } COMPONENT_STATE.REDUNDANT
          COMPONENT_STATE.REDUNDANT) 0 COMPONENT_TYPE.COMP_WEAPON 0
      = some COMPONENT_STATE.REDUNDANT ∧
    makeComponentAvailable COMPONENT_STATE.UNAVAILABLE = COMPONENT_STATE.AVAILABLE := by
  decide

/-- C20, amended: `makeComponentAvailable` maps Unavailable and Found to Available, maps
RedundantUnavailable and RedundantFound to Redundant, and leaves Available and Redundant
unchanged.  A call of `researchResult` for a valid topic and player that has a result leaves the
player's state of an unlocked structure type that the topic does not also retire, and of a
result component that the topic neither replaces nor makes redundant, at the image under this
map of the state before the call. -/
theorem C20_researchResult_makes_available (researchIndex player : Nat)
    (psResearchFacility : Option (Nat × Nat)) (w w1 : World) (pResearch : RESEARCH)
    (ht : researchIndex < w.asResearch.length) (hp : player < w.MAX_PLAYERS)
    (hr : w.asResearch[researchIndex]? = some pResearch)
    (h : researchResult researchIndex player psResearchFacility w = some w1) :
    (makeComponentAvailable COMPONENT_STATE.UNAVAILABLE = COMPONENT_STATE.AVAILABLE ∧
      makeComponentAvailable COMPONENT_STATE.FOUND = COMPONENT_STATE.AVAILABLE ∧
      makeComponentAvailable COMPONENT_STATE.REDUNDANT_UNAVAILABLE = COMPONENT_STATE.REDUNDANT ∧
      makeComponentAvailable COMPONENT_STATE.REDUNDANT_FOUND = COMPONENT_STATE.REDUNDANT ∧
      makeComponentAvailable COMPONENT_STATE.AVAILABLE = COMPONENT_STATE.AVAILABLE ∧
      makeComponentAvailable COMPONENT_STATE.REDUNDANT = COMPONENT_STATE.REDUNDANT) ∧
    (∀ inc ∈ pResearch.pStructureResults,
      (∀ red ∈ pResearch.pRedStructs, ¬ red % 65536 = inc % 65536) →
      ∃ state, structTypeState w player (inc % 65536) = some state ∧
        structTypeState w1 player (inc % 65536) = some (makeComponentAvailable state)) ∧
    (∀ comp ∈ pResearch.componentResults,
      (∀ ri ∈ pResearch.componentReplacement,
        ¬ (ri.pOldComponent.compType = comp.compType ∧ ri.pOldComponent.index = comp.index)) →
      (∀ red ∈ pResearch.pRedArtefacts,
        ¬ (red.compType = comp.compType ∧ red.index = comp.index)) →
      ∃ state, compState w player comp.compType comp.index = some state ∧
        compState w1 player comp.compType comp.index = some (makeComponentAvailable state)) := by
  obtain ⟨pResearch1, w2, w3, w4, w5, w6, w7, w8, hr1, h1, h2, h3, h4, h5, h6, h7, h8⟩ :=
    researchResult_steps ht hp h
  rw [hr] at hr1
  cases hr1
  obtain ⟨_, e1, -⟩ := completeStatus_writes h1
  obtain ⟨_, e2⟩ := structureResults_writes h2
  obtain ⟨_, e3⟩ := redStructs_writes h3
  obtain ⟨_, _, _, _, _, _, _, e4⟩ := componentReplacements_writes h4
  obtain ⟨_, _, _, _, _, e5⟩ := componentResults_writes h5
  obtain ⟨_, e6⟩ := redArtefacts_writes h6
  obtain ⟨_, e7⟩ := clearSubject_writes h7
  obtain ⟨_, -, e8⟩ := handleUpgrades_writes h8
  refine ⟨⟨rfl, rfl, rfl, rfl, rfl, rfl⟩, ?_, ?_⟩
  · intro inc hinc hred
    obtain ⟨st, hst, hst1⟩ := (structureResults_state h2 (inc % 65536)).1 ⟨inc, hinc, rfl⟩
    have hs3 := (redStructs_state h3 (inc % 65536)).2 hred
    have hs1 : structTypeState w2 player (inc % 65536) = structTypeState w player (inc % 65536) :=
      structTypeState_congr (by rw [e1]) _ _
    have hs8 : structTypeState w1 player (inc % 65536)
        = structTypeState w4 player (inc % 65536) :=
      structTypeState_congr (by rw [e8, e7, e6, e5, e4]) _ _
    exact ⟨st, by rw [← hs1, hst], by rw [hs8, hs3, hst1]⟩
  · intro comp hcomp hrep hred
    have hc1 : compState w4 player comp.compType comp.index
        = compState w player comp.compType comp.index :=
      compState_congr (by rw [e3, e2, e1]) _ _ _
    have hc4 := (componentReplacements_state h4 comp.compType comp.index).2 hrep
    obtain ⟨st, hst, hst1⟩ :=
      (componentResults_state h5 comp.compType comp.index).1 ⟨comp, hcomp, rfl, rfl⟩
    have hc6 := (redArtefacts_state h6 comp.compType comp.index).2 hred
    have hc8 : compState w1 player comp.compType comp.index
        = compState w7 player comp.compType comp.index :=
      compState_congr (by rw [e8, e7]) _ _ _
    exact ⟨st, by rw [← hc1, ← hc4, hst], by rw [hc8, hc6, hst1]⟩

set_option maxRecDepth 10000 in
/-- C20, amended, at a topic that unlocks structure type 0 and weapon 0, from the states
Unavailable and Found: both end Available. -/
theorem C20_researchResult_makes_available_witness :
    (makeComponentAvailable COMPONENT_STATE.UNAVAILABLE = COMPONENT_STATE.AVAILABLE ∧
      makeComponentAvailable COMPONENT_STATE.FOUND = COMPONENT_STATE.AVAILABLE ∧
      makeComponentAvailable COMPONENT_STATE.REDUNDANT_UNAVAILABLE = COMPONENT_STATE.REDUNDANT ∧
      makeComponentAvailable COMPONENT_STATE.REDUNDANT_FOUND = COMPONENT_STATE.REDUNDANT ∧
      makeComponentAvailable COMPONENT_STATE.AVAILABLE = COMPONENT_STATE.AVAILABLE ∧
      makeComponentAvailable COMPONENT_STATE.REDUNDANT = COMPONENT_STATE.REDUNDANT) ∧
    (∀ inc ∈ unlockTopic.pStructureResults,
      (∀ red ∈ unlockTopic.pRedStructs, ¬ red % 65536 = inc % 65536) →
      ∃ state,
        structTypeState
            (unlockWorld unlockTopic {} COMPONENT_STATE.UNAVAILABLE COMPONENT_STATE.FOUND) 0
            (inc % 65536) = some state ∧
        structTypeState
            (unlockWorld unlockTopic { completed := true } COMPONENT_STATE.AVAILABLE
              COMPONENT_STATE.AVAILABLE) 0 (inc % 65536)
          = some (makeComponentAvailable state)) ∧
    (∀ comp ∈ unlockTopic.componentResults,
      (∀ ri ∈ unlockTopic.componentReplacement,
        ¬ (ri.pOldComponent.compType = comp.compType ∧ ri.pOldComponent.index = comp.index)) →
      (∀ red ∈ unlockTopic.pRedArtefacts,
        ¬ (red.compType = comp.compType ∧ red.index = comp.index)) →
      ∃ state,
        compState (unlockWorld unlockTopic {} COMPONENT_STATE.UNAVAILABLE COMPONENT_STATE.FOUND)
            0 comp.compType comp.index = some state ∧
        compState
            (unlockWorld unlockTopic { completed := true } COMPONENT_STATE.AVAILABLE
              COMPONENT_STATE.AVAILABLE) 0 comp.compType comp.index
          = some (makeComponentAvailable state)) :=
  C20_researchResult_makes_available 0 0 none
    (unlockWorld unlockTopic {} COMPONENT_STATE.UNAVAILABLE COMPONENT_STATE.FOUND)
    (unlockWorld unlockTopic { completed := true } COMPONENT_STATE.AVAILABLE
      COMPONENT_STATE.AVAILABLE)
    unlockTopic (by decide) (by decide) rfl (by decide)

set_option maxRecDepth 10000 in
/-- C21, as stated, fails for a topic that retires a structure type it also unlocks, or replaces
a component it also unlocks: from the state Found, whose image under `makeComponentRedundant`
is RedundantFound, `researchResult` leaves the structure type and the old component
Redundant. -/
theorem C21_retire_and_unlock_counterexample :
    researchResult 0 0 none
        (unlockWorld unlockAndRetireTopic {} COMPONENT_STATE.FOUND COMPONENT_STATE.FOUND)
      = some (unlockWorld unlockAndRetireTopic { completed := true } COMPONENT_STATE.REDUNDANT
          COMPONENT_STATE.REDUNDANT) ∧
    structTypeState
        (unlockWorld unlockAndRetireTopic { completed := true } COMPONENT_STATE.REDUNDANT
          COMPONENT_STATE.REDUNDANT) 0 0 = some COMPONENT_STATE.REDUNDANT ∧
    compState
        (unlockWorld unlockAndRetireTopic { completed := true } COMPONENT_STATE.REDUNDANT
          COMPONENT_STATE.REDUNDANT) 0 COMPONENT_TYPE.COMP_WEAPON 0
      = some COMPONENT_STATE.REDUNDANT ∧
    makeComponentRedundant COMPONENT_STATE.FOUND = COMPONENT_STATE.REDUNDANT_FOUND := by
  decide

/-- C21, amended: `makeComponentRedundant` maps Available to Redundant, Unavailable to
RedundantUnavailable and Found to RedundantFound, and leaves the three redundant states
unchanged.  A call of `researchResult` for a valid topic and player that has a result leaves the
player's state of a retired structure type that the topic does not also unlock, and of a
redundant component or old component of a replacement pair that is not also a result component
of the topic, at the image under this map of the state before the call. -/
theorem C21_researchResult_makes_redundant (researchIndex player : Nat)
    (psResearchFacility : Option (Nat × Nat)) (w w1 : World) (pResearch : RESEARCH)
    (ht : researchIndex < w.asResearch.length) (hp : player < w.MAX_PLAYERS)
    (hr : w.asResearch[researchIndex]? = some pResearch)
    (h : researchResult researchIndex player psResearchFacility w = some w1) :
    (makeComponentRedundant COMPONENT_STATE.AVAILABLE = COMPONENT_STATE.REDUNDANT ∧
      makeComponentRedundant COMPONENT_STATE.UNAVAILABLE
        = COMPONENT_STATE.REDUNDANT_UNAVAILABLE ∧
      makeComponentRedundant COMPONENT_STATE.FOUND = COMPONENT_STATE.REDUNDANT_FOUND ∧
      makeComponentRedundant COMPONENT_STATE.REDUNDANT = COMPONENT_STATE.REDUNDANT ∧
      makeComponentRedundant COMPONENT_STATE.REDUNDANT_UNAVAILABLE
        = COMPONENT_STATE.REDUNDANT_UNAVAILABLE ∧
      makeComponentRedundant COMPONENT_STATE.REDUNDANT_FOUND
        = COMPONENT_STATE.REDUNDANT_FOUND) ∧
    (∀ inc ∈ pResearch.pRedStructs,
      (∀ a ∈ pResearch.pStructureResults, ¬ a % 65536 = inc % 65536) →
      ∃ state, structTypeState w player (inc % 65536) = some state ∧
        structTypeState w1 player (inc % 65536) = some (makeComponentRedundant state)) ∧
    (∀ comp : COMPONENT_STATS,
      (comp ∈ pResearch.pRedArtefacts ∨
        ∃ ri ∈ pResearch.componentReplacement, ri.pOldComponent = comp) →
      (∀ c ∈ pResearch.componentResults,
        ¬ (c.compType = comp.compType ∧ c.index = comp.index)) →
      ∃ state, compState w player comp.compType comp.index = some state ∧
        compState w1 player comp.compType comp.index = some (makeComponentRedundant state)) := by
  obtain ⟨pResearch1, w2, w3, w4, w5, w6, w7, w8, hr1, h1, h2, h3, h4, h5, h6, h7, h8⟩ :=
    researchResult_steps ht hp h
  rw [hr] at hr1
  cases hr1
  obtain ⟨_, e1, -⟩ := completeStatus_writes h1
  obtain ⟨_, e2⟩ := structureResults_writes h2
  obtain ⟨_, e3⟩ := redStructs_writes h3
  obtain ⟨_, _, _, _, _, _, _, e4⟩ := componentReplacements_writes h4
  obtain ⟨_, _, _, _, _, e5⟩ := componentResults_writes h5
  obtain ⟨_, e6⟩ := redArtefacts_writes h6
  obtain ⟨_, e7⟩ := clearSubject_writes h7
  obtain ⟨_, -, e8⟩ := handleUpgrades_writes h8
  refine ⟨⟨rfl, rfl, rfl, rfl, rfl, rfl⟩, ?_, ?_⟩
  · intro inc hinc hres
    have hs1 : structTypeState w2 player (inc % 65536) = structTypeState w player (inc % 65536) :=
      structTypeState_congr (by rw [e1]) _ _
    have hs2 := (structureResults_state h2 (inc % 65536)).2 hres
    obtain ⟨st, hst, hst1⟩ := (redStructs_state h3 (inc % 65536)).1 ⟨inc, hinc, rfl⟩
    have hs8 : structTypeState w1 player (inc % 65536)
        = structTypeState w4 player (inc % 65536) :=
      structTypeState_congr (by rw [e8, e7, e6, e5, e4]) _ _
    exact ⟨st, by rw [← hs1, ← hs2, hst], by rw [hs8, hst1]⟩
  · intro comp hcomp hres
    have hc1 : compState w4 player comp.compType comp.index
        = compState w player comp.compType comp.index :=
      compState_congr (by rw [e3, e2, e1]) _ _ _
    have hc5 := (componentResults_state h5 comp.compType comp.index).2 hres
    have hc8 : compState w1 player comp.compType comp.index
        = compState w7 player comp.compType comp.index :=
      compState_congr (by rw [e8, e7]) _ _ _
    obtain ⟨rep4, no4⟩ := componentReplacements_state h4 comp.compType comp.index
    obtain ⟨red6, no6⟩ := redArtefacts_state h6 comp.compType comp.index
    rw [hc8]
    rw [hc1] at rep4 no4
    rw [hc5] at red6 no6
    by_cases hrep : ∃ ri ∈ pResearch.componentReplacement,
        ri.pOldComponent.compType = comp.compType ∧ ri.pOldComponent.index = comp.index
    · obtain ⟨st, hst, hst4⟩ := rep4 hrep
      by_cases hred : ∃ c ∈ pResearch.pRedArtefacts,
          c.compType = comp.compType ∧ c.index = comp.index
      · obtain ⟨st6, hst5, hst6⟩ := red6 hred
        rw [hst4] at hst5
        cases hst5
        exact ⟨st, hst, by rw [hst6, makeComponentRedundant_idem]⟩
      · have hnone : ∀ c ∈ pResearch.pRedArtefacts,
            ¬ (c.compType = comp.compType ∧ c.index = comp.index) :=
          fun c hc hc1 => hred ⟨c, hc, hc1⟩
        exact ⟨st, hst, by rw [no6 hnone, hst4]⟩
    · have hnone : ∀ ri ∈ pResearch.componentReplacement,
          ¬ (ri.pOldComponent.compType = comp.compType ∧ ri.pOldComponent.index = comp.index) :=
        fun ri hri hri1 => hrep ⟨ri, hri, hri1⟩
      have hred : ∃ c ∈ pResearch.pRedArtefacts,
          c.compType = comp.compType ∧ c.index = comp.index := by
        rcases hcomp with hc | ⟨ri, hri, rfl⟩
        · exact ⟨comp, hc, rfl, rfl⟩
        · exact absurd ⟨rfl, rfl⟩ (hnone ri hri)
      obtain ⟨st6, hst5, hst6⟩ := red6 hred
      rw [no4 hnone] at hst5
      exact ⟨st6, hst5, hst6⟩

set_option maxRecDepth 10000 in
/-- C21, amended, at a topic that retires structure type 0 and replaces weapon 0, from the
states Available and Found: they end Redundant and RedundantFound. -/
theorem C21_researchResult_makes_redundant_witness :
    (∀ inc ∈ retireTopic.pRedStructs,
      (∀ a ∈ retireTopic.pStructureResults, ¬ a % 65536 = inc % 65536) →
      ∃ state,
        structTypeState
            (unlockWorld retireTopic {} COMPONENT_STATE.AVAILABLE COMPONENT_STATE.FOUND) 0
            (inc % 65536) = some state ∧
        structTypeState
            (unlockWorld retireTopic { completed := true } COMPONENT_STATE.REDUNDANT
              COMPONENT_STATE.REDUNDANT_FOUND) 0 (inc % 65536)
          = some (makeComponentRedundant state)) ∧
    (∀ comp : COMPONENT_STATS,
      (comp ∈ retireTopic.pRedArtefacts ∨
        ∃ ri ∈ retireTopic.componentReplacement, ri.pOldComponent = comp) →
      (∀ c ∈ retireTopic.componentResults,
        ¬ (c.compType = comp.compType ∧ c.index = comp.index)) →
      ∃ state,
        compState (unlockWorld retireTopic {} COMPONENT_STATE.AVAILABLE COMPONENT_STATE.FOUND)
            0 comp.compType comp.index = some state ∧
        compState
            (unlockWorld retireTopic { completed := true } COMPONENT_STATE.REDUNDANT
              COMPONENT_STATE.REDUNDANT_FOUND) 0 comp.compType comp.index
          = some (makeComponentRedundant state)) :=
  (C21_researchResult_makes_redundant 0 0 none
    (unlockWorld retireTopic {} COMPONENT_STATE.AVAILABLE COMPONENT_STATE.FOUND)
    (unlockWorld retireTopic { completed := true } COMPONENT_STATE.REDUNDANT
      COMPONENT_STATE.REDUNDANT_FOUND)
    retireTopic (by decide) (by decide) rfl (by decide)).2

/-! ## Completion of a topic: the status table -/

theorem completeStatus_status {researchIndex player : Nat} {w w1 : World}
    (h : completeStatus researchIndex player w = some w1) :
    (∃ x, playerResearch w.asPlayerResList player researchIndex = some x ∧
      playerResearch w1.asPlayerResList player researchIndex = some (MakeResearchCompleted x)) ∧
    ∀ p t, ¬ (p = player ∧ t = researchIndex) →
      playerResearch w1.asPlayerResList p t = playerResearch w.asPlayerResList p t := by
  unfold completeStatus at h
  split at h
  · cases h
  · rename_i lists hm
    cases h
    unfold playerResearch
    constructor
    · obtain ⟨x, y, hx, hy, hget⟩ := modifyAt2_hit hm
      cases hy
      exact ⟨x, hx, hget⟩
    · intro p t hne
      exact modifyAt2_other hm p t hne

/-- C22: after a call of `researchResult` for a valid topic index and a player below
`MAX_PLAYERS` the status of that player and topic is Completed, and the status of every other
player and topic is what it was before the call. -/
theorem C22_researchResult_status (researchIndex player : Nat)
    (psResearchFacility : Option (Nat × Nat)) (w w1 : World)
    (ht : researchIndex < w.asResearch.length) (hp : player < w.MAX_PLAYERS)
    (h : researchResult researchIndex player psResearchFacility w = some w1) :
    (∃ x, playerResearch w.asPlayerResList player researchIndex = some x ∧
      playerResearch w1.asPlayerResList player researchIndex = some (MakeResearchCompleted x) ∧
      IsResearchCompleted (MakeResearchCompleted x) = true) ∧
    ∀ p t, ¬ (p = player ∧ t = researchIndex) →
      playerResearch w1.asPlayerResList p t = playerResearch w.asPlayerResList p t := by
  obtain ⟨pResearch, w2, w3, w4, w5, w6, w7, w8, hr, h1, h2, h3, h4, h5, h6, h7, h8⟩ :=
    researchResult_steps ht hp h
  obtain ⟨⟨x, hx, hx1⟩, hother⟩ := completeStatus_status h1
  obtain ⟨_, e2⟩ := structureResults_writes h2
  obtain ⟨_, e3⟩ := redStructs_writes h3
  obtain ⟨_, _, _, _, _, _, _, e4⟩ := componentReplacements_writes h4
  obtain ⟨_, _, _, _, _, e5⟩ := componentResults_writes h5
  obtain ⟨_, e6⟩ := redArtefacts_writes h6
  obtain ⟨_, e7⟩ := clearSubject_writes h7
  obtain ⟨_, -, e8⟩ := handleUpgrades_writes h8
  have he : w1.asPlayerResList = w2.asPlayerResList := by rw [e8, e7, e6, e5, e4, e3, e2]
  rw [he]
  exact ⟨⟨x, hx, hx1, rfl⟩, hother⟩

set_option maxRecDepth 10000 in
/-- C22 at a topic that is possible and started: it ends possible and completed. -/
theorem C22_researchResult_status_witness :
    (∃ x,
      playerResearch
          (unlockWorld unlockTopic { possible := true, started := true }
            COMPONENT_STATE.UNAVAILABLE COMPONENT_STATE.FOUND).asPlayerResList 0 0 = some x ∧
      playerResearch
          (unlockWorld unlockTopic { possible := true, completed := true }
            COMPONENT_STATE.AVAILABLE COMPONENT_STATE.AVAILABLE).asPlayerResList 0 0
        = some (MakeResearchCompleted x) ∧
      IsResearchCompleted (MakeResearchCompleted x) = true) ∧
    ∀ p t, ¬ (p = 0 ∧ t = 0) →
      playerResearch
          (unlockWorld unlockTopic { possible := true, completed := true }
            COMPONENT_STATE.AVAILABLE COMPONENT_STATE.AVAILABLE).asPlayerResList p t
        = playerResearch
          (unlockWorld unlockTopic { possible := true, started := true }
            COMPONENT_STATE.UNAVAILABLE COMPONENT_STATE.FOUND).asPlayerResList p t :=
  C22_researchResult_status 0 0 none
    (unlockWorld unlockTopic { possible := true, started := true }
      COMPONENT_STATE.UNAVAILABLE COMPONENT_STATE.FOUND)
    (unlockWorld unlockTopic { possible := true, completed := true }
      COMPONENT_STATE.AVAILABLE COMPONENT_STATE.AVAILABLE)
    (by decide) (by decide) (by decide)

/-! ## Completion of a topic: replacement of components -/

set_option maxRecDepth 10000 in
/-- C23 fails on the code: a topic replaces weapon 2 by weapon 3; the droid that carries weapon
2 in its first weapon slot gets weapon 3, the droid that carries weapon 2 in its second weapon
slot keeps it, while a template with weapon 2 in its second slot gets weapon 3. -/
theorem C23_second_weapon_slot_kept :
    researchResult 0 0 none
        (droidWorld replaceWeaponTopic {} COMPONENT_STATE.AVAILABLE
          [armedDroid [2], armedDroid [1, 2]] [1, 2])
      = some (droidWorld replaceWeaponTopic { completed := true } COMPONENT_STATE.REDUNDANT
          [armedDroid [3], armedDroid [1, 2]] [1, 3]) ∧
    (2 : Nat) ∈ (armedDroid [1, 2]).droid.asWeaps ∧
    (3 : Nat) ∉ (armedDroid [1, 2]).droid.asWeaps := by
  decide

theorem forEachM_rel_mem {α β : Type} {body : α → β → Option β} (R : β → β → Prop)
    (hrefl : ∀ b, R b b) (htrans : ∀ a b c, R a b → R b c → R a c) :
    ∀ (l : List α), (∀ a ∈ l, ∀ b b1, body a b = some b1 → R b b1) →
      ∀ (b b1 : β), forEachM body l b = some b1 → R b b1 := by
  intro l
  induction l with
  | nil =>
    intro _ b b1 h
    simp only [forEachM, Option.some.injEq] at h
    subst h
    exact hrefl b
  | cons a rest ih =>
    intro hstep b b1 h
    unfold forEachM at h
    cases hb : body a b with
    | none => simp [hb] at h
    | some b2 =>
      simp only [hb] at h
      exact htrans _ _ _ (hstep a (List.mem_cons_self a rest) b b2 hb)
        (ih (fun x hx => hstep x (List.mem_cons_of_mem a hx)) b2 b1 h)

theorem replaceComponent_mismatched {pNewComponent pOldComponent : COMPONENT_STATS}
    (hne : pOldComponent.compType ≠ pNewComponent.compType) (player : Nat) (w : World) :
    replaceComponent pNewComponent pOldComponent player w = some w := by
  unfold replaceComponent
  split
  · rfl
  · dsimp only
    rw [if_pos hne]

/-- With mismatched pairs only, the loop over `componentReplacement` writes component states
only. -/
theorem componentReplacements_mismatched {pResearch : RESEARCH} {player : Nat} {w w1 : World}
    (hmis : ∀ ri ∈ pResearch.componentReplacement,
      ri.pOldComponent.compType ≠ ri.pNewComponent.compType)
    (h : componentReplacements pResearch player w = some w1) :
    ∃ comps, w1 = { w with apCompLists := comps } := by
  refine forEachM_rel_mem (fun w w1 => ∃ comps, w1 = { w with apCompLists := comps })
    (fun w => ⟨_, rfl⟩) ?_ _ ?_ _ _ h
  · rintro _ _ _ ⟨_, h1⟩ ⟨_, h2⟩
    exact ⟨_, by rw [h2, h1]⟩
  · intro ri hri w0 w2 hs
    rw [replaceComponent_mismatched (hmis ri hri)] at hs
    exact updateComp_writes hs

theorem clearSubject_congr {psResearchFacility : Option (Nat × Nat)} {w w0 w1 : World}
    (h : clearSubject psResearchFacility w = some w1)
    (he : w.apsStructLists = w0.apsStructLists) :
    ∃ w2, clearSubject psResearchFacility w0 = some w2 ∧
      w2.apsStructLists = w1.apsStructLists := by
  unfold clearSubject at h ⊢
  cases psResearchFacility with
  | none =>
    cases h
    exact ⟨w0, rfl, he.symm⟩
  | some fac =>
    obtain ⟨owner, place⟩ := fac
    simp only at h ⊢
    rw [← he]
    split at h
    · cases h
    · rename_i lists hm
      cases h
      exact ⟨_, rfl, rfl⟩

set_option maxRecDepth 10000 in
/-- C24, as stated, fails: a topic whose replacement pair names weapon 2 as the old and body 1
as the new component leaves the droids and templates as they are, but the state of weapon 2
goes from Available to Redundant. -/
theorem C24_mismatched_pair_counterexample :
    researchResult 0 0 none
        (droidWorld mismatchedTopic {} COMPONENT_STATE.AVAILABLE [armedDroid [2]] [2])
      = some (droidWorld mismatchedTopic { completed := true } COMPONENT_STATE.REDUNDANT
          [armedDroid [2]] [2]) ∧
    compState (droidWorld mismatchedTopic {} COMPONENT_STATE.AVAILABLE [armedDroid [2]] [2])
        0 COMPONENT_TYPE.COMP_WEAPON 2 = some COMPONENT_STATE.AVAILABLE ∧
    compState
        (droidWorld mismatchedTopic { completed := true } COMPONENT_STATE.REDUNDANT
          [armedDroid [2]] [2]) 0 COMPONENT_TYPE.COMP_WEAPON 2
      = some COMPONENT_STATE.REDUNDANT := by
  decide

/-- C24, amended: for a replacement pair whose old and new component have different component
types `replaceComponent` changes nothing.  When every replacement pair of a topic is of this
kind, a call of `researchResult` that has a result leaves the droids, the templates and the
structures of the mission list as they were, and the structures of the player lists as the
clearing of the facility's subject alone leaves them (weapon mounts and production subjects
included); the state of the old component of every pair is still made redundant, as far as the
component is not also a result component of the topic. -/
theorem C24_mismatched_pairs (researchIndex player : Nat)
    (psResearchFacility : Option (Nat × Nat)) (w w1 : World) (pResearch : RESEARCH)
    (ht : researchIndex < w.asResearch.length) (hp : player < w.MAX_PLAYERS)
    (hr : w.asResearch[researchIndex]? = some pResearch)
    (hmis : ∀ ri ∈ pResearch.componentReplacement,
      ri.pOldComponent.compType ≠ ri.pNewComponent.compType)
    (h : researchResult researchIndex player psResearchFacility w = some w1) :
    (∀ ri ∈ pResearch.componentReplacement, ∀ p (w0 : World),
      replaceComponent ri.pNewComponent ri.pOldComponent p w0 = some w0) ∧
    w1.apsDroidLists = w.apsDroidLists ∧ w1.missionDroidLists = w.missionDroidLists ∧
    w1.apsLimboDroids = w.apsLimboDroids ∧ w1.templates = w.templates ∧
    w1.missionStructLists = w.missionStructLists ∧
    (∃ w2, clearSubject psResearchFacility w = some w2 ∧
      w1.apsStructLists = w2.apsStructLists) ∧
    (∀ ri ∈ pResearch.componentReplacement,
      (∀ c ∈ pResearch.componentResults,
        ¬ (c.compType = ri.pOldComponent.compType ∧ c.index = ri.pOldComponent.index)) →
      ∃ state,
        compState w player ri.pOldComponent.compType ri.pOldComponent.index = some state ∧
        compState w1 player ri.pOldComponent.compType ri.pOldComponent.index
          = some (makeComponentRedundant state)) := by
  obtain ⟨pResearch1, w2, w3, w4, w5, w6, w7, w8, hr1, h1, h2, h3, h4, h5, h6, h7, h8⟩ :=
    researchResult_steps ht hp h
  rw [hr] at hr1
  cases hr1
  obtain ⟨_, e1, -⟩ := completeStatus_writes h1
  obtain ⟨_, e2⟩ := structureResults_writes h2
  obtain ⟨_, e3⟩ := redStructs_writes h3
  obtain ⟨_, e4⟩ := componentReplacements_mismatched hmis h4
  obtain ⟨_, _, _, _, _, e5⟩ := componentResults_writes h5
  obtain ⟨_, e6⟩ := redArtefacts_writes h6
  obtain ⟨_, e7⟩ := clearSubject_writes h7
  obtain ⟨_, -, e8⟩ := handleUpgrades_writes h8
  have e17 : w7.apsStructLists = w.apsStructLists := by rw [e6, e5, e4, e3, e2, e1]
  obtain ⟨w9, hw9, e9⟩ := clearSubject_congr h7 e17
  refine ⟨fun ri hri p w0 => replaceComponent_mismatched (hmis ri hri) p w0,
    by rw [e8, e7, e6, e5, e4, e3, e2, e1], by rw [e8, e7, e6, e5, e4, e3, e2, e1],
    by rw [e8, e7, e6, e5, e4, e3, e2, e1], by rw [e8, e7, e6, e5, e4, e3, e2, e1],
    by rw [e8, e7, e6, e5, e4, e3, e2, e1], ⟨w9, hw9, by rw [e9, e8]⟩, ?_⟩
  intro ri hri hres
  have hc1 : compState w4 player ri.pOldComponent.compType ri.pOldComponent.index
      = compState w player ri.pOldComponent.compType ri.pOldComponent.index :=
    compState_congr (by rw [e3, e2, e1]) _ _ _
  obtain ⟨st, hst, hst4⟩ :=
    (componentReplacements_state h4 ri.pOldComponent.compType ri.pOldComponent.index).1
      ⟨ri, hri, rfl, rfl⟩
  have hc5 :=
    (componentResults_state h5 ri.pOldComponent.compType ri.pOldComponent.index).2 hres
  obtain ⟨red6, no6⟩ :=
    redArtefacts_state h6 ri.pOldComponent.compType ri.pOldComponent.index
  have hc8 : compState w1 player ri.pOldComponent.compType ri.pOldComponent.index
      = compState w7 player ri.pOldComponent.compType ri.pOldComponent.index :=
    compState_congr (by rw [e8, e7]) _ _ _
  rw [hc8]
  rw [hc5, hst4] at red6 no6
  refine ⟨st, by rw [← hc1, hst], ?_⟩
  by_cases hred : ∃ c ∈ pResearch.pRedArtefacts,
      c.compType = ri.pOldComponent.compType ∧ c.index = ri.pOldComponent.index
  · obtain ⟨st6, hst5, hst6⟩ := red6 hred
    cases hst5
    rw [hst6, makeComponentRedundant_idem]
  · exact no6 (fun c hc hc1 => hred ⟨c, hc, hc1⟩)

set_option maxRecDepth 10000 in
/-- C24, amended, at the topic that pairs weapon 2 with body 1. -/
theorem C24_mismatched_pairs_witness :
    (droidWorld mismatchedTopic { completed := true } COMPONENT_STATE.REDUNDANT
        [armedDroid [2]] [2]).apsDroidLists
      = (droidWorld mismatchedTopic {} COMPONENT_STATE.AVAILABLE
        [armedDroid [2]] [2]).apsDroidLists ∧
    (droidWorld mismatchedTopic { completed := true } COMPONENT_STATE.REDUNDANT
        [armedDroid [2]] [2]).templates
      = (droidWorld mismatchedTopic {} COMPONENT_STATE.AVAILABLE [armedDroid [2]] [2]).templates :=
  have h := C24_mismatched_pairs 0 0 none
    (droidWorld mismatchedTopic {} COMPONENT_STATE.AVAILABLE [armedDroid [2]] [2])
    (droidWorld mismatchedTopic { completed := true } COMPONENT_STATE.REDUNDANT
      [armedDroid [2]] [2])
    mismatchedTopic (by decide) (by decide) rfl (by decide) (by decide)
  ⟨h.2.1, h.2.2.2.2.1⟩

/-! ## Self-repair -/

theorem selfRepairStep_refl (p : Nat) (w : World) : SelfRepairStep p w w :=
  ⟨rfl, fun _ => Or.inl rfl⟩

theorem selfRepairStep_trans (p : Nat) (a b c : World) (h1 : SelfRepairStep p a b)
    (h2 : SelfRepairStep p b c) : SelfRepairStep p a c := by
  refine ⟨h2.1.trans h1.1, fun q => ?_⟩
  rcases h2.2 q with e2 | e2
  · rcases h1.2 q with e1 | e1
    · exact Or.inl (e2.trans e1)
    · exact Or.inr ⟨e1.1, e2.trans e1.2⟩
  · exact Or.inr e2

theorem selfRepairStep_of_same {p : Nat} {w w1 : World} (h : SameSelfRepair w w1) :
    SelfRepairStep p w w1 :=
  ⟨h.1, fun _ => Or.inl (by rw [h.2])⟩

theorem sameSelfRepair_trans {a b c : World} (h1 : SameSelfRepair a b)
    (h2 : SameSelfRepair b c) : SameSelfRepair a c :=
  ⟨h2.1.trans h1.1, h2.2.trans h1.2⟩

theorem enableSelfRepair_step {player : Nat} {w w1 : World}
    (h : enableSelfRepair player w = some w1) : SelfRepairStep player w w1 := by
  unfold enableSelfRepair at h
  split at h
  · cases h
    exact selfRepairStep_refl _ _
  · split at h
    · cases h
    · rename_i flags hm
      cases h
      refine ⟨rfl, fun q => ?_⟩
      have hq := modifyAt_getElem hm q
      obtain ⟨x, y, hx, hy, hget⟩ := modifyAt_some hm
      cases hy
      by_cases hqp : q = player
      · subst hqp
        exact Or.inr ⟨rfl, hget⟩
      · rw [if_neg hqp] at hq
        exact Or.inl hq

theorem enableSelfRepair_sets {player : Nat} {w w1 : World} (hp : player < w.MAX_PLAYERS)
    (h : enableSelfRepair player w = some w1) :
    ∃ flag, w.bSelfRepair[player]? = some flag ∧ w1.bSelfRepair[player]? = some true := by
  unfold enableSelfRepair at h
  rw [if_neg (not_not.2 hp)] at h
  split at h
  · cases h
  · rename_i flags hm
    cases h
    obtain ⟨x, y, hx, hy, hget⟩ := modifyAt_some hm
    cases hy
    exact ⟨x, hx, hget⟩

theorem componentResult_step {player : Nat} {pComp : COMPONENT_STATS} {w w1 : World}
    (h : componentResult player pComp w = some w1) : SelfRepairStep player w w1 := by
  unfold componentResult at h
  dsimp only at h
  cases hu : updateComp makeComponentAvailable player pComp w with
  | none => simp [hu] at h
  | some w2 =>
    simp only [hu] at h
    obtain ⟨comps, rfl⟩ := updateComp_writes hu
    split at h
    · split at h
      · cases h
      · cases h
        exact selfRepairStep_refl _ _
    · split at h
      · split at h
        · cases h
        · cases h
          exact selfRepairStep_refl _ _
      · split at h
        · split at h
          · cases h
          · have hs := enableSelfRepair_step h
            exact ⟨hs.1, hs.2⟩
        · cases h
          exact selfRepairStep_refl _ _

theorem researchResult_selfRepair {researchIndex player : Nat}
    {psResearchFacility : Option (Nat × Nat)} {w w1 : World}
    (h : researchResult researchIndex player psResearchFacility w = some w1) :
    SelfRepairStep player w w1 := by
  by_cases ht : researchIndex < w.asResearch.length
  · by_cases hp : player < w.MAX_PLAYERS
    · obtain ⟨pResearch, w2, w3, w4, w5, w6, w7, w8, hr, h1, h2, h3, h4, h5, h6, h7, h8⟩ :=
        researchResult_steps ht hp h
      obtain ⟨_, e1, -⟩ := completeStatus_writes h1
      obtain ⟨_, e2⟩ := structureResults_writes h2
      obtain ⟨_, e3⟩ := redStructs_writes h3
      obtain ⟨_, _, _, _, _, _, _, e4⟩ := componentReplacements_writes h4
      have s5 : SelfRepairStep player w5 w6 :=
        forEachM_rel (SelfRepairStep player) (selfRepairStep_refl player)
          (selfRepairStep_trans player) (fun _ _ _ hs => componentResult_step hs) _ _ _ h5
      obtain ⟨_, e6⟩ := redArtefacts_writes h6
      obtain ⟨_, e7⟩ := clearSubject_writes h7
      obtain ⟨_, -, e8⟩ := handleUpgrades_writes h8
      have s04 : SelfRepairStep player w w5 :=
        selfRepairStep_of_same ⟨by rw [e4, e3, e2, e1], by rw [e4, e3, e2, e1]⟩
      have s68 : SelfRepairStep player w6 w1 :=
        selfRepairStep_of_same ⟨by rw [e8, e7, e6], by rw [e8, e7, e6]⟩
      exact selfRepairStep_trans _ _ _ _ (selfRepairStep_trans _ _ _ _ s04 s5) s68
    · unfold researchResult at h
      rw [if_neg (not_not.2 ht), if_pos hp] at h
      cases h
      exact selfRepairStep_refl _ _
  · unfold researchResult at h
    rw [if_pos ht] at h
    cases h
    exact selfRepairStep_refl _ _

theorem setStatus_writes {f : PLAYER_RESEARCH → PLAYER_RESEARCH} {player topicInc : Nat}
    {w w1 : World} (h : setStatus f player topicInc w = some w1) :
    ∃ lists, w1 = { w with asPlayerResList := lists } := by
  unfold setStatus at h
  split at h
  · cases h
  · cases h
    exact ⟨_, rfl⟩

theorem setFacility_writes {psBuilding : Nat × Nat} {psResFac : RESEARCH_FACILITY}
    {w w1 : World} (h : setFacility psBuilding psResFac w = some w1) :
    ∃ lists, w1 = { w with apsStructLists := lists } := by
  unfold setFacility at h
  split at h
  · cases h
  · cases h
    exact ⟨_, rfl⟩

theorem holdResearch_writes {psBuilding : Nat × Nat} {mode : QUEUE_MODE} {gameTime : Nat}
    {w w1 : World} (h : holdResearch psBuilding mode gameTime w = some w1) :
    ∃ lists, w1 = { w with apsStructLists := lists } := by
  unfold holdResearch at h
  split at h
  · cases h
  · split at h
    · cases h
      exact ⟨_, rfl⟩
    · split at h
      · split at h
        · exact setFacility_writes h
        · split at h
          · exact setFacility_writes h
          · cases h
            exact ⟨_, rfl⟩
      · cases h

theorem releaseResearch_writes {psBuilding : Nat × Nat} {mode : QUEUE_MODE}
    {w w1 : World} (h : releaseResearch psBuilding mode w = some w1) :
    ∃ lists, w1 = { w with apsStructLists := lists } := by
  unfold releaseResearch at h
  split at h
  · cases h
  · split at h
    · cases h
      exact ⟨_, rfl⟩
    · split at h
      · split at h
        · exact setFacility_writes h
        · split at h
          · exact setFacility_writes h
          · cases h
            exact ⟨_, rfl⟩
      · cases h

theorem cancelResearch_writes {psBuilding : Nat × Nat} {mode : QUEUE_MODE}
    {w w1 : World} (h : cancelResearch psBuilding mode w = some w1) :
    ∃ status structs, w1 = { w with asPlayerResList := status, apsStructLists := structs } := by
  unfold cancelResearch at h
  split at h
  · cases h
  · split at h
    · cases h
      exact ⟨_, _, rfl⟩
    · split at h
      · split at h
        · cases h
          exact ⟨_, _, rfl⟩
        · split at h
          · cases h
          · dsimp only at h
            split at h
            · cases h
              exact ⟨_, _, rfl⟩
            · split at h
              · cases h
              · split at h
                · obtain ⟨w2, h2, h3⟩ := Option.bind_eq_some.1 h
                  obtain ⟨_, rfl⟩ := setStatus_writes h2
                  obtain ⟨_, rfl⟩ := setFacility_writes h3
                  exact ⟨_, _, rfl⟩
                · obtain ⟨w2, h2, h3⟩ := Option.bind_eq_some.1 h
                  obtain ⟨_, rfl⟩ := setStatus_writes h2
                  obtain ⟨_, rfl⟩ := setFacility_writes h3
                  exact ⟨_, _, rfl⟩
      · cases h

theorem cancelAllResearch_writes {pl : Nat} {w w1 : World}
    (h : CancelAllResearch pl w = some w1) :
    ∃ status structs, w1 = { w with asPlayerResList := status, apsStructLists := structs } := by
  unfold CancelAllResearch at h
  split at h
  · cases h
    exact ⟨_, _, rfl⟩
  · split at h
    · cases h
    · refine forEachM_rel (fun w w1 => ∃ status structs,
          w1 = { w with asPlayerResList := status, apsStructLists := structs })
        (fun w => ⟨_, _, rfl⟩) ?_ ?_ _ _ _ h
      · rintro _ _ _ ⟨_, _, h1⟩ ⟨_, _, h2⟩
        exact ⟨_, _, by rw [h2, h1]⟩
      · intro place w0 w2 hs
        split at hs
        · cases hs
        · split at hs
          · split at hs
            · split at hs
              · exact cancelResearch_writes hs
              · cases hs
                exact ⟨_, _, rfl⟩
            · cases hs
          · cases hs
            exact ⟨_, _, rfl⟩

theorem enableResearch_writes {psResearch : Option RESEARCH} {player : Nat} {w w1 : World}
    {b : Bool} (h : enableResearch psResearch player w = some (b, w1)) :
    ∃ lists, w1 = { w with asPlayerResList := lists } := by
  unfold enableResearch at h
  split at h
  · cases h
    exact ⟨_, rfl⟩
  · split at h
    · cases h
      exact ⟨_, rfl⟩
    · dsimp only at h
      split at h
      · cases h
        exact ⟨_, rfl⟩
      · split at h
        · cases h
        · rename_i w2 hs
          cases h
          exact setStatus_writes hs

theorem researchReward_selfRepair {losingPlayer rewardPlayer : Nat} {w w1 : World}
    (h : researchReward losingPlayer rewardPlayer w = some w1) :
    SelfRepairStep rewardPlayer w w1 := by
  unfold researchReward at h
  split at h
  · cases h
  · split at h
    · cases h
    · split at h
      · exact researchResult_selfRepair h
      · cases h
        exact selfRepairStep_refl _ _

/-- No operation clears a self-repair flag or changes the number of players. -/
theorem runOp_selfRepair {op : ResearchOp} {w w1 : World} (h : runOp op w = some w1) :
    ∃ p, SelfRepairStep p w w1 := by
  cases op with
  | researchResult researchIndex player psResearchFacility =>
    exact ⟨player, researchResult_selfRepair h⟩
  | enableResearch psResearch player =>
    simp only [runOp, Option.map_eq_some'] at h
    obtain ⟨⟨b, w2⟩, h1, rfl⟩ := h
    obtain ⟨_, rfl⟩ := enableResearch_writes h1
    exact ⟨0, selfRepairStep_refl _ _⟩
  | cancelResearch psBuilding mode =>
    obtain ⟨_, _, rfl⟩ := cancelResearch_writes h
    exact ⟨0, selfRepairStep_refl _ _⟩
  | holdResearch psBuilding mode gameTime =>
    obtain ⟨_, rfl⟩ := holdResearch_writes h
    exact ⟨0, selfRepairStep_refl _ _⟩
  | releaseResearch psBuilding mode =>
    obtain ⟨_, rfl⟩ := releaseResearch_writes h
    exact ⟨0, selfRepairStep_refl _ _⟩
  | CancelAllResearch pl =>
    obtain ⟨_, _, rfl⟩ := cancelAllResearch_writes h
    exact ⟨0, selfRepairStep_refl _ _⟩
  | RecursivelyDisableResearchByID fuel index =>
    simp only [runOp, Option.map_eq_some'] at h
    obtain ⟨_, _, rfl⟩ := h
    exact ⟨0, selfRepairStep_refl _ _⟩
  | RecursivelyDisableResearchByFlags fuel flags =>
    simp only [runOp, Option.map_eq_some'] at h
    obtain ⟨_, _, rfl⟩ := h
    exact ⟨0, selfRepairStep_refl _ _⟩
  | researchReward losingPlayer rewardPlayer =>
    exact ⟨rewardPlayer, researchReward_selfRepair h⟩
  | ResearchRelease =>
    simp only [runOp, Option.some.injEq] at h
    subst h
    exact ⟨0, selfRepairStep_refl _ _⟩

theorem selfRepairEnabled_step {p q : Nat} {w w1 : World} (hs : SelfRepairStep p w w1)
    (h : selfRepairEnabled q w = some true) : selfRepairEnabled q w1 = some true := by
  unfold selfRepairEnabled at h ⊢
  rw [hs.1]
  split at h
  · cases h
  · rename_i hq
    rw [if_neg hq]
    rcases hs.2 q with e | e
    · rw [e, h]
    · exact e.2

theorem runOps_selfRepair {q : Nat} :
    ∀ (ops : List ResearchOp) (w w1 : World), selfRepairEnabled q w = some true →
      runOps ops w = some w1 → selfRepairEnabled q w1 = some true := by
  intro ops
  induction ops with
  | nil =>
    intro w w1 hq h
    simp only [runOps, forEachM, Option.some.injEq] at h
    subst h
    exact hq
  | cons op rest ih =>
    intro w w1 hq h
    unfold runOps forEachM at h
    cases ho : runOp op w with
    | none => simp [ho] at h
    | some w2 =>
      simp only [ho] at h
      obtain ⟨p, hs⟩ := runOp_selfRepair ho
      exact ih w2 w1 (selfRepairEnabled_step hs hq) h

theorem componentResult_sets {player : Nat} {pComp : COMPONENT_STATS} {w w1 : World}
    (hp : player < w.MAX_PLAYERS)
    (hit : pComp.compType = COMPONENT_TYPE.COMP_REPAIRUNIT ∧ pComp.location = LOC.LOC_DEFAULT)
    (h : componentResult player pComp w = some w1) : w1.bSelfRepair[player]? = some true := by
  unfold componentResult at h
  dsimp only at h
  cases hu : updateComp makeComponentAvailable player pComp w with
  | none => simp [hu] at h
  | some w2 =>
    simp only [hu] at h
    obtain ⟨comps, rfl⟩ := updateComp_writes hu
    have hn1 : ¬ (pComp.compType = COMPONENT_TYPE.COMP_SENSOR ∧
        pComp.location = LOC.LOC_DEFAULT) := by
      rw [hit.1]
      exact fun e => absurd e.1 (by decide)
    have hn2 : ¬ (pComp.compType = COMPONENT_TYPE.COMP_ECM ∧
        pComp.location = LOC.LOC_DEFAULT) := by
      rw [hit.1]
      exact fun e => absurd e.1 (by decide)
    rw [if_neg hn1, if_neg hn2, if_pos hit] at h
    split at h
    · cases h
    · have hs := fun hp2 => enableSelfRepair_sets hp2 h
      obtain ⟨_, -, hset⟩ := hs hp
      exact hset

theorem componentResults_sets {player : Nat} :
    ∀ (l : List COMPONENT_STATS) (w w1 : World), player < w.MAX_PLAYERS →
      (∃ comp ∈ l, comp.compType = COMPONENT_TYPE.COMP_REPAIRUNIT ∧
        comp.location = LOC.LOC_DEFAULT) →
      forEachM (componentResult player) l w = some w1 →
      w1.bSelfRepair[player]? = some true := by
  intro l
  induction l with
  | nil =>
    rintro w w1 - ⟨comp, hc, -⟩ -
    exact absurd hc (List.not_mem_nil comp)
  | cons a rest ih =>
    rintro w w1 hp ⟨comp, hc, hit⟩ h
    unfold forEachM at h
    cases ha : componentResult player a w with
    | none => simp [ha] at h
    | some w2 =>
      simp only [ha] at h
      have hs := componentResult_step ha
      have hp2 : player < w2.MAX_PLAYERS := by rw [hs.1]; exact hp
      by_cases hrest : ∃ c ∈ rest, c.compType = COMPONENT_TYPE.COMP_REPAIRUNIT ∧
          c.location = LOC.LOC_DEFAULT
      · exact ih w2 w1 hp2 hrest h
      · have hca : comp = a := by
          rcases List.mem_cons.1 hc with e | e
          · exact e
          · exact absurd ⟨comp, e, hit⟩ hrest
        subst hca
        have hset := componentResult_sets hp hit ha
        have hs2 : SelfRepairStep player w2 w1 :=
          forEachM_rel (SelfRepairStep player) (selfRepairStep_refl player)
            (selfRepairStep_trans player) (fun _ _ _ hs => componentResult_step hs) _ _ _ h
        rcases hs2.2 player with e | e
        · rw [e, hset]
        · exact e.2

set_option maxRecDepth 10000 in
/-- C25: a call of `researchResult` for a valid topic and player `p` sets the self-repair flag
of `p` when the result components of the topic include a repair unit of the default location,
and changes the flag of no other player; and when `selfRepairEnabled` holds for a player it
holds after every sequence of research operations (`researchResult`, `enableResearch`,
`cancelResearch`, `holdResearch`, `releaseResearch`, `CancelAllResearch`, the recursive disable,
`researchReward`, `ResearchRelease`) that has a result, while `researchInitVars` clears it. -/
theorem C25_selfRepair_latched (researchIndex p : Nat)
    (psResearchFacility : Option (Nat × Nat)) (w w1 : World) (pResearch : RESEARCH)
    (ht : researchIndex < w.asResearch.length) (hp : p < w.MAX_PLAYERS)
    (hr : w.asResearch[researchIndex]? = some pResearch)
    (h : researchResult researchIndex p psResearchFacility w = some w1) :
    ((∃ comp ∈ pResearch.componentResults,
        comp.compType = COMPONENT_TYPE.COMP_REPAIRUNIT ∧ comp.location = LOC.LOC_DEFAULT) →
      selfRepairEnabled p w1 = some true) ∧
    (∀ q, q ≠ p → w1.bSelfRepair[q]? = w.bSelfRepair[q]?) ∧
    (∀ (q : Nat) (ops : List ResearchOp) (w2 w3 : World),
      selfRepairEnabled q w2 = some true → runOps ops w2 = some w3 →
      selfRepairEnabled q w3 = some true) ∧
    (∀ (q : Nat) (w2 : World), q < w2.MAX_PLAYERS →
      selfRepairEnabled q (researchInitVars w2) = some false) := by
  have hstep := researchResult_selfRepair h
  refine ⟨?_, ?_, fun q ops w2 w3 hq hops => runOps_selfRepair ops w2 w3 hq hops, ?_⟩
  · intro hit
    obtain ⟨pResearch1, w2, w3, w4, w5, w6, w7, w8, hr1, h1, h2, h3, h4, h5, h6, h7, h8⟩ :=
      researchResult_steps ht hp h
    rw [hr] at hr1
    cases hr1
    obtain ⟨_, e1, -⟩ := completeStatus_writes h1
    obtain ⟨_, e2⟩ := structureResults_writes h2
    obtain ⟨_, e3⟩ := redStructs_writes h3
    obtain ⟨_, _, _, _, _, _, _, e4⟩ := componentReplacements_writes h4
    obtain ⟨_, e6⟩ := redArtefacts_writes h6
    obtain ⟨_, e7⟩ := clearSubject_writes h7
    obtain ⟨_, -, e8⟩ := handleUpgrades_writes h8
    have hp5 : p < w5.MAX_PLAYERS := by rw [e4, e3, e2, e1]; exact hp
    have hset := componentResults_sets _ _ _ hp5 hit h5
    have hflag : w1.bSelfRepair[p]? = some true := by rw [e8, e7, e6]; exact hset
    unfold selfRepairEnabled
    rw [hstep.1, if_neg (not_not.2 hp)]
    exact hflag
  · intro q hq
    rcases hstep.2 q with e | e
    · exact e
    · exact absurd e.1 hq
  · intro q w2 hq
    unfold selfRepairEnabled
    have hq1 : q < (researchInitVars w2).MAX_PLAYERS := hq
    rw [if_neg (not_not.2 hq1)]
    simp [researchInitVars, hq]

set_option maxRecDepth 10000 in
/-- C25 at a topic whose result is a default-location repair unit, completed for player 0 of
two players: the flag of player 0 is set and the flag of player 1 stays, also after the recursive
disable, a reward and `ResearchRelease`. -/
theorem C25_selfRepair_latched_witness :
    selfRepairEnabled 0
        (repairWorld { completed := true } COMPONENT_STATE.AVAILABLE [true, false]) = some true ∧
    selfRepairEnabled 1
        (repairWorld { completed := true } COMPONENT_STATE.AVAILABLE [true, false])
      = some false ∧
    (runOps [ResearchOp.RecursivelyDisableResearchByFlags 2 1, ResearchOp.researchReward 1 0,
        ResearchOp.ResearchRelease]
      (repairWorld { completed := true } COMPONENT_STATE.AVAILABLE [true, false])).bind
        (selfRepairEnabled 0) = some true :=
  have h := C25_selfRepair_latched 0 0 none
    (repairWorld {} COMPONENT_STATE.UNAVAILABLE [false, false])
    (repairWorld { completed := true } COMPONENT_STATE.AVAILABLE [true, false])
    repairTopic (by decide) (by decide) rfl (by decide)
  ⟨h.1 ⟨_, List.mem_singleton.2 rfl, rfl, rfl⟩, by decide, by decide⟩

/-! ## Commands on a research facility -/

theorem modifyAt2_total {α : Type} {f : α → α} {i p : Nat} {ll : List (List α)} {x : α}
    (h : (ll[p]?).bind (fun l => l[i]?) = some x) :
    ∃ ll1, modifyAt (modifyAt (fun y => some (f y)) i) p ll = some ll1 := by
  obtain ⟨row, hrow, hx⟩ := Option.bind_eq_some.1 h
  unfold modifyAt
  simp only [hrow]
  simp only [hx]
  exact ⟨_, rfl⟩

theorem setStatus_spec {f : PLAYER_RESEARCH → PLAYER_RESEARCH} {player topicInc : Nat}
    {w : World} {x : PLAYER_RESEARCH}
    (hx : playerResearch w.asPlayerResList player topicInc = some x) :
    ∃ lists, setStatus f player topicInc w = some { w with asPlayerResList := lists } ∧
      playerResearch lists player topicInc = some (f x) ∧
      ∀ p t, ¬ (p = player ∧ t = topicInc) →
        playerResearch lists p t = playerResearch w.asPlayerResList p t := by
  unfold playerResearch at hx
  obtain ⟨lists, hm⟩ := @modifyAt2_total _ f _ _ _ _ hx
  refine ⟨lists, by unfold setStatus; rw [hm], ?_, ?_⟩
  · obtain ⟨x1, y, hx1, hy, hget⟩ := modifyAt2_hit hm
    rw [hx] at hx1
    cases hx1
    cases hy
    exact hget
  · intro p t hne
    exact modifyAt2_other hm p t hne

theorem setFacility_spec {psBuilding : Nat × Nat} {psResFac : RESEARCH_FACILITY} {w : World}
    {psStruct : STRUCTURE} (hs : getStructure w psBuilding = some psStruct) :
    ∃ lists, setFacility psBuilding psResFac w = some { w with apsStructLists := lists } ∧
      getStructure { w with apsStructLists := lists } psBuilding
        = some { psStruct with pFunctionality := FUNCTIONALITY.researchFacility psResFac } ∧
      ∀ b : Nat × Nat, b ≠ psBuilding →
        getStructure { w with apsStructLists := lists } b = getStructure w b := by
  unfold getStructure at hs
  obtain ⟨lists, hm⟩ := @modifyAt2_total _
    (fun s : STRUCTURE => { s with pFunctionality := FUNCTIONALITY.researchFacility psResFac })
    _ _ _ _ hs
  refine ⟨lists, by unfold setFacility; rw [hm], ?_, ?_⟩
  · obtain ⟨x1, y, hx1, hy, hget⟩ := modifyAt2_hit hm
    rw [hs] at hx1
    cases hx1
    cases hy
    exact hget
  · intro b hne
    exact modifyAt2_other hm b.1 b.2 (fun e => hne (Prod.ext e.1 e.2))

/-- The result of `cancelResearch` for a research facility with a subject. -/
theorem cancelResearch_subject {psBuilding : Nat × Nat} {mode : QUEUE_MODE} {w : World}
    {psStruct : STRUCTURE} {psResFac : RESEARCH_FACILITY} {psSubject : Nat} {subject : RESEARCH}
    {x : PLAYER_RESEARCH}
    (hs : getStructure w psBuilding = some psStruct)
    (htype : psStruct.pStructureType = STRUCTURE_TYPE.REF_RESEARCH)
    (hfun : psStruct.pFunctionality = FUNCTIONALITY.researchFacility psResFac)
    (hsub : psResFac.psSubject = some psSubject)
    (hres : w.asResearch[psSubject]? = some subject)
    (hle : subject.index ≤ w.asResearch.length)
    (hx : playerResearch w.asPlayerResList psStruct.player subject.index = some x) :
    cancelResearch psBuilding mode w =
      if mode = QUEUE_MODE.ModeQueue then
        (setStatus MakeResearchCancelledPending psStruct.player subject.index w).bind
          (setFacility psBuilding (setStatusPendingCancel psResFac))
      else
        (setStatus
          (if x.currentPoints = 0 then ResetResearchStatus else MakeResearchCancelled)
          psStruct.player subject.index w).bind
          (setFacility psBuilding { psResFac with psSubject := none }) := by
  unfold cancelResearch
  simp only [hs, htype, ne_eq, not_true_eq_false, if_false, hfun, hsub, hres, hle,
    not_true_eq_false, hx]

theorem checkPrerequisites_congr_view {table table1 : List (List PLAYER_RESEARCH)}
    {playerID : Nat}
    (hview : ∀ p t, (playerResearch table1 p t).map immediateView
      = (playerResearch table p t).map immediateView) :
    ∀ (l : List Nat),
      checkPrerequisites table1 playerID l = checkPrerequisites table playerID l := by
  intro l
  induction l with
  | nil => rfl
  | cons q rest ih =>
    unfold checkPrerequisites
    have hv := hview playerID q
    cases h1 : playerResearch table1 playerID q with
    | none =>
      cases h : playerResearch table playerID q with
      | none => rfl
      | some x => rw [h1, h] at hv; cases hv
    | some x1 =>
      cases h : playerResearch table playerID q with
      | none => rw [h1, h] at hv; cases hv
      | some x =>
        rw [h1, h] at hv
        simp only [Option.map_some', Option.some.injEq, immediateView, Prod.mk.injEq] at hv
        simp only [hv.2.2.1, ih]

/-- In `ModeImmediate` the answer of `researchAvailable` depends on the status table through
the immediate view only. -/
theorem researchAvailable_immediate_congr (g : Game) {table table1 : List (List PLAYER_RESEARCH)}
    (hview : ∀ p t, (playerResearch table1 p t).map immediateView
      = (playerResearch table p t).map immediateView) (inc playerID : Nat) :
    researchAvailable { g with asPlayerResList := table1 } inc playerID QUEUE_MODE.ModeImmediate
      = researchAvailable { g with asPlayerResList := table } inc playerID
          QUEUE_MODE.ModeImmediate := by
  unfold researchAvailable
  dsimp only
  split
  · rfl
  · have hv := hview playerID inc
    cases h1 : playerResearch table1 playerID inc with
    | none =>
      cases h : playerResearch table playerID inc with
      | none => rfl
      | some x => rw [h1, h] at hv; cases hv
    | some x1 =>
      cases h : playerResearch table playerID inc with
      | none => rw [h1, h] at hv; cases hv
      | some x =>
        rw [h1, h] at hv
        simp only [Option.map_some', Option.some.injEq, immediateView, Prod.mk.injEq] at hv
        obtain ⟨hst, hca, hco, hpo, hdi⟩ := hv
        simp only [IsResearchCancelledFunc, IsResearchStartedFunc, hst, hca, hco, hpo, hdi,
          checkPrerequisites_congr_view hview]

/-- C29: for a research facility, `cancelResearch` in `ModeImmediate` leaves the state as it is
when the facility has no subject; when it has a subject whose status entry for the owner exists,
the subject of the facility is cleared and the status of the owner and the topic is reset to
NotStarted if `currentPoints` is 0 and becomes Cancelled otherwise. -/
theorem C29_cancelResearch_immediate (psBuilding : Nat × Nat) (w : World) (psStruct : STRUCTURE)
    (psResFac : RESEARCH_FACILITY)
    (hs : getStructure w psBuilding = some psStruct)
    (htype : psStruct.pStructureType = STRUCTURE_TYPE.REF_RESEARCH)
    (hfun : psStruct.pFunctionality = FUNCTIONALITY.researchFacility psResFac) :
    (psResFac.psSubject = none →
      cancelResearch psBuilding QUEUE_MODE.ModeImmediate w = some w) ∧
    (∀ (psSubject : Nat) (subject : RESEARCH) (x : PLAYER_RESEARCH),
      psResFac.psSubject = some psSubject → w.asResearch[psSubject]? = some subject →
      subject.index ≤ w.asResearch.length →
      playerResearch w.asPlayerResList psStruct.player subject.index = some x →
      ∃ w1, cancelResearch psBuilding QUEUE_MODE.ModeImmediate w = some w1 ∧
        getStructure w1 psBuilding
          = some { psStruct with
              pFunctionality :=
                FUNCTIONALITY.researchFacility { psResFac with psSubject := none } } ∧
        (x.currentPoints = 0 →
          playerResearch w1.asPlayerResList psStruct.player subject.index
            = some (ResetResearchStatus x) ∧
          IsResearchStarted (ResetResearchStatus x) = false ∧
          IsResearchCancelled (ResetResearchStatus x) = false ∧
          IsResearchCompleted (ResetResearchStatus x) = false) ∧
        (x.currentPoints ≠ 0 →
          playerResearch w1.asPlayerResList psStruct.player subject.index
            = some (MakeResearchCancelled x) ∧
          IsResearchCancelled (MakeResearchCancelled x) = true) ∧
        ∀ p t, ¬ (p = psStruct.player ∧ t = subject.index) →
          playerResearch w1.asPlayerResList p t = playerResearch w.asPlayerResList p t) := by
  constructor
  · intro hnone
    unfold cancelResearch
    simp only [hs, htype, ne_eq, not_true_eq_false, if_false, hfun, hnone]
  · intro psSubject subject x hsub hres hle hx
    rw [cancelResearch_subject hs htype hfun hsub hres hle hx,
      if_neg (by decide : ¬ QUEUE_MODE.ModeImmediate = QUEUE_MODE.ModeQueue)]
    obtain ⟨lists, hset, hcell, hother⟩ :=
      @setStatus_spec (if x.currentPoints = 0 then ResetResearchStatus else MakeResearchCancelled)
        _ _ _ _ hx
    have hs1 : getStructure { w with asPlayerResList := lists } psBuilding = some psStruct := hs
    obtain ⟨structs, hfac, hget, -⟩ :=
      @setFacility_spec psBuilding { psResFac with psSubject := none } _ _ hs1
    refine ⟨_, by rw [hset, Option.some_bind, hfac], hget, ?_, ?_, hother⟩
    · intro h0
      rw [if_pos h0] at hcell
      exact ⟨hcell, rfl, rfl, rfl⟩
    · intro h0
      rw [if_neg h0] at hcell
      exact ⟨hcell, rfl⟩

set_option maxRecDepth 10000 in
/-- C29 at a facility that researches topic 0 with 5 points gathered: the topic ends
cancelled and the facility without subject. -/
theorem C29_cancelResearch_immediate_witness :
    cancelResearch (0, 0) QUEUE_MODE.ModeImmediate
        (facilityWorld { started := true, startedPending := true, currentPoints := 5 }
          { psSubject := some 0 })
      = some (facilityWorld { cancelled := true, cancelledPending := true, currentPoints := 5 }
          {}) ∧
    cancelResearch (0, 0) QUEUE_MODE.ModeImmediate
        (facilityWorld { started := true, startedPending := true } { psSubject := some 0 })
      = some (facilityWorld {} {}) :=
  have h := fun c => C29_cancelResearch_immediate (0, 0)
    (facilityWorld { started := true, startedPending := true, currentPoints := c }
      { psSubject := some 0 })
    { status := STRUCT_STATES.SS_BUILT, player := 0
      pStructureType := STRUCTURE_TYPE.REF_RESEARCH
      pFunctionality := FUNCTIONALITY.researchFacility { psSubject := some 0 } }
    { psSubject := some 0 } rfl rfl rfl
  ⟨by decide, by
    obtain ⟨w1, hw1, -⟩ := (h 0).2 0 { id := "R-Vehicle-Prop-Wheels", index := 0 }
      { started := true, startedPending := true } rfl rfl (by decide) rfl
    rw [hw1]
    exact hw1.symm.trans (by decide)⟩

/-- C30: for a research facility with a subject whose status entry for the owner exists,
`cancelResearch` in `ModeQueue` marks the status CancelledPending, so that `researchAvailable`
in `ModeQueue` is true for the owner and the topic; the subject of the facility, the
accumulated points and the immediate view of every status, and with them every answer of
`researchAvailable` in `ModeImmediate`, are what they were before the call. -/
theorem C30_cancelResearch_queue (psBuilding : Nat × Nat) (w : World) (psStruct : STRUCTURE)
    (psResFac : RESEARCH_FACILITY) (psSubject : Nat) (subject : RESEARCH) (x : PLAYER_RESEARCH)
    (hs : getStructure w psBuilding = some psStruct)
    (htype : psStruct.pStructureType = STRUCTURE_TYPE.REF_RESEARCH)
    (hfun : psStruct.pFunctionality = FUNCTIONALITY.researchFacility psResFac)
    (hsub : psResFac.psSubject = some psSubject)
    (hres : w.asResearch[psSubject]? = some subject)
    (hle : subject.index ≤ w.asResearch.length)
    (hx : playerResearch w.asPlayerResList psStruct.player subject.index = some x) :
    ∃ w1, cancelResearch psBuilding QUEUE_MODE.ModeQueue w = some w1 ∧
      playerResearch w1.asPlayerResList psStruct.player subject.index
        = some (MakeResearchCancelledPending x) ∧
      IsResearchCancelledPending (MakeResearchCancelledPending x) = true ∧
      (∀ g : Game, psStruct.player < g.MAX_PLAYERS →
        researchAvailable { g with asPlayerResList := w1.asPlayerResList } subject.index
          psStruct.player QUEUE_MODE.ModeQueue = some true) ∧
      (∃ psResFac1, getStructure w1 psBuilding
          = some { psStruct with pFunctionality := FUNCTIONALITY.researchFacility psResFac1 } ∧
        psResFac1.psSubject = some psSubject) ∧
      (MakeResearchCancelledPending x).currentPoints = x.currentPoints ∧
      immediateView (MakeResearchCancelledPending x) = immediateView x ∧
      (∀ p t, ¬ (p = psStruct.player ∧ t = subject.index) →
        playerResearch w1.asPlayerResList p t = playerResearch w.asPlayerResList p t) ∧
      (∀ (g : Game) (inc playerID : Nat),
        researchAvailable { g with asPlayerResList := w1.asPlayerResList } inc playerID
            QUEUE_MODE.ModeImmediate
          = researchAvailable { g with asPlayerResList := w.asPlayerResList } inc playerID
            QUEUE_MODE.ModeImmediate) := by
  rw [cancelResearch_subject hs htype hfun hsub hres hle hx, if_pos rfl]
  obtain ⟨lists, hset, hcell, hother⟩ := @setStatus_spec MakeResearchCancelledPending _ _ _ _ hx
  have hs1 : getStructure { w with asPlayerResList := lists } psBuilding = some psStruct := hs
  obtain ⟨structs, hfac, hget, -⟩ :=
    @setFacility_spec psBuilding (setStatusPendingCancel psResFac) _ _ hs1
  have hview : ∀ p t, (playerResearch lists p t).map immediateView
      = (playerResearch w.asPlayerResList p t).map immediateView := by
    intro p t
    by_cases hpt : p = psStruct.player ∧ t = subject.index
    · rw [hpt.1, hpt.2, hcell, hx]
      rfl
    · rw [hother p t hpt]
  refine ⟨_, by rw [hset, Option.some_bind, hfac], hcell, rfl, ?_, ⟨_, hget, hsub⟩, rfl, rfl,
    hother, fun g inc playerID => researchAvailable_immediate_congr g hview inc playerID⟩
  intro g hp
  unfold researchAvailable
  dsimp only
  rw [if_neg (by omega), hcell]
  rfl

set_option maxRecDepth 10000 in
/-- C30 at a facility that researches topic 0 with 5 points gathered. -/
theorem C30_cancelResearch_queue_witness :
    ∃ w1, cancelResearch (0, 0) QUEUE_MODE.ModeQueue
        (facilityWorld { started := true, startedPending := true, currentPoints := 5 }
          { psSubject := some 0 }) = some w1 ∧
      playerResearch w1.asPlayerResList 0 0
        = some { started := true, cancelledPending := true, currentPoints := 5 } ∧
      getStructure w1 (0, 0) =
        some { status := STRUCT_STATES.SS_BUILT, player := 0
               pStructureType := STRUCTURE_TYPE.REF_RESEARCH
               pFunctionality := FUNCTIONALITY.researchFacility
                 { psSubject := some 0, statusPending := some PendingRequest.cancel } } :=
  have h := C30_cancelResearch_queue (0, 0)
    (facilityWorld { started := true, startedPending := true, currentPoints := 5 }
      { psSubject := some 0 })
    { status := STRUCT_STATES.SS_BUILT, player := 0
      pStructureType := STRUCTURE_TYPE.REF_RESEARCH
      pFunctionality := FUNCTIONALITY.researchFacility { psSubject := some 0 } }
    { psSubject := some 0 } 0 { id := "R-Vehicle-Prop-Wheels", index := 0 }
    { started := true, startedPending := true, currentPoints := 5 }
    rfl rfl rfl rfl rfl (by decide) rfl
  h.elim fun w1 hw1 => ⟨w1, hw1.1, hw1.2.1, by
    have hc := hw1.1
    have hd : cancelResearch (0, 0) QUEUE_MODE.ModeQueue
        (facilityWorld { started := true, startedPending := true, currentPoints := 5 }
          { psSubject := some 0 })
      = some (facilityWorld { started := true, cancelledPending := true, currentPoints := 5 }
          { psSubject := some 0, statusPending := some PendingRequest.cancel }) := by decide
    rw [hd] at hc
    cases hc
    rfl⟩

/-! ## Recursive disable -/

theorem forEachM_inv {α β : Type} {body : α → β → Option β} (P : β → Prop)
    (R : β → β → Prop) (Q : α → β → Prop)
    (hrefl : ∀ b, R b b) (htrans : ∀ a b c, R a b → R b c → R a c)
    (hQ : ∀ a b c, Q a b → R b c → Q a c) :
    ∀ (l : List α),
      (∀ a ∈ l, ∀ b, P b → ∃ b1, body a b = some b1 ∧ P b1 ∧ R b b1 ∧ Q a b1) →
      ∀ b, P b → ∃ b1, forEachM body l b = some b1 ∧ P b1 ∧ R b b1 ∧ ∀ a ∈ l, Q a b1 := by
  intro l
  induction l with
  | nil =>
    intro _ b hb
    exact ⟨b, rfl, hb, hrefl b, fun a ha => absurd ha (List.not_mem_nil a)⟩
  | cons a rest ih =>
    intro hstep b hb
    obtain ⟨b2, hb2, hP2, hR2, hQ2⟩ := hstep a (List.mem_cons_self a rest) b hb
    obtain ⟨b1, hb1, hP1, hR1, hQ1⟩ :=
      ih (fun x hx => hstep x (List.mem_cons_of_mem a hx)) b2 hP2
    refine ⟨b1, ?_, hP1, htrans _ _ _ hR2 hR1, ?_⟩
    · unfold forEachM
      rw [hb2]
      exact hb1
    · intro x hx
      rcases List.mem_cons.1 hx with e | e
      · subst e
        exact hQ _ _ _ hQ2 hR1
      · exact hQ1 x e

theorem countP_le_of_imp {p q : Nat → Bool} :
    ∀ (l : List Nat), (∀ x ∈ l, p x = true → q x = true) → l.countP p ≤ l.countP q := by
  intro l
  induction l with
  | nil => intro _; simp
  | cons a rest ih =>
    intro h
    have hrest := ih (fun x hx => h x (List.mem_cons_of_mem a hx))
    have ha := h a (List.mem_cons_self a rest)
    rw [List.countP_cons, List.countP_cons]
    cases hpa : p a with
    | false =>
      simp only [Bool.false_eq_true, if_false, Nat.add_zero]
      exact Nat.le_trans hrest (Nat.le_add_right _ _)
    | true =>
      simp only [ha hpa, if_true]
      omega

theorem countP_lt_of_imp {p q : Nat → Bool} :
    ∀ (l : List Nat), (∀ x ∈ l, p x = true → q x = true) →
      (∃ a ∈ l, q a = true ∧ p a = false) → l.countP p < l.countP q := by
  intro l
  induction l with
  | nil =>
    rintro - ⟨a, ha, -⟩
    exact absurd ha (List.not_mem_nil a)
  | cons a rest ih =>
    rintro h ⟨b, hb, hqb, hpb⟩
    have himp := fun x hx => h x (List.mem_cons_of_mem a hx)
    have ha := h a (List.mem_cons_self a rest)
    rw [List.countP_cons, List.countP_cons]
    rcases List.mem_cons.1 hb with e | e
    · subst e
      have hle := countP_le_of_imp rest himp
      simp only [hqb, hpb, if_true, Bool.false_eq_true, if_false]
      omega
    · have hlt := ih himp ⟨b, e, hqb, hpb⟩
      cases hpa : p a with
      | false =>
        simp only [Bool.false_eq_true, if_false, Nat.add_zero]
        exact Nat.lt_of_lt_of_le hlt (Nat.le_add_right _ _)
      | true =>
        simp only [ha hpa, if_true]
        omega

theorem undisabled_le {n : Nat} {T S : List (List PLAYER_RESEARCH)} (h : DisabledMono T S) :
    undisabled n S ≤ undisabled n T := by
  unfold undisabled
  apply countP_le_of_imp
  intro t _ ht
  cases hT : disabledFor T 0 t with
  | false => rfl
  | true => rw [h t hT] at ht; cases ht

theorem undisabled_lt {n : Nat} {T S : List (List PLAYER_RESEARCH)} (h : DisabledMono T S)
    {index : Nat} (hidx : index < n) (hT : disabledFor T 0 index = false)
    (hS : disabledFor S 0 index = true) : undisabled n S < undisabled n T := by
  unfold undisabled
  apply countP_lt_of_imp
  · intro t _ ht
    cases hT1 : disabledFor T 0 t with
    | false => rfl
    | true => rw [h t hT1] at ht; cases ht
  · exact ⟨index, List.mem_range.2 hidx, by rw [hT]; rfl, by rw [hS]; rfl⟩

theorem disabledMono_refl (T : List (List PLAYER_RESEARCH)) : DisabledMono T T :=
  fun _ h => h

theorem disabledMono_trans (A B C : List (List PLAYER_RESEARCH)) (h1 : DisabledMono A B)
    (h2 : DisabledMono B C) : DisabledMono A C :=
  fun t h => h2 t (h1 t h)

theorem tableRel_refl (T : List (List PLAYER_RESEARCH)) : TableRel T T := by
  intro p t
  cases h : disabledFor T 0 t <;> simp

theorem tableRel_trans {T S S1 : List (List PLAYER_RESEARCH)} (m1 : DisabledMono T S)
    (m2 : DisabledMono S S1) (r1 : TableRel T S) (r2 : TableRel S S1) : TableRel T S1 := by
  intro p t
  rw [r2 p t, r1 p t]
  have hm1 := m1 t
  have hm2 := m2 t
  cases hT : disabledFor T 0 t <;> cases hS : disabledFor S 0 t <;>
    cases hS1 : disabledFor S1 0 t <;> simp_all

theorem tableRel_shape {n MAX_PLAYERS : Nat} {T S : List (List PLAYER_RESEARCH)}
    (hshape : TableShape n MAX_PLAYERS T) (r : TableRel T S) : TableShape n MAX_PLAYERS S := by
  intro p t
  rw [← hshape p t, r p t]
  split
  · cases playerResearch T p t <;> simp
  · rfl

theorem disableForPlayers_spec {n MAX_PLAYERS index : Nat} {T : List (List PLAYER_RESEARCH)}
    (hshape : TableShape n MAX_PLAYERS T) (hidx : index < n) :
    ∃ T1, disableForPlayers MAX_PLAYERS index T = some T1 ∧
      ∀ p t, playerResearch T1 p t =
        if t = index then (playerResearch T p t).map DisableResearch
        else playerResearch T p t := by
  have htotal := @forEachM_inv Nat (List (List PLAYER_RESEARCH))
    (fun player table =>
      modifyAt (modifyAt (fun x => some (DisableResearch x)) index) player table)
    (fun S : List (List PLAYER_RESEARCH) =>
      ∀ p, p < MAX_PLAYERS → (playerResearch S p index).isSome = true)
    (fun _ _ => True) (fun (_ : Nat) _ => True) (fun _ => trivial)
    (fun _ _ _ _ _ => trivial) (fun _ _ _ _ _ => trivial) (List.range MAX_PLAYERS)
    (by
      intro a ha S hS
      obtain ⟨x, hx⟩ := Option.isSome_iff_exists.1 (hS a (List.mem_range.1 ha))
      unfold playerResearch at hx
      obtain ⟨S1, hm⟩ := @modifyAt2_total _ DisableResearch _ _ _ _ hx
      refine ⟨S1, hm, ?_, trivial, trivial⟩
      intro p hp
      unfold playerResearch
      by_cases hpa : p = a
      · subst hpa
        obtain ⟨_, y, -, -, hget⟩ := modifyAt2_hit hm
        rw [hget]
        rfl
      · rw [modifyAt2_other hm p index (fun e => hpa e.1)]
        exact hS p hp)
    T (fun p hp => (hshape p index).2 ⟨hp, hidx⟩)
  obtain ⟨T1, hT1, -, -, -⟩ := htotal
  refine ⟨T1, hT1, ?_⟩
  intro p t
  have hcell := @forEachM_cell Nat (List (List PLAYER_RESEARCH)) PLAYER_RESEARCH
    (fun player table =>
      modifyAt (modifyAt (fun x => some (DisableResearch x)) index) player table)
    (fun S : List (List PLAYER_RESEARCH) => playerResearch S p t)
    DisableResearch (fun _ => rfl) (fun a : Nat => a = p ∧ t = index)
    (by
      intro a b b1 hb
      constructor
      · rintro ⟨rfl, rfl⟩
        obtain ⟨x, y, hx, hy, hget⟩ := modifyAt2_hit hb
        cases hy
        exact ⟨x, hx, hget⟩
      · intro hne
        exact modifyAt2_other hb p t (fun e => hne ⟨e.1.symm, e.2⟩))
    (List.range MAX_PLAYERS) T T1 hT1
  dsimp only at hcell
  by_cases ht : t = index
  · rw [if_pos ht]
    by_cases hp : p < MAX_PLAYERS
    · obtain ⟨st, hst, hst1⟩ := hcell.1 ⟨p, List.mem_range.2 hp, rfl, ht⟩
      rw [hst1, hst]
      rfl
    · have hnone : playerResearch T p t = none := by
        cases hc : playerResearch T p t with
        | none => rfl
        | some x =>
          have := (hshape p t).1 (by rw [hc]; rfl)
          exact absurd this.1 hp
      rw [hcell.2 (fun a ha e => hp (e.1 ▸ List.mem_range.1 ha)), hnone]
      rfl
  · rw [if_neg ht]
    exact hcell.2 (fun a _ e => ht e.2)

theorem disableInv_start {asResearch : List RESEARCH} {MAX_PLAYERS index : Nat}
    {T T1 : List (List PLAYER_RESEARCH)} {x : PLAYER_RESEARCH}
    (hshape : TableShape asResearch.length MAX_PLAYERS T) (hidx : index < asResearch.length)
    (hx : playerResearch T 0 index = some x) (hd : IsResearchDisabled x = false)
    (hT1 : ∀ p t, playerResearch T1 p t =
      if t = index then (playerResearch T p t).map DisableResearch else playerResearch T p t) :
    DisableInv asResearch MAX_PLAYERS T index T1 := by
  have hTi : disabledFor T 0 index = false := by
    unfold disabledFor
    rw [hx]
    exact hd
  have hdis : ∀ t, disabledFor T1 0 t = if t = index then true else disabledFor T 0 t := by
    intro t
    unfold disabledFor
    rw [hT1 0 t]
    by_cases ht : t = index
    · subst ht
      rw [if_pos rfl, if_pos rfl, hx]
      rfl
    · rw [if_neg ht, if_neg ht]
  have hmono : DisabledMono T T1 := by
    intro t ht
    rw [hdis t, ht]
    split <;> rfl
  have hrel : TableRel T T1 := by
    intro p t
    rw [hT1 p t, hdis t]
    by_cases ht : t = index
    · subst ht
      simp [hTi]
    · rw [if_neg ht, if_neg ht]
      cases disabledFor T 0 t <;> simp
  refine ⟨tableRel_shape hshape hrel, ?_, hmono, ?_, hrel, ?_, ?_⟩
  · exact undisabled_lt hmono hidx hTi (by rw [hdis index, if_pos rfl])
  · rw [hdis index, if_pos rfl]
  · intro t ht
    by_cases hti : t = index
    · exact Or.inr (Or.inl hti)
    · rw [hdis t, if_neg hti] at ht
      exact Or.inl ht
  · intro t s ht hTt hti _
    rw [hdis t, if_neg hti, hTt] at ht
    cases ht

theorem disableInv_step {asResearch : List RESEARCH} {MAX_PLAYERS index inc : Nat}
    {T S S1 : List (List PLAYER_RESEARCH)}
    (hP : DisableInv asResearch MAX_PLAYERS T index S)
    (hreq : Requires asResearch inc index) (hG : DisableGood asResearch S S1 inc) :
    DisableInv asResearch MAX_PLAYERS T index S1 := by
  obtain ⟨hshape, hlt, hmono, hidx, hrel, hsound, hclosed⟩ := hP
  obtain ⟨gmono, ginc, grel, gsound, gclosed⟩ := hG
  refine ⟨tableRel_shape hshape grel, Nat.lt_of_le_of_lt (undisabled_le gmono) hlt,
    disabledMono_trans _ _ _ hmono gmono, gmono index hidx,
    tableRel_trans hmono gmono hrel grel, ?_, ?_⟩
  · intro t ht
    rcases gsound t ht with h | h | h
    · exact hsound t h
    · subst h
      exact Or.inr (Or.inr (Relation.TransGen.single hreq))
    · exact Or.inr (Or.inr (Relation.TransGen.tail h hreq))
  · intro t s ht hTt hti hst
    cases hS : disabledFor S 0 t with
    | true => exact gmono s (hclosed t s hS hTt hti hst)
    | false => exact gclosed t s ht hS hst

theorem disableGood_refl {asResearch : List RESEARCH} {T : List (List PLAYER_RESEARCH)}
    {index : Nat} (h : disabledFor T 0 index = true) : DisableGood asResearch T T index := by
  refine ⟨disabledMono_refl T, h, tableRel_refl T, fun t ht => Or.inl ht, ?_⟩
  intro t s ht hf
  rw [ht] at hf
  cases hf

theorem requires_lt {asResearch : List RESEARCH} {a b : Nat} (h : Requires asResearch a b) :
    a < asResearch.length := by
  obtain ⟨r, hr, -⟩ := h
  rcases Nat.lt_or_ge a asResearch.length with hlt | hge
  · exact hlt
  · rw [List.getElem?_eq_none hge] at hr
    cases hr

/-- `RecursivelyDisableResearchByID` has a result whenever the fuel exceeds the number of topics
not yet Disabled for player 0, and the result is the closure of the call. -/
theorem byID_spec (asResearch : List RESEARCH) (MAX_PLAYERS : Nat) (hMAX : 0 < MAX_PLAYERS) :
    ∀ (fuel index : Nat) (T : List (List PLAYER_RESEARCH)),
      TableShape asResearch.length MAX_PLAYERS T → index < asResearch.length →
      undisabled asResearch.length T < fuel →
      ∃ T1, RecursivelyDisableResearchByID asResearch MAX_PLAYERS fuel index T = some T1 ∧
        DisableGood asResearch T T1 index := by
  intro fuel
  induction fuel with
  | zero =>
    intro _ _ _ _ h
    exact absurd h (Nat.not_lt_zero _)
  | succ fuel ih =>
    intro index T hshape hidx hfuel
    obtain ⟨x, hx⟩ := Option.isSome_iff_exists.1 ((hshape 0 index).2 ⟨hMAX, hidx⟩)
    rw [RecursivelyDisableResearchByID]
    simp only [hx]
    cases hd : IsResearchDisabled x with
    | true =>
      simp only [if_true]
      exact ⟨T, rfl, disableGood_refl (by unfold disabledFor; rw [hx]; exact hd)⟩
    | false =>
      simp only [Bool.false_eq_true, if_false]
      obtain ⟨T1, hT1, hcells⟩ := disableForPlayers_spec hshape hidx
      rw [hT1]
      have hP1 := @disableInv_start asResearch MAX_PLAYERS index T T1 x hshape hidx hx hd hcells
      have hinner : ∀ (inc : Nat) (research : RESEARCH), asResearch[inc]? = some research →
          ∀ pre ∈ research.pPRList, ∀ S, DisableInv asResearch MAX_PLAYERS T index S →
          ∃ S1, (if pre = index then
              RecursivelyDisableResearchByID asResearch MAX_PLAYERS fuel inc S
            else some S) = some S1 ∧
            DisableInv asResearch MAX_PLAYERS T index S1 ∧ DisabledMono S S1 ∧
            (pre = index → disabledFor S1 0 inc = true) := by
        intro inc research hres pre hpre S hS
        by_cases hpi : pre = index
        · rw [if_pos hpi]
          have hreq : Requires asResearch inc index := ⟨research, hres, hpi ▸ hpre⟩
          obtain ⟨S1, hS1, hG⟩ := ih inc S hS.1 (requires_lt hreq) (by have := hS.2.1; omega)
          exact ⟨S1, hS1, disableInv_step hS hreq hG, hG.1, fun _ => hG.2.1⟩
        · rw [if_neg hpi]
          exact ⟨S, rfl, hS, disabledMono_refl S, fun e => absurd e hpi⟩
      have houter := @forEachM_inv Nat (List (List PLAYER_RESEARCH))
        (fun inc table2 =>
          match asResearch[inc]? with
          | none => none
          | some research =>
            forEachM (fun prereq table3 =>
              if prereq = index then
                RecursivelyDisableResearchByID asResearch MAX_PLAYERS fuel inc table3
              else some table3) research.pPRList table2)
        (DisableInv asResearch MAX_PLAYERS T index) DisabledMono
        (fun inc S => Requires asResearch inc index → disabledFor S 0 inc = true)
        disabledMono_refl disabledMono_trans
        (fun _ _ _ hq hm hreq => hm _ (hq hreq))
        (List.range asResearch.length)
        (by
          intro inc hinc S hS
          have hlt := List.mem_range.1 hinc
          have hres : asResearch[inc]? = some asResearch[inc] := List.getElem?_eq_getElem hlt
          simp only [hres]
          obtain ⟨S1, hS1, hP, hm, hq⟩ := @forEachM_inv Nat (List (List PLAYER_RESEARCH))
            (fun prereq table3 =>
              if prereq = index then
                RecursivelyDisableResearchByID asResearch MAX_PLAYERS fuel inc table3
              else some table3)
            (DisableInv asResearch MAX_PLAYERS T index) DisabledMono
            (fun pre S => pre = index → disabledFor S 0 inc = true)
            disabledMono_refl disabledMono_trans
            (fun _ _ _ hq hm e => hm _ (hq e))
            asResearch[inc].pPRList (hinner inc asResearch[inc] hres) S hS
          refine ⟨S1, hS1, hP, hm, ?_⟩
          rintro ⟨r, hr, hmem⟩
          rw [hres] at hr
          cases hr
          exact hq index hmem rfl)
        T1 hP1
      obtain ⟨Tf, hTf, hPf, -, hQf⟩ := houter
      refine ⟨Tf, hTf, hPf.2.2.1, hPf.2.2.2.1, hPf.2.2.2.2.1, hPf.2.2.2.2.2.1, ?_⟩
      intro t s ht hTt hst
      by_cases hti : t = index
      · subst hti
        exact hQf s (List.mem_range.2 (requires_lt hst)) hst
      · exact hPf.2.2.2.2.2.2 t s ht hTt hti hst

theorem byFlags_spec (asResearch : List RESEARCH) (MAX_PLAYERS : Nat) (hMAX : 0 < MAX_PLAYERS)
    (fuel flags : Nat) (T : List (List PLAYER_RESEARCH))
    (hshape : TableShape asResearch.length MAX_PLAYERS T)
    (hfuel : undisabled asResearch.length T < fuel) :
    ∃ Tf, RecursivelyDisableResearchByFlags asResearch MAX_PLAYERS fuel flags T = some Tf ∧
      TableShape asResearch.length MAX_PLAYERS Tf ∧ DisabledMono T Tf ∧ TableRel T Tf ∧
      (∀ f, Flagged asResearch flags f → disabledFor Tf 0 f = true) ∧
      (∀ t, disabledFor Tf 0 t = true →
        disabledFor T 0 t = true ∨ DependsOnFlagged asResearch flags t) ∧
      (∀ t s, disabledFor Tf 0 t = true → disabledFor T 0 t = false →
        Requires asResearch s t → disabledFor Tf 0 s = true) := by
  have hloop := @forEachM_inv Nat (List (List PLAYER_RESEARCH))
    (fun inc table =>
      match asResearch[inc]? with
      | none => none
      | some research =>
        if research.disabledWhen &&& flags ≠ 0 then
          RecursivelyDisableResearchByID asResearch MAX_PLAYERS fuel inc table
        else some table)
    (fun S => TableShape asResearch.length MAX_PLAYERS S ∧ DisabledMono T S ∧ TableRel T S ∧
      (∀ t, disabledFor S 0 t = true →
        disabledFor T 0 t = true ∨ DependsOnFlagged asResearch flags t) ∧
      (∀ t s, disabledFor S 0 t = true → disabledFor T 0 t = false →
        Requires asResearch s t → disabledFor S 0 s = true))
    DisabledMono
    (fun inc S => Flagged asResearch flags inc → disabledFor S 0 inc = true)
    disabledMono_refl disabledMono_trans
    (fun _ _ _ hq hm hf => hm _ (hq hf))
    (List.range asResearch.length)
    (by
      rintro inc hinc S ⟨sshape, smono, srel, ssound, sclosed⟩
      have hlt := List.mem_range.1 hinc
      have hres : asResearch[inc]? = some asResearch[inc] := List.getElem?_eq_getElem hlt
      simp only [hres]
      by_cases hflag : asResearch[inc].disabledWhen &&& flags ≠ 0
      · rw [if_pos hflag]
        obtain ⟨S1, hS1, gmono, ginc, grel, gsound, gclosed⟩ :=
          byID_spec asResearch MAX_PLAYERS hMAX fuel inc S sshape hlt
            (Nat.lt_of_le_of_lt (undisabled_le smono) hfuel)
        refine ⟨S1, hS1, ⟨tableRel_shape sshape grel, disabledMono_trans _ _ _ smono gmono,
          tableRel_trans smono gmono srel grel, ?_, ?_⟩, gmono, fun _ => ginc⟩
        · intro t ht
          rcases gsound t ht with h | h | h
          · exact ssound t h
          · exact Or.inr ⟨inc, ⟨_, hres, hflag⟩, Or.inl h⟩
          · exact Or.inr ⟨inc, ⟨_, hres, hflag⟩, Or.inr h⟩
        · intro t s ht hTt hst
          cases hS : disabledFor S 0 t with
          | true => exact gmono s (sclosed t s hS hTt hst)
          | false => exact gclosed t s ht hS hst
      · rw [if_neg hflag]
        refine ⟨S, rfl, ⟨sshape, smono, srel, ssound, sclosed⟩, disabledMono_refl S, ?_⟩
        rintro ⟨r, hr, hne⟩
        rw [hres] at hr
        cases hr
        exact absurd hne hflag)
    T ⟨hshape, disabledMono_refl T, tableRel_refl T, fun t ht => Or.inl ht,
      fun t s ht hf _ => by rw [ht] at hf; cases hf⟩
  obtain ⟨Tf, hTf, ⟨fshape, fmono, frel, fsound, fclosed⟩, -, hQ⟩ := hloop
  refine ⟨Tf, hTf, fshape, fmono, frel, ?_, fsound, fclosed⟩
  rintro f ⟨r, hr, hne⟩
  have hlt : f < asResearch.length := by
    rcases Nat.lt_or_ge f asResearch.length with h | h
    · exact h
    · rw [List.getElem?_eq_none h] at hr
      cases hr
  exact hQ f (List.mem_range.2 hlt) ⟨r, hr, hne⟩

theorem byID_guard (asResearch : List RESEARCH) (MAX_PLAYERS : Nat) {fuel index : Nat}
    {T : List (List PLAYER_RESEARCH)} (hfuel : 0 < fuel)
    (hd : disabledFor T 0 index = true) :
    RecursivelyDisableResearchByID asResearch MAX_PLAYERS fuel index T = some T := by
  obtain ⟨k, rfl⟩ : ∃ k, fuel = k + 1 := ⟨fuel - 1, by omega⟩
  rw [RecursivelyDisableResearchByID]
  unfold disabledFor at hd
  cases hx : playerResearch T 0 index with
  | none => rw [hx] at hd; cases hd
  | some x =>
    rw [hx] at hd
    have hd1 : IsResearchDisabled x = true := hd
    simp only [hd1, if_true]

theorem forEachM_fixed {α β : Type} {body : α → β → Option β} {b : β} :
    ∀ (l : List α), (∀ a ∈ l, body a b = some b) → forEachM body l b = some b := by
  intro l
  induction l with
  | nil => intro _; rfl
  | cons a rest ih =>
    intro h
    unfold forEachM
    rw [h a (List.mem_cons_self a rest)]
    exact ih (fun x hx => h x (List.mem_cons_of_mem a hx))

theorem byFlags_guard (asResearch : List RESEARCH) (MAX_PLAYERS : Nat) {fuel flags : Nat}
    {T : List (List PLAYER_RESEARCH)} (hfuel : 0 < fuel)
    (hd : ∀ f, Flagged asResearch flags f → disabledFor T 0 f = true) :
    RecursivelyDisableResearchByFlags asResearch MAX_PLAYERS fuel flags T = some T := by
  unfold RecursivelyDisableResearchByFlags
  apply forEachM_fixed
  intro inc hinc
  have hlt := List.mem_range.1 hinc
  have hres : asResearch[inc]? = some asResearch[inc] := List.getElem?_eq_getElem hlt
  simp only [hres]
  by_cases hflag : asResearch[inc].disabledWhen &&& flags ≠ 0
  · rw [if_pos hflag]
    exact byID_guard asResearch MAX_PLAYERS hfuel (hd inc ⟨_, hres, hflag⟩)
  · rw [if_neg hflag]

theorem tableShape_of_lengths {n MAX_PLAYERS : Nat} {T : List (List PLAYER_RESEARCH)}
    (hlen : T.length = MAX_PLAYERS) (hrows : ∀ row ∈ T, row.length = n) :
    TableShape n MAX_PLAYERS T := by
  intro p t
  unfold playerResearch
  constructor
  · intro h
    obtain ⟨x, hx⟩ := Option.isSome_iff_exists.1 h
    obtain ⟨row, hrow, hcell⟩ := Option.bind_eq_some.1 hx
    obtain ⟨hp, hrow1⟩ := List.getElem?_eq_some.1 hrow
    obtain ⟨ht, -⟩ := List.getElem?_eq_some.1 hcell
    have hmem : row ∈ T := hrow1 ▸ List.getElem_mem _
    exact ⟨hlen ▸ hp, hrows row hmem ▸ ht⟩
  · rintro ⟨hp, ht⟩
    have hp1 : p < T.length := hlen ▸ hp
    have ht1 : t < (T[p]).length := by
      rw [hrows _ (List.getElem_mem _)]
      exact ht
    rw [List.getElem?_eq_getElem hp1, Option.some_bind, List.getElem?_eq_getElem ht1]
    rfl

theorem disabledFor_false_of_rows {T : List (List PLAYER_RESEARCH)}
    (h : ∀ row ∈ T, ∀ x ∈ row, IsResearchDisabled x = false) :
    ∀ p t, disabledFor T p t = false := by
  intro p t
  unfold disabledFor playerResearch
  cases hrow : T[p]? with
  | none => rfl
  | some row =>
    rw [Option.some_bind]
    cases hx : row[t]? with
    | none => rfl
    | some x =>
      obtain ⟨hp, hrow1⟩ := List.getElem?_eq_some.1 hrow
      obtain ⟨ht, hx1⟩ := List.getElem?_eq_some.1 hx
      exact h row (hrow1 ▸ List.getElem_mem _) x (hx1 ▸ List.getElem_mem _)

theorem dependsOnFlagged_lt {asResearch : List RESEARCH} {flags t : Nat}
    (h : DependsOnFlagged asResearch flags t) : t < asResearch.length := by
  obtain ⟨f, ⟨r, hr, -⟩, hc⟩ := h
  rcases hc with rfl | hreach
  · rcases Nat.lt_or_ge t asResearch.length with hlt | hge
    · exact hlt
    · rw [List.getElem?_eq_none hge] at hr
      cases hr
  · induction hreach using Relation.TransGen.head_induction_on with
    | base hreq => exact requires_lt hreq
    | ih hreq _ _ => exact requires_lt hreq

theorem undisabled_le_length (n : Nat) (T : List (List PLAYER_RESEARCH)) : undisabled n T ≤ n := by
  unfold undisabled
  exact (List.countP_le_length _).trans (by rw [List.length_range])

/-- C26: from a state in which no topic is Disabled for any player,
`RecursivelyDisableResearchByFlags` leaves a topic Disabled, for every player, exactly when its
own `disabledWhen` shares a bit with the flags or it depends through one or more prerequisite
edges on such a topic; these topics get `DisableResearch` applied to their status for every
player, and the status of every other topic is unchanged for every player. -/
theorem C26_recursive_disable_by_flags (asResearch : List RESEARCH)
    (MAX_PLAYERS flags fuel : Nat) (T : List (List PLAYER_RESEARCH)) (hMAX : 0 < MAX_PLAYERS)
    (hshape : TableShape asResearch.length MAX_PLAYERS T)
    (hnone : ∀ p t, disabledFor T p t = false) (hfuel : asResearch.length < fuel) :
    ∃ Tf, RecursivelyDisableResearchByFlags asResearch MAX_PLAYERS fuel flags T = some Tf ∧
      (∀ p t, p < MAX_PLAYERS →
        (disabledFor Tf p t = true ↔ DependsOnFlagged asResearch flags t)) ∧
      (∀ p t, DependsOnFlagged asResearch flags t →
        playerResearch Tf p t = (playerResearch T p t).map DisableResearch) ∧
      (∀ p t, ¬ DependsOnFlagged asResearch flags t →
        playerResearch Tf p t = playerResearch T p t) := by
  obtain ⟨Tf, hTf, -, -, frel, fflag, fsound, fclosed⟩ :=
    byFlags_spec asResearch MAX_PLAYERS hMAX fuel flags T hshape
      (Nat.lt_of_le_of_lt (undisabled_le_length _ _) hfuel)
  have hkey : ∀ t, disabledFor Tf 0 t = true ↔ DependsOnFlagged asResearch flags t := by
    intro t
    constructor
    · intro h
      rcases fsound t h with h0 | h0
      · rw [hnone 0 t] at h0
        cases h0
      · exact h0
    · rintro ⟨f, hf, hc⟩
      have hf0 := fflag f hf
      rcases hc with rfl | hreach
      · exact hf0
      · induction hreach using Relation.TransGen.head_induction_on with
        | base hreq => exact fclosed f _ hf0 (hnone 0 f) hreq
        | ih hreq _ ihc => exact fclosed _ _ ihc (hnone 0 _) hreq
  have hdep : ∀ p t, DependsOnFlagged asResearch flags t →
      playerResearch Tf p t = (playerResearch T p t).map DisableResearch := by
    intro p t hd
    rw [frel p t, (hkey t).2 hd, hnone 0 t]
    rfl
  have hrest : ∀ p t, ¬ DependsOnFlagged asResearch flags t →
      playerResearch Tf p t = playerResearch T p t := by
    intro p t hd
    have hf : disabledFor Tf 0 t = false := by
      cases h : disabledFor Tf 0 t with
      | false => rfl
      | true => exact absurd ((hkey t).1 h) hd
    rw [frel p t, hf]
    rfl
  refine ⟨Tf, hTf, ?_, hdep, hrest⟩
  intro p t hp
  constructor
  · intro h
    by_contra hd
    have hsame := hrest p t hd
    have hT := hnone p t
    unfold disabledFor at h hT
    rw [hsame, hT] at h
    cases h
  · intro hd
    obtain ⟨x, hx⟩ := Option.isSome_iff_exists.1
      ((hshape p t).2 ⟨hp, dependsOnFlagged_lt hd⟩)
    unfold disabledFor
    rw [hdep p t hd, hx]
    rfl

set_option maxRecDepth 10000 in
/-- C26 at three topics, the first flagged, the second requiring the first: the first two end
Disabled for both players, the third stays as it was. -/
theorem C26_recursive_disable_by_flags_witness :
    RecursivelyDisableResearchByFlags flagStore 2 4 1
        (uniformTable {} { possible := true } { started := true })
      = some (uniformTable { disabled := true } { possible := true, disabled := true }
          { started := true }) ∧
    ∃ Tf, RecursivelyDisableResearchByFlags flagStore 2 4 1
        (uniformTable {} { possible := true } { started := true }) = some Tf ∧
      (∀ p t, p < 2 → (disabledFor Tf p t = true ↔ DependsOnFlagged flagStore 1 t)) ∧
      (∀ p t, DependsOnFlagged flagStore 1 t →
        playerResearch Tf p t
          = (playerResearch (uniformTable {} { possible := true } { started := true }) p t).map
              DisableResearch) ∧
      (∀ p t, ¬ DependsOnFlagged flagStore 1 t →
        playerResearch Tf p t
          = playerResearch (uniformTable {} { possible := true } { started := true }) p t) :=
  ⟨by decide,
    C26_recursive_disable_by_flags flagStore 2 1 4
      (uniformTable {} { possible := true } { started := true }) (by decide)
      (tableShape_of_lengths (by decide) (by decide))
      (disabledFor_false_of_rows (by decide)) (by decide)⟩

/-- C27: with a status table that has an entry for every player and topic, a call of
`RecursivelyDisableResearchByID` has a result, and a second call for the same topic on that
result returns it unchanged; the same holds of `RecursivelyDisableResearchByFlags` with the
same flags. -/
theorem C27_recursive_disable_idempotent (asResearch : List RESEARCH)
    (MAX_PLAYERS fuel : Nat) (T : List (List PLAYER_RESEARCH)) (hMAX : 0 < MAX_PLAYERS)
    (hshape : TableShape asResearch.length MAX_PLAYERS T) (hfuel : asResearch.length < fuel) :
    (∀ index, index < asResearch.length →
      ∃ T1, RecursivelyDisableResearchByID asResearch MAX_PLAYERS fuel index T = some T1 ∧
        ∀ fuel2, 0 < fuel2 →
          RecursivelyDisableResearchByID asResearch MAX_PLAYERS fuel2 index T1 = some T1) ∧
    (∀ flags,
      ∃ T1, RecursivelyDisableResearchByFlags asResearch MAX_PLAYERS fuel flags T = some T1 ∧
        ∀ fuel2, 0 < fuel2 →
          RecursivelyDisableResearchByFlags asResearch MAX_PLAYERS fuel2 flags T1 = some T1) := by
  have hf := Nat.lt_of_le_of_lt (undisabled_le_length asResearch.length T) hfuel
  constructor
  · intro index hidx
    obtain ⟨T1, hT1, -, hdis, -⟩ := byID_spec asResearch MAX_PLAYERS hMAX fuel index T hshape hidx hf
    exact ⟨T1, hT1, fun fuel2 h2 => byID_guard asResearch MAX_PLAYERS h2 hdis⟩
  · intro flags
    obtain ⟨T1, hT1, -, -, -, fflag, -⟩ :=
      byFlags_spec asResearch MAX_PLAYERS hMAX fuel flags T hshape hf
    exact ⟨T1, hT1, fun fuel2 h2 => byFlags_guard asResearch MAX_PLAYERS h2 fflag⟩

set_option maxRecDepth 10000 in
/-- C27 at three topics, the first flagged, the second requiring the first. -/
theorem C27_recursive_disable_idempotent_witness :
    RecursivelyDisableResearchByID flagStore 2 4 0 (uniformTable {} {} {})
      = some (uniformTable { disabled := true } { disabled := true } {}) ∧
    RecursivelyDisableResearchByID flagStore 2 4 0
        (uniformTable { disabled := true } { disabled := true } {})
      = some (uniformTable { disabled := true } { disabled := true } {}) ∧
    (∀ flags,
      ∃ T1, RecursivelyDisableResearchByFlags flagStore 2 4 flags (uniformTable {} {} {})
          = some T1 ∧
        ∀ fuel2, 0 < fuel2 →
          RecursivelyDisableResearchByFlags flagStore 2 fuel2 flags T1 = some T1) :=
  ⟨by decide, by decide,
    (C27_recursive_disable_idempotent flagStore 2 4 (uniformTable {} {} {}) (by decide)
      (tableShape_of_lengths (by decide) (by decide)) (by decide)).2⟩

/-- C28: with a status table that has an entry for every player and topic,
`RecursivelyDisableResearchByID` has a result for every store, cyclic or not, as soon as the
depth allowed exceeds the number of topics not yet Disabled for player 0, which is at most the
number of topics; no topic loses its Disabled mark, the topic of the call is Disabled
afterwards, and a call that passes the guard leaves fewer topics not Disabled for player 0. -/
theorem C28_recursive_disable_terminates (asResearch : List RESEARCH)
    (MAX_PLAYERS index : Nat) (T : List (List PLAYER_RESEARCH)) (hMAX : 0 < MAX_PLAYERS)
    (hshape : TableShape asResearch.length MAX_PLAYERS T) (hidx : index < asResearch.length) :
    undisabled asResearch.length T ≤ asResearch.length ∧
    ∀ fuel, undisabled asResearch.length T < fuel →
      ∃ T1, RecursivelyDisableResearchByID asResearch MAX_PLAYERS fuel index T = some T1 ∧
        DisabledMono T T1 ∧ disabledFor T1 0 index = true ∧
        (disabledFor T 0 index = false →
          undisabled asResearch.length T1 < undisabled asResearch.length T) := by
  refine ⟨undisabled_le_length _ _, ?_⟩
  intro fuel hfuel
  obtain ⟨T1, hT1, gmono, gdis, -⟩ :=
    byID_spec asResearch MAX_PLAYERS hMAX fuel index T hshape hidx hfuel
  exact ⟨T1, hT1, gmono, gdis, fun hT => undisabled_lt gmono hidx hT gdis⟩

set_option maxRecDepth 10000 in
/-- C28 at the ring of three topics, each requiring the next: the call for topic 0 disables all
three for both players. -/
theorem C28_recursive_disable_terminates_witness :
    Requires ringStore 0 1 ∧ Requires ringStore 1 2 ∧ Requires ringStore 2 0 ∧
    RecursivelyDisableResearchByID ringStore 2 4 0 (uniformTable {} {} {})
      = some (uniformTable { disabled := true } { disabled := true } { disabled := true }) ∧
    ∀ fuel, undisabled ringStore.length (uniformTable {} {} {}) < fuel →
      ∃ T1, RecursivelyDisableResearchByID ringStore 2 fuel 0 (uniformTable {} {} {}) = some T1 ∧
        DisabledMono (uniformTable {} {} {}) T1 ∧ disabledFor T1 0 0 = true ∧
        (disabledFor (uniformTable {} {} {}) 0 0 = false →
          undisabled ringStore.length T1 < undisabled ringStore.length (uniformTable {} {} {})) :=
  ⟨⟨_, rfl, by decide⟩, ⟨_, rfl, by decide⟩, ⟨_, rfl, by decide⟩, by decide,
    (C28_recursive_disable_terminates ringStore 2 0 (uniformTable {} {} {}) (by decide)
      (tableShape_of_lengths (by decide) (by decide)) (by decide)).2⟩

/-! ## Reachability query: termination -/

theorem lasso_loops (fuel : Nat) :
    prereqLoop lassoStore 0 fuel [1] = none ∧ prereqLoop lassoStore 0 fuel [2] = none := by
  induction fuel with
  | zero => exact ⟨rfl, rfl⟩
  | succ fuel ih =>
    refine ⟨?_, ?_⟩
    · have h : prereqLoop lassoStore 0 (fuel + 1) [1] = prereqLoop lassoStore 0 fuel [2] := by
        simp [prereqLoop, pushPrereqs, lassoStore, mkTopic]
      rw [h]; exact ih.2
    · have h : prereqLoop lassoStore 0 (fuel + 1) [2] = prereqLoop lassoStore 0 fuel [1] := by
        simp [prereqLoop, pushPrereqs, lassoStore, mkTopic]
      rw [h]; exact ih.1

/-- C35: on an acyclic store whose prerequisite indices are in range, and for every index `a`
and every topic `b` of the store, the stack loop of `isResAPrereqForResB` ends: there are a number
of iterations `N` and an answer such that every run allowed at least `N` iterations returns that
answer.  Termination rests on acyclicity: on the store where topics 1 and 2 require each other the
query for topic 0 from topic 1 has no result, however many iterations are allowed. -/
theorem C35_isResAPrereqForResB_terminates (asResearch : List RESEARCH)
    (hr : InRange asResearch) (hac : Acyclic asResearch) (a b : Nat)
    (hb : b < asResearch.length) :
    (∃ N res, ∀ fuel, N ≤ fuel → isResAPrereqForResB asResearch fuel a b = some res) ∧
    (InRange lassoStore ∧ ∀ fuel, isResAPrereqForResB lassoStore fuel 0 1 = none) := by
  refine ⟨?_, by decide, fun fuel => ?_⟩
  · obtain ⟨N, hN⟩ := isResAPrereqForResB_spec hr hac a b hb
    by_cases hreach : Reaches asResearch b a
    · refine ⟨N, true, fun fuel hfuel => ?_⟩
      obtain ⟨res, hres, hiff⟩ := hN fuel hfuel
      rw [hres, hiff.2 hreach]
    · refine ⟨N, false, fun fuel hfuel => ?_⟩
      obtain ⟨res, hres, hiff⟩ := hN fuel hfuel
      rw [hres]
      cases res with
      | false => rfl
      | true => exact absurd (hiff.1 rfl) hreach
  · have h : isResAPrereqForResB lassoStore fuel 0 1 = prereqLoop lassoStore 0 fuel [1] := by
      simp [isResAPrereqForResB, lassoStore]
    rw [h]; exact (lasso_loops fuel).1

/-- C35 at the chain 0 requires 1 requires 2: the query for topic 2 from topic 0 ends. -/
theorem C35_isResAPrereqForResB_terminates_witness :
    InRange chainStore ∧ 0 < chainStore.length ∧
    ((∃ N res, ∀ fuel, N ≤ fuel → isResAPrereqForResB chainStore fuel 2 0 = some res) ∧
     (InRange lassoStore ∧ ∀ fuel, isResAPrereqForResB lassoStore fuel 0 1 = none)) :=
  ⟨by decide, by decide,
    C35_isResAPrereqForResB_terminates chainStore (by decide)
      ((detectCycle_none_iff (by decide)).1 (by decide)) 2 0 (by decide)⟩

/-! ## Redundancy of a state is permanent -/

theorem applyChange_redundant (c : StateChange) (st : COMPONENT_STATE)
    (h : isRedundant st = true) : isRedundant (applyChange c st) = true := by
  cases c <;> cases st <;> first | rfl | exact h

theorem applyChanges_redundant :
    ∀ (changes : List StateChange) (st : COMPONENT_STATE), isRedundant st = true →
      isRedundant (applyChanges changes st) = true := by
  intro changes
  induction changes with
  | nil => intro st h; exact h
  | cons c rest ih =>
    intro st h
    exact ih (applyChange c st) (applyChange_redundant c st h)

theorem applyChanges_append (c1 c2 : List StateChange) (st : COMPONENT_STATE) :
    applyChanges (c1 ++ c2) st = applyChanges c2 (applyChanges c1 st) := by
  unfold applyChanges
  rw [List.foldl_append]

theorem cellStep_refl (a : Option COMPONENT_STATE) : CellStep a a :=
  ⟨[], by cases a <;> rfl⟩

theorem cellStep_trans {a b c : Option COMPONENT_STATE} (h1 : CellStep a b)
    (h2 : CellStep b c) : CellStep a c := by
  obtain ⟨c1, rfl⟩ := h1
  obtain ⟨c2, rfl⟩ := h2
  refine ⟨c1 ++ c2, ?_⟩
  cases a with
  | none => rfl
  | some st => simp [applyChanges_append]

theorem cellStep_of_eq {a b : Option COMPONENT_STATE} (h : b = a) : CellStep a b :=
  h ▸ cellStep_refl a

theorem cellStep_of_hit (c : StateChange) {a b : Option COMPONENT_STATE}
    (h : ∃ st, a = some st ∧ b = some (applyChange c st)) : CellStep a b := by
  obtain ⟨st, rfl, rfl⟩ := h
  exact ⟨[c], rfl⟩

theorem cellStep_redundant {a b : Option COMPONENT_STATE} (h : CellStep a b)
    {st : COMPONENT_STATE} (ha : a = some st) (hst : isRedundant st = true) :
    ∃ st1, b = some st1 ∧ isRedundant st1 = true := by
  obtain ⟨changes, rfl⟩ := h
  subst ha
  exact ⟨_, rfl, applyChanges_redundant changes st hst⟩

theorem stateStep_refl (w : World) : StateStep w w :=
  ⟨fun _ _ => cellStep_refl _, fun _ _ _ => cellStep_refl _⟩

theorem stateStep_trans (a b c : World) (h1 : StateStep a b) (h2 : StateStep b c) :
    StateStep a c :=
  ⟨fun q s => cellStep_trans (h1.1 q s) (h2.1 q s),
    fun q t s => cellStep_trans (h1.2 q t s) (h2.2 q t s)⟩

theorem stateStep_of_same {w w1 : World}
    (h1 : w1.apStructTypeLists = w.apStructTypeLists) (h2 : w1.apCompLists = w.apCompLists) :
    StateStep w w1 :=
  ⟨fun q s => cellStep_of_eq (structTypeState_congr h1 q s),
    fun q t s => cellStep_of_eq (compState_congr h2 q t s)⟩

theorem updateStructType_step (c : StateChange) {player inc : Nat} {w w1 : World}
    (h : updateStructType (applyChange c) player inc w = some w1) : StateStep w w1 := by
  obtain ⟨lists, e⟩ := updateStructType_writes h
  refine ⟨fun q s => ?_, fun q t s => cellStep_of_eq (compState_congr (by rw [e]) q t s)⟩
  by_cases hit : q = player ∧ s = inc
  · obtain ⟨rfl, rfl⟩ := hit
    exact cellStep_of_hit c (updateStructType_hit h)
  · exact cellStep_of_eq (updateStructType_other h q s hit)

theorem updateComp_step (c : StateChange) {player : Nat} {comp : COMPONENT_STATS}
    {w w1 : World} (h : updateComp (applyChange c) player comp w = some w1) :
    StateStep w w1 := by
  obtain ⟨lists, e⟩ := updateComp_writes h
  refine ⟨fun q s => cellStep_of_eq (structTypeState_congr (by rw [e]) q s), fun q t s => ?_⟩
  by_cases hit : q = player ∧ t = comp.compType ∧ s = comp.index
  · obtain ⟨rfl, rfl, rfl⟩ := hit
    exact cellStep_of_hit c (updateComp_hit h)
  · exact cellStep_of_eq (updateComp_other h q t s hit)

theorem researchResult_stateStep {researchIndex player : Nat}
    {psResearchFacility : Option (Nat × Nat)} {w w1 : World}
    (h : researchResult researchIndex player psResearchFacility w = some w1) :
    StateStep w w1 := by
  by_cases ht : researchIndex < w.asResearch.length
  · by_cases hp : player < w.MAX_PLAYERS
    · obtain ⟨pResearch, w2, w3, w4, w5, w6, w7, w8, hr, h1, h2, h3, h4, h5, h6, h7, h8⟩ :=
        researchResult_steps ht hp h
      obtain ⟨_, e1, -⟩ := completeStatus_writes h1
      have s1 : StateStep w w2 := stateStep_of_same (by rw [e1]) (by rw [e1])
      have s2 : StateStep w2 w3 :=
        forEachM_rel StateStep stateStep_refl stateStep_trans
          (fun _ _ _ hs => updateStructType_step StateChange.available hs) _ _ _ h2
      have s3 : StateStep w3 w4 :=
        forEachM_rel StateStep stateStep_refl stateStep_trans
          (fun _ _ _ hs => updateStructType_step StateChange.redundant hs) _ _ _ h3
      have s4 : StateStep w4 w5 := by
        refine forEachM_rel StateStep stateStep_refl stateStep_trans ?_ _ _ _ h4
        intro ri w0 w9 hs
        cases hrc : replaceComponent ri.pNewComponent ri.pOldComponent player w0 with
        | none => simp [hrc] at hs
        | some wa =>
          simp only [hrc] at hs
          obtain ⟨_, _, _, _, _, _, hw⟩ := replaceComponent_writes hrc
          exact stateStep_trans _ _ _ (stateStep_of_same (by rw [hw]) (by rw [hw]))
            (updateComp_step StateChange.redundant hs)
      have s5 : StateStep w5 w6 := by
        refine forEachM_rel StateStep stateStep_refl stateStep_trans ?_ _ _ _ h5
        intro comp w0 w9 hs
        obtain ⟨wa, hu, heq⟩ := componentResult_hit hs
        obtain ⟨_, _, _, _, _, e⟩ := componentResults_writes
          (show componentResults { pResearch with componentResults := [comp] } player w0
            = some w9 by simp [componentResults, forEachM, hs])
        obtain ⟨_, ea⟩ := updateComp_writes hu
        exact stateStep_trans _ _ _ (updateComp_step StateChange.available hu)
          (stateStep_of_same (by rw [e, ea]) heq)
      have s6 : StateStep w6 w7 :=
        forEachM_rel StateStep stateStep_refl stateStep_trans
          (fun _ _ _ hs => updateComp_step StateChange.redundant hs) _ _ _ h6
      obtain ⟨_, e7⟩ := clearSubject_writes h7
      obtain ⟨_, -, e8⟩ := handleUpgrades_writes h8
      have s78 : StateStep w7 w1 := stateStep_of_same (by rw [e8, e7]) (by rw [e8, e7])
      exact stateStep_trans _ _ _ (stateStep_trans _ _ _ (stateStep_trans _ _ _
        (stateStep_trans _ _ _ (stateStep_trans _ _ _ (stateStep_trans _ _ _ s1 s2) s3) s4)
        s5) s6) s78
    · unfold researchResult at h
      rw [if_neg (not_not.2 ht), if_pos hp] at h
      cases h
      exact stateStep_refl _
  · unfold researchResult at h
    rw [if_pos ht] at h
    cases h
    exact stateStep_refl _

theorem researchReward_stateStep {losingPlayer rewardPlayer : Nat} {w w1 : World}
    (h : researchReward losingPlayer rewardPlayer w = some w1) : StateStep w w1 := by
  unfold researchReward at h
  split at h
  · cases h
  · split at h
    · cases h
    · split at h
      · exact researchResult_stateStep h
      · cases h
        exact stateStep_refl _

theorem runOp_stateStep {op : ResearchOp} {w w1 : World} (h : runOp op w = some w1) :
    StateStep w w1 := by
  cases op with
  | researchResult researchIndex player psResearchFacility =>
    exact researchResult_stateStep h
  | enableResearch psResearch player =>
    simp only [runOp, Option.map_eq_some'] at h
    obtain ⟨⟨b, w2⟩, h1, rfl⟩ := h
    obtain ⟨_, rfl⟩ := enableResearch_writes h1
    exact stateStep_of_same rfl rfl
  | cancelResearch psBuilding mode =>
    obtain ⟨_, _, rfl⟩ := cancelResearch_writes h
    exact stateStep_of_same rfl rfl
  | holdResearch psBuilding mode gameTime =>
    obtain ⟨_, rfl⟩ := holdResearch_writes h
    exact stateStep_of_same rfl rfl
  | releaseResearch psBuilding mode =>
    obtain ⟨_, rfl⟩ := releaseResearch_writes h
    exact stateStep_of_same rfl rfl
  | CancelAllResearch pl =>
    obtain ⟨_, _, rfl⟩ := cancelAllResearch_writes h
    exact stateStep_of_same rfl rfl
  | RecursivelyDisableResearchByID fuel index =>
    simp only [runOp, Option.map_eq_some'] at h
    obtain ⟨_, _, rfl⟩ := h
    exact stateStep_of_same rfl rfl
  | RecursivelyDisableResearchByFlags fuel flags =>
    simp only [runOp, Option.map_eq_some'] at h
    obtain ⟨_, _, rfl⟩ := h
    exact stateStep_of_same rfl rfl
  | researchReward losingPlayer rewardPlayer =>
    exact researchReward_stateStep h
  | ResearchRelease =>
    simp only [runOp, Option.some.injEq] at h
    subst h
    exact stateStep_of_same rfl rfl

theorem runOps_stateStep {ops : List ResearchOp} {w w1 : World}
    (h : runOps ops w = some w1) : StateStep w w1 :=
  forEachM_rel StateStep stateStep_refl stateStep_trans (fun _ _ _ hs => runOp_stateStep hs)
    _ _ _ h

/-- C38: a state in the set Redundant, RedundantUnavailable, RedundantFound stays in the set
under any number of applications of `makeComponentAvailable` and `makeComponentRedundant` in any
order; and a structure type or component that is in one of these states for a player is in one of
them after every sequence of research operations that has a result (`researchResult` for any
topics and players among them). -/
theorem C38_redundancy_permanent (ops : List ResearchOp) (w w1 : World)
    (h : runOps ops w = some w1) :
    (∀ (changes : List StateChange) (st : COMPONENT_STATE), isRedundant st = true →
      isRedundant (applyChanges changes st) = true) ∧
    (∀ q s st, structTypeState w q s = some st → isRedundant st = true →
      ∃ st1, structTypeState w1 q s = some st1 ∧ isRedundant st1 = true) ∧
    (∀ q type s st, compState w q type s = some st → isRedundant st = true →
      ∃ st1, compState w1 q type s = some st1 ∧ isRedundant st1 = true) :=
  ⟨applyChanges_redundant,
    fun q s _ hst hred => cellStep_redundant ((runOps_stateStep h).1 q s) hst hred,
    fun q type s _ hst hred => cellStep_redundant ((runOps_stateStep h).2 q type s) hst hred⟩

set_option maxRecDepth 10000 in
/-- C38 at a topic that unlocks structure type 0 and weapon 0, completed twice for a player for
whom the structure type is RedundantUnavailable and the weapon RedundantFound: both end
Redundant. -/
theorem C38_redundancy_permanent_witness :
    runOps [ResearchOp.researchResult 0 0 none, ResearchOp.researchResult 0 0 none]
        (unlockWorld unlockTopic {} COMPONENT_STATE.REDUNDANT_UNAVAILABLE
          COMPONENT_STATE.REDUNDANT_FOUND)
      = some (unlockWorld unlockTopic { completed := true } COMPONENT_STATE.REDUNDANT
          COMPONENT_STATE.REDUNDANT) ∧
    (∃ st1, structTypeState (unlockWorld unlockTopic { completed := true }
        COMPONENT_STATE.REDUNDANT COMPONENT_STATE.REDUNDANT) 0 0 = some st1 ∧
      isRedundant st1 = true) ∧
    (∃ st1, compState (unlockWorld unlockTopic { completed := true }
        COMPONENT_STATE.REDUNDANT COMPONENT_STATE.REDUNDANT) 0 COMPONENT_TYPE.COMP_WEAPON 0
        = some st1 ∧ isRedundant st1 = true) :=
  have h := C38_redundancy_permanent
    [ResearchOp.researchResult 0 0 none, ResearchOp.researchResult 0 0 none]
    (unlockWorld unlockTopic {} COMPONENT_STATE.REDUNDANT_UNAVAILABLE
      COMPONENT_STATE.REDUNDANT_FOUND)
    (unlockWorld unlockTopic { completed := true } COMPONENT_STATE.REDUNDANT
      COMPONENT_STATE.REDUNDANT) (by decide)
  ⟨by decide, h.2.1 0 0 _ rfl rfl, h.2.2 0 COMPONENT_TYPE.COMP_WEAPON 0 _ rfl rfl⟩

/-! ## Disabled status is uniform across players -/

theorem uniformDisabled_of_tableRel {n MAX_PLAYERS : Nat} {T S : List (List PLAYER_RESEARCH)}
    (hshape : TableShape n MAX_PLAYERS T) (hrel : TableRel T S)
    (huni : UniformDisabled MAX_PLAYERS T) : UniformDisabled MAX_PLAYERS S := by
  intro p t hp
  have hp1 := hrel p t
  have h01 := hrel 0 t
  cases hnew : (disabledFor S 0 t && !disabledFor T 0 t) with
  | false =>
    rw [hnew] at hp1 h01
    simp only [Bool.false_eq_true, if_false] at hp1 h01
    have e1 : disabledFor S p t = disabledFor T p t := by unfold disabledFor; rw [hp1]
    have e0 : disabledFor S 0 t = disabledFor T 0 t := by unfold disabledFor; rw [h01]
    rw [e1, e0]
    exact huni p t hp
  | true =>
    rw [hnew] at hp1 h01
    simp only [if_true] at hp1 h01
    have hS0 : disabledFor S 0 t = true := by
      cases h : disabledFor S 0 t with
      | true => rfl
      | false => rw [h] at hnew; simp at hnew
    rw [hS0]
    have hsome0 : (playerResearch T 0 t).isSome = true := by
      cases hT : playerResearch T 0 t with
      | some x => rfl
      | none =>
        rw [hT] at h01
        unfold disabledFor at hS0
        rw [h01] at hS0
        simp at hS0
    have ht := ((hshape 0 t).1 hsome0).2
    obtain ⟨x, hx⟩ := Option.isSome_iff_exists.1 ((hshape p t).2 ⟨hp, ht⟩)
    unfold disabledFor
    rw [hp1, hx]
    rfl

set_option maxRecDepth 10000 in
/-- C39: when the status table has an entry for every player and topic and every topic is
Disabled for a player exactly when it is Disabled for player 0, the same holds of the table that
`RecursivelyDisableResearchByID` returns for any topic and of the table that
`RecursivelyDisableResearchByFlags` returns for any flags, and both have a result.  The guard
reads the record of player 0 only: from a table where topic 0 is Disabled for player 0 and not
for player 1 the call for topic 0 returns the table as it is. -/
theorem C39_disabled_uniform (asResearch : List RESEARCH)
    (MAX_PLAYERS fuel : Nat) (T : List (List PLAYER_RESEARCH)) (hMAX : 0 < MAX_PLAYERS)
    (hshape : TableShape asResearch.length MAX_PLAYERS T)
    (huni : UniformDisabled MAX_PLAYERS T) (hfuel : asResearch.length < fuel) :
    (∀ index, index < asResearch.length →
      ∃ T1, RecursivelyDisableResearchByID asResearch MAX_PLAYERS fuel index T = some T1 ∧
        UniformDisabled MAX_PLAYERS T1) ∧
    (∀ flags,
      ∃ T1, RecursivelyDisableResearchByFlags asResearch MAX_PLAYERS fuel flags T = some T1 ∧
        UniformDisabled MAX_PLAYERS T1) ∧
    RecursivelyDisableResearchByID flagStore 2 4 0 [[{ disabled := true }, {}, {}], [{}, {}, {}]]
      = some [[{ disabled := true }, {}, {}], [{}, {}, {}]] := by
  have hf := Nat.lt_of_le_of_lt (undisabled_le_length asResearch.length T) hfuel
  refine ⟨?_, ?_, by decide⟩
  · intro index hidx
    obtain ⟨T1, hT1, -, -, hrel, -⟩ :=
      byID_spec asResearch MAX_PLAYERS hMAX fuel index T hshape hidx hf
    exact ⟨T1, hT1, uniformDisabled_of_tableRel hshape hrel huni⟩
  · intro flags
    obtain ⟨T1, hT1, -, -, hrel, -⟩ :=
      byFlags_spec asResearch MAX_PLAYERS hMAX fuel flags T hshape hf
    exact ⟨T1, hT1, uniformDisabled_of_tableRel hshape hrel huni⟩

set_option maxRecDepth 10000 in
/-- C39 at three topics, the first flagged, the second requiring the first, with the third
Disabled for both players at the start. -/
theorem C39_disabled_uniform_witness :
    UniformDisabled 2 (uniformTable {} {} { disabled := true }) ∧
    RecursivelyDisableResearchByFlags flagStore 2 4 1 (uniformTable {} {} { disabled := true })
      = some (uniformTable { disabled := true } { disabled := true } { disabled := true }) ∧
    ∃ T1, RecursivelyDisableResearchByFlags flagStore 2 4 1
        (uniformTable {} {} { disabled := true }) = some T1 ∧ UniformDisabled 2 T1 :=
  have hu : UniformDisabled 2 (uniformTable {} {} { disabled := true }) := by
    intro p t hp
    have hp2 : p = 0 ∨ p = 1 := by omega
    rcases hp2 with rfl | rfl
    · rfl
    · by_cases h0 : t = 0
      · subst h0; rfl
      · by_cases h1 : t = 1
        · subst h1; rfl
        · by_cases h2 : t = 2
          · subst h2; rfl
          · have e : ∀ q, playerResearch (uniformTable {} {} { disabled := true }) q t
                = (((uniformTable {} {} { disabled := true })[q]?).bind (fun l => l[t]?)) :=
              fun _ => rfl
            have e3 : ∀ a b c : PLAYER_RESEARCH, [a, b, c][t]? = none :=
              fun a b c => List.getElem?_eq_none (by simp; omega)
            unfold disabledFor
            rw [e 1, e 0]
            simp [uniformTable, e3]
  ⟨hu, by decide,
    (C39_disabled_uniform flagStore 2 4 (uniformTable {} {} { disabled := true }) (by decide)
      (tableShape_of_lengths (by decide) (by decide)) hu (by decide)).2.1 1⟩

/-! ## Compat mode and Improved mode from a fresh state -/

theorem specDelta_eq_specRound {b : Int} (hb : 0 < b) (v : Int) :
    specDelta b v = specRound (b * v) := by
  unfold specDelta specRound
  by_cases hv : 0 ≤ v
  · rw [if_pos hv, if_pos (Int.mul_nonneg (le_of_lt hb) hv)]
  · rw [if_neg hv, if_neg (not_le.2 (Int.mul_neg_of_pos_of_neg hb (not_le.1 hv)))]

/-- C36: for a scalar integer stat with base `b > 0` whose overlay holds `b` and whose ledger
entry is 0, one upgrade by the percentage `v` leaves the same overlay in Compat mode and in
Improved mode, namely `b + d` with `d` the ceiling of `b*v/100` for `v >= 0` and the floor for
`v < 0` (raised to 0 when the overlay is unsigned); `b` and `b*v` are taken within 2^62 in
absolute value. -/
theorem C36_fresh_upgrade_modes_agree (ctype parameter cname : String)
    (statsEntityObj : JsonObject) (stat cur : JsonAtom) (upgrades : JsonObject)
    (totals : RawResearchUpgradeChangeValues) (tempStats tempStats1 : PlayerUpgradeCounts)
    (b v : Int) (hs : stat.is_number_integer = true) (hbase : stat.get_int64 = b) (hb : 0 < b)
    (hover : getPropertyValue upgrades parameter = Json.atom cur)
    (hcur : cur.is_number_integer = true) (hfresh : cur.get_int64 = b)
    (hledger : ledgerEntry totals cname parameter = 0)
    (hcount : countScalarUpgrade ctype parameter statsEntityObj tempStats = some tempStats1)
    (hsb : Small b) (hbv : Small (b * v)) :
    ∃ upgradesC totalsC upgradesI totalsI,
      upgradeParameter ResearchUpgradeCalculationMode.Compat ctype parameter cname v
          statsEntityObj (Json.atom stat) upgrades totals tempStats
        = some (upgradesC, totalsC, tempStats1) ∧
      upgradeParameter ResearchUpgradeCalculationMode.Improved ctype parameter cname v
          statsEntityObj (Json.atom stat) upgrades totals tempStats
        = some (upgradesI, totalsI, tempStats1) ∧
      getPropertyValue upgradesC parameter
        = Json.atom (upgradedJson cur (b + specDelta b v)) ∧
      getPropertyValue upgradesI parameter = getPropertyValue upgradesC parameter := by
  have hL : Small (0 + b * v) := by rw [Int.zero_add]; exact hbv
  have hC := @scalarUpgrade_compat b v b 0 (inInt64_of_small hbv)
    (inInt64_add_specDelta hsb hbv)
  have hI := @scalarUpgrade_improved b v b 0 (inInt64_of_small hbv)
    (inInt64_of_small hL) (inInt64_add_specRound hsb hL)
  have hround : specRound (0 + b * v) = specDelta b v := by
    rw [Int.zero_add, specDelta_eq_specRound hb]
  refine ⟨_, _, _, _, upgradeParameter_scalar hs (by omega) hover hcur hcount,
    upgradeParameter_scalar hs (by omega) hover hcur hcount, ?_, ?_⟩
  · rw [getPropertyValue_setPropertyValue, hbase, hfresh, hledger, hC]
  · rw [getPropertyValue_setPropertyValue, getPropertyValue_setPropertyValue, hbase, hfresh,
      hledger, hC, hI, hround]

/-- C36 at base 10 and 33 percent: both modes leave the overlay 14. -/
theorem C36_fresh_upgrade_modes_agree_witness :
    (∃ upgradesC totalsC upgradesI totalsI,
      upgradeParameter ResearchUpgradeCalculationMode.Compat "Building" "p" "A0Wall" 33 []
          (Json.atom (JsonAtom.int 10)) (overlayOf 10) [] {}
        = some (upgradesC, totalsC, {}) ∧
      upgradeParameter ResearchUpgradeCalculationMode.Improved "Building" "p" "A0Wall" 33 []
          (Json.atom (JsonAtom.int 10)) (overlayOf 10) [] {}
        = some (upgradesI, totalsI, {}) ∧
      getPropertyValue upgradesC "p"
        = Json.atom (upgradedJson (JsonAtom.int 10) (10 + specDelta 10 33)) ∧
      getPropertyValue upgradesI "p" = getPropertyValue upgradesC "p") ∧
    upgradedJson (JsonAtom.int 10) (10 + specDelta 10 33) = JsonAtom.int 14 :=
  ⟨C36_fresh_upgrade_modes_agree "Building" "p" "A0Wall" [] (JsonAtom.int 10) (JsonAtom.int 10)
      (overlayOf 10) [] {} {} 10 33 rfl rfl (by decide) rfl rfl rfl rfl rfl (by decide)
      (by decide),
    (by rw [specDelta_eq]; decide)⟩

set_option maxRecDepth 10000 in
/-- C33 fails on the code: the test of `enableResearch` is `inc > asResearch.size()`, so a
topic record whose index equals the number of loaded topics passes it.  With one topic loaded
and one status entry per player, the call for a record of index 1 goes on to the write of
`asPlayerResList[0][1]`, beyond the end of the row, which has no defined result; when the row has
a second entry the entry is written and the call returns true.  A record of index 2 and a player
that is not below `MAX_PLAYERS` are refused as claimed. -/
theorem C33_enableResearch_index_at_size :
    (1 : Nat) ≥ (facilityWorld {} {}).asResearch.length ∧
    enableResearch (some { index := 1 }) 0 (facilityWorld {} {}) = none ∧
    enableResearch (some { index := 1 }) 0
        { facilityWorld {} {} with asPlayerResList := [[{}, {}]] }
      = some (true, { facilityWorld {} {} with asPlayerResList := [[{}, { possible := true }]] }) ∧
    enableResearch (some { index := 2 }) 0 (facilityWorld {} {})
      = some (false, facilityWorld {} {}) ∧
    enableResearch (some { index := 0 }) 1 (facilityWorld {} {})
      = some (false, facilityWorld {} {}) ∧
    enableResearch none 0 (facilityWorld {} {}) = some (false, facilityWorld {} {}) := by
  decide

/-! ## Loading: unresolved prerequisite names -/

theorem map_set_same {α β : Type} (f : α → β) :
    ∀ (l : List α) (i : Nat) {r r1 : α}, l[i]? = some r → f r1 = f r →
      (l.set i r1).map f = l.map f := by
  intro l
  induction l with
  | nil => intro i r r1 h; simp at h
  | cons a rest ih =>
    intro i r r1 h hf
    cases i with
    | zero =>
      simp only [List.getElem?_cons_zero, Option.some.injEq] at h
      subst h
      simp only [List.set_cons_zero, List.map_cons, hf]
    | succ i =>
      simp only [List.getElem?_cons_succ] at h
      simp only [List.set_cons_succ, List.map_cons, ih i h hf]

theorem getResearch_eq_none {asResearch : List RESEARCH} {name : String} :
    getResearch asResearch name = none ↔ name ∉ asResearch.map (fun r => r.id) := by
  unfold getResearch
  rw [List.find?_eq_none]
  simp only [decide_eq_true_eq, List.mem_map, not_exists, not_and]

theorem pushRequired_ids {inc : Nat} :
    ∀ (l : List String) (rs rs1 : List RESEARCH), pushRequired inc l rs = some rs1 →
      rs1.map (fun r => r.id) = rs.map (fun r => r.id) := by
  intro l
  induction l with
  | nil =>
    intro rs rs1 h
    simp only [pushRequired, Option.some.injEq] at h
    rw [h]
  | cons name rest ih =>
    intro rs rs1 h
    unfold pushRequired at h
    cases hg : getResearch rs name with
    | none =>
      simp only [hg] at h
      exact ih rs rs1 h
    | some q =>
      simp only [hg] at h
      cases hr : rs[inc]? with
      | none => simp [hr] at h
      | some r =>
        simp only [hr] at h
        rw [ih _ rs1 h]
        exact @map_set_same RESEARCH String (fun r => r.id) rs inc r
          { r with pPRList := r.pPRList ++ [q.index] } hr rfl

theorem pushRequired_filter (known : String → Bool) {inc : Nat} :
    ∀ (l : List String) (rs : List RESEARCH),
      (∀ name, known name = false → name ∉ rs.map (fun r => r.id)) →
      pushRequired inc (l.filter known) rs = pushRequired inc l rs := by
  intro l
  induction l with
  | nil => intro rs _; rfl
  | cons name rest ih =>
    intro rs hk
    cases hn : known name with
    | false =>
      rw [List.filter_cons_of_neg (by simp [hn])]
      have hnone := getResearch_eq_none.2 (hk name hn)
      conv_rhs => unfold pushRequired
      simp only [hnone]
      exact ih rs hk
    | true =>
      rw [List.filter_cons_of_pos (by simp [hn])]
      conv_lhs => unfold pushRequired
      conv_rhs => unfold pushRequired
      cases hg : getResearch rs name with
      | none =>
        simp only [hg]
        exact ih rs hk
      | some q =>
        simp only [hg]
        cases hr : rs[inc]? with
        | none => rfl
        | some r =>
          simp only [hr]
          refine ih _ ?_
          rw [@map_set_same RESEARCH String (fun r => r.id) rs inc r
            { r with pPRList := r.pPRList ++ [q.index] } hr rfl]
          exact hk

theorem loadPrerequisites_filter (known : String → Bool) (preResearch : List (List String)) :
    ∀ (todo inc : Nat) (rs : List RESEARCH),
      (∀ name, known name = false → name ∉ rs.map (fun r => r.id)) →
      loadPrerequisites (preResearch.map (List.filter known)) inc todo rs
        = loadPrerequisites preResearch inc todo rs := by
  intro todo
  induction todo with
  | zero => intro inc rs _; rfl
  | succ todo ih =>
    intro inc rs hk
    unfold loadPrerequisites
    rw [List.getElem?_map]
    cases hp : preResearch[inc]? with
    | none => rfl
    | some preRes =>
      simp only [Option.map_some', pushRequired_filter known preRes rs hk]
      cases hq : pushRequired inc preRes rs with
      | none => rfl
      | some rs1 =>
        simp only
        refine ih (inc + 1) rs1 ?_
        rw [pushRequired_ids preRes rs rs1 hq]
        exact hk

theorem loadResearchGroups_keepKnown (known : String → Bool) :
    ∀ (ini : List ResearchGroup) (inc : Nat) (s : ResearchStore) (preResearch : List (List String)),
      loadResearchGroups inc (ini.map (keepKnown known)) s (preResearch.map (List.filter known))
        = (loadResearchGroups inc ini s preResearch).map
            (fun x => (x.1, x.2.1, x.2.2.map (List.filter known))) := by
  intro ini
  induction ini with
  | nil => intro inc s preResearch; rfl
  | cons g rest ih =>
    intro inc s preResearch
    have e1 : preResearch.map (List.filter known) ++ [[]]
        = (preResearch ++ [[]]).map (List.filter known) := by simp
    have e2 : preResearch.map (List.filter known) ++ [g.requiredResearch.filter known]
        = (preResearch ++ [g.requiredResearch]).map (List.filter known) := by simp
    rw [List.map_cons]
    unfold loadResearchGroups
    simp only [keepKnown]
    by_cases hk : g.key = RESEARCH_JSON_CONFIG_DICT_KEY
    · simp only [hk, if_true]
      cases hc : resCalcModeStringToValue g.calculationMode with
      | none => rfl
      | some calcModeParsed =>
        simp only
        rw [e1]
        exact ih _ _ _
    · simp only [hk, if_false]
      cases hn : checkResearchName s.asResearch g.key inc with
      | none => rfl
      | some b =>
        cases b with
        | false => rfl
        | true =>
          simp only
          by_cases h1 : (!g.statFound) = true
          · simp only [h1, if_true]
            rfl
          · simp only [h1, if_false]
            by_cases h2 : g.researchPoints > UWORD_MAX
            · simp only [h2, if_true]
              rfl
            · simp only [h2, if_false]
              by_cases h3 : g.researchPower > UWORD_MAX
              · simp only [h3, if_true]
                rfl
              · simp only [h3, if_false]
                rw [e2]
                exact ih _ _ _

theorem loadResearchGroups_ids :
    ∀ (ini : List ResearchGroup) (inc : Nat) (s s1 : ResearchStore)
      (preResearch pre1 : List (List String)) (b : Bool),
      loadResearchGroups inc ini s preResearch = some (b, s1, pre1) →
      ∀ r ∈ s1.asResearch, r.id ∈ resolvedNames ini s := by
  intro ini
  induction ini with
  | nil =>
    intro inc s s1 preResearch pre1 b h r hr
    simp only [loadResearchGroups, Option.some.injEq, Prod.mk.injEq] at h
    obtain ⟨-, rfl, -⟩ := h
    exact List.mem_append_left _ (List.mem_map_of_mem _ hr)
  | cons g rest ih =>
    intro inc s s1 preResearch pre1 b h r hr
    have hmono : ∀ (s0 : ResearchStore), s0.asResearch = s.asResearch →
        ∀ name, name ∈ resolvedNames rest s0 → name ∈ resolvedNames (g :: rest) s := by
      intro s0 hs0 name hname
      unfold resolvedNames at hname ⊢
      rw [hs0] at hname
      rcases List.mem_append.1 hname with h1 | h1
      · exact List.mem_append_left _ h1
      · refine List.mem_append_right _ ?_
        obtain ⟨g1, hg1, rfl⟩ := List.mem_map.1 h1
        refine List.mem_map_of_mem _ ?_
        rw [List.mem_filter] at hg1 ⊢
        exact ⟨List.mem_cons_of_mem _ hg1.1, hg1.2⟩
    unfold loadResearchGroups at h
    by_cases hk : g.key = RESEARCH_JSON_CONFIG_DICT_KEY
    · simp only [hk, if_true] at h
      cases hc : resCalcModeStringToValue g.calculationMode with
      | none =>
        simp only [hc, Option.some.injEq, Prod.mk.injEq] at h
        obtain ⟨-, rfl, -⟩ := h
        exact List.mem_append_left _ (List.mem_map_of_mem _ hr)
      | some calcModeParsed =>
        simp only [hc] at h
        refine hmono _ ?_ _ (ih _ _ _ _ _ _ h r hr)
        split <;> rfl
    · simp only [hk, if_false] at h
      have hstop : ∀ (s0 : ResearchStore), s1 = s0 → s0.asResearch = s.asResearch →
          r.id ∈ resolvedNames (g :: rest) s := by
        intro s0 e hs0
        rw [e, hs0] at hr
        exact List.mem_append_left _ (List.mem_map_of_mem _ hr)
      cases hn : checkResearchName s.asResearch g.key inc with
      | none => simp [hn] at h
      | some b1 =>
        cases b1 with
        | false =>
          simp only [hn, Option.some.injEq, Prod.mk.injEq] at h
          exact hstop _ h.2.1.symm rfl
        | true =>
          simp only [hn] at h
          by_cases h1 : (!g.statFound) = true
          · simp only [h1, if_true, Option.some.injEq, Prod.mk.injEq] at h
            exact hstop _ h.2.1.symm rfl
          · simp only [h1, if_false, Bool.false_eq_true] at h
            by_cases h2 : g.researchPoints > UWORD_MAX
            · simp only [h2, if_true, Option.some.injEq, Prod.mk.injEq] at h
              exact hstop _ h.2.1.symm rfl
            · simp only [h2, if_false] at h
              by_cases h3 : g.researchPower > UWORD_MAX
              · simp only [h3, if_true, Option.some.injEq, Prod.mk.injEq] at h
                exact hstop _ h.2.1.symm rfl
              · simp only [h3, if_false] at h
                have hmem := ih _ _ _ _ _ _ h r hr
                unfold resolvedNames at hmem ⊢
                simp only [List.map_append, List.map_cons, List.map_nil, List.append_assoc,
                  List.singleton_append] at hmem
                rw [List.filter_cons_of_pos (by simpa using hk)]
                simpa using hmem

theorem loadResearchTopics_dropUnresolved (ini : List ResearchGroup) (s : ResearchStore) :
    loadResearchTopics (dropUnresolved ini s) s = loadResearchTopics ini s := by
  unfold loadResearchTopics dropUnresolved
  have hg := loadResearchGroups_keepKnown (fun name => decide (name ∈ resolvedNames ini s))
    ini 0 s []
  rw [List.map_nil] at hg
  rw [hg]
  cases hl : loadResearchGroups 0 ini s [] with
  | none => rfl
  | some res =>
    obtain ⟨b, s1, pre1⟩ := res
    cases b with
    | false => rfl
    | true =>
      simp only [Option.map_some']
      rw [loadPrerequisites_filter _ pre1 _ 0 s1.asResearch]
      intro name hname hmem
      obtain ⟨r, hr, rfl⟩ := List.mem_map.1 hmem
      have := loadResearchGroups_ids ini 0 s s1 [] pre1 true hl r hr
      simp only [decide_eq_false_iff_not] at hname
      exact hname this

set_option maxRecDepth 10000 in
/-- C32, as stated, fails: a topic whose `requiredResearch` names "Z", which matches no topic,
is loaded with an empty prerequisite list, and `loadResearch` returns true. -/
theorem C32_unresolved_prerequisite_counterexample :
    (∃ g ∈ danglingIni, "Z" ∈ g.requiredResearch) ∧ "Z" ∉ resolvedNames danglingIni {} ∧
    (loadResearch 1 danglingIni {}).map
        (fun res => (res.1, res.2.asResearch.map (fun r => (r.id, r.pPRList))))
      = some (true, [("A", [])]) := by
  decide

/-- C32, amended: a name in a `requiredResearch` list that matches no topic is passed over and
loading goes on: for every input the result of `loadResearch`, the return value and the store
alike, is the result for the input with every such name removed from the lists, in which every
required name matches a stored topic or a topic group of the input. -/
theorem C32_loadResearch_skips_unresolved (fuel : Nat) (ini : List ResearchGroup)
    (s : ResearchStore) :
    loadResearch fuel ini s = loadResearch fuel (dropUnresolved ini s) s ∧
    ∀ g ∈ dropUnresolved ini s, ∀ name ∈ g.requiredResearch, name ∈ resolvedNames ini s := by
  constructor
  · unfold loadResearch
    rw [loadResearchTopics_dropUnresolved]
  · intro g hg name hname
    unfold dropUnresolved at hg
    obtain ⟨g0, -, rfl⟩ := List.mem_map.1 hg
    simp only [keepKnown, List.mem_filter, decide_eq_true_eq] at hname
    exact hname.2

set_option maxRecDepth 10000 in
/-- C32, amended, at the topic A that requires the unknown name "Z": the result is that for
topic A without required names, and loading succeeds. -/
theorem C32_loadResearch_skips_unresolved_witness :
    dropUnresolved danglingIni {} = [{ key := "A" }] ∧
    loadResearch 1 danglingIni {} = loadResearch 1 (dropUnresolved danglingIni {}) {} ∧
    (loadResearch 1 [{ key := "A" }] {}).map Prod.fst = some true :=
  ⟨by decide, (C32_loadResearch_skips_unresolved 1 danglingIni {}).1, by decide⟩

/-! ## Loading: indices and places -/

theorem checkResearchNameFrom_true {rs : List RESEARCH} {id : String} :
    ∀ (todo inc : Nat), checkResearchNameFrom rs id inc todo = some true → inc ≤ rs.length →
      inc + todo ≤ rs.length := by
  intro todo
  induction todo with
  | zero => intro inc _ h; exact h
  | succ todo ih =>
    intro inc h hle
    unfold checkResearchNameFrom at h
    cases hr : rs[inc]? with
    | none => simp [hr] at h
    | some r =>
      simp only [hr] at h
      have hlt : inc < rs.length := by
        by_contra hge
        rw [List.getElem?_eq_none (Nat.le_of_not_lt hge)] at hr
        cases hr
      by_cases hid : r.id = id
      · simp [hid] at h
      · rw [if_neg hid] at h
        have := ih (inc + 1) h hlt
        omega

theorem getElem?_lt {α : Type} {l : List α} {i : Nat} {a : α} (h : l[i]? = some a) :
    i < l.length := by
  by_contra hge
  rw [List.getElem?_eq_none (Nat.le_of_not_lt hge)] at h
  cases h

theorem loadInv_config {done : List ResearchGroup} {s s0 : ResearchStore}
    {preResearch : List (List String)} (g : ResearchGroup)
    (hinv : LoadInv done s preResearch) (h1 : s0.asResearch = s.asResearch)
    (h2 : s0.asPlayerResList = s.asPlayerResList) :
    LoadInv (done ++ [g]) s0 (preResearch ++ [[]]) := by
  obtain ⟨i1, i2, i3, i4⟩ := hinv
  refine ⟨by simp [i1], by rw [h1]; simp; omega, by rw [h1, h2]; exact i3, ?_⟩
  intro i r hr
  rw [h1] at hr
  obtain ⟨a, b, g0, c, d, d1, e⟩ := i4 i r hr
  have hi : i < done.length := lt_of_lt_of_le (getElem?_lt hr) i2
  refine ⟨a, b, g0, ?_, d, d1, ?_⟩
  · rw [List.getElem?_append_left hi]
    exact c
  · rw [List.getElem?_append_left (by rw [i1]; exact hi)]
    exact e

theorem loadInv_topic {done : List ResearchGroup} {s : ResearchStore}
    {preResearch : List (List String)} (g : ResearchGroup)
    (hinv : LoadInv done s preResearch) (hlen : s.asResearch.length = done.length)
    (research : RESEARCH) (hindex : research.index = done.length)
    (hlist : research.pPRList = []) (hid : g.key = research.id)
    (hk : g.key ≠ RESEARCH_JSON_CONFIG_DICT_KEY) (s0 : ResearchStore)
    (h1 : s0.asResearch = s.asResearch ++ [research])
    (h2 : s0.asPlayerResList = s.asPlayerResList.map (fun row => row ++ [({} : PLAYER_RESEARCH)])) :
    LoadInv (done ++ [g]) s0 (preResearch ++ [g.requiredResearch]) := by
  obtain ⟨i1, i2, i3, i4⟩ := hinv
  refine ⟨by simp [i1], by rw [h1]; simp; omega, ?_, ?_⟩
  · intro row hrow
    rw [h2] at hrow
    obtain ⟨row0, hrow0, rfl⟩ := List.mem_map.1 hrow
    rw [h1]
    simp [i3 row0 hrow0]
  · intro i r hr
    rw [h1] at hr
    by_cases hi : i < s.asResearch.length
    · rw [List.getElem?_append_left hi] at hr
      obtain ⟨a, b, g0, c, d, d1, e⟩ := i4 i r hr
      refine ⟨a, b, g0, ?_, d, d1, ?_⟩
      · rw [List.getElem?_append_left (by omega)]
        exact c
      · rw [List.getElem?_append_left (by omega)]
        exact e
    · have hlt := getElem?_lt hr
      simp only [List.length_append, List.length_singleton] at hlt
      have hi2 : i = done.length := by omega
      subst hi2
      rw [List.getElem?_append_right (by omega), hlen] at hr
      simp only [Nat.sub_self, List.getElem?_cons_zero, Option.some.injEq] at hr
      subst hr
      refine ⟨hindex, hlist, g, ?_, hid, hk, ?_⟩
      · rw [List.getElem?_append_right (le_refl _)]
        simp
      · rw [List.getElem?_append_right (by omega), i1]
        simp

theorem loadResearchGroups_inv :
    ∀ (ini done : List ResearchGroup) (inc : Nat) (s s1 : ResearchStore)
      (preResearch pre1 : List (List String)),
      inc = done.length → loadResearchGroups inc ini s preResearch = some (true, s1, pre1) →
      LoadInv done s preResearch → LoadInv (done ++ ini) s1 pre1 := by
  intro ini
  induction ini with
  | nil =>
    intro done inc s s1 preResearch pre1 _ h hinv
    simp only [loadResearchGroups, Option.some.injEq, Prod.mk.injEq, true_and] at h
    obtain ⟨rfl, rfl⟩ := h
    simpa using hinv
  | cons g rest ih =>
    intro done inc s s1 preResearch pre1 hinc h hinv
    have happ : done ++ g :: rest = (done ++ [g]) ++ rest := by simp
    rw [happ]
    have hinc1 : inc + 1 = (done ++ [g]).length := by simp [hinc]
    unfold loadResearchGroups at h
    by_cases hk : g.key = RESEARCH_JSON_CONFIG_DICT_KEY
    · simp only [hk, if_true] at h
      cases hc : resCalcModeStringToValue g.calculationMode with
      | none => simp [hc] at h
      | some calcModeParsed =>
        simp only [hc] at h
        refine ih (done ++ [g]) (inc + 1) _ s1 _ pre1 hinc1 h ?_
        exact loadInv_config g hinv (by split <;> rfl) (by split <;> rfl)
    · simp only [hk, if_false] at h
      cases hn : checkResearchName s.asResearch g.key inc with
      | none => simp [hn] at h
      | some b1 =>
        cases b1 with
        | false => simp [hn] at h
        | true =>
          simp only [hn] at h
          have hlen : s.asResearch.length = done.length := by
            have := checkResearchNameFrom_true inc 0 hn (Nat.zero_le _)
            have := hinv.2.1
            omega
          by_cases h1 : (!g.statFound) = true
          · simp [h1] at h
          · simp only [h1, if_false, Bool.false_eq_true] at h
            by_cases h2 : g.researchPoints > UWORD_MAX
            · simp [h2] at h
            · simp only [h2, if_false] at h
              by_cases h3 : g.researchPower > UWORD_MAX
              · simp [h3] at h
              · simp only [h3, if_false] at h
                refine ih (done ++ [g]) (inc + 1) _ s1 _ pre1 hinc1 h ?_
                exact loadInv_topic g hinv hlen _ hinc rfl rfl hk _ rfl rfl

theorem map_eq_getElem {α β : Type} {f : α → β} {l1 l2 : List α} (h : l1.map f = l2.map f)
    {i : Nat} {a : α} (ha : l1[i]? = some a) : ∃ b, l2[i]? = some b ∧ f a = f b := by
  have h1 : (l1.map f)[i]? = (l2.map f)[i]? := by rw [h]
  rw [List.getElem?_map, List.getElem?_map, ha] at h1
  cases hb : l2[i]? with
  | none => rw [hb] at h1; cases h1
  | some b =>
    rw [hb] at h1
    simp only [Option.map_some', Option.some.injEq] at h1
    exact ⟨b, rfl, h1⟩

theorem pushRequired_spec {inc : Nat} :
    ∀ (l : List String) (rs rs1 : List RESEARCH), pushRequired inc l rs = some rs1 →
      rs1.map (fun r => (r.id, r.index)) = rs.map (fun r => (r.id, r.index)) ∧
      (∀ i, i ≠ inc → rs1[i]? = rs[i]?) ∧
      (∀ r1, rs1[inc]? = some r1 → ∃ r, rs[inc]? = some r ∧
        ∀ p ∈ r1.pPRList, p ∈ r.pPRList ∨
          ∃ name ∈ l, (name, p) ∈ rs.map (fun r => (r.id, r.index))) := by
  intro l
  induction l with
  | nil =>
    intro rs rs1 h
    simp only [pushRequired, Option.some.injEq] at h
    subst h
    exact ⟨rfl, fun _ _ => rfl, fun r1 hr1 => ⟨r1, hr1, fun p hp => Or.inl hp⟩⟩
  | cons name rest ih =>
    intro rs rs1 h
    unfold pushRequired at h
    cases hg : getResearch rs name with
    | none =>
      simp only [hg] at h
      obtain ⟨a, b, c⟩ := ih rs rs1 h
      refine ⟨a, b, fun r1 hr1 => ?_⟩
      obtain ⟨r, hr, hp⟩ := c r1 hr1
      refine ⟨r, hr, fun p hpm => ?_⟩
      rcases hp p hpm with h0 | ⟨n, hn, hm⟩
      · exact Or.inl h0
      · exact Or.inr ⟨n, List.mem_cons_of_mem _ hn, hm⟩
    | some q =>
      simp only [hg] at h
      cases hr : rs[inc]? with
      | none => simp [hr] at h
      | some r =>
        simp only [hr] at h
        have hkeys := @map_set_same RESEARCH (String × Nat) (fun r => (r.id, r.index)) rs inc r
          { r with pPRList := r.pPRList ++ [q.index] } hr rfl
        obtain ⟨a, b, c⟩ := ih _ rs1 h
        refine ⟨a.trans hkeys, ?_, ?_⟩
        · intro i hi
          rw [b i hi, List.getElem?_set_ne (Ne.symm hi)]
        · intro r1 hr1
          obtain ⟨r2, hr2, hp⟩ := c r1 hr1
          rw [List.getElem?_set_self (getElem?_lt hr)] at hr2
          cases hr2
          refine ⟨r, rfl, fun p hpm => ?_⟩
          rcases hp p hpm with h0 | ⟨n, hn, hm⟩
          · rcases List.mem_append.1 h0 with h1 | h1
            · exact Or.inl h1
            · refine Or.inr ⟨name, List.mem_cons_self _ _, ?_⟩
              rw [List.mem_singleton.1 h1]
              have hq := List.find?_some hg
              simp only [decide_eq_true_eq] at hq
              exact List.mem_map.2 ⟨q, List.mem_of_find?_eq_some hg, by rw [hq]⟩
          · rw [hkeys] at hm
            exact Or.inr ⟨n, List.mem_cons_of_mem _ hn, hm⟩

theorem loadPrerequisites_spec (preResearch : List (List String)) :
    ∀ (todo inc : Nat) (rs rs1 : List RESEARCH),
      loadPrerequisites preResearch inc todo rs = some rs1 →
      rs1.map (fun r => (r.id, r.index)) = rs.map (fun r => (r.id, r.index)) ∧
      (∀ i, (i < inc ∨ inc + todo ≤ i) → rs1[i]? = rs[i]?) ∧
      (∀ i r1, inc ≤ i → i < inc + todo → rs1[i]? = some r1 →
        ∃ r reqs, rs[i]? = some r ∧ preResearch[i]? = some reqs ∧
          ∀ p ∈ r1.pPRList, p ∈ r.pPRList ∨
            ∃ name ∈ reqs, (name, p) ∈ rs.map (fun r => (r.id, r.index))) := by
  intro todo
  induction todo with
  | zero =>
    intro inc rs rs1 h
    simp only [loadPrerequisites, Option.some.injEq] at h
    subst h
    exact ⟨rfl, fun _ _ => rfl, fun i r1 h1 h2 _ => absurd h2 (by omega)⟩
  | succ todo ih =>
    intro inc rs rs1 h
    unfold loadPrerequisites at h
    cases hp : preResearch[inc]? with
    | none => simp [hp] at h
    | some preRes =>
      simp only [hp] at h
      cases hq : pushRequired inc preRes rs with
      | none => simp [hq] at h
      | some rsA =>
        simp only [hq] at h
        obtain ⟨a1, b1, c1⟩ := pushRequired_spec preRes rs rsA hq
        obtain ⟨a2, b2, c2⟩ := ih (inc + 1) rsA rs1 h
        refine ⟨a2.trans a1, ?_, ?_⟩
        · intro i hi
          rw [b2 i (by omega), b1 i (by omega)]
        · intro i r1 hlo hhi hr1
          by_cases hi : i = inc
          · subst hi
            rw [b2 i (by omega)] at hr1
            obtain ⟨r, hr, hpp⟩ := c1 r1 hr1
            exact ⟨r, preRes, hr, hp, hpp⟩
          · obtain ⟨r, reqs, hr, hreqs, hpp⟩ := c2 i r1 (by omega) (by omega) hr1
            rw [b1 i hi] at hr
            rw [a1] at hpp
            exact ⟨r, reqs, hr, hreqs, hpp⟩

theorem loadResearch_parts {fuel : Nat} {ini : List ResearchGroup} {s s1 : ResearchStore}
    (h : loadResearch fuel ini s = some (true, s1)) :
    ∃ sA pre rsB, loadResearchGroups 0 ini s [] = some (true, sA, pre) ∧
      loadPrerequisites pre 0 sA.asResearch.length sA.asResearch = some rsB ∧
      populateCategories fuel rsB = some s1.asResearch ∧
      s1.asPlayerResList = sA.asPlayerResList := by
  unfold loadResearch at h
  cases ht : loadResearchTopics ini s with
  | none => simp [ht] at h
  | some res =>
    obtain ⟨b, s2⟩ := res
    cases b with
    | false => simp [ht] at h
    | true =>
      simp only [ht] at h
      unfold loadResearchTopics at ht
      cases hg : loadResearchGroups 0 ini s [] with
      | none => simp [hg] at ht
      | some resg =>
        obtain ⟨bg, sA, pre⟩ := resg
        cases bg with
        | false => simp [hg] at ht
        | true =>
          simp only [hg] at ht
          cases hl : loadPrerequisites pre 0 sA.asResearch.length sA.asResearch with
          | none => simp [hl] at ht
          | some rsB =>
            simp only [hl, Option.some.injEq, Prod.mk.injEq, true_and] at ht
            subst ht
            cases hd : detectCycle rsB with
            | none => simp [hd] at h
            | some o =>
              cases o with
              | some path => simp [hd] at h
              | none =>
                simp only [hd] at h
                cases hpc : populateCategories fuel rsB with
                | none => simp [hpc] at h
                | some rs1 =>
                  simp only [hpc, Option.some.injEq, Prod.mk.injEq, true_and] at h
                  subst h
                  exact ⟨sA, pre, rsB, rfl, hl, hpc, rfl⟩

/-- When `loadResearch` has a result and returns true on a store that holds no topic and no
status entry, every stored topic has its place in the store as index and was read from the
group at that place of the input, every row of the status table has one entry per stored topic,
and every entry of a topic's prerequisite list is the place of a stored topic whose identifier
is one of the names in the `requiredResearch` of the topic's group.  No `_config_` group comes
before a topic group then. -/
theorem loadResearch_index_is_place (fuel : Nat) (ini : List ResearchGroup)
    (s s1 : ResearchStore) (hempty : s.asResearch = [])
    (hrows : ∀ row ∈ s.asPlayerResList, row = [])
    (h : loadResearch fuel ini s = some (true, s1)) :
    (∀ (i : Nat) (r : RESEARCH), s1.asResearch[i]? = some r →
      r.index = i ∧
      ∃ g : ResearchGroup, ini[i]? = some g ∧ g.key = r.id ∧
        g.key ≠ RESEARCH_JSON_CONFIG_DICT_KEY ∧
        ∀ p ∈ r.pPRList, p < s1.asResearch.length ∧
          ∃ name ∈ g.requiredResearch, ∃ q : RESEARCH,
            s1.asResearch[p]? = some q ∧ q.id = name) ∧
    (∀ row ∈ s1.asPlayerResList, row.length = s1.asResearch.length) := by
  obtain ⟨sA, pre, rsB, hgroups, hpre, hcat, hrowsEq⟩ := loadResearch_parts h
  have hinv0 : LoadInv [] s [] := by
    refine ⟨rfl, by rw [hempty]; exact Nat.le_refl _, ?_, ?_⟩
    · intro row hrow
      rw [hrows row hrow, hempty]
      rfl
    · intro i r hr
      rw [hempty] at hr
      simp at hr
  have hinv := loadResearchGroups_inv ini [] 0 s sA [] pre rfl hgroups hinv0
  rw [List.nil_append] at hinv
  obtain ⟨i1, i2, i3, i4⟩ := hinv
  obtain ⟨kB, sameB, cellB⟩ := loadPrerequisites_spec pre _ 0 sA.asResearch rsB hpre
  obtain ⟨hclear, -, -⟩ := populateCategories_spec hcat
  have hlenB : rsB.length = sA.asResearch.length := by
    have := congrArg List.length kB
    simpa using this
  have hlen1 : s1.asResearch.length = rsB.length := by
    have := congrArg List.length hclear
    simpa using this
  -- a pair of the key list is a topic of the final store at the place of its index
  have hdenote : ∀ name p, (name, p) ∈ sA.asResearch.map (fun r => (r.id, r.index)) →
      ∃ q, s1.asResearch[p]? = some q ∧ q.id = name := by
    intro name p hm
    obtain ⟨qA, hqA, hkey⟩ := List.mem_map.1 hm
    simp only [Prod.mk.injEq] at hkey
    obtain ⟨j, hj, hget⟩ := List.mem_iff_getElem.1 hqA
    have hgetA : sA.asResearch[j]? = some qA := by rw [List.getElem?_eq_getElem hj, hget]
    have hidx := (i4 j qA hgetA).1
    have hjp : j = p := by rw [← hidx]; exact hkey.2
    subst hjp
    have hltB : j < rsB.length := by rw [hlenB]; exact hj
    have hgetB : rsB[j]? = some rsB[j] := List.getElem?_eq_getElem hltB
    obtain ⟨qA2, hqA2, hkB⟩ := map_eq_getElem kB hgetB
    rw [hgetA] at hqA2
    cases hqA2
    simp only [Prod.mk.injEq] at hkB
    have hlt1 : j < s1.asResearch.length := by rw [hlen1]; exact hltB
    have hget1 : s1.asResearch[j]? = some s1.asResearch[j] := List.getElem?_eq_getElem hlt1
    obtain ⟨qB, hqB, hk1⟩ := map_eq_getElem hclear hget1
    rw [hgetB] at hqB
    cases hqB
    have hid1 : (s1.asResearch[j]).id = (rsB[j]).id := congrArg (fun x => x.id) hk1
    exact ⟨_, hget1, by rw [hid1, hkB.1]; exact hkey.1⟩
  refine ⟨?_, ?_⟩
  · intro i r hr
    obtain ⟨rB, hrB, hk1⟩ := map_eq_getElem hclear hr
    have hi : i < sA.asResearch.length := by rw [← hlenB]; exact getElem?_lt hrB
    obtain ⟨rA, reqs, hrA, hreqs, hentries⟩ := cellB i rB (Nat.zero_le _) (by omega) hrB
    obtain ⟨hidx, hnil, g, hg, hgid, hgk, hgreq⟩ := i4 i rA hrA
    obtain ⟨rA2, hrA2, hkB⟩ := map_eq_getElem kB hrB
    rw [hrA] at hrA2
    cases hrA2
    simp only [Prod.mk.injEq] at hkB
    have hid1 : r.id = rB.id := congrArg (fun x => x.id) hk1
    have hindex1 : r.index = rB.index := congrArg (fun x => x.index) hk1
    have hlist1 : r.pPRList = rB.pPRList := congrArg (fun x => x.pPRList) hk1
    rw [hreqs] at hgreq
    cases hgreq
    refine ⟨by rw [hindex1, hkB.2, hidx], g, hg, by rw [hgid, hid1, hkB.1], hgk, ?_⟩
    · intro p hp
      rw [hlist1] at hp
      rcases hentries p hp with h0 | ⟨name, hname, hm⟩
      · rw [hnil] at h0
        cases h0
      · obtain ⟨q, hq, hqid⟩ := hdenote name p hm
        exact ⟨getElem?_lt hq, name, hname, q, hq, hqid⟩
  · intro row hrow
    rw [hrowsEq] at hrow
    rw [i3 row hrow, hlen1, hlenB]

set_option maxRecDepth 10000 in
/-- Two topics followed by the `_config_` group, loaded for two players: B has index 1 and the
prerequisite list [0], the place of A; the unknown name "Z" leaves no entry. -/
theorem loadResearch_index_is_place_configLast :
    loadResearch 3 configLastIni { asPlayerResList := [[], []] } = some (true, configLastLoaded) ∧
    (∀ (i : Nat) (r : RESEARCH), configLastLoaded.asResearch[i]? = some r →
      r.index = i ∧
      ∃ g : ResearchGroup, configLastIni[i]? = some g ∧ g.key = r.id ∧
        g.key ≠ RESEARCH_JSON_CONFIG_DICT_KEY ∧
        ∀ p ∈ r.pPRList, p < configLastLoaded.asResearch.length ∧
          ∃ name ∈ g.requiredResearch, ∃ q : RESEARCH,
            configLastLoaded.asResearch[p]? = some q ∧ q.id = name) ∧
    (∀ row ∈ configLastLoaded.asPlayerResList,
      row.length = configLastLoaded.asResearch.length) :=
  have h := loadResearch_index_is_place 3 configLastIni { asPlayerResList := [[], []] }
    configLastLoaded rfl (by decide) (by decide)
  ⟨by decide, h.1, h.2⟩

set_option maxRecDepth 10000 in
/-- C40 fails on the code: `loadResearch` gives a topic the position `inc` of its group in the
input as index, and hands `inc` to `checkResearchName` as the number of stored topics, although
a `_config_` group takes a position and stores no topic.  With the `_config_` group before
topic A, loaded from an empty store, the call `checkResearchName(&research, 1)` reads
`asResearch[0]` of the empty store, so the first loop, and with it `loadResearch`, has no
defined result, and the record in the making has index 1 for the place 0.  The same two groups
with `_config_` last load, with A at index 0. -/
theorem C40_loadResearch_config_before_topic :
    checkResearchName ([] : List RESEARCH) "A" 1 = none ∧
    loadResearchGroups 1 [{ key := "A" }] {} [[]] = none ∧
    loadResearchGroups 0 configFirstIni {} [] = none ∧
    (∀ fuel, loadResearch fuel configFirstIni {} = none) ∧
    (loadResearch 3 configFirstIni.reverse {}).map
        (fun res => (res.1, res.2.asResearch.map (fun r => (r.id, r.index))))
      = some (true, [("A", 0)]) := by
  refine ⟨by decide, by decide, by decide, fun fuel => ?_, by decide⟩
  have ht : loadResearchTopics configFirstIni {} = none := by decide
  unfold loadResearch
  rw [ht]

/-! ## The research reward -/

theorem rewardCandidate_some {w : World} {rewardPlayer t : Nat} {psStruct : STRUCTURE}
    (h : rewardCandidate w rewardPlayer psStruct = some t) :
    t ≠ 0 ∧ ∃ x, playerResearch w.asPlayerResList rewardPlayer t = some x ∧
      IsResearchCompleted x = false := by
  unfold rewardCandidate at h
  split at h
  · split at h
    · split at h
      · cases h
      · split at h
        · cases h
        · split at h
          · cases h
          · rename_i hne
            split at h
            · cases h
            · rename_i x hx
              split at h
              · cases h
              · rename_i hc
                simp only [Option.some.injEq] at h
                subst h
                exact ⟨hne, x, hx, by simpa using hc⟩
    · cases h
  · cases h

theorem rewardScan_eq (w : World) (rewardPlayer : Nat) :
    ∀ (structs : List STRUCTURE) (acc res : Nat × Nat),
      rewardScan w rewardPlayer structs acc = some res →
      res = (structs.filterMap (rewardCandidate w rewardPlayer)).foldl (rewardStep w) acc := by
  intro structs
  induction structs with
  | nil =>
    intro acc res h
    simp only [rewardScan, Option.some.injEq] at h
    subst h
    rfl
  | cons st rest ih =>
    intro acc res h
    obtain ⟨pts, id⟩ := acc
    rw [List.filterMap_cons]
    unfold rewardScan at h
    by_cases hty : st.pStructureType = STRUCTURE_TYPE.REF_RESEARCH
    · rw [if_pos hty] at h
      cases hf : st.pFunctionality with
      | researchFacility psFacility =>
        simp only [hf] at h
        cases hb : psFacility.psBestTopic with
        | none =>
          simp only [hb] at h
          have hc : rewardCandidate w rewardPlayer st = none := by
            simp [rewardCandidate, hty, hf, hb]
          rw [hc]
          exact ih _ _ h
        | some psBestTopic =>
          simp only [hb] at h
          cases hbest : w.asResearch[psBestTopic]? with
          | none => simp [hbest] at h
          | some best =>
            simp only [hbest] at h
            by_cases ht0 :
                (best.ref + 4294967296 - w.STAT_RESEARCH % 4294967296) % 4294967296 = 0
            · rw [if_pos ht0] at h
              have hc : rewardCandidate w rewardPlayer st = none := by
                simp [rewardCandidate, hty, hf, hb, hbest, ht0]
              rw [hc]
              exact ih _ _ h
            · rw [if_neg ht0] at h
              cases hx : playerResearch w.asPlayerResList rewardPlayer
                  ((best.ref + 4294967296 - w.STAT_RESEARCH % 4294967296) % 4294967296) with
              | none => simp [hx] at h
              | some x =>
                simp only [hx] at h
                cases hcomp : IsResearchCompleted x with
                | true =>
                  simp only [hcomp, if_true] at h
                  have hc : rewardCandidate w rewardPlayer st = none := by
                    simp [rewardCandidate, hty, hf, hb, hbest, ht0, hx, hcomp]
                  rw [hc]
                  exact ih _ _ h
                | false =>
                  simp only [hcomp, Bool.false_eq_true, if_false] at h
                  have hc : rewardCandidate w rewardPlayer st
                      = some ((best.ref + 4294967296 - w.STAT_RESEARCH % 4294967296)
                          % 4294967296) := by
                    simp [rewardCandidate, hty, hf, hb, hbest, ht0, hx, hcomp]
                  rw [hc]
                  cases htopic : w.asResearch[(best.ref + 4294967296
                      - w.STAT_RESEARCH % 4294967296) % 4294967296]? with
                  | none => simp [htopic] at h
                  | some topic =>
                    simp only [htopic] at h
                    have hcost : topicCost w ((best.ref + 4294967296
                        - w.STAT_RESEARCH % 4294967296) % 4294967296)
                        = topic.researchPoints := by
                      simp [topicCost, htopic]
                    simp only [List.foldl_cons]
                    unfold rewardStep
                    rw [hcost]
                    by_cases hlt : pts < topic.researchPoints
                    · rw [if_pos hlt] at h
                      rw [if_pos hlt]
                      exact ih _ _ h
                    · rw [if_neg hlt] at h
                      rw [if_neg hlt]
                      exact ih _ _ h
      | factory psSubject => simp [hf] at h
      | other => simp [hf] at h
    · rw [if_neg hty] at h
      have hc : rewardCandidate w rewardPlayer st = none := by
        simp [rewardCandidate, hty]
      rw [hc]
      exact ih _ _ h

theorem rewardFold_spec (w : World) :
    ∀ (cands : List Nat) (pts id : Nat),
      (cands.foldl (rewardStep w) (pts, id) = (pts, id) ∧ ∀ c ∈ cands, topicCost w c ≤ pts) ∨
      (pts < (cands.foldl (rewardStep w) (pts, id)).1 ∧
        topicCost w (cands.foldl (rewardStep w) (pts, id)).2
          = (cands.foldl (rewardStep w) (pts, id)).1 ∧
        IsFirstBest (topicCost w) cands (cands.foldl (rewardStep w) (pts, id)).2) := by
  intro cands
  induction cands with
  | nil => intro pts id; exact Or.inl ⟨rfl, fun c hc => absurd hc (List.not_mem_nil c)⟩
  | cons c rest ih =>
    intro pts id
    simp only [List.foldl_cons]
    by_cases hlt : pts < topicCost w c
    · have hstep : rewardStep w (pts, id) c = (topicCost w c, c) := by
        unfold rewardStep
        rw [if_pos hlt]
      rw [hstep]
      right
      rcases ih (topicCost w c) c with ⟨heq, hall⟩ | ⟨h1, h2, k, hk, hmax, hfirst⟩
      · rw [heq]
        refine ⟨hlt, rfl, 0, by simp, ?_, fun j _ hj => absurd hj (Nat.not_lt_zero j)⟩
        intro c1 hc1
        rcases List.mem_cons.1 hc1 with rfl | hc1
        · exact le_refl _
        · exact hall c1 hc1
      · refine ⟨lt_trans hlt h1, h2, k + 1, by simpa using hk, ?_, ?_⟩
        · intro c1 hc1
          rcases List.mem_cons.1 hc1 with rfl | hc1
          · rw [h2]; exact le_of_lt h1
          · exact hmax c1 hc1
        · intro j c1 hj hc1
          cases j with
          | zero =>
            simp only [List.getElem?_cons_zero, Option.some.injEq] at hc1
            subst hc1
            rw [h2]; exact h1
          | succ j =>
            simp only [List.getElem?_cons_succ] at hc1
            exact hfirst j c1 (by omega) hc1
    · have hstep : rewardStep w (pts, id) c = (pts, id) := by
        unfold rewardStep
        rw [if_neg hlt]
      rw [hstep]
      rcases ih pts id with ⟨heq, hall⟩ | ⟨h1, h2, k, hk, hmax, hfirst⟩
      · left
        refine ⟨heq, ?_⟩
        intro c1 hc1
        rcases List.mem_cons.1 hc1 with rfl | hc1
        · exact Nat.le_of_not_lt hlt
        · exact hall c1 hc1
      · right
        refine ⟨h1, h2, k + 1, by simpa using hk, ?_, ?_⟩
        · intro c1 hc1
          rcases List.mem_cons.1 hc1 with rfl | hc1
          · rw [h2]; omega
          · exact hmax c1 hc1
        · intro j c1 hj hc1
          cases j with
          | zero =>
            simp only [List.getElem?_cons_zero, Option.some.injEq] at hc1
            subst hc1
            rw [h2]; omega
          | succ j =>
            simp only [List.getElem?_cons_succ] at hc1
            exact hfirst j c1 (by omega) hc1

theorem researchResult_status {researchIndex player : Nat}
    {psResearchFacility : Option (Nat × Nat)} {w w1 : World}
    (ht : researchIndex < w.asResearch.length) (hp : player < w.MAX_PLAYERS)
    (h : researchResult researchIndex player psResearchFacility w = some w1) :
    (∃ x, playerResearch w.asPlayerResList player researchIndex = some x ∧
      playerResearch w1.asPlayerResList player researchIndex = some (MakeResearchCompleted x)) ∧
    ∀ p t, ¬ (p = player ∧ t = researchIndex) →
      playerResearch w1.asPlayerResList p t = playerResearch w.asPlayerResList p t := by
  obtain ⟨pResearch, w2, w3, w4, w5, w6, w7, w8, hr, h1, h2, h3, h4, h5, h6, h7, h8⟩ :=
    researchResult_steps ht hp h
  obtain ⟨⟨x, hx, hx1⟩, hother⟩ := completeStatus_status h1
  obtain ⟨_, e2⟩ := structureResults_writes h2
  obtain ⟨_, e3⟩ := redStructs_writes h3
  obtain ⟨_, _, _, _, _, _, _, e4⟩ := componentReplacements_writes h4
  obtain ⟨_, _, _, _, _, e5⟩ := componentResults_writes h5
  obtain ⟨_, e6⟩ := redArtefacts_writes h6
  obtain ⟨_, e7⟩ := clearSubject_writes h7
  obtain ⟨_, -, e8⟩ := handleUpgrades_writes h8
  have he : w1.asPlayerResList = w2.asPlayerResList := by rw [e8, e7, e6, e5, e4, e3, e2]
  rw [he]
  exact ⟨⟨x, hx, hx1⟩, hother⟩

set_option maxRecDepth 10000 in
/-- C31, as stated, fails: when the only facility of the losing player records topic 0 as its
best topic, or a topic of research-point cost 0, and the reward player has not completed that
topic, `researchReward` grants nothing and leaves the state as it is. -/
theorem C31_researchReward_counterexample :
    (getStructure (rewardWorld [{}, {}, {}, {}] [some 0]) (1, 0)).map
        (fun psStruct => (psStruct.pStructureType, psStruct.pFunctionality))
      = some (STRUCTURE_TYPE.REF_RESEARCH,
          FUNCTIONALITY.researchFacility { psBestTopic := some 0 }) ∧
    (playerResearch (rewardWorld [{}, {}, {}, {}] [some 0]).asPlayerResList 0 0).map
        IsResearchCompleted = some false ∧
    researchReward 1 0 (rewardWorld [{}, {}, {}, {}] [some 0])
      = some (rewardWorld [{}, {}, {}, {}] [some 0]) ∧
    (getStructure (rewardWorld [{}, {}, {}, {}] [some 1]) (1, 0)).map
        (fun psStruct => (psStruct.pStructureType, psStruct.pFunctionality))
      = some (STRUCTURE_TYPE.REF_RESEARCH,
          FUNCTIONALITY.researchFacility { psBestTopic := some 1 }) ∧
    (playerResearch (rewardWorld [{}, {}, {}, {}] [some 1]).asPlayerResList 0 1).map
        IsResearchCompleted = some false ∧
    topicCost (rewardWorld [{}, {}, {}, {}] [some 1]) 1 = 0 ∧
    researchReward 1 0 (rewardWorld [{}, {}, {}, {}] [some 1])
      = some (rewardWorld [{}, {}, {}, {}] [some 1]) := by
  decide

/-- C31, amended: the candidates of `researchReward` are the best topics recorded by the research
facilities of the losing player, in the order of its structure list, that have an index other
than 0 and that the reward player has not completed.  When no candidate has a positive
research-point cost the call changes nothing.  Otherwise it is the call of `researchResult` for
the first candidate of greatest cost, without a facility: that topic becomes Completed for the
reward player and no other status entry changes. -/
theorem C31_researchReward_grants_best (losingPlayer rewardPlayer : Nat) (w w1 : World)
    (structs : List STRUCTURE) (hs : w.apsStructLists[losingPlayer]? = some structs)
    (hp : rewardPlayer < w.MAX_PLAYERS)
    (h : researchReward losingPlayer rewardPlayer w = some w1) :
    ((∀ c ∈ structs.filterMap (rewardCandidate w rewardPlayer), topicCost w c = 0) → w1 = w) ∧
    ((∃ c ∈ structs.filterMap (rewardCandidate w rewardPlayer), 0 < topicCost w c) →
      ∃ t, IsFirstBest (topicCost w) (structs.filterMap (rewardCandidate w rewardPlayer)) t ∧
        t ≠ 0 ∧ 0 < topicCost w t ∧
        researchResult t rewardPlayer none w = some w1 ∧
        (∃ x, playerResearch w.asPlayerResList rewardPlayer t = some x ∧
          IsResearchCompleted x = false ∧
          playerResearch w1.asPlayerResList rewardPlayer t = some (MakeResearchCompleted x) ∧
          IsResearchCompleted (MakeResearchCompleted x) = true) ∧
        ∀ p t1, ¬ (p = rewardPlayer ∧ t1 = t) →
          playerResearch w1.asPlayerResList p t1 = playerResearch w.asPlayerResList p t1) := by
  unfold researchReward at h
  rw [hs] at h
  dsimp only at h
  cases hscan : rewardScan w rewardPlayer structs (0, 0) with
  | none =>
    rw [hscan] at h
    cases h
  | some res =>
    obtain ⟨pts, id⟩ := res
    rw [hscan] at h
    dsimp only at h
    have heq := rewardScan_eq w rewardPlayer structs (0, 0) (pts, id) hscan
    rcases rewardFold_spec w (structs.filterMap (rewardCandidate w rewardPlayer)) 0 0 with
      ⟨hsame, hall⟩ | ⟨hpos, hcost, hbest⟩
    · rw [hsame] at heq
      simp only [Prod.mk.injEq] at heq
      obtain ⟨rfl, rfl⟩ := heq
      rw [if_neg (fun hh => hh rfl)] at h
      refine ⟨fun _ => (Option.some.inj h).symm, ?_⟩
      rintro ⟨c, hc, hcpos⟩
      have := hall c hc
      omega
    · rw [← heq] at hpos hcost hbest
      simp only at hpos hcost hbest
      obtain ⟨k, hk, hmax, hfirst⟩ := hbest
      have hmem : id ∈ structs.filterMap (rewardCandidate w rewardPlayer) :=
        List.mem_iff_getElem?.2 ⟨k, hk⟩
      obtain ⟨st, -, hst⟩ := List.mem_filterMap.1 hmem
      obtain ⟨hne, x, hx, hxc⟩ := rewardCandidate_some hst
      rw [if_pos hne] at h
      have hlt : id < w.asResearch.length := by
        by_contra hge
        have : topicCost w id = 0 := by
          unfold topicCost
          rw [List.getElem?_eq_none (Nat.le_of_not_lt hge)]
          rfl
        omega
      obtain ⟨⟨x1, hx1, hx2⟩, hother⟩ := researchResult_status hlt hp h
      rw [hx] at hx1
      cases hx1
      refine ⟨?_, fun _ => ⟨id, ⟨k, hk, hmax, hfirst⟩, hne, by omega, h,
        ⟨x, hx, hxc, hx2, rfl⟩, hother⟩⟩
      intro hzero
      have := hzero id hmem
      omega

set_option maxRecDepth 10000 in
/-- C31, amended, at three facilities whose best topics are topic 2, topic 3, both of cost 5,
and topic 0: topic 2 is granted. -/
theorem C31_researchReward_grants_best_witness :
    (rewardWorld [{}, {}, {}, {}] [some 2, some 3, some 0]).apsStructLists[1]?
      = some ((rewardWorld [{}, {}, {}, {}] [some 2, some 3, some 0]).apsStructLists.getD 1 []) ∧
    researchReward 1 0 (rewardWorld [{}, {}, {}, {}] [some 2, some 3, some 0])
      = some (rewardWorld [{}, {}, { completed := true }, {}] [some 2, some 3, some 0]) ∧
    ∃ t, IsFirstBest (topicCost (rewardWorld [{}, {}, {}, {}] [some 2, some 3, some 0]))
          [2, 3] t ∧
        t ≠ 0 ∧ 0 < topicCost (rewardWorld [{}, {}, {}, {}] [some 2, some 3, some 0]) t ∧
        researchResult t 0 none (rewardWorld [{}, {}, {}, {}] [some 2, some 3, some 0])
          = some (rewardWorld [{}, {}, { completed := true }, {}] [some 2, some 3, some 0]) :=
  have h := C31_researchReward_grants_best 1 0
    (rewardWorld [{}, {}, {}, {}] [some 2, some 3, some 0])
    (rewardWorld [{}, {}, { completed := true }, {}] [some 2, some 3, some 0])
    ((rewardWorld [{}, {}, {}, {}] [some 2, some 3, some 0]).apsStructLists.getD 1 [])
    (by decide) (by decide) (by decide)
  have h2 := h.2 ⟨2, by decide, by decide⟩
  ⟨by decide, by decide, by
    obtain ⟨t, h1, h3, h4, h5, -⟩ := h2
    exact ⟨t, h1, h3, h4, h5⟩⟩

/-! ## Upgrade counters -/

theorem mem_keys_jset {α : Type} (key : String) (val : α) (x : String) :
    ∀ l : List (String × α), x ∈ (jset key val l).map Prod.fst → x = key ∨ x ∈ l.map Prod.fst := by
  intro l
  induction l with
  | nil =>
    intro h
    simp only [jset, List.map_cons, List.map_nil, List.mem_singleton] at h
    exact Or.inl h
  | cons e rest ih =>
    obtain ⟨k, v⟩ := e
    intro h
    unfold jset at h
    by_cases hk : k = key
    · rw [if_pos hk] at h
      exact Or.inr h
    · rw [if_neg hk] at h
      simp only [List.map_cons, List.mem_cons] at h ⊢
      rcases h with h | h
      · exact Or.inr (Or.inl h)
      · rcases ih h with h1 | h1
        · exact Or.inl h1
        · exact Or.inr (Or.inr h1)

theorem jset_keys_nodup {α : Type} (key : String) (val : α) :
    ∀ l : List (String × α), (l.map Prod.fst).Nodup → ((jset key val l).map Prod.fst).Nodup := by
  intro l
  induction l with
  | nil => intro _; simp [jset]
  | cons e rest ih =>
    obtain ⟨k, v⟩ := e
    intro h
    unfold jset
    by_cases hk : k = key
    · rw [if_pos hk]
      exact h
    · rw [if_neg hk]
      simp only [List.map_cons, List.nodup_cons] at h ⊢
      refine ⟨fun hmem => ?_, ih h.2⟩
      rcases mem_keys_jset key val k rest hmem with h1 | h1
      · exact hk h1
      · exact h.1 h1

theorem counterValue_countUp (key cls : String) (counts : List (String × Nat)) :
    counterValue (countUp key counts) cls =
      if cls = key then (counterValue counts cls + 1) % 2 ^ 32 else counterValue counts cls := by
  unfold counterValue countUp
  by_cases h : cls = key
  · subst h
    rw [if_pos rfl, jfind_jset_same]
    rfl
  · rw [if_neg h, jfind_jset_other _ h]

theorem countsOf_bump (t : PlayerUpgradeCounts) (kc : CounterKind × String)
    (kind : CounterKind) :
    countsOf kind (bump t kc) =
      if kc.1 = kind then countUp kc.2 (countsOf kind t) else countsOf kind t := by
  obtain ⟨k, c⟩ := kc
  cases k <;> cases kind <;> rfl

theorem foldl_bump_spec :
    ∀ (L : List (CounterKind × String)) (t : PlayerUpgradeCounts),
      (∀ kind, ((countsOf kind t).map Prod.fst).Nodup) →
      (∀ kind c, counterValue (countsOf kind t) c < 2 ^ 32) →
      (∀ kind, ((countsOf kind (L.foldl bump t)).map Prod.fst).Nodup) ∧
      ∀ kind c, counterValue (countsOf kind (L.foldl bump t)) c
        = (counterValue (countsOf kind t) c + L.count (kind, c)) % 2 ^ 32 := by
  intro L
  induction L with
  | nil =>
    intro t hnd hlt
    refine ⟨hnd, fun kind c => ?_⟩
    simp only [List.foldl_nil, List.count_nil, Nat.add_zero]
    exact (Nat.mod_eq_of_lt (hlt kind c)).symm
  | cons kc rest ih =>
    intro t hnd hlt
    have hnd1 : ∀ kind, ((countsOf kind (bump t kc)).map Prod.fst).Nodup := by
      intro kind
      rw [countsOf_bump]
      split
      · exact jset_keys_nodup _ _ _ (hnd kind)
      · exact hnd kind
    have hval : ∀ kind c, counterValue (countsOf kind (bump t kc)) c
        = if kc = (kind, c) then (counterValue (countsOf kind t) c + 1) % 2 ^ 32
          else counterValue (countsOf kind t) c := by
      intro kind c
      rw [countsOf_bump]
      obtain ⟨k, c0⟩ := kc
      by_cases hk : k = kind
      · rw [if_pos hk, counterValue_countUp]
        by_cases hc : c = c0
        · rw [if_pos hc, if_pos (by rw [hk, hc])]
        · rw [if_neg hc, if_neg (fun e => hc (by cases e; rfl))]
      · rw [if_neg hk, if_neg (fun e => hk (by cases e; rfl))]
    have hlt1 : ∀ kind c, counterValue (countsOf kind (bump t kc)) c < 2 ^ 32 := by
      intro kind c
      rw [hval]
      split
      · exact Nat.mod_lt _ (by decide)
      · exact hlt kind c
    obtain ⟨a, b⟩ := ih (bump t kc) hnd1 hlt1
    refine ⟨a, fun kind c => ?_⟩
    simp only [List.foldl_cons]
    rw [b kind c, hval kind c, List.count_cons]
    by_cases he : kc = (kind, c)
    · rw [if_pos he]
      have hb : (kc == (kind, c)) = true := by rw [he]; exact beq_self_eq_true _
      rw [hb, if_pos rfl]
      omega
    · rw [if_neg he]
      have hb : (kc == (kind, c)) = false := by
        rw [beq_eq_false_iff_ne]
        exact he
      rw [hb]
      simp

theorem accumulateStats_spec :
    ∀ (temp counts : List (String × Nat)), (temp.map Prod.fst).Nodup →
      ∀ c, counterValue (accumulateStats temp counts) c =
        if 0 < counterValue temp c then (counterValue counts c + 1) % 2 ^ 32
        else counterValue counts c := by
  intro temp
  induction temp with
  | nil =>
    intro counts _ c
    simp [accumulateStats, counterValue, jfind]
  | cons e rest ih =>
    obtain ⟨cls, n⟩ := e
    intro counts hnd c
    simp only [List.map_cons, List.nodup_cons] at hnd
    have hrest : ∀ counts1, c = cls →
        counterValue (accumulateStats rest counts1) c = counterValue counts1 c := by
      intro counts1 hc
      rw [ih counts1 hnd.2 c]
      have hnone : jfind c rest = none := by
        have := (jfind_isNone_iff c rest).2 (by rw [hc]; exact hnd.1)
        simpa using this
      simp [counterValue, hnone]
    have hhead : counterValue ((cls, n) :: rest) c
        = if cls = c then n else counterValue rest c := by
      simp only [counterValue, jfind]
      by_cases h : cls = c <;> simp [h]
    unfold accumulateStats
    rw [hhead]
    by_cases hn : n > 0
    · rw [if_pos hn]
      by_cases hc : cls = c
      · rw [if_pos hc, if_pos hn, hrest _ hc.symm, counterValue_countUp, if_pos hc.symm]
      · have hcc : ¬ c = cls := fun e => hc e.symm
        rw [if_neg hc, ih _ hnd.2 c]
        simp only [counterValue_countUp, if_neg hcc]
    · rw [if_neg hn]
      by_cases hc : cls = c
      · rw [if_pos hc, if_neg hn, hrest _ hc.symm]
      · rw [if_neg hc, ih _ hnd.2 c]

theorem countScalarUpgrade_eq {ctype parameter : String} {statsEntityObj : JsonObject}
    {tempStats tempStats1 : PlayerUpgradeCounts}
    (h : countScalarUpgrade ctype parameter statsEntityObj tempStats = some tempStats1) :
    tempStats1 = (updateClass ctype parameter statsEntityObj).toList.foldl bump tempStats := by
  unfold countScalarUpgrade at h
  unfold updateClass
  by_cases h1 : ctype = "Weapon"
  · rw [if_pos h1] at h
    rw [if_pos h1]
    cases hj : jfind "ImpactClass" statsEntityObj with
    | none =>
      simp only [hj, Option.some.injEq] at h
      exact h.symm
    | some x =>
      cases x with
      | array l => simp [hj] at h
      | atom a =>
        cases a <;> simp only [hj, Option.some.injEq] at h <;> first | (subst h; rfl) | cases h
  · rw [if_neg h1] at h
    rw [if_neg h1]
    by_cases h2 : ctype = "Body" ∧ parameter = "Armour"
    · rw [if_pos h2] at h
      rw [if_pos h2]
      cases hj : jfind "BodyClass" statsEntityObj with
      | none =>
        simp only [hj, Option.some.injEq] at h
        exact h.symm
      | some x =>
        cases x with
        | array l => simp [hj] at h
        | atom a =>
          cases a <;> simp only [hj, Option.some.injEq] at h <;> first | (subst h; rfl) | cases h
    · rw [if_neg h2] at h
      rw [if_neg h2]
      by_cases h3 : ctype = "Body" ∧ parameter = "Thermal"
      · rw [if_pos h3] at h
        rw [if_pos h3]
        cases hj : jfind "BodyClass" statsEntityObj with
        | none =>
          simp only [hj, Option.some.injEq] at h
          exact h.symm
        | some x =>
          cases x with
          | array l => simp [hj] at h
          | atom a =>
            cases a <;> simp only [hj, Option.some.injEq] at h <;> first | (subst h; rfl) | cases h
      · rw [if_neg h3] at h
        rw [if_neg h3]
        simp only [Option.some.injEq] at h
        exact h.symm

theorem intOverlay_set_other (upgrades : JsonObject) {parameter q : String} (val : Json)
    (h : q ≠ parameter) :
    intOverlay (setPropertyValue upgrades parameter val) q = intOverlay upgrades q := by
  unfold intOverlay getPropertyValue setPropertyValue
  rw [jfind_jset_other val h]

theorem intOverlay_set_same (upgrades : JsonObject) (parameter : String) (val : Json) :
    intOverlay (setPropertyValue upgrades parameter val) parameter =
      (match val with
        | Json.atom a => a.is_number_integer
        | Json.array _ => false) := by
  unfold intOverlay
  rw [getPropertyValue_setPropertyValue]

theorem intOverlay_set {upgrades : JsonObject} {parameter : String} {val : Json}
    (h : (match val with
        | Json.atom a => a.is_number_integer
        | Json.array _ => false) = intOverlay upgrades parameter) :
    intOverlay (setPropertyValue upgrades parameter val) = intOverlay upgrades := by
  funext q
  by_cases hq : q = parameter
  · subst hq
    rw [intOverlay_set_same, h]
  · exact intOverlay_set_other upgrades val hq

theorem upgradedJson_integer (cur : JsonAtom) (x : Int) :
    (upgradedJson cur x).is_number_integer = true := by
  unfold upgradedJson
  split <;> rfl

theorem upgradeParameter_counted {mode : ResearchUpgradeCalculationMode}
    {ctype parameter cname : String} {value : Int} {statsEntityObj : JsonObject}
    {pStatsParameterValue : Json} {upgrades upgrades1 : JsonObject}
    {totals totals1 : RawResearchUpgradeChangeValues} {tempStats tempStats1 : PlayerUpgradeCounts}
    (h : upgradeParameter mode ctype parameter cname value statsEntityObj pStatsParameterValue
      upgrades totals tempStats = some (upgrades1, totals1, tempStats1)) :
    intOverlay upgrades1 = intOverlay upgrades ∧
    tempStats1 = (countedParameter ctype parameter statsEntityObj pStatsParameterValue
      upgrades).toList.foldl bump tempStats := by
  unfold upgradeParameter at h
  unfold countedParameter
  cases pStatsParameterValue with
  | array statsArray =>
    simp only at h ⊢
    cases hov : getPropertyValue upgrades parameter with
    | atom a =>
      simp only [hov, Option.some.injEq, Prod.mk.injEq] at h
      obtain ⟨rfl, -, rfl⟩ := h
      exact ⟨rfl, rfl⟩
    | array dst =>
      simp only [hov] at h
      by_cases hl : dst.length ≠ statsArray.length
      · rw [if_pos hl] at h
        simp only [Option.some.injEq, Prod.mk.injEq] at h
        obtain ⟨rfl, -, rfl⟩ := h
        exact ⟨rfl, rfl⟩
      · rw [if_neg hl] at h
        simp only [Option.some.injEq, Prod.mk.injEq] at h
        obtain ⟨rfl, -, rfl⟩ := h
        refine ⟨intOverlay_set ?_, rfl⟩
        unfold intOverlay
        rw [hov]
  | atom stat =>
    simp only at h ⊢
    cases hs : stat.is_number_integer with
    | false =>
      simp only [hs, Bool.false_eq_true, if_false, Option.some.injEq, Prod.mk.injEq] at h
      obtain ⟨rfl, -, rfl⟩ := h
      simp
    | true =>
      simp only [hs, if_true] at h
      by_cases hb : stat.get_int64 ≤ 0
      · rw [if_pos hb] at h
        simp only [Option.some.injEq, Prod.mk.injEq] at h
        obtain ⟨rfl, -, rfl⟩ := h
        have : decide (0 < stat.get_int64) = false := by
          rw [decide_eq_false_iff_not]
          omega
        simp [this]
      · rw [if_neg hb] at h
        have hpos : decide (0 < stat.get_int64) = true := by
          rw [decide_eq_true_eq]
          omega
        cases hov : getPropertyValue upgrades parameter with
        | array dst =>
          simp only [hov, Option.some.injEq, Prod.mk.injEq] at h
          obtain ⟨rfl, -, rfl⟩ := h
          have : intOverlay upgrades parameter = false := by
            unfold intOverlay
            rw [hov]
          simp [this]
        | atom cur =>
          simp only [hov] at h
          have hint : intOverlay upgrades parameter = cur.is_number_integer := by
            unfold intOverlay
            rw [hov]
          cases hc : cur.is_number_integer with
          | false =>
            simp only [hc, Bool.not_false, if_true, Option.some.injEq, Prod.mk.injEq] at h
            obtain ⟨rfl, -, rfl⟩ := h
            rw [hint, hc]
            simp
          | true =>
            simp only [hc, Bool.not_true, Bool.false_eq_true, if_false] at h
            cases hcount : countScalarUpgrade ctype parameter statsEntityObj tempStats with
            | none => simp [hcount] at h
            | some t1 =>
              simp only [hcount, Option.some.injEq, Prod.mk.injEq] at h
              obtain ⟨rfl, -, rfl⟩ := h
              refine ⟨intOverlay_set ?_, ?_⟩
              · simp only
                rw [upgradedJson_integer, hint, hc]
              · rw [hint, hc, hpos]
                simp only [Bool.and_self, if_true]
                exact countScalarUpgrade_eq hcount

theorem upgradeComponent_counted {mode : ResearchUpgradeCalculationMode}
    {stats : List (String × ComponentTable)} {ctype parameter : String} {value : Int}
    {filter : Option (String × Json)} {cname : String} {upgrades upgrades1 : JsonObject}
    {totals totals1 : RawResearchUpgradeChangeValues} {tempStats tempStats1 : PlayerUpgradeCounts}
    (h : upgradeComponent mode stats ctype parameter value filter cname upgrades totals tempStats
      = some (upgrades1, totals1, tempStats1)) :
    intOverlay upgrades1 = intOverlay upgrades ∧
    tempStats1 = (countedComponent stats ctype parameter filter
      (cname, upgrades)).toList.foldl bump tempStats := by
  unfold upgradeComponent at h
  unfold countedComponent
  cases hS : jfind ctype stats with
  | none =>
    simp only [hS, Option.some.injEq, Prod.mk.injEq] at h
    obtain ⟨rfl, -, rfl⟩ := h
    exact ⟨rfl, rfl⟩
  | some statsEntityClassObj =>
    simp only [hS] at h ⊢
    cases hC : jfind cname statsEntityClassObj with
    | none =>
      simp only [hC, Option.some.injEq, Prod.mk.injEq] at h
      obtain ⟨rfl, -, rfl⟩ := h
      exact ⟨rfl, rfl⟩
    | some statsEntityObj =>
      simp only [hC] at h ⊢
      split at h
      · rename_i hfil
        simp only [Option.some.injEq, Prod.mk.injEq] at h
        obtain ⟨rfl, -, rfl⟩ := h
        rw [if_pos hfil]
        exact ⟨rfl, rfl⟩
      · rename_i hfil
        rw [if_neg hfil]
        cases hP : jfind parameter statsEntityObj with
        | none =>
          simp only [hP, Option.some.injEq, Prod.mk.injEq] at h
          obtain ⟨rfl, -, rfl⟩ := h
          exact ⟨rfl, rfl⟩
        | some pStatsParameterValue =>
          simp only [hP] at h ⊢
          exact upgradeParameter_counted h

theorem filterMap_cons_toList {α β : Type} (f : α → Option β) (a : α) (l : List α) :
    (a :: l).filterMap f = (f a).toList ++ l.filterMap f := by
  rw [List.filterMap_cons]
  cases f a <;> rfl

theorem upgradeComponents_counted {mode : ResearchUpgradeCalculationMode}
    {stats : List (String × ComponentTable)} {ctype parameter : String} {value : Int}
    {filter : Option (String × Json)} :
    ∀ (components components1 : ComponentTable)
      (totals totals1 : RawResearchUpgradeChangeValues)
      (tempStats tempStats1 : PlayerUpgradeCounts),
      upgradeComponents mode stats ctype parameter value filter components totals tempStats
        = some (components1, totals1, tempStats1) →
      tableShape components1 = tableShape components ∧
      tempStats1 = (components.filterMap
        (countedComponent stats ctype parameter filter)).foldl bump tempStats := by
  intro components
  induction components with
  | nil =>
    intro components1 totals totals1 tempStats tempStats1 h
    simp only [upgradeComponents, Option.some.injEq, Prod.mk.injEq] at h
    obtain ⟨rfl, -, rfl⟩ := h
    exact ⟨rfl, rfl⟩
  | cons e rest ih =>
    obtain ⟨cname, upgrades⟩ := e
    intro components1 totals totals1 tempStats tempStats1 h
    unfold upgradeComponents at h
    cases hc : upgradeComponent mode stats ctype parameter value filter cname upgrades totals
        tempStats with
    | none => simp [hc] at h
    | some r =>
      obtain ⟨upgradesA, totalsA, tempA⟩ := r
      simp only [hc] at h
      cases hr : upgradeComponents mode stats ctype parameter value filter rest totalsA tempA with
      | none => simp [hr] at h
      | some r2 =>
        obtain ⟨restB, totalsB, tempB⟩ := r2
        simp only [hr, Option.some.injEq, Prod.mk.injEq] at h
        obtain ⟨rfl, -, rfl⟩ := h
        obtain ⟨s1, t1⟩ := upgradeComponent_counted hc
        obtain ⟨s2, t2⟩ := ih restB totalsA totalsB tempA tempB hr
        refine ⟨?_, ?_⟩
        · simp only [tableShape, List.map_cons] at s2 ⊢
          rw [s1, s2]
        · rw [filterMap_cons_toList, List.foldl_append, ← t1, t2]

theorem jfind_map_snd {α β : Type} (f : α → β) (key : String) :
    ∀ l : List (String × α), jfind key (l.map (fun e => (e.1, f e.2))) = (jfind key l).map f := by
  intro l
  induction l with
  | nil => rfl
  | cons e rest ih =>
    obtain ⟨k, v⟩ := e
    simp only [List.map_cons, jfind]
    by_cases hk : k = key
    · simp [hk]
    · simp [hk, ih]

theorem jset_map_same {α β : Type} (f : α → β) (key : String) {x y : α} (hf : f y = f x) :
    ∀ l : List (String × α), jfind key l = some x →
      (jset key y l).map (fun e => (e.1, f e.2)) = l.map (fun e => (e.1, f e.2)) := by
  intro l
  induction l with
  | nil => intro h; simp [jfind] at h
  | cons e rest ih =>
    obtain ⟨k, v⟩ := e
    intro h
    unfold jfind at h
    unfold jset
    by_cases hk : k = key
    · rw [if_pos hk] at h
      simp only [Option.some.injEq] at h
      subst h
      rw [if_pos hk]
      simp only [List.map_cons, hf]
    · rw [if_neg hk] at h
      rw [if_neg hk]
      simp only [List.map_cons, ih h]

theorem countedComponent_congr (stats : List (String × ComponentTable))
    (ctype parameter : String) (filter : Option (String × Json)) {c1 c2 : String × JsonObject}
    (hname : c1.1 = c2.1) (hint : intOverlay c1.2 = intOverlay c2.2) :
    countedComponent stats ctype parameter filter c1
      = countedComponent stats ctype parameter filter c2 := by
  unfold countedComponent countedParameter
  rw [hname, hint]

theorem filterMap_counted_congr (stats : List (String × ComponentTable))
    (ctype parameter : String) (filter : Option (String × Json)) :
    ∀ (l1 l2 : ComponentTable), tableShape l1 = tableShape l2 →
      l1.filterMap (countedComponent stats ctype parameter filter)
        = l2.filterMap (countedComponent stats ctype parameter filter) := by
  intro l1
  induction l1 with
  | nil =>
    intro l2 h
    cases l2 with
    | nil => rfl
    | cons e rest => simp [tableShape] at h
  | cons e1 rest1 ih =>
    intro l2 h
    cases l2 with
    | nil => simp [tableShape] at h
    | cons e2 rest2 =>
      simp only [tableShape, List.map_cons, List.cons.injEq, Prod.mk.injEq] at h
      obtain ⟨⟨hname, hint⟩, hrest⟩ := h
      rw [filterMap_cons_toList, filterMap_cons_toList,
        countedComponent_congr stats ctype parameter filter hname hint, ih rest2 hrest]

theorem countedResult_congr (stats : List (String × ComponentTable))
    {E1 E2 : List (String × ComponentTable)} (h : classesShape E1 = classesShape E2)
    (v : JsonObject) : countedResult stats E1 v = countedResult stats E2 v := by
  have hfind : ∀ key, (jfind key E1).map tableShape = (jfind key E2).map tableShape := by
    intro key
    rw [← jfind_map_snd tableShape key E1, ← jfind_map_snd tableShape key E2]
    exact congrArg (jfind key) h
  unfold countedResult
  cases requiredProperty v "class" Json.is_string with
  | none => rfl
  | some it_ctype =>
    cases requiredProperty v "parameter" Json.is_string with
    | none => rfl
    | some it_parameter =>
      cases requiredProperty v "value" Json.is_number_integer with
      | none => rfl
      | some it_value =>
        cases resultFilter v with
        | none => rfl
        | some filter =>
          simp only
          have hk := hfind it_ctype.get_string
          cases h1 : jfind it_ctype.get_string E1 with
          | none =>
            cases h2 : jfind it_ctype.get_string E2 with
            | none => rfl
            | some t2 => rw [h1, h2] at hk; cases hk
          | some t1 =>
            cases h2 : jfind it_ctype.get_string E2 with
            | none => rw [h1, h2] at hk; cases hk
            | some t2 =>
              rw [h1, h2] at hk
              simp only [Option.map_some', Option.some.injEq] at hk
              simp only [Option.getD_some]
              exact filterMap_counted_congr stats _ _ filter t1 t2 hk

theorem upgradeResult_counted {mode : ResearchUpgradeCalculationMode}
    {stats : List (String × ComponentTable)} {v : JsonObject} {s s1 : UpgradeLoop}
    (h : upgradeResult mode stats v s = some s1) :
    classesShape s1.entityClasses = classesShape s.entityClasses ∧
    s1.tempStats = (countedResult stats s.entityClasses v).foldl bump s.tempStats := by
  unfold upgradeResult at h
  unfold countedResult
  cases hc : requiredProperty v "class" Json.is_string with
  | none =>
    simp only [hc, Option.some.injEq] at h
    subst h
    exact ⟨rfl, rfl⟩
  | some it_ctype =>
    simp only [hc] at h ⊢
    cases hp : requiredProperty v "parameter" Json.is_string with
    | none =>
      simp only [hp, Option.some.injEq] at h
      subst h
      exact ⟨rfl, rfl⟩
    | some it_parameter =>
      simp only [hp] at h ⊢
      cases hx : requiredProperty v "value" Json.is_number_integer with
      | none =>
        simp only [hx, Option.some.injEq] at h
        subst h
        exact ⟨rfl, rfl⟩
      | some it_value =>
        simp only [hx] at h ⊢
        cases hf : resultFilter v with
        | none =>
          simp only [hf, Option.some.injEq] at h
          subst h
          exact ⟨rfl, rfl⟩
        | some filter =>
          simp only [hf] at h ⊢
          cases hE : jfind it_ctype.get_string s.entityClasses with
          | none =>
            simp only [hE, Option.some.injEq] at h
            subst h
            exact ⟨rfl, rfl⟩
          | some pPlayerEntityClass =>
            simp only [hE] at h ⊢
            cases hu : upgradeComponents mode stats it_ctype.get_string
                it_parameter.get_string it_value.get_int64 filter pPlayerEntityClass s.totals
                s.tempStats with
            | none => simp [hu] at h
            | some r =>
              obtain ⟨components, totals, tempStats⟩ := r
              simp only [hu, Option.some.injEq] at h
              subst h
              obtain ⟨hshape, htemp⟩ := upgradeComponents_counted _ _ _ _ _ _ hu
              refine ⟨?_, ?_⟩
              · exact jset_map_same tableShape _ hshape _ hE
              · simpa using htemp

theorem upgradeResults_counted (mode : ResearchUpgradeCalculationMode)
    (stats E0 : List (String × ComponentTable)) :
    ∀ (results : List JsonObject) (s s1 : UpgradeLoop),
      classesShape s.entityClasses = classesShape E0 →
      upgradeResults mode stats results s = some s1 →
      s1.tempStats = (countedUpdates stats E0 results).foldl bump s.tempStats := by
  intro results
  induction results with
  | nil =>
    intro s s1 _ h
    simp only [upgradeResults, Option.some.injEq] at h
    subst h
    rfl
  | cons v rest ih =>
    intro s s1 hshape h
    unfold upgradeResults at h
    cases hr : upgradeResult mode stats v s with
    | none => simp [hr] at h
    | some sA =>
      simp only [hr] at h
      obtain ⟨hsA, htA⟩ := upgradeResult_counted hr
      have := ih sA s1 (hsA.trans hshape) h
      rw [this, htA, countedResult_congr stats hshape v]
      simp only [countedUpdates, List.foldl_append]

theorem jfind_mem {α : Type} {key : String} {val : α} :
    ∀ l : List (String × α), jfind key l = some val → (key, val) ∈ l := by
  intro l
  induction l with
  | nil => intro h; simp [jfind] at h
  | cons e rest ih =>
    obtain ⟨k, v⟩ := e
    intro h
    unfold jfind at h
    by_cases hk : k = key
    · rw [if_pos hk] at h
      simp only [Option.some.injEq] at h
      rw [hk, h]
      exact List.mem_cons_self _ _
    · rw [if_neg hk] at h
      exact List.mem_cons_of_mem _ (ih h)

theorem classMembers_of_classesAreStrings {stats : List (String × ComponentTable)}
    (h : classesAreStrings stats = true) {ctype cname : String}
    {statsEntityClassObj : ComponentTable} {statsEntityObj : JsonObject}
    (h1 : jfind ctype stats = some statsEntityClassObj)
    (h2 : jfind cname statsEntityClassObj = some statsEntityObj) :
    (∀ x, jfind "ImpactClass" statsEntityObj = some x → x.is_string = true) ∧
    (∀ x, jfind "BodyClass" statsEntityObj = some x → x.is_string = true) := by
  unfold classesAreStrings at h
  rw [List.all_eq_true] at h
  have ha := h _ (jfind_mem _ h1)
  rw [List.all_eq_true] at ha
  have hb := ha _ (jfind_mem _ h2)
  simp only [Bool.and_eq_true] at hb
  constructor
  · intro x hx
    have := hb.1
    rw [hx] at this
    exact this
  · intro x hx
    have := hb.2
    rw [hx] at this
    exact this

theorem is_string_cases {x : Json} (h : x.is_string = true) :
    ∃ s, x = Json.atom (JsonAtom.str s) := by
  cases x with
  | array l => cases h
  | atom a =>
    cases a with
    | str s => exact ⟨s, rfl⟩
    | null => cases h
    | bool b => cases h
    | int i => cases h
    | uint n => cases h

theorem countScalarUpgrade_total (ctype parameter : String) {statsEntityObj : JsonObject}
    (tempStats : PlayerUpgradeCounts)
    (h1 : ∀ x, jfind "ImpactClass" statsEntityObj = some x → x.is_string = true)
    (h2 : ∀ x, jfind "BodyClass" statsEntityObj = some x → x.is_string = true) :
    ∃ t1, countScalarUpgrade ctype parameter statsEntityObj tempStats = some t1 := by
  unfold countScalarUpgrade
  split
  · cases hj : jfind "ImpactClass" statsEntityObj with
    | none => exact ⟨_, rfl⟩
    | some x =>
      obtain ⟨c, rfl⟩ := is_string_cases (h1 x hj)
      exact ⟨_, rfl⟩
  · split
    · cases hj : jfind "BodyClass" statsEntityObj with
      | none => exact ⟨_, rfl⟩
      | some x =>
        obtain ⟨c, rfl⟩ := is_string_cases (h2 x hj)
        exact ⟨_, rfl⟩
    · split
      · cases hj : jfind "BodyClass" statsEntityObj with
        | none => exact ⟨_, rfl⟩
        | some x =>
          obtain ⟨c, rfl⟩ := is_string_cases (h2 x hj)
          exact ⟨_, rfl⟩
      · exact ⟨_, rfl⟩

theorem upgradeParameter_total (mode : ResearchUpgradeCalculationMode)
    (ctype parameter cname : String) (value : Int) {statsEntityObj : JsonObject}
    (pStatsParameterValue : Json) (upgrades : JsonObject)
    (totals : RawResearchUpgradeChangeValues) (tempStats : PlayerUpgradeCounts)
    (h1 : ∀ x, jfind "ImpactClass" statsEntityObj = some x → x.is_string = true)
    (h2 : ∀ x, jfind "BodyClass" statsEntityObj = some x → x.is_string = true) :
    ∃ r, upgradeParameter mode ctype parameter cname value statsEntityObj pStatsParameterValue
      upgrades totals tempStats = some r := by
  obtain ⟨t1, ht1⟩ := countScalarUpgrade_total ctype parameter tempStats h1 h2
  unfold upgradeParameter
  split
  · split
    · split
      · exact ⟨_, rfl⟩
      · exact ⟨_, rfl⟩
    · exact ⟨_, rfl⟩
  · split
    · dsimp only
      split
      · exact ⟨_, rfl⟩
      · split
        · exact ⟨_, rfl⟩
        · split
          · exact ⟨_, rfl⟩
          · rw [ht1]
            exact ⟨_, rfl⟩
    · exact ⟨_, rfl⟩

theorem upgradeComponent_total (mode : ResearchUpgradeCalculationMode)
    {stats : List (String × ComponentTable)} (hstats : classesAreStrings stats = true)
    (ctype parameter : String) (value : Int) (filter : Option (String × Json)) (cname : String)
    (upgrades : JsonObject) (totals : RawResearchUpgradeChangeValues)
    (tempStats : PlayerUpgradeCounts) :
    ∃ r, upgradeComponent mode stats ctype parameter value filter cname upgrades totals tempStats
      = some r := by
  unfold upgradeComponent
  cases hS : jfind ctype stats with
  | none => exact ⟨_, rfl⟩
  | some statsEntityClassObj =>
    simp only
    cases hC : jfind cname statsEntityClassObj with
    | none => exact ⟨_, rfl⟩
    | some statsEntityObj =>
      simp only
      obtain ⟨h1, h2⟩ := classMembers_of_classesAreStrings hstats hS hC
      split
      · exact ⟨_, rfl⟩
      · cases hP : jfind parameter statsEntityObj with
        | none => exact ⟨_, rfl⟩
        | some pStatsParameterValue =>
          exact upgradeParameter_total mode ctype parameter cname value pStatsParameterValue
            upgrades totals tempStats h1 h2

theorem upgradeComponents_total (mode : ResearchUpgradeCalculationMode)
    {stats : List (String × ComponentTable)} (hstats : classesAreStrings stats = true)
    (ctype parameter : String) (value : Int) (filter : Option (String × Json)) :
    ∀ (components : ComponentTable) (totals : RawResearchUpgradeChangeValues)
      (tempStats : PlayerUpgradeCounts),
      ∃ r, upgradeComponents mode stats ctype parameter value filter components totals tempStats
        = some r := by
  intro components
  induction components with
  | nil => intro totals tempStats; exact ⟨_, rfl⟩
  | cons e rest ih =>
    obtain ⟨cname, upgrades⟩ := e
    intro totals tempStats
    obtain ⟨⟨u1, tot1, t1⟩, h1⟩ := upgradeComponent_total mode hstats ctype parameter value
      filter cname upgrades totals tempStats
    obtain ⟨⟨r2, tot2, t2⟩, h2⟩ := ih tot1 t1
    unfold upgradeComponents
    rw [h1]
    simp only
    rw [h2]
    exact ⟨_, rfl⟩

theorem upgradeResult_total (mode : ResearchUpgradeCalculationMode)
    {stats : List (String × ComponentTable)} (hstats : classesAreStrings stats = true)
    (v : JsonObject) (s : UpgradeLoop) : ∃ s1, upgradeResult mode stats v s = some s1 := by
  unfold upgradeResult
  cases requiredProperty v "class" Json.is_string with
  | none => exact ⟨_, rfl⟩
  | some it_ctype =>
    cases requiredProperty v "parameter" Json.is_string with
    | none => exact ⟨_, rfl⟩
    | some it_parameter =>
      cases requiredProperty v "value" Json.is_number_integer with
      | none => exact ⟨_, rfl⟩
      | some it_value =>
        cases resultFilter v with
        | none => exact ⟨_, rfl⟩
        | some filter =>
          dsimp only
          cases hE : jfind it_ctype.get_string s.entityClasses with
          | none => exact ⟨_, rfl⟩
          | some pPlayerEntityClass =>
            obtain ⟨⟨c, t, ts⟩, hr⟩ := upgradeComponents_total mode hstats
              it_ctype.get_string it_parameter.get_string it_value.get_int64 filter
              pPlayerEntityClass s.totals s.tempStats
            simp only [hr]
            exact ⟨_, rfl⟩

theorem upgradeResults_total (mode : ResearchUpgradeCalculationMode)
    {stats : List (String × ComponentTable)} (hstats : classesAreStrings stats = true) :
    ∀ (results : List JsonObject) (s : UpgradeLoop),
      ∃ s1, upgradeResults mode stats results s = some s1 := by
  intro results
  induction results with
  | nil => intro s; exact ⟨_, rfl⟩
  | cons v rest ih =>
    intro s
    obtain ⟨sA, hA⟩ := upgradeResult_total mode hstats v s
    obtain ⟨sB, hB⟩ := ih sA
    unfold upgradeResults
    rw [hA]
    exact ⟨sB, hB⟩

/-- C34: one call of `eventResearchedHandleUpgrades` for a player has a result, and it moves each
of the player's counters (per impact class for weapons, per body class for "Armour" and,
separately, for "Thermal" of bodies) by one, modulo 2^32, when at least one scalar integer update
of the call counts for it, and leaves it as it is otherwise, however many updates count for it;
updates of array-valued parameters and components that are skipped count for nothing, and the
counters of the other players stay as they are.  The player has overlays, a ledger and counters,
the "ImpactClass" and "BodyClass" members of the base stats are strings, and the call is taken
to apply fewer than 2^32 counted updates. -/
theorem C34_upgrade_counters (psResearch : RESEARCH) (player : Nat) (u : UpgradeState)
    (entityClasses : List (String × ComponentTable)) (totals : RawResearchUpgradeChangeValues)
    (counts : PlayerUpgradeCounts)
    (hE : u.cachedPerPlayerUpgrades[player]? = some entityClasses)
    (htot : u.cachedPerPlayerRawUpgradeChange[player]? = some totals)
    (hcounts : u.playerUpgradeCounts[player]? = some counts)
    (hstats : classesAreStrings u.cachedStatsObject = true)
    (hN : (countedUpdates u.cachedStatsObject entityClasses psResearch.results).length
      < 2 ^ 32) :
    ∃ u1 counts1, eventResearchedHandleUpgrades psResearch player u = some u1 ∧
      u1.playerUpgradeCounts[player]? = some counts1 ∧
      (∀ kind c,
        (kind, c) ∈ countedUpdates u.cachedStatsObject entityClasses psResearch.results →
        counterValue (countsOf kind counts1) c
          = (counterValue (countsOf kind counts) c + 1) % 2 ^ 32) ∧
      (∀ kind c,
        (kind, c) ∉ countedUpdates u.cachedStatsObject entityClasses psResearch.results →
        counterValue (countsOf kind counts1) c = counterValue (countsOf kind counts) c) ∧
      ∀ q, q ≠ player → u1.playerUpgradeCounts[q]? = u.playerUpgradeCounts[q]? := by
  obtain ⟨s, hres⟩ := upgradeResults_total (getResearchUpgradeCalcMode u) hstats
    psResearch.results { entityClasses := entityClasses, totals := totals }
  have htemp := upgradeResults_counted (getResearchUpgradeCalcMode u) u.cachedStatsObject
    entityClasses psResearch.results _ s rfl hres
  obtain ⟨hnd, hval⟩ := foldl_bump_spec
    (countedUpdates u.cachedStatsObject entityClasses psResearch.results) {}
    (fun kind => by cases kind <;> exact List.nodup_nil)
    (fun kind c => by cases kind <;> exact Nat.two_pow_pos 32)
  rw [← htemp] at hnd hval
  have hzero : ∀ kind c, counterValue (countsOf kind ({} : PlayerUpgradeCounts)) c = 0 := by
    intro kind c
    cases kind <;> rfl
  have hpos : ∀ kind c, 0 < counterValue (countsOf kind s.tempStats) c ↔
      (kind, c) ∈ countedUpdates u.cachedStatsObject entityClasses psResearch.results := by
    intro kind c
    rw [hval kind c, hzero, Nat.zero_add, ← List.count_pos_iff]
    have hle := List.count_le_length (kind, c)
      (countedUpdates u.cachedStatsObject entityClasses psResearch.results)
    rw [Nat.mod_eq_of_lt (lt_of_le_of_lt hle hN)]
  have hlt : player < u.playerUpgradeCounts.length := getElem?_lt hcounts
  obtain ⟨countsNew, hnew⟩ : ∃ cn : PlayerUpgradeCounts, cn =
      { numBodyClassArmourUpgrades :=
          accumulateStats s.tempStats.numBodyClassArmourUpgrades
            counts.numBodyClassArmourUpgrades
        numBodyClassThermalUpgrades :=
          accumulateStats s.tempStats.numBodyClassThermalUpgrades
            counts.numBodyClassThermalUpgrades
        numWeaponImpactClassUpgrades :=
          accumulateStats s.tempStats.numWeaponImpactClassUpgrades
            counts.numWeaponImpactClassUpgrades } := ⟨_, rfl⟩
  have hacc : ∀ kind c, counterValue (countsOf kind countsNew) c
      = if 0 < counterValue (countsOf kind s.tempStats) c
        then (counterValue (countsOf kind counts) c + 1) % 2 ^ 32
        else counterValue (countsOf kind counts) c := by
    intro kind c
    rw [hnew]
    cases kind
    · exact accumulateStats_spec _ _ (hnd CounterKind.weapon) c
    · exact accumulateStats_spec _ _ (hnd CounterKind.armour) c
    · exact accumulateStats_spec _ _ (hnd CounterKind.thermal) c
  have hcall : ∃ u1, eventResearchedHandleUpgrades psResearch player u = some u1 ∧
      u1.playerUpgradeCounts = u.playerUpgradeCounts.set player countsNew := by
    unfold eventResearchedHandleUpgrades
    rw [hE, hnew]
    simp only [htot, hres, hcounts]
    exact ⟨_, rfl, rfl⟩
  obtain ⟨u1, hu1, hcounts1⟩ := hcall
  refine ⟨u1, countsNew, hu1, ?_, ?_, ?_, ?_⟩
  · rw [hcounts1]
    exact List.getElem?_set_self hlt
  · intro kind c hmem
    rw [hacc kind c, if_pos ((hpos kind c).2 hmem)]
  · intro kind c hmem
    rw [hacc kind c, if_neg (fun hp => hmem ((hpos kind c).1 hp))]
  · intro q hq
    rw [hcounts1]
    exact List.getElem?_set_ne (Ne.symm hq)

set_option maxRecDepth 100000 in
/-- C34 at a topic with four records that apply four updates to weapons of impact class
"KINETIC", one to a weapon of impact class "HEAT", one array update and one "Armour" update to a
body of class "Tanks": the counter of "KINETIC" goes from 3 to 4, those of "HEAT" and of the
armour of "Tanks" from 0 to 1, the thermal counter of "Tanks" stays 0 and the counters of the
other player stay as they are. -/
theorem C34_upgrade_counters_witness :
    eventResearchedHandleUpgrades weaponTopic 0
        (weaponUpgrades 10 20 12 10 [JsonAtom.int 1, JsonAtom.int 2]
          { numWeaponImpactClassUpgrades := [("KINETIC", 3)] })
      = some (weaponUpgrades 14 27 14 11 [JsonAtom.int 2, JsonAtom.int 3]
          { numBodyClassArmourUpgrades := [("Tanks", 1)]
            numWeaponImpactClassUpgrades := [("KINETIC", 4), ("HEAT", 1)] }) ∧
    countedUpdates
        (weaponUpgrades 10 20 12 10 [JsonAtom.int 1, JsonAtom.int 2]
          { numWeaponImpactClassUpgrades := [("KINETIC", 3)] }).cachedStatsObject
        ((weaponUpgrades 10 20 12 10 [JsonAtom.int 1, JsonAtom.int 2]
          { numWeaponImpactClassUpgrades := [("KINETIC", 3)] }).cachedPerPlayerUpgrades.getD 0 [])
        weaponTopic.results
      = [(CounterKind.weapon, "KINETIC"), (CounterKind.weapon, "KINETIC"),
         (CounterKind.weapon, "KINETIC"), (CounterKind.weapon, "KINETIC"),
         (CounterKind.weapon, "HEAT"), (CounterKind.armour, "Tanks")] ∧
    ∃ u1 counts1,
      eventResearchedHandleUpgrades weaponTopic 0
          (weaponUpgrades 10 20 12 10 [JsonAtom.int 1, JsonAtom.int 2]
            { numWeaponImpactClassUpgrades := [("KINETIC", 3)] }) = some u1 ∧
      u1.playerUpgradeCounts[0]? = some counts1 ∧
      counterValue (countsOf CounterKind.weapon counts1) "KINETIC" = (3 + 1) % 2 ^ 32 ∧
      counterValue (countsOf CounterKind.thermal counts1) "Tanks" = 0 ∧
      u1.playerUpgradeCounts[1]? = some { numWeaponImpactClassUpgrades := [("KINETIC", 7)] } :=
  have hlist : countedUpdates
      (weaponUpgrades 10 20 12 10 [JsonAtom.int 1, JsonAtom.int 2]
        { numWeaponImpactClassUpgrades := [("KINETIC", 3)] }).cachedStatsObject
      ((weaponUpgrades 10 20 12 10 [JsonAtom.int 1, JsonAtom.int 2]
        { numWeaponImpactClassUpgrades := [("KINETIC", 3)] }).cachedPerPlayerUpgrades.getD 0 [])
      weaponTopic.results
    = [(CounterKind.weapon, "KINETIC"), (CounterKind.weapon, "KINETIC"),
       (CounterKind.weapon, "KINETIC"), (CounterKind.weapon, "KINETIC"),
       (CounterKind.weapon, "HEAT"), (CounterKind.armour, "Tanks")] := by decide
  have h := C34_upgrade_counters weaponTopic 0
    (weaponUpgrades 10 20 12 10 [JsonAtom.int 1, JsonAtom.int 2]
      { numWeaponImpactClassUpgrades := [("KINETIC", 3)] })
    ((weaponUpgrades 10 20 12 10 [JsonAtom.int 1, JsonAtom.int 2]
      { numWeaponImpactClassUpgrades := [("KINETIC", 3)] }).cachedPerPlayerUpgrades.getD 0 [])
    [] { numWeaponImpactClassUpgrades := [("KINETIC", 3)] } rfl rfl rfl (by decide)
    (by rw [hlist]; decide)
  ⟨by decide, hlist, by
    obtain ⟨u1, counts1, h0, h1, h2, h3, h4⟩ := h
    refine ⟨u1, counts1, h0, h1, ?_, ?_, ?_⟩
    · exact h2 CounterKind.weapon "KINETIC" (by rw [hlist]; decide)
    · exact h3 CounterKind.thermal "Tanks" (by rw [hlist]; decide)
    · rw [h4 1 (by decide)]
      rfl⟩

/-! ## Successive upgrades through the upgrade state -/

end Research
